import Mathlib

/-!
Verification development for the Bilistrix nested-list editor.

The definitions below are a shallow embedding of the tree-mutation and
history engine of the repository:

* `src/nested-list-project/src/utils/nodeHelpers.ts` (pure node helpers:
  `getNodeDepth`, `getAllChildren`, `getPath`, `canMoveNode`,
  `getMaxDepthInSubtree`, `cloneSubtree`, `createNode`),
* `src/nested-list-project/src/store/useStore.ts` (the zustand store:
  node CRUD, selection/focus, templates, snapshots, history, import),
* `src/nested-list-project/src/constants/config.ts` (`APP_CONFIG`).

Modelling conventions:

* Node ids are opaque strings generated by `generateId()` (timestamp plus
  random suffix); the embedding models them as natural numbers drawn from
  a counter threaded through the state (`nextId`), so that freshness of
  generated ids is explicit.  `Date.now()` is passed to the operations as
  an explicit `now : Nat` argument.
* JavaScript `Record<string, T>` objects are modelled as insertion-ordered
  association lists `List (Nat × T)`: assignment to a present key updates
  the entry in place, assignment to a fresh key appends, `delete` removes
  the entry.
* JavaScript loops and recursions whose termination is not structural
  (parent-chain walks, breadth-first traversals, subtree recursions) are
  modelled with an explicit fuel argument large enough that, on every
  well-formed tree, the fuelled function computes exactly what the
  JavaScript code computes.  On a map with a parent or child cycle the
  JavaScript code diverges; the fuelled model simply stops.
* A JavaScript exception escaping a store action (immer aborts the draft,
  so the committed state is unchanged) is modelled by `Except Unit`.
* The extension bag `sandboxProps : Record<string, any>` is modelled with
  string values; the store never inspects it.
-/

namespace Bilistrix

/-- APP_CONFIG.MAX_DEPTH from `constants/config.ts` (6 levels, 0-5). -/
def MAX_DEPTH : Nat := 6

/-- APP_CONFIG.MAX_HISTORY_ITEMS from `constants/config.ts`. -/
def MAX_HISTORY_ITEMS : Nat := 100

/-- APP_CONFIG.MAX_SNAPSHOTS from `constants/config.ts`. -/
def MAX_SNAPSHOTS : Nat := 50

/-- The `ListNode` interface from `types/core.ts`. -/
structure ListNode where
  id : Nat
  parentId : Option Nat
  childrenIds : List Nat
  title : String
  description : Option String
  level : Nat
  colorSlot : Option Int
  icon : Option String
  isCollapsed : Bool
  isDone : Option Bool
  isPinned : Option Bool
  isHighlighted : Option Bool
  sandboxProps : Option (List (String × String))
  createdAt : Nat
  updatedAt : Nat
  deriving Repr, DecidableEq

/-- A `Partial ListNode` argument (the `data` of `createNode` and the
`updates` of `updateNode`): every field optionally provided.  Fields that
are themselves optional in `ListNode` are doubly optional (providing the
value `none` corresponds to explicitly passing `undefined`). -/
structure NodePatch where
  id : Option Nat := none
  parentId : Option (Option Nat) := none
  childrenIds : Option (List Nat) := none
  title : Option String := none
  description : Option (Option String) := none
  level : Option Nat := none
  colorSlot : Option (Option Int) := none
  icon : Option (Option String) := none
  isCollapsed : Option Bool := none
  isDone : Option (Option Bool) := none
  isPinned : Option (Option Bool) := none
  isHighlighted : Option (Option Bool) := none
  sandboxProps : Option (Option (List (String × String))) := none
  createdAt : Option Nat := none
  updatedAt : Option Nat := none
  deriving Repr, DecidableEq

/-- The node map `Record<ListNodeId, ListNode>`, insertion ordered. -/
abbrev NodeMap := List (Nat × ListNode)

/-- Reading `nodes[id]` on a JavaScript record. -/
def lookupNode (nodes : NodeMap) (id : Nat) : Option ListNode :=
  match nodes.find? (fun e => e.1 == id) with
  | some e => some e.2
  | none => none

/-- Writing `nodes[id] = v`: updates a present key in place, appends a
fresh key. -/
def setKey (nodes : NodeMap) (id : Nat) (v : ListNode) : NodeMap :=
  if (nodes.find? (fun e => e.1 == id)).isSome then
    nodes.map (fun e => if e.1 == id then (e.1, v) else e)
  else
    nodes ++ [(id, v)]

/-- Mutating `nodes[id]` in place through a function (no-op when the key
is absent), as an immer draft mutation does. -/
def updateKey (nodes : NodeMap) (id : Nat) (f : ListNode → ListNode) : NodeMap :=
  nodes.map (fun e => if e.1 == id then (e.1, f e.2) else e)

/-- Deleting `delete nodes[id]`. -/
def eraseKey (nodes : NodeMap) (id : Nat) : NodeMap :=
  nodes.filter (fun e => !(e.1 == id))

/-- Object.assign of a batch of entries onto a record. -/
def objAssign (nodes : NodeMap) (extra : NodeMap) : NodeMap :=
  extra.foldl (fun acc e => setKey acc e.1 e.2) nodes

/-! The pure helpers of `utils/nodeHelpers.ts`. -/

/-- The while-loop of `getNodeDepth`: follow `parentId` while the current
id is present, counting hops. -/
def parentWalk (nodes : NodeMap) : Nat → Option Nat → Nat → Nat
  | 0, _, depth => depth
  | _ + 1, none, depth => depth
  | fuel + 1, some id, depth =>
    match lookupNode nodes id with
    | none => depth
    | some n => parentWalk nodes fuel n.parentId (depth + 1)

/-- `getNodeDepth` from `nodeHelpers.ts`: number of hops to the root,
minus one for the node itself; `-1` for a missing id. -/
def getNodeDepth (nodeId : Nat) (nodes : NodeMap) : Int :=
  (parentWalk nodes (nodes.length + 1) (some nodeId) 0 : Int) - 1

/-- The while-loop of `getPath`: walk the parent chain, prepending each
found node (`path.unshift(node)`). -/
def pathWalk (nodes : NodeMap) : Nat → Option Nat → List ListNode → List ListNode
  | 0, _, path => path
  | _ + 1, none, path => path
  | fuel + 1, some id, path =>
    match lookupNode nodes id with
    | none => path
    | some n => pathWalk nodes fuel n.parentId (n :: path)

/-- `getPath` from `nodeHelpers.ts`: the chain from the absolute root down
to the given node, inclusive; empty for a missing id. -/
def getPath (nodeId : Nat) (nodes : NodeMap) : List ListNode :=
  pathWalk nodes (nodes.length + 1) (some nodeId) []

/-- The breadth-first while-loop of `getAllChildren`: pop the queue head,
collect the node when present and enqueue its children. -/
def bfsCollect (nodes : NodeMap) : Nat → List Nat → List ListNode → List ListNode
  | 0, _, acc => acc
  | _ + 1, [], acc => acc
  | fuel + 1, id :: queue, acc =>
    match lookupNode nodes id with
    | none => bfsCollect nodes fuel queue acc
    | some n => bfsCollect nodes fuel (queue ++ n.childrenIds) (acc ++ [n])

/-- Fuel that dominates the number of loop iterations of the BFS on any
well-formed tree: every id ever enqueued is either an initial queue entry
or a child of some node of the map. -/
def bfsFuel (nodes : NodeMap) : Nat :=
  nodes.length + (nodes.map (fun e => e.2.childrenIds.length)).sum + 1

/-- `getAllChildren` from `nodeHelpers.ts`: all descendants of a node in
breadth-first order (the node itself excluded); empty for a missing id. -/
def getAllChildren (nodeId : Nat) (nodes : NodeMap) : List ListNode :=
  match lookupNode nodes nodeId with
  | none => []
  | some n => bfsCollect nodes (bfsFuel nodes + n.childrenIds.length) n.childrenIds []

/-- The recursion of `getMaxDepthInSubtree`: 0 for a missing node or a
leaf, otherwise 1 plus the maximum over the children. -/
def subtreeDepthFuel (nodes : NodeMap) : Nat → Nat → Nat
  | 0, _ => 0
  | fuel + 1, nodeId =>
    match lookupNode nodes nodeId with
    | none => 0
    | some n =>
      if n.childrenIds.isEmpty then 0
      else 1 + (n.childrenIds.map (subtreeDepthFuel nodes fuel)).foldl max 0

/-- `getMaxDepthInSubtree` from `nodeHelpers.ts`: the height of the
subtree rooted at the given id. -/
def getMaxDepthInSubtree (nodeId : Nat) (nodes : NodeMap) : Nat :=
  subtreeDepthFuel nodes (nodes.length + 1) nodeId

/-- `canMoveNode` from `nodeHelpers.ts`: the move-legality check (self
move, cycle via the ancestor path of the new parent, existence of the
moved node, and the depth constraint, in that order). -/
def canMoveNode (nodeId : Nat) (newParentId : Option Nat) (nodes : NodeMap)
    (maxDepth : Int) : Bool :=
  if newParentId == some nodeId then false
  else if (match newParentId with
           | some p => (getPath p nodes).any (fun n => n.id == nodeId)
           | none => false) then false
  else
    match lookupNode nodes nodeId with
    | none => false
    | some _ =>
      let nodeMaxDepth : Int := getMaxDepthInSubtree nodeId nodes
      let newParentDepth : Int :=
        match newParentId with
        | some p => getNodeDepth p nodes
        | none => -1
      decide (newParentDepth + nodeMaxDepth + 1 < maxDepth)

/-- Specification-side depth of a move-target parent: the parent node's
own `level` when the id is present, `-1` for a null (or absent) parent,
matching the spec's "taking depth of a null newParentId as -1". -/
def newParentLevel (nodes : NodeMap) : Option Nat → Int
  | none => -1
  | some p =>
    match lookupNode nodes p with
    | none => -1
    | some np => (np.level : Int)

/-- The `createNode` helper of `nodeHelpers.ts` as invoked by the store:
defaults overridden by the provided partial data, with `level` and
`parentId` forced by the store (`createNode({ ...data, level, parentId })`),
and the id freshly generated unless the data supplies one. -/
def mkListNode (counter now : Nat) (data : NodePatch) (level : Nat)
    (parentId : Option Nat) : ListNode where
  id := data.id.getD counter
  parentId := parentId
  childrenIds := data.childrenIds.getD []
  title := data.title.getD ""
  description := data.description.getD none
  level := level
  colorSlot := data.colorSlot.getD none
  icon := data.icon.getD none
  isCollapsed := data.isCollapsed.getD false
  isDone := data.isDone.getD none
  isPinned := data.isPinned.getD none
  isHighlighted := data.isHighlighted.getD none
  sandboxProps := data.sandboxProps.getD none
  createdAt := data.createdAt.getD now
  updatedAt := data.updatedAt.getD now

/-- Applying `Object.assign(node, { ...updates, updatedAt: Date.now() })`
of `updateNode`. -/
def applyPatch (n : ListNode) (u : NodePatch) (now : Nat) : ListNode where
  id := u.id.getD n.id
  parentId := u.parentId.getD n.parentId
  childrenIds := u.childrenIds.getD n.childrenIds
  title := u.title.getD n.title
  description := u.description.getD n.description
  level := u.level.getD n.level
  colorSlot := u.colorSlot.getD n.colorSlot
  icon := u.icon.getD n.icon
  isCollapsed := u.isCollapsed.getD n.isCollapsed
  isDone := u.isDone.getD n.isDone
  isPinned := u.isPinned.getD n.isPinned
  isHighlighted := u.isHighlighted.getD n.isHighlighted
  sandboxProps := u.sandboxProps.getD n.sandboxProps
  createdAt := u.createdAt.getD n.createdAt
  updatedAt := now

/- The recursion `cloneRecursive` of `cloneSubtree`: clone a node with a
freshly generated id under the given new parent, then clone its children
left to right (the source maps `cloneRecursive` over `orig.childrenIds`;
all clones are stamped with one shared `now`).  The clone's entry is
recorded before its children's entries (pre-order).  A missing id makes
the JavaScript code fail (`orig.childrenIds` of `undefined`); fuel
exhaustion corresponds to divergence on a cyclic map.  Both are modelled
as `Except.error`. -/

/-- The walk of `cloneRecursive` over a list of sibling subtrees, left
to right, threading the id counter and accumulating the produced entries
in order; the recursive cloning of one subtree is the supplied `rec`. -/
def cloneChildrenAux
    (rec : Nat → Option Nat → Nat → Except Unit (ListNode × NodeMap × Nat)) :
    List Nat → Nat → Nat → Except Unit (List Nat × NodeMap × Nat)
  | [], _, counter => .ok ([], [], counter)
  | c :: cs, parentNewId, counter =>
    match rec c (some parentNewId) counter with
    | .error e => .error e
    | .ok (childNode, entries, counter2) =>
      match cloneChildrenAux rec cs parentNewId counter2 with
      | .error e => .error e
      | .ok (ids, entries2, counter3) =>
        .ok (childNode.id :: ids, entries ++ entries2, counter3)

/-- Clone one node and, recursively, its subtree (see the comment above). -/
def cloneRec (nodes : NodeMap) (now : Nat) :
    Nat → Nat → Option Nat → Nat → Except Unit (ListNode × NodeMap × Nat)
  | 0, _, _, _ => .error ()
  | fuel + 1, origId, newParentId, counter =>
    match lookupNode nodes origId with
    | none => .error ()
    | some orig =>
      let newId := counter
      match cloneChildrenAux (fun o q c => cloneRec nodes now fuel o q c)
          orig.childrenIds newId (counter + 1) with
      | .error e => .error e
      | .ok (childIds, childEntries, counter2) =>
        let newNode : ListNode :=
          { orig with
            id := newId
            parentId := newParentId
            childrenIds := childIds
            createdAt := now
            updatedAt := now }
        .ok (newNode, (newId, newNode) :: childEntries, counter2)

/-- The sibling walk at a given fuel (notation for the statements about
the recursion). -/
def cloneChildren (nodes : NodeMap) (now fuel : Nat) :
    List Nat → Nat → Nat → Except Unit (List Nat × NodeMap × Nat) :=
  cloneChildrenAux (fun o q c => cloneRec nodes now fuel o q c)

/-- `cloneSubtree` from `nodeHelpers.ts`: deep-copy a subtree with fresh
ids, relinking parent/children internally; the returned root's parent is
the caller-supplied target.  Throws when the id is absent. -/
def cloneSubtree (nodeId : Nat) (nodes : NodeMap) (parentId : Option Nat)
    (now counter : Nat) : Except Unit (ListNode × NodeMap × Nat) :=
  match lookupNode nodes nodeId with
  | none => .error ()
  | some _ => cloneRec nodes now (nodes.length + 1) nodeId parentId counter

/-! The import boundary (`parseImportData` and the sanitizers of
`useStore.ts`).  Import handles documents produced by `JSON.parse`, whose
ids are arbitrary strings, so this part of the embedding works with
string ids and a JSON value type.  JavaScript numbers are modelled as
integers (`Math.trunc` is then the identity and `Number.isFinite` always
holds); `generateId()` is modelled as an injective function of the
threaded counter.  Spreading a non-object contributes no named
properties (string index spreading is abstracted away), and named
property access on an array yields `undefined`. -/

/-- A parsed JSON document. -/
inductive JValue where
  | jnull
  | jbool (b : Bool)
  | jnum (n : Int)
  | jstr (s : String)
  | jarr (items : List JValue)
  | jobj (fields : List (String × JValue))
  deriving Repr

/-- Reading a named property of an object: the last binding wins, as in
JavaScript object literals and `JSON.parse`. -/
def jGet (fields : List (String × JValue)) (k : String) : Option JValue :=
  ((fields.filter (fun f => f.1 == k)).getLast?).map (fun f => f.2)

/-- Property access `v[k]` for a named key: `undefined` on anything but
an object. -/
def jProp (v : JValue) (k : String) : Option JValue :=
  match v with
  | .jobj fields => jGet fields k
  | _ => none

/-- `typeof v === 'object' && v` (arrays are objects, null is falsy). -/
def jIsObjLike : JValue → Bool
  | .jobj _ => true
  | .jarr _ => true
  | _ => false

/-- `Object.entries`: named fields of an object, index/value pairs of an
array. -/
def jEntriesOf : JValue → Option (List (String × JValue))
  | .jobj fields => some fields
  | .jarr items => some (items.enum.map (fun p => (toString p.1, p.2)))
  | _ => none

/-- String extraction (`typeof x === 'string'`). -/
def jStr? : Option JValue → Option String
  | some (.jstr s) => some s
  | _ => none

/-- Number extraction (`typeof x === 'number'`). -/
def jNum? : Option JValue → Option Int
  | some (.jnum n) => some n
  | _ => none

/-- Boolean extraction (`typeof x === 'boolean'`). -/
def jBool? : Option JValue → Option Bool
  | some (.jbool b) => some b
  | _ => none

/-- `generateId()` in the import pipeline. -/
def genId (counter : Nat) : String :=
  "gen-" ++ toString counter

/-- `clampLevel`: truncate and clamp into `[0, MAX_DEPTH - 1]`. -/
def clampLevel (level : Int) : Nat :=
  (min ((MAX_DEPTH : Int) - 1) (max 0 level)).toNat

/-- `sanitizeStringArray`: keep only the strings of an array, `[]` for
anything else. -/
def sanitizeStringArray (v : Option JValue) : List String :=
  match v with
  | some (.jarr items) =>
    items.filterMap (fun x => match x with | .jstr s => some s | _ => none)
  | _ => []

/-- A reconstructed node (`sanitizeNode` output). -/
structure ImportNode where
  id : String
  parentId : Option String
  childrenIds : List String
  title : String
  description : Option String
  level : Nat
  colorSlot : Option Int
  icon : Option String
  isCollapsed : Bool
  isDone : Option Bool
  isPinned : Option Bool
  isHighlighted : Option Bool
  sandboxProps : Option JValue
  createdAt : Int
  updatedAt : Int
  deriving Repr

/-- Generic record lookup for string-keyed registries. -/
def lookupBy {α : Type} (l : List (String × α)) (k : String) : Option α :=
  match l.find? (fun e => e.1 == k) with
  | some e => some e.2
  | none => none

/-- Generic record assignment for string-keyed registries. -/
def setBy {α : Type} (l : List (String × α)) (k : String) (v : α) :
    List (String × α) :=
  if (l.find? (fun e => e.1 == k)).isSome then
    l.map (fun e => if e.1 == k then (e.1, v) else e)
  else
    l ++ [(k, v)]

/-- `sanitizeNode`: rebuild a node field by field with type checks;
throws for a non-object.  Consumes a generated id only when the raw id
is not a string. -/
def sanitizeNode (raw : JValue) (now : Int) (counter : Nat) :
    Except Unit (ImportNode × Nat) :=
  if !(jIsObjLike raw) then .error ()
  else
    let idc : String × Nat :=
      match jStr? (jProp raw "id") with
      | some s => (s, counter)
      | none => (genId counter, counter + 1)
    let createdAt := (jNum? (jProp raw "createdAt")).getD now
    let node : ImportNode :=
      { id := idc.1
        parentId := jStr? (jProp raw "parentId")
        childrenIds := sanitizeStringArray (jProp raw "childrenIds")
        title := (jStr? (jProp raw "title")).getD ""
        description := jStr? (jProp raw "description")
        level := clampLevel ((jNum? (jProp raw "level")).getD 0)
        colorSlot := jNum? (jProp raw "colorSlot")
        icon := jStr? (jProp raw "icon")
        isCollapsed := (jBool? (jProp raw "isCollapsed")).getD false
        isDone := jBool? (jProp raw "isDone")
        isPinned := jBool? (jProp raw "isPinned")
        isHighlighted := jBool? (jProp raw "isHighlighted")
        sandboxProps :=
          match jProp raw "sandboxProps" with
          | some v => if jIsObjLike v then some v else none
          | none => none
        createdAt := createdAt
        updatedAt := (jNum? (jProp raw "updatedAt")).getD createdAt }
    .ok (node, idc.2)

/-- The literal `{ id: key, ...nodeValue }` built by `sanitizeNodesMap`:
the key as id, overridden by the value's own named fields. -/
def mergedRaw (key : String) (nodeValue : JValue) : JValue :=
  .jobj (("id", .jstr key) ::
    (match nodeValue with
     | .jobj fields => fields
     | _ => []))

/-- `sanitizeNodesMap`: empty for `undefined`/`null`, a thrown error for
a primitive, otherwise every entry rebuilt and stored under the rebuilt
node's own id. -/
def sanitizeNodesMap (v : Option JValue) (now : Int) (counter : Nat) :
    Except Unit (List (String × ImportNode) × Nat) :=
  match v with
  | none => .ok ([], counter)
  | some .jnull => .ok ([], counter)
  | some val =>
    match jEntriesOf val with
    | none => .error ()
    | some entries =>
      entries.foldlM (fun acc e =>
        match sanitizeNode (mergedRaw e.1 e.2) now acc.2 with
        | .error err => .error err
        | .ok (node, c2) => .ok (setBy acc.1 node.id node, c2))
        (([] : List (String × ImportNode)), counter)

/-- Opaque stand-in for the `DEFAULT_DARK_THEME` constant of
`constants/themes.ts`; never inspected by the modelled code. -/
def DEFAULT_DARK_THEME : JValue := .jstr "dark-default"

/-- Opaque stand-in for the `DEFAULT_SHORTCUTS` constant of
`constants/shortcuts.ts`. -/
def DEFAULT_SHORTCUTS : JValue := .jstr "default-shortcuts"

/-- `sanitizeTheme`: keep a structurally plausible theme value, fall
back to the default theme otherwise. -/
def sanitizeTheme (v : Option JValue) : JValue :=
  match v with
  | some val =>
    if jIsObjLike val
        && (jStr? (jProp val "id")).isSome
        && (jStr? (jProp val "name")).isSome
        && (match jProp val "colors" with
            | some colors =>
              jIsObjLike colors
                && (jStr? (jProp colors "primary")).isSome
                && (jStr? (jProp colors "background")).isSome
                && (jStr? (jProp colors "text")).isSome
                && (jStr? (jProp colors "border")).isSome
                && (match jProp colors "levelColors" with
                    | some (.jarr _) => true
                    | _ => false)
            | none => false) then
      val
    else DEFAULT_DARK_THEME
  | none => DEFAULT_DARK_THEME

/-- `sanitizeShortcuts`: keep a structurally plausible shortcuts profile,
fall back to the default otherwise. -/
def sanitizeShortcuts (v : Option JValue) : JValue :=
  match v with
  | some val =>
    if jIsObjLike val
        && (jStr? (jProp val "id")).isSome
        && (jStr? (jProp val "name")).isSome
        && (match jProp val "shortcuts" with
            | some sc => jIsObjLike sc
            | none => false) then
      val
    else DEFAULT_SHORTCUTS
  | none => DEFAULT_SHORTCUTS

/-- A reconstructed session (`sanitizeSession` output). -/
structure ImportSession where
  id : String
  name : String
  description : Option String
  viewMode : String
  rtl : Bool
  rules : List JValue
  focusedNodeId : Option String
  selectedNodeIds : List String
  focusPath : Option (List String)
  theme : JValue
  shortcutsProfile : JValue
  historyEnabled : Bool
  createdAt : Int
  updatedAt : Int
  deriving Repr

/-- `sanitizeSession`: start from a fresh base session (consuming one
generated id), then override field by field with type checks.  The
selection is filtered against the reconstructed node map; the focus path
is only type-filtered. -/
def sanitizeSession (v : Option JValue) (nodes : List (String × ImportNode))
    (now : Int) (counter : Nat) : ImportSession × Nat :=
  let base : ImportSession :=
    { id := genId counter
      name := "Main Session"
      description := some "Default working session"
      viewMode := "outline"
      rtl := true
      rules := []
      focusedNodeId := none
      selectedNodeIds := []
      focusPath := none
      theme := DEFAULT_DARK_THEME
      shortcutsProfile := DEFAULT_SHORTCUTS
      historyEnabled := true
      createdAt := now
      updatedAt := now }
  match v with
  | some val =>
    if jIsObjLike val then
      let selectedNodeIds :=
        (sanitizeStringArray (jProp val "selectedNodeIds")).filter
          (fun id => (lookupBy nodes id).isSome)
      ({ base with
          id := (jStr? (jProp val "id")).getD base.id
          name := (jStr? (jProp val "name")).getD base.name
          description :=
            some ((jStr? (jProp val "description")).getD "Default working session")
          viewMode := (jStr? (jProp val "viewMode")).getD base.viewMode
          rtl := (jBool? (jProp val "rtl")).getD base.rtl
          rules :=
            (match jProp val "rules" with
             | some (.jarr items) => items
             | _ => [])
          focusedNodeId := jStr? (jProp val "focusedNodeId")
          selectedNodeIds := selectedNodeIds
          focusPath := some (sanitizeStringArray (jProp val "focusPath"))
          theme := sanitizeTheme (jProp val "theme")
          shortcutsProfile := sanitizeShortcuts (jProp val "shortcutsProfile")
          historyEnabled := (jBool? (jProp val "historyEnabled")).getD true
          createdAt := (jNum? (jProp val "createdAt")).getD base.createdAt
          updatedAt := (jNum? (jProp val "updatedAt")).getD base.updatedAt },
        counter + 1)
    else (base, counter + 1)
  | none => (base, counter + 1)

/-- A reconstructed template (`sanitizeTemplates` output entry). -/
structure ImportTemplate where
  id : String
  name : String
  description : Option String
  rootNodeId : String
  tags : List String
  createdAt : Int
  deriving Repr, DecidableEq

/-- `sanitizeTemplates`: rebuild each entry, dropping entries that are
not objects or lack a string `rootNodeId`. -/
def sanitizeTemplates (v : Option JValue) (now : Int) :
    List (String × ImportTemplate) :=
  match v with
  | some val =>
    if jIsObjLike val then
      match jEntriesOf val with
      | none => []
      | some entries =>
        entries.foldl (fun acc e =>
          if !(jIsObjLike e.2) then acc
          else
            let id := (jStr? (jProp e.2 "id")).getD e.1
            match jStr? (jProp e.2 "rootNodeId") with
            | none => acc
            | some root =>
              setBy acc id
                { id := id
                  name := (jStr? (jProp e.2 "name")).getD "Template"
                  description := jStr? (jProp e.2 "description")
                  rootNodeId := root
                  tags := sanitizeStringArray (jProp e.2 "tags")
                  createdAt := (jNum? (jProp e.2 "createdAt")).getD now })
          []
    else []
  | none => []

/-- A reconstructed snapshot (`sanitizeSnapshots` output entry). -/
structure ImportSnapshot where
  id : String
  name : String
  description : Option String
  sessionId : String
  nodes : List (String × ImportNode)
  rootNodeIds : List String
  createdAt : Int
  deriving Repr

/-- One `forEach` iteration of `sanitizeSnapshots`: skip entries that are
not objects or lack a string `sessionId`; rebuild the snapshot's own node
map (which can throw) and filter its root list against it. -/
def sanitizeSnapshotStep (now : Int)
    (acc : List (String × ImportSnapshot) × Nat) (e : String × JValue) :
    Except Unit (List (String × ImportSnapshot) × Nat) :=
  if !(jIsObjLike e.2) then .ok acc
  else
    let id := (jStr? (jProp e.2 "id")).getD e.1
    match jStr? (jProp e.2 "sessionId") with
    | none => .ok acc
    | some sess =>
      match sanitizeNodesMap (jProp e.2 "nodes") now acc.2 with
      | .error err => .error err
      | .ok (nodes, c2) =>
        let roots :=
          (sanitizeStringArray (jProp e.2 "rootNodeIds")).filter
            (fun rid => (lookupBy nodes rid).isSome)
        .ok (setBy acc.1 id
          { id := id
            name := (jStr? (jProp e.2 "name")).getD "Snapshot"
            description := jStr? (jProp e.2 "description")
            sessionId := sess
            nodes := nodes
            rootNodeIds := roots
            createdAt := (jNum? (jProp e.2 "createdAt")).getD now },
          c2)

/-- `sanitizeSnapshots`: rebuild each entry of the snapshots record. -/
def sanitizeSnapshots (v : Option JValue) (now : Int) (counter : Nat) :
    Except Unit (List (String × ImportSnapshot) × Nat) :=
  match v with
  | some val =>
    if jIsObjLike val then
      match jEntriesOf val with
      | none => .ok ([], counter)
      | some entries =>
        entries.foldlM (sanitizeSnapshotStep now)
          (([] : List (String × ImportSnapshot)), counter)
    else .ok ([], counter)
  | none => .ok ([], counter)

/-- The reconstructed application state produced by a successful
`parseImportData` (and installed wholesale by `importData`). -/
structure ImportResult where
  nodes : List (String × ImportNode)
  rootNodeIds : List String
  session : ImportSession
  templates : List (String × ImportTemplate)
  snapshots : List (String × ImportSnapshot)
  deriving Repr

/-- `parseImportData`: defensive reconstruction of a parsed document.
Throws for a non-object document, a non-array `rootNodeIds`, or a
primitive nodes map; otherwise rebuilds every part.  The root list is
filtered against the reconstructed node map. -/
def parseImportData (parsed : JValue) (now : Int) (counter : Nat) :
    Except Unit ImportResult :=
  if !(jIsObjLike parsed) then .error ()
  else
    match sanitizeNodesMap (jProp parsed "nodes") now counter with
    | .error err => .error err
    | .ok (nodes, c1) =>
      match jProp parsed "rootNodeIds" with
      | some v =>
        match v with
        | .jarr _ =>
          parseImportRest parsed nodes now c1
        | _ => .error ()
      | none => parseImportRest parsed nodes now c1
where
  /-- The tail of `parseImportData` after the `rootNodeIds` shape
  check (the session sanitizer is pure, so reusing it for its fields and
  its counter is equivalent to the source's single call). -/
  parseImportRest (parsed : JValue) (nodes : List (String × ImportNode))
      (now : Int) (c1 : Nat) : Except Unit ImportResult :=
    match sanitizeSnapshots (jProp parsed "snapshots") now
        (sanitizeSession (jProp parsed "session") nodes now c1).2 with
    | .error err => .error err
    | .ok (snapshots, _) =>
      .ok
        { nodes := nodes
          rootNodeIds :=
            (sanitizeStringArray (jProp parsed "rootNodeIds")).filter
              (fun id => (lookupBy nodes id).isSome)
          session := (sanitizeSession (jProp parsed "session") nodes now c1).1
          templates := sanitizeTemplates (jProp parsed "templates") now
          snapshots := snapshots }

/-- A small import document with dangling references: node `a` lists a
child `zz` that exists nowhere, the root list names `a`, and the session
carries a focus path through `qq` (nonexistent) and a selection naming
`a` and the nonexistent `bogus`. -/
def danglingDoc : JValue :=
  .jobj
    [("nodes", .jobj [("a", .jobj [("childrenIds", .jarr [.jstr "zz"])])]),
     ("rootNodeIds", .jarr [.jstr "a"]),
     ("session",
       .jobj [("focusPath", .jarr [.jstr "qq"]),
              ("selectedNodeIds", .jarr [.jstr "a", .jstr "bogus"])])]

/-- The reconstruction `parseImportData` produces for `danglingDoc` (the
fallback branch is unreachable). -/
def danglingResult : ImportResult :=
  match parseImportData danglingDoc 7 0 with
  | .ok r => r
  | .error _ =>
    { nodes := []
      rootNodeIds := []
      session := (sanitizeSession none [] 7 0).1
      templates := []
      snapshots := [] }

/-! The store state (`AppState` of `types/core.ts`, restricted to the
fields the tree-mutation and history engine reads or writes). -/

/-- A history entry: the `{ nodes, rootNodeIds }` copies pushed by
`saveHistory`, `undo` and `redo`. -/
structure Tree where
  nodes : NodeMap
  rootNodeIds : List Nat
  deriving Repr, DecidableEq

/-- The fields of `SandboxSession` the engine touches.  The purely
presentational preferences (view mode, theme, shortcuts, rules, rtl,
name, timestamps) are never read by the modelled operations and are
omitted. -/
structure Session where
  id : Nat
  selectedNodeIds : List Nat
  focusedNodeId : Option Nat
  focusPath : Option (List Nat)
  historyEnabled : Bool
  deriving Repr, DecidableEq

/-- The `Template` interface from `types/core.ts`. -/
structure Template where
  id : Nat
  name : String
  description : Option String
  rootNodeId : Nat
  tags : Option (List String)
  createdAt : Nat
  deriving Repr, DecidableEq

/-- The `Snapshot` interface from `types/core.ts`. -/
structure Snapshot where
  id : Nat
  name : String
  description : Option String
  sessionId : Nat
  nodes : NodeMap
  rootNodeIds : List Nat
  createdAt : Nat
  deriving Repr, DecidableEq

/-- The store state: tree, current session, template and snapshot
registries, and the history stacks, plus the fresh-id counter modelling
`generateId`. -/
structure AppState where
  nodes : NodeMap
  rootNodeIds : List Nat
  currentSession : Session
  templates : List (Nat × Template)
  snapshots : List (Nat × Snapshot)
  past : List Tree
  future : List Tree
  nextId : Nat
  deriving Repr, DecidableEq

/-- The initial store state: empty tree, registries and history; the
initial session consumes the first generated id and has history
enabled. -/
def initialState : AppState where
  nodes := []
  rootNodeIds := []
  currentSession :=
    { id := 0
      selectedNodeIds := []
      focusedNodeId := none
      focusPath := none
      historyEnabled := true }
  templates := []
  snapshots := []
  past := []
  future := []
  nextId := 1

/-- Record lookup for the template registry. -/
def lookupTemplate (ts : List (Nat × Template)) (id : Nat) : Option Template :=
  match ts.find? (fun e => e.1 == id) with
  | some e => some e.2
  | none => none

/-- Record lookup for the snapshot registry. -/
def lookupSnapshot (ts : List (Nat × Snapshot)) (id : Nat) : Option Snapshot :=
  match ts.find? (fun e => e.1 == id) with
  | some e => some e.2
  | none => none

/-! The store actions of `store/useStore.ts`. -/

/-- The `saveHistory` action: when the session has history enabled, push
a copy of the current tree onto `past`, evict the oldest entry when the
cap is exceeded (`shift`), and clear `future`. -/
def saveHistoryOp (s : AppState) : AppState :=
  if !s.currentSession.historyEnabled then s
  else
    let past1 := s.past ++ [{ nodes := s.nodes, rootNodeIds := s.rootNodeIds }]
    let past2 := if past1.length > MAX_HISTORY_ITEMS then past1.drop 1 else past1
    { s with past := past2, future := [] }

/-- The `undo` action: no-op when `past` is empty; otherwise push the
current tree onto `future`, restore the last `past` entry and pop it. -/
def undoOp (s : AppState) : AppState :=
  match s.past.getLast? with
  | none => s
  | some previous =>
    { s with
      future := s.future ++ [{ nodes := s.nodes, rootNodeIds := s.rootNodeIds }]
      nodes := previous.nodes
      rootNodeIds := previous.rootNodeIds
      past := s.past.dropLast }

/-- The `redo` action: no-op when `future` is empty; otherwise push the
current tree onto `past`, restore the last `future` entry and pop it. -/
def redoOp (s : AppState) : AppState :=
  match s.future.getLast? with
  | none => s
  | some next =>
    { s with
      past := s.past ++ [{ nodes := s.nodes, rootNodeIds := s.rootNodeIds }]
      nodes := next.nodes
      rootNodeIds := next.rootNodeIds
      future := s.future.dropLast }

/-- The level `createNode` would assign: the parent's level plus one, or
zero when the parent id is null or absent. -/
def createLevel (s : AppState) (parentId : Option Nat) : Nat :=
  let parent : Option ListNode :=
    match parentId with
    | some p => lookupNode s.nodes p
    | none => none
  match parent with
  | some p => p.level + 1
  | none => 0

/-- The `createNode` action.  Level is the parent's level plus one (zero
when the parent id is null or absent); at `MAX_DEPTH` the action returns
`null` without mutating.  Otherwise the new node is appended to the
parent's children (force-expanding the parent) or to the root sequence,
and a history checkpoint is taken. -/
def createNodeOp (s : AppState) (parentId : Option Nat) (data : NodePatch)
    (now : Nat) : Option ListNode × AppState :=
  let level : Nat := createLevel s parentId
  if level ≥ MAX_DEPTH then (none, s)
  else
    let newNode := mkListNode s.nextId now data level parentId
    let nodes1 := setKey s.nodes newNode.id newNode
    let s1 : AppState :=
      match parentId with
      | some pid =>
        if (lookupNode nodes1 pid).isSome then
          { s with
            nodes := updateKey nodes1 pid (fun p =>
              { p with childrenIds := p.childrenIds ++ [newNode.id], isCollapsed := false })
            nextId := s.nextId + 1 }
        else
          { s with
            nodes := nodes1
            rootNodeIds := s.rootNodeIds ++ [newNode.id]
            nextId := s.nextId + 1 }
      | none =>
        { s with
          nodes := nodes1
          rootNodeIds := s.rootNodeIds ++ [newNode.id]
          nextId := s.nextId + 1 }
    (some newNode, saveHistoryOp s1)

/-- The `updateNode` action: merge the updates into the node (refreshing
`updatedAt`) when it exists, otherwise do nothing.  No checkpoint. -/
def updateNodeOp (s : AppState) (id : Nat) (updates : NodePatch) (now : Nat) :
    AppState :=
  if (lookupNode s.nodes id).isSome then
    { s with nodes := updateKey s.nodes id (fun n => applyPatch n updates now) }
  else s

/-- The `deleteNode` action: no-op when absent; otherwise remove the node
and all its descendants from the map, detach it from its parent's
children (or the root sequence), purge the removed ids from the
selection, clear the focused id when removed, and checkpoint. -/
def deleteNodeOp (s : AppState) (id : Nat) : AppState :=
  match lookupNode s.nodes id with
  | none => s
  | some node =>
    let toDelete := id :: (getAllChildren id s.nodes).map (fun n => n.id)
    let detached : AppState :=
      match node.parentId with
      | some pid =>
        if (lookupNode s.nodes pid).isSome then
          { s with
            nodes := updateKey s.nodes pid (fun p =>
              { p with childrenIds := p.childrenIds.filter (fun cid => !(cid == id)) }) }
        else
          { s with rootNodeIds := s.rootNodeIds.filter (fun rid => !(rid == id)) }
      | none =>
        { s with rootNodeIds := s.rootNodeIds.filter (fun rid => !(rid == id)) }
    let nodes2 := detached.nodes.filter (fun e => !(toDelete.contains e.1))
    let session2 :=
      { detached.currentSession with
        selectedNodeIds :=
          detached.currentSession.selectedNodeIds.filter
            (fun sid => !(toDelete.contains sid))
        focusedNodeId :=
          match detached.currentSession.focusedNodeId with
          | some f => if toDelete.contains f then none else some f
          | none => none }
    saveHistoryOp
      { detached with nodes := nodes2, currentSession := session2 }

/-- The level-relabelling recursion `updateLevels` inside `moveNode`: set
the node's level and recurse into its children, mutating the draft map as
it goes. -/
def updateLevels (m : NodeMap) : Nat → Nat → Nat → NodeMap
  | 0, _, _ => m
  | fuel + 1, id, base =>
    match lookupNode m id with
    | none => m
    | some n =>
      let m1 := updateKey m id (fun x => { x with level := base })
      n.childrenIds.foldl (fun acc cid => updateLevels acc fuel cid (base + 1)) m1

/-- Insertion `list.splice(position, 0, x)` for a non-negative position
(an index beyond the end appends), or `push` when no position given. -/
def insertPos (l : List Nat) (pos : Option Nat) (x : Nat) : List Nat :=
  match pos with
  | none => l ++ [x]
  | some i => l.take i ++ [x] ++ l.drop i

/-- The `moveNode` action.  Rejected moves (`canMoveNode` false) and a
missing moved node are no-ops.  A present move detaches the node from its
old parent or the root sequence, re-levels it and its whole subtree from
the new parent's level, attaches it at the requested position, and
checkpoints.  Reading `.level` of an absent non-null new parent throws
(`Except.error`); immer then aborts, so the thrown case commits no state
change. -/
def moveNodeOp (s : AppState) (nodeId : Nat) (newParentId : Option Nat)
    (position : Option Nat) : Except Unit AppState :=
  if !(canMoveNode nodeId newParentId s.nodes (MAX_DEPTH : Int)) then .ok s
  else
    match lookupNode s.nodes nodeId with
    | none => .ok s
    | some node =>
      let t1 : AppState :=
        match node.parentId with
        | some op =>
          if (lookupNode s.nodes op).isSome then
            { s with
              nodes := updateKey s.nodes op (fun p =>
                { p with childrenIds := p.childrenIds.filter (fun cid => !(cid == nodeId)) }) }
          else
            { s with rootNodeIds := s.rootNodeIds.filter (fun rid => !(rid == nodeId)) }
        | none =>
          { s with rootNodeIds := s.rootNodeIds.filter (fun rid => !(rid == nodeId)) }
      let newLevel? : Except Unit Nat :=
        match newParentId with
        | some p =>
          match lookupNode t1.nodes p with
          | none => .error ()
          | some pn => .ok (pn.level + 1)
        | none => .ok 0
      match newLevel? with
      | .error e => .error e
      | .ok newLevel =>
        let nodes2 := updateKey t1.nodes nodeId (fun n =>
          { n with parentId := newParentId, level := newLevel })
        let nodes3 := node.childrenIds.foldl
          (fun acc cid => updateLevels acc (s.nodes.length + 1) cid (newLevel + 1)) nodes2
        let t4 : AppState :=
          match newParentId with
          | some p =>
            if (lookupNode nodes3 p).isSome then
              { t1 with
                nodes := updateKey nodes3 p (fun pn =>
                  { pn with childrenIds := insertPos pn.childrenIds position nodeId }) }
            else
              { t1 with nodes := nodes3
                        rootNodeIds := insertPos t1.rootNodeIds position nodeId }
          | none =>
            { t1 with nodes := nodes3
                      rootNodeIds := insertPos t1.rootNodeIds position nodeId }
        .ok (saveHistoryOp t4)

/-- JavaScript `indexOf`: the first index of the element, `-1` when
absent. -/
def jsIndexOf (l : List Nat) (x : Nat) : Int :=
  match l.findIdx? (fun y => y == x) with
  | some i => (i : Int)
  | none => -1

/-- The `duplicateNode` action: no-op when absent; otherwise clone the
subtree under the node's own parent, merge the clone entries into the
map, insert the clone root immediately after the original among its
siblings (or roots), and checkpoint.  A clone failure propagates as a
thrown exception before any state change. -/
def duplicateNodeOp (s : AppState) (id : Nat) (now : Nat) :
    Except Unit AppState :=
  match lookupNode s.nodes id with
  | none => .ok s
  | some node =>
    match cloneSubtree id s.nodes node.parentId now s.nextId with
    | .error e => .error e
    | .ok (cloned, newNodes, counter2) =>
      let nodes1 := objAssign s.nodes newNodes
      let rootSlot : Nat := (jsIndexOf s.rootNodeIds id + 1).toNat
      let s1 : AppState :=
        match node.parentId with
        | some pid =>
          if (lookupNode nodes1 pid).isSome then
            { s with
              nodes := updateKey nodes1 pid (fun p =>
                let slot : Nat := (jsIndexOf p.childrenIds id + 1).toNat
                { p with childrenIds := insertPos p.childrenIds (some slot) cloned.id })
              nextId := counter2 }
          else
            { s with
              nodes := nodes1
              rootNodeIds := insertPos s.rootNodeIds (some rootSlot) cloned.id
              nextId := counter2 }
        | none =>
          { s with
            nodes := nodes1
            rootNodeIds := insertPos s.rootNodeIds (some rootSlot) cloned.id
            nextId := counter2 }
      .ok (saveHistoryOp s1)

/-- The `toggleCollapse` action. -/
def toggleCollapseOp (s : AppState) (id : Nat) : AppState :=
  if (lookupNode s.nodes id).isSome then
    { s with nodes := updateKey s.nodes id (fun n => { n with isCollapsed := !n.isCollapsed }) }
  else s

/-- The `toggleDone` action (`!undefined` is `true` in JavaScript). -/
def toggleDoneOp (s : AppState) (id : Nat) : AppState :=
  if (lookupNode s.nodes id).isSome then
    { s with nodes := updateKey s.nodes id (fun n =>
        { n with isDone := some !(n.isDone.getD false) }) }
  else s

/-- The `togglePin` action. -/
def togglePinOp (s : AppState) (id : Nat) : AppState :=
  if (lookupNode s.nodes id).isSome then
    { s with nodes := updateKey s.nodes id (fun n =>
        { n with isPinned := some !(n.isPinned.getD false) }) }
  else s

/-- The `collapseAll` action: collapse every node that has children. -/
def collapseAllOp (s : AppState) : AppState :=
  { s with nodes := s.nodes.map (fun e =>
      if e.2.childrenIds.length > 0 then (e.1, { e.2 with isCollapsed := true }) else e) }

/-- The `expandAll` action: expand every node. -/
def expandAllOp (s : AppState) : AppState :=
  { s with nodes := s.nodes.map (fun e => (e.1, { e.2 with isCollapsed := false })) }

/-- The `collapseToLevel` action: collapse nodes with children at or
below the threshold level, expand the rest. -/
def collapseToLevelOp (s : AppState) (level : Nat) : AppState :=
  { s with nodes := s.nodes.map (fun e =>
      if e.2.level ≥ level ∧ e.2.childrenIds.length > 0 then
        (e.1, { e.2 with isCollapsed := true })
      else
        (e.1, { e.2 with isCollapsed := false })) }

/-- The `selectNode` action: multi-select appends when not already
present, single-select replaces the whole selection. -/
def selectNodeOp (s : AppState) (id : Nat) (multi : Bool) : AppState :=
  if multi then
    if s.currentSession.selectedNodeIds.contains id then s
    else
      { s with currentSession :=
          { s.currentSession with
            selectedNodeIds := s.currentSession.selectedNodeIds ++ [id] } }
  else
    { s with currentSession := { s.currentSession with selectedNodeIds := [id] } }

/-- The `deselectNode` action. -/
def deselectNodeOp (s : AppState) (id : Nat) : AppState :=
  { s with currentSession :=
      { s.currentSession with
        selectedNodeIds :=
          s.currentSession.selectedNodeIds.filter (fun sid => !(sid == id)) } }

/-- The `clearSelection` action. -/
def clearSelectionOp (s : AppState) : AppState :=
  { s with currentSession := { s.currentSession with selectedNodeIds := [] } }

/-- The `selectAll` action: select every key of the node map. -/
def selectAllOp (s : AppState) : AppState :=
  { s with currentSession :=
      { s.currentSession with selectedNodeIds := s.nodes.map (fun e => e.1) } }

/-- The `setFocusNode` action. -/
def setFocusNodeOp (s : AppState) (id : Option Nat) : AppState :=
  { s with currentSession := { s.currentSession with focusedNodeId := id } }

/-- The `zoomIn` action: no-op for a missing id; otherwise set the focus
and rebuild the breadcrumb path by walking the parent chain (the same
walk as `getPath`, collecting ids). -/
def zoomInOp (s : AppState) (id : Nat) : AppState :=
  match lookupNode s.nodes id with
  | none => s
  | some _ =>
    { s with currentSession :=
        { s.currentSession with
          focusedNodeId := some id
          focusPath := some ((getPath id s.nodes).map (fun n => n.id)) } }

/-- The `zoomOut` action: pop one breadcrumb entry, or exit focus mode
when at most one entry remains. -/
def zoomOutOp (s : AppState) : AppState :=
  match s.currentSession.focusPath with
  | some path =>
    if path.length > 1 then
      { s with currentSession :=
          { s.currentSession with
            focusPath := some path.dropLast
            focusedNodeId := path.get? (path.length - 2) } }
    else
      { s with currentSession :=
          { s.currentSession with focusedNodeId := none, focusPath := none } }
  | none =>
    { s with currentSession :=
        { s.currentSession with focusedNodeId := none, focusPath := none } }

/-- The `createTemplate` action: no-op for a missing node; otherwise
register a template pointing at the subtree root (consuming a generated
id). -/
def createTemplateOp (s : AppState) (nodeId : Nat) (name : String)
    (description : Option String) (now : Nat) : AppState :=
  match lookupNode s.nodes nodeId with
  | none => s
  | some _ =>
    let tpl : Template :=
      { id := s.nextId
        name := name
        description := description
        rootNodeId := nodeId
        tags := none
        createdAt := now }
    { s with templates := s.templates ++ [(tpl.id, tpl)], nextId := s.nextId + 1 }

/-- The `applyTemplate` action: no-op for a missing template; otherwise
clone the template's subtree under the chosen parent (or as a root),
merge the clone entries, attach the clone root, and checkpoint.  A clone
failure (missing subtree root) propagates as a thrown exception before
any state change. -/
def applyTemplateOp (s : AppState) (templateId : Nat) (parentId : Option Nat)
    (now : Nat) : Except Unit AppState :=
  match lookupTemplate s.templates templateId with
  | none => .ok s
  | some tpl =>
    match cloneSubtree tpl.rootNodeId s.nodes parentId now s.nextId with
    | .error e => .error e
    | .ok (cloned, newNodes, counter2) =>
      let nodes1 := objAssign s.nodes newNodes
      let s1 : AppState :=
        match parentId with
        | some pid =>
          if (lookupNode nodes1 pid).isSome then
            { s with
              nodes := updateKey nodes1 pid (fun p =>
                { p with childrenIds := p.childrenIds ++ [cloned.id] })
              nextId := counter2 }
          else
            { s with
              nodes := nodes1
              rootNodeIds := s.rootNodeIds ++ [cloned.id]
              nextId := counter2 }
        | none =>
          { s with
            nodes := nodes1
            rootNodeIds := s.rootNodeIds ++ [cloned.id]
            nextId := counter2 }
      .ok (saveHistoryOp s1)

/-- The `deleteTemplate` action. -/
def deleteTemplateOp (s : AppState) (id : Nat) : AppState :=
  { s with templates := s.templates.filter (fun e => !(e.1 == id)) }

/-- Stable insertion: walk past the elements with a strictly larger
`createdAt` and place `x` before the first element whose `createdAt` is
not larger (so `x`, which precedes the walked list in the original
array, lands before elements with equal timestamps).  Folding this from
the right over a list is the unique stable sort by descending
`createdAt`, which is what `Array.prototype.sort` with the comparator
`(a, b) => b.createdAt - a.createdAt` produces (JavaScript sort is
stable). -/
def insertByCreatedAtDesc (x : Snapshot) : List Snapshot → List Snapshot
  | [] => [x]
  | y :: ys =>
    if x.createdAt < y.createdAt then y :: insertByCreatedAtDesc x ys
    else x :: y :: ys

/-- Stable sort of the snapshot list by descending `createdAt`. -/
def sortByCreatedAtDesc (l : List Snapshot) : List Snapshot :=
  l.foldr insertByCreatedAtDesc []

/-- The `createSnapshot` action: register a copy of the current tree
under a generated id, then, when the registry exceeds `MAX_SNAPSHOTS`,
delete the entries beyond the `MAX_SNAPSHOTS` newest (by `createdAt`,
ties broken by registry insertion order). -/
def createSnapshotOp (s : AppState) (name : String) (description : Option String)
    (now : Nat) : AppState :=
  let snap : Snapshot :=
    { id := s.nextId
      name := name
      description := description
      sessionId := s.currentSession.id
      nodes := s.nodes
      rootNodeIds := s.rootNodeIds
      createdAt := now }
  let snaps1 := s.snapshots ++ [(snap.id, snap)]
  let sortedList := sortByCreatedAtDesc (snaps1.map (fun e => e.2))
  let snaps2 :=
    if sortedList.length > MAX_SNAPSHOTS then
      (sortedList.drop MAX_SNAPSHOTS).foldl
        (fun acc del => acc.filter (fun e => !(e.1 == del.id))) snaps1
    else snaps1
  { s with snapshots := snaps2, nextId := s.nextId + 1 }

/-- The `restoreSnapshot` action: no-op for a missing id; otherwise
replace the live tree with the snapshot's copy and checkpoint. -/
def restoreSnapshotOp (s : AppState) (id : Nat) : AppState :=
  match lookupSnapshot s.snapshots id with
  | none => s
  | some snap =>
    saveHistoryOp
      { s with nodes := snap.nodes, rootNodeIds := snap.rootNodeIds }

/-- The `deleteSnapshot` action. -/
def deleteSnapshotOp (s : AppState) (id : Nat) : AppState :=
  { s with snapshots := s.snapshots.filter (fun e => !(e.1 == id)) }

/-! `importData` replaces the whole store state with the reconstruction
`parseImportData` produced.  Imported ids are arbitrary strings, while
the engine's state abstracts ids as naturals (a generated string id is
modelled as its counter value); the injection `strId` extends that
abstraction to every string, so distinct imported ids stay distinct. -/

/-- Injective code of an id string (base-1114112 digits `c + 1`). -/
def strId (s : String) : Nat :=
  s.data.foldl (fun acc c => acc * 1114112 + (c.toNat + 1)) 0

/-- String-valued fields of a raw `sandboxProps` object (the engine
state abstracts the opaque props object as its string entries). -/
def jStrFields : JValue → List (String × String)
  | .jobj fields =>
    fields.filterMap (fun f =>
      match f.2 with
      | .jstr s => some (f.1, s)
      | _ => none)
  | _ => []

/-- A reconstructed node carried into the engine state. -/
def natNode (n : ImportNode) : ListNode where
  id := strId n.id
  parentId := n.parentId.map strId
  childrenIds := n.childrenIds.map strId
  title := n.title
  description := n.description
  level := n.level
  colorSlot := n.colorSlot
  icon := n.icon
  isCollapsed := n.isCollapsed
  isDone := n.isDone
  isPinned := n.isPinned
  isHighlighted := n.isHighlighted
  sandboxProps := n.sandboxProps.map jStrFields
  createdAt := n.createdAt.toNat
  updatedAt := n.updatedAt.toNat

/-- A reconstructed session carried into the engine state (the fields
the engine reads; the presentational ones are dropped as in `Session`). -/
def natSession (ss : ImportSession) : Session where
  id := strId ss.id
  selectedNodeIds := ss.selectedNodeIds.map strId
  focusedNodeId := ss.focusedNodeId.map strId
  focusPath := ss.focusPath.map (fun l => l.map strId)
  historyEnabled := ss.historyEnabled

/-- A reconstructed template carried into the engine state. -/
def natTemplate (t : ImportTemplate) : Template where
  id := strId t.id
  name := t.name
  description := t.description
  rootNodeId := strId t.rootNodeId
  tags := some t.tags
  createdAt := t.createdAt.toNat

/-- A reconstructed snapshot carried into the engine state. -/
def natSnapshot (sn : ImportSnapshot) : Snapshot where
  id := strId sn.id
  name := sn.name
  description := sn.description
  sessionId := strId sn.sessionId
  nodes := sn.nodes.map (fun e => (strId e.1, natNode e.2))
  rootNodeIds := sn.rootNodeIds.map strId
  createdAt := sn.createdAt.toNat

/-- The `importData` action: parse and sanitize the document, replace
`nodes`, `rootNodeIds`, `currentSession`, `templates` and `snapshots`
wholesale, and checkpoint.  A parse failure is rethrown before any state
change. -/
def importDataOp (s : AppState) (doc : JValue) (now : Nat) :
    Except Unit AppState :=
  match parseImportData doc (now : Int) s.nextId with
  | .error e => .error e
  | .ok r =>
    .ok (saveHistoryOp
      { s with
        nodes := r.nodes.map (fun e => (strId e.1, natNode e.2))
        rootNodeIds := r.rootNodeIds.map strId
        currentSession := natSession r.session
        templates := r.templates.map (fun e => (strId e.1, natTemplate e.2))
        snapshots := r.snapshots.map (fun e => (strId e.1, natSnapshot e.2)) })

/-- An import document whose only node is a root with `level: 3`:
`sanitizeNode` clamps the level into `[0, MAX_DEPTH - 1]` but never
reconciles it with the node's depth. -/
def importLevelDoc : JValue :=
  .jobj [("nodes", .jobj [("a", .jobj [("level", .jnum 3)])]),
         ("rootNodeIds", .jarr [.jstr "a"])]

/-- An import document whose only node names the nonexistent parent
`zz`: `sanitizeNode` keeps any string `parentId` without an existence
check. -/
def importParentDoc : JValue :=
  .jobj [("nodes", .jobj [("a", .jobj [("parentId", .jstr "zz")])]),
         ("rootNodeIds", .jarr [.jstr "a"])]

/-- One public store operation with its arguments (`Date.now()` passed
explicitly where the source reads the clock). -/
inductive Op where
  | createNode (parentId : Option Nat) (data : NodePatch) (now : Nat)
  | updateNode (id : Nat) (updates : NodePatch) (now : Nat)
  | deleteNode (id : Nat)
  | moveNode (nodeId : Nat) (newParentId : Option Nat) (position : Option Nat)
  | duplicateNode (id : Nat) (now : Nat)
  | toggleCollapse (id : Nat)
  | toggleDone (id : Nat)
  | togglePin (id : Nat)
  | collapseAll
  | expandAll
  | collapseToLevel (level : Nat)
  | selectNode (id : Nat) (multi : Bool)
  | deselectNode (id : Nat)
  | clearSelection
  | selectAll
  | setFocusNode (id : Option Nat)
  | zoomIn (id : Nat)
  | zoomOut
  | createTemplate (nodeId : Nat) (name : String) (description : Option String) (now : Nat)
  | applyTemplate (templateId : Nat) (parentId : Option Nat) (now : Nat)
  | deleteTemplate (id : Nat)
  | createSnapshot (name : String) (description : Option String) (now : Nat)
  | restoreSnapshot (id : Nat)
  | deleteSnapshot (id : Nat)
  | importData (doc : JValue) (now : Nat)
  | undo
  | redo
  deriving Repr

/-- The state reached after one operation.  For the actions that can
throw (`moveNode` with an absent non-null target parent, the clone
actions on a corrupted subtree, and `importData` on a rejected
document) the committed state on a throw is the unchanged previous
state, since the exception escapes before or inside the aborted immer
producer. -/
def applyOp (s : AppState) : Op → AppState
  | .createNode parentId data now => (createNodeOp s parentId data now).2
  | .updateNode id updates now => updateNodeOp s id updates now
  | .deleteNode id => deleteNodeOp s id
  | .moveNode nodeId newParentId position =>
    match moveNodeOp s nodeId newParentId position with
    | .ok s2 => s2
    | .error _ => s
  | .duplicateNode id now =>
    match duplicateNodeOp s id now with
    | .ok s2 => s2
    | .error _ => s
  | .toggleCollapse id => toggleCollapseOp s id
  | .toggleDone id => toggleDoneOp s id
  | .togglePin id => togglePinOp s id
  | .collapseAll => collapseAllOp s
  | .expandAll => expandAllOp s
  | .collapseToLevel level => collapseToLevelOp s level
  | .selectNode id multi => selectNodeOp s id multi
  | .deselectNode id => deselectNodeOp s id
  | .clearSelection => clearSelectionOp s
  | .selectAll => selectAllOp s
  | .setFocusNode id => setFocusNodeOp s id
  | .zoomIn id => zoomInOp s id
  | .zoomOut => zoomOutOp s
  | .createTemplate nodeId name description now =>
    createTemplateOp s nodeId name description now
  | .applyTemplate templateId parentId now =>
    match applyTemplateOp s templateId parentId now with
    | .ok s2 => s2
    | .error _ => s
  | .deleteTemplate id => deleteTemplateOp s id
  | .createSnapshot name description now => createSnapshotOp s name description now
  | .restoreSnapshot id => restoreSnapshotOp s id
  | .deleteSnapshot id => deleteSnapshotOp s id
  | .importData doc now =>
    match importDataOp s doc now with
    | .ok s2 => s2
    | .error _ => s
  | .undo => undoOp s
  | .redo => redoOp s

/-- The state reached after a sequence of operations. -/
def applyOps (s : AppState) (ops : List Op) : AppState :=
  ops.foldl applyOp s

/-! Derived definitions used to state and prove the claims. -/

/-- The tree part of a state. -/
def Tree.ofState (s : AppState) : Tree where
  nodes := s.nodes
  rootNodeIds := s.rootNodeIds

/-- One checkpointed structural mutation: every structural store action
(`createNode`, `deleteNode`, `moveNode`, `duplicateNode`,
`applyTemplate`, `restoreSnapshot`, `importData`) commits a tree update
and then calls `saveHistory`; the tree update is abstracted as an
arbitrary function on trees. -/
def applyCheckpointed (s : AppState) (f : Tree → Tree) : AppState :=
  let t := f (Tree.ofState s)
  saveHistoryOp { s with nodes := t.nodes, rootNodeIds := t.rootNodeIds }

/-- A sequence of checkpointed structural mutations. -/
def applyMutations (s : AppState) (fs : List (Tree → Tree)) : AppState :=
  fs.foldl applyCheckpointed s

/-- The successive trees produced by a mutation sequence from a starting
tree (`mutTrace t [M1, ..., Mn] = [post-M1, ..., post-Mn]`). -/
def mutTrace : Tree → List (Tree → Tree) → List Tree
  | _, [] => []
  | t, f :: fs => f t :: mutTrace (f t) fs

/-- Keys of a node map. -/
def mapKeys (nodes : NodeMap) : List Nat :=
  nodes.map (fun e => e.1)

/-- All keys below the id counter (freshness of generated ids). -/
def keysBelow (nodes : NodeMap) (c : Nat) : Prop :=
  ∀ e ∈ nodes, e.1 < c

/-- Strict descendant relation generated by the `childrenIds` lists:
`Desc nodes a c` holds when `c` is reachable from `a` by following one
or more child links through present nodes. -/
inductive Desc (nodes : NodeMap) : Nat → Nat → Prop where
  | child : ∀ {a n c}, lookupNode nodes a = some n → c ∈ n.childrenIds →
      Desc nodes a c
  | step : ∀ {a b n c}, Desc nodes a b → lookupNode nodes b = some n →
      c ∈ n.childrenIds → Desc nodes a c

/-- Weak descendant: the node itself, or a strict descendant. -/
def DescEq (nodes : NodeMap) (a d : Nat) : Prop :=
  a = d ∨ Desc nodes a d

/-- Specification-side subtree id list (pre-order), fuelled by depth. -/
def subtreeIdsF (nodes : NodeMap) : Nat → Nat → List Nat
  | 0, _ => []
  | fuel + 1, id =>
    id ::
      (match lookupNode nodes id with
       | none => []
       | some n => n.childrenIds).flatMap (subtreeIdsF nodes fuel)

/-- Specification-side subtree id list at the canonical fuel. -/
def subtreeIds (nodes : NodeMap) (id : Nat) : List Nat :=
  subtreeIdsF nodes (nodes.length + 1) id

/-- Fuel measure for recursions that walk DOWN the tree from a node at
level `lvl`: one plus the number of entries with a strictly larger
level.  It strictly decreases from a node to its child and never exceeds
`nodes.length + 1`. -/
def downMeasure (nodes : NodeMap) (lvl : Nat) : Nat :=
  nodes.countP (fun e => decide (lvl < e.2.level)) + 1

/-- Fuel measure for recursions that walk UP the tree from a node at
level `lvl` (parent chains). -/
def upMeasure (nodes : NodeMap) (lvl : Nat) : Nat :=
  nodes.countP (fun e => decide (e.2.level < lvl)) + 1

/-! Structural well-formedness of a tree, exactly the invariants of
spec section 3, phrased with executable per-entry checks so that it is
decidable on concrete states. -/

/-- Root entries exist and have no parent. -/
def rootEntryOk (nodes : NodeMap) (r : Nat) : Bool :=
  match lookupNode nodes r with
  | some n => n.parentId == none
  | none => false

/-- A parentless node occurs in the root list and has level 0. -/
def rootLinkOk (roots : List Nat) (e : Nat × ListNode) : Bool :=
  match e.2.parentId with
  | none => roots.contains e.1 && (e.2.level == 0)
  | some _ => true

/-- A parented node's parent exists, lists the node among its children,
and has level one less. -/
def parentLinkOk (nodes : NodeMap) (e : Nat × ListNode) : Bool :=
  match e.2.parentId with
  | none => true
  | some p =>
    match lookupNode nodes p with
    | none => false
    | some m => m.childrenIds.contains e.1 && (e.2.level == m.level + 1)

/-- Every listed child exists and points back to the node as parent. -/
def childLinkOk (nodes : NodeMap) (e : Nat × ListNode) : Bool :=
  e.2.childrenIds.all (fun c =>
    match lookupNode nodes c with
    | none => false
    | some m => m.parentId == some e.1)

/-- Well-formed tree: unique keys, consistent `id` fields, consistent
root list, consistent parent/child links, locally correct levels, and
the depth cap. -/
def WFTree (nodes : NodeMap) (roots : List Nat) : Prop :=
  (nodes.map (fun e => e.1)).Nodup ∧
  roots.Nodup ∧
  (∀ e ∈ nodes, e.2.id = e.1) ∧
  (∀ r ∈ roots, rootEntryOk nodes r = true) ∧
  (∀ e ∈ nodes, rootLinkOk roots e = true) ∧
  (∀ e ∈ nodes, parentLinkOk nodes e = true) ∧
  (∀ e ∈ nodes, childLinkOk nodes e = true) ∧
  (∀ e ∈ nodes, e.2.childrenIds.Nodup) ∧
  (∀ e ∈ nodes, e.2.level ≤ MAX_DEPTH - 1)

/-- Reachable-state invariant of the store: the live tree, every history
entry and every snapshot are well-formed, and all their keys are below
the fresh-id counter; snapshot registry keys are unique and match the
snapshots' own ids. -/
def Inv (s : AppState) : Prop :=
  WFTree s.nodes s.rootNodeIds ∧
  keysBelow s.nodes s.nextId ∧
  (∀ t ∈ s.past, WFTree t.nodes t.rootNodeIds ∧ keysBelow t.nodes s.nextId) ∧
  (∀ t ∈ s.future, WFTree t.nodes t.rootNodeIds ∧ keysBelow t.nodes s.nextId) ∧
  (∀ e ∈ s.snapshots, WFTree e.2.nodes e.2.rootNodeIds ∧
    keysBelow e.2.nodes s.nextId ∧ e.2.id = e.1 ∧ e.1 < s.nextId) ∧
  (s.snapshots.map (fun e => e.1)).Nodup

instance (nodes : NodeMap) (c : Nat) : Decidable (keysBelow nodes c) := by
  unfold keysBelow
  infer_instance

instance (nodes : NodeMap) (roots : List Nat) : Decidable (WFTree nodes roots) := by
  unfold WFTree
  infer_instance

instance : DecidableEq (Except Unit AppState) := fun a b =>
  match a, b with
  | .error x, .error y =>
    if h : x = y then .isTrue (by rw [h]) else .isFalse (by intro hc; cases hc; exact h rfl)
  | .ok x, .ok y =>
    if h : x = y then .isTrue (by rw [h]) else .isFalse (by intro hc; cases hc; exact h rfl)
  | .error _, .ok _ => .isFalse (by intro hc; cases hc)
  | .ok _, .error _ => .isFalse (by intro hc; cases hc)

instance (s : AppState) : Decidable (Inv s) := by
  unfold Inv
  infer_instance

/-- No structural field provided in a patch (content-only update). -/
def contentPatch (u : NodePatch) : Bool :=
  u.id.isNone && u.parentId.isNone && u.childrenIds.isNone && u.level.isNone

/-- Whether a non-null parent argument denotes a present node. -/
def parentArgOk (s : AppState) : Option Nat → Bool
  | none => true
  | some p => (lookupNode s.nodes p).isSome

/-- The operations covered by the preserved-invariant theorems:
`createNode` with an existing (or null) parent and without forced id or
children, content-only `updateNode`, and everything except
`applyTemplate` (which clones levels verbatim to an arbitrary depth)
and `importData` (which installs clamped-but-unrepaired levels and
unchecked parent ids). -/
def legalOp (s : AppState) : Op → Bool
  | .createNode parentId data _ =>
    parentArgOk s parentId && data.id.isNone && data.childrenIds.isNone
  | .updateNode _ updates _ => contentPatch updates
  | .applyTemplate _ _ _ => false
  | .importData _ _ => false
  | _ => true

/-- A sequence of operations, each legal in the state it runs in. -/
def legalSeq (s : AppState) : List Op → Bool
  | [] => true
  | op :: ops => legalOp s op && legalSeq (applyOp s op) ops


/-- A three-node chain (1 at level 0, its child 2, grandchild 3), built
by the store itself; a concrete evaluation point for the move and
delete theorems. -/
def chain3 : AppState :=
  applyOps initialState
    [Op.createNode none {} 0, Op.createNode (some 1) {} 0,
     Op.createNode (some 2) {} 0]

/-- Internal well-formedness of a batch of clone entries produced with
ids drawn from the half-open range `[counter, counter2)`: fresh distinct
keys matching the stored ids, children without duplicates, copied levels
within the depth cap, and every listed child resolving inside the batch
to a node that points back at its parent one level down. -/
def cloneEntriesOk (counter counter2 : Nat) (entries : NodeMap) : Prop :=
  (∀ e ∈ entries, counter ≤ e.1 ∧ e.1 < counter2) ∧
  (mapKeys entries).Nodup ∧
  (∀ e ∈ entries, e.2.id = e.1) ∧
  (∀ e ∈ entries, e.2.childrenIds.Nodup) ∧
  (∀ e ∈ entries, e.2.level ≤ MAX_DEPTH - 1) ∧
  (∀ e ∈ entries, ∀ c ∈ e.2.childrenIds, ∃ nc,
    lookupNode entries c = some nc ∧ nc.parentId = some e.1 ∧
    nc.level = e.2.level + 1)

/-- What a successful `cloneRec` call guarantees: the head clone sits at
the first fresh id with the caller-supplied parent and the source node's
level, and every non-head entry is linked under another entry of the
batch. -/
def cloneRecOk (nodes : NodeMap) (origId : Nat) (P : Option Nat)
    (counter : Nat) (cloned : ListNode) (entries : NodeMap)
    (counter2 : Nat) : Prop :=
  counter < counter2 ∧
  lookupNode entries counter = some cloned ∧
  cloned.id = counter ∧
  cloned.parentId = P ∧
  (∃ orig, lookupNode nodes origId = some orig ∧ cloned.level = orig.level) ∧
  cloneEntriesOk counter counter2 entries ∧
  (∀ e ∈ entries, e.1 ≠ counter → ∃ b nb, e.2.parentId = some b ∧
    lookupNode entries b = some nb ∧ e.1 ∈ nb.childrenIds ∧
    e.2.level = nb.level + 1)

/-- What a successful `cloneChildren` call guarantees: the returned ids
are the distinct heads of the produced sibling blocks, each parented at
the caller's node and carrying the level of one of the source children;
every entry not among the heads is linked under another entry of the
batch. -/
def cloneChildrenOk (nodes : NodeMap) (cs : List Nat) (P counter : Nat)
    (ids : List Nat) (entries : NodeMap) (counter2 : Nat) : Prop :=
  counter ≤ counter2 ∧
  cloneEntriesOk counter counter2 entries ∧
  ids.Nodup ∧
  (∀ x ∈ ids, ∃ nx, lookupNode entries x = some nx ∧
    nx.parentId = some P ∧
    ∃ c, c ∈ cs ∧ ∃ ncs, lookupNode nodes c = some ncs ∧
      nx.level = ncs.level) ∧
  (∀ e ∈ entries, e.1 ∉ ids → ∃ b nb, e.2.parentId = some b ∧
    lookupNode entries b = some nb ∧ e.1 ∈ nb.childrenIds ∧
    e.2.level = nb.level + 1)

/-! Association-map lemmas. -/

theorem lookupNode_nil (j : Nat) : lookupNode [] j = none := rfl

theorem mapKeys_nil : mapKeys [] = [] := rfl

theorem mapKeys_cons (e : Nat × ListNode) (m : NodeMap) :
    mapKeys (e :: m) = e.1 :: mapKeys m := rfl

theorem mapKeys_append (m1 m2 : NodeMap) :
    mapKeys (m1 ++ m2) = mapKeys m1 ++ mapKeys m2 := by
  simp [mapKeys]

theorem lookupNode_cons (e : Nat × ListNode) (m : NodeMap) (j : Nat) :
    lookupNode (e :: m) j = if e.1 = j then some e.2 else lookupNode m j := by
  by_cases h : e.1 = j <;>
    simp [lookupNode, List.find?_cons, beq_iff_eq, h]

theorem lookupNode_append (m1 m2 : NodeMap) (j : Nat) :
    lookupNode (m1 ++ m2) j =
      match lookupNode m1 j with
      | some n => some n
      | none => lookupNode m2 j := by
  induction m1 with
  | nil => simp [lookupNode_nil]
  | cons e m ih =>
    by_cases h : e.1 = j <;> simp [lookupNode_cons, h, ih]

theorem mem_of_lookupNode_eq_some {m : NodeMap} {j : Nat} {n : ListNode}
    (h : lookupNode m j = some n) : (j, n) ∈ m := by
  induction m with
  | nil => simp [lookupNode_nil] at h
  | cons e m ih =>
    rw [lookupNode_cons] at h
    by_cases he : e.1 = j
    · rw [if_pos he] at h
      injection h with h2
      have : (j, n) = e := by
        cases e
        simp only [Prod.mk.injEq]
        exact ⟨he.symm, h2.symm⟩
      exact this ▸ List.mem_cons_self _ _
    · rw [if_neg he] at h
      exact List.mem_cons_of_mem _ (ih h)

theorem lookupNode_eq_some_of_mem {m : NodeMap} {j : Nat} {n : ListNode}
    (hnd : (mapKeys m).Nodup) (h : (j, n) ∈ m) :
    lookupNode m j = some n := by
  induction m with
  | nil => simp at h
  | cons e m ih =>
    rw [mapKeys_cons, List.nodup_cons] at hnd
    rcases List.mem_cons.mp h with h1 | h1
    · rw [← h1, lookupNode_cons, if_pos rfl]
    · have hne : e.1 ≠ j := by
        intro he
        exact hnd.1 (he ▸ (List.mem_map.mpr ⟨(j, n), h1, rfl⟩))
      rw [lookupNode_cons, if_neg hne]
      exact ih hnd.2 h1

theorem lookupNode_isSome_iff {m : NodeMap} {j : Nat} :
    (lookupNode m j).isSome = true ↔ j ∈ mapKeys m := by
  induction m with
  | nil => simp [lookupNode_nil, mapKeys_nil]
  | cons e m ih =>
    rw [lookupNode_cons, mapKeys_cons, List.mem_cons]
    by_cases h : e.1 = j
    · simp [h]
    · rw [if_neg h, ih]
      constructor
      · exact fun hm => Or.inr hm
      · intro hm
        rcases hm with h1 | h1
        · exact absurd h1.symm h
        · exact h1

theorem lookupNode_eq_none_iff {m : NodeMap} {j : Nat} :
    lookupNode m j = none ↔ j ∉ mapKeys m := by
  rw [← lookupNode_isSome_iff]
  cases lookupNode m j <;> simp

theorem updateKey_nil (k : Nat) (f : ListNode → ListNode) :
    updateKey [] k f = [] := rfl

theorem updateKey_cons (e : Nat × ListNode) (m : NodeMap) (k : Nat)
    (f : ListNode → ListNode) :
    updateKey (e :: m) k f =
      (if e.1 = k then (e.1, f e.2) else e) :: updateKey m k f := by
  by_cases h : e.1 = k <;> simp [updateKey, h]

theorem lookupNode_updateKey (m : NodeMap) (k : Nat) (f : ListNode → ListNode)
    (j : Nat) :
    lookupNode (updateKey m k f) j =
      if j = k then (lookupNode m k).map f else lookupNode m j := by
  induction m with
  | nil => by_cases h : j = k <;> simp [updateKey_nil, lookupNode_nil, h]
  | cons e m ih =>
    by_cases hek : e.1 = k
    · by_cases hej : e.1 = j
      · have hjk : j = k := by rw [← hej, hek]
        subst hjk
        simp [updateKey_cons, lookupNode_cons, hek, hej]
      · have hjk : ¬ j = k := by
          intro h
          exact hej (by rw [hek, ← h])
        have hkj : ¬ k = j := fun h => hjk h.symm
        simp [updateKey_cons, lookupNode_cons, hek, hej, hjk, hkj, ih]
    · by_cases hej : e.1 = j
      · have hjk : ¬ j = k := by
          intro h
          exact hek (by rw [hej, h])
        simp [updateKey_cons, lookupNode_cons, hek, hej, hjk]
      · simp [updateKey_cons, lookupNode_cons, hek, hej, ih]

theorem mapKeys_updateKey (m : NodeMap) (k : Nat) (f : ListNode → ListNode) :
    mapKeys (updateKey m k f) = mapKeys m := by
  induction m with
  | nil => rfl
  | cons e m ih =>
    rw [updateKey_cons, mapKeys_cons, mapKeys_cons, ih]
    by_cases h : e.1 = k <;> simp [h]

theorem setKey_fresh {m : NodeMap} {k : Nat} (v : ListNode)
    (h : lookupNode m k = none) : setKey m k v = m ++ [(k, v)] := by
  have hf : m.find? (fun e => e.1 == k) = none := by
    unfold lookupNode at h
    cases hfind : m.find? (fun e => e.1 == k) with
    | none => rfl
    | some e => rw [hfind] at h; simp at h
  simp [setKey, hf]

theorem lookupNode_filterOut (m : NodeMap) (dead : List Nat) (j : Nat) :
    lookupNode (m.filter (fun e => !(dead.contains e.1))) j =
      if dead.contains j then none else lookupNode m j := by
  induction m with
  | nil => by_cases h : j ∈ dead <;> simp [lookupNode_nil, h]
  | cons e m ih =>
    by_cases hd : e.1 ∈ dead
    · rw [List.filter_cons_of_neg (by simp [hd]), ih]
      by_cases hej : e.1 = j
      · subst hej
        simp [hd]
      · by_cases h : j ∈ dead <;> simp [h, lookupNode_cons, hej]
    · rw [List.filter_cons_of_pos (by simp [hd]), lookupNode_cons]
      by_cases hej : e.1 = j
      · subst hej
        simp [hd, lookupNode_cons]
      · rw [if_neg hej, ih]
        by_cases h : j ∈ dead <;> simp [h, lookupNode_cons, hej]

theorem mapKeys_filterOut (m : NodeMap) (dead : List Nat) :
    mapKeys (m.filter (fun e => !(dead.contains e.1))) =
      (mapKeys m).filter (fun k => !(dead.contains k)) := by
  induction m with
  | nil => rfl
  | cons e m ih =>
    by_cases hd : e.1 ∈ dead
    · rw [List.filter_cons_of_neg (by simp [hd]), mapKeys_cons,
        List.filter_cons_of_neg (by simp [hd])]
      exact ih
    · rw [List.filter_cons_of_pos (by simp [hd]), mapKeys_cons, mapKeys_cons,
        List.filter_cons_of_pos (by simp [hd])]
      exact congrArg _ ih

theorem objAssign_fresh {m : NodeMap} {extra : NodeMap}
    (hfresh : ∀ e ∈ extra, lookupNode m e.1 = none)
    (hnd : (extra.map (fun e => e.1)).Nodup) :
    objAssign m extra = m ++ extra := by
  induction extra generalizing m with
  | nil => simp [objAssign]
  | cons e rest ih =>
    simp only [objAssign, List.foldl_cons]
    rw [setKey_fresh e.2 (hfresh e (List.mem_cons_self e rest))]
    simp only [List.map_cons, List.nodup_cons] at hnd
    have : (objAssign (m ++ [(e.1, e.2)]) rest) = (m ++ [(e.1, e.2)]) ++ rest := by
      apply ih
      · intro e2 h2
        rw [lookupNode_append]
        rw [hfresh e2 (List.mem_cons_of_mem e h2)]
        have : e.1 ≠ e2.1 := by
          intro hc
          exact hnd.1 (hc ▸ (List.mem_map.mpr ⟨e2, h2, rfl⟩))
        simp [lookupNode_cons, this, lookupNode_nil]
      · exact hnd.2
    simpa [objAssign, List.append_assoc] using this

theorem insertPos_perm (l : List Nat) (pos : Option Nat) (x : Nat) :
    List.Perm (insertPos l pos x) (x :: l) := by
  cases pos with
  | none => simp [insertPos, @List.perm_append_comm _ l [x]]
  | some i =>
    simp only [insertPos]
    have h1 : List.Perm (l.take i ++ [x] ++ l.drop i) ([x] ++ l.take i ++ l.drop i) :=
      (@List.perm_append_comm _ (l.take i) [x]).append_right _
    have h2 : [x] ++ l.take i ++ l.drop i = x :: l := by
      simp [List.take_append_drop]
    exact h2 ▸ h1

theorem mem_insertPos (l : List Nat) (pos : Option Nat) (x y : Nat) :
    y ∈ insertPos l pos x ↔ y = x ∨ y ∈ l := by
  rw [(insertPos_perm l pos x).mem_iff]
  simp

theorem insertPos_nodup {l : List Nat} {x : Nat} (pos : Option Nat)
    (hnd : l.Nodup) (hx : x ∉ l) : (insertPos l pos x).Nodup := by
  exact (insertPos_perm l pos x).nodup_iff.mpr (List.nodup_cons.mpr ⟨hx, hnd⟩)

theorem count_insertPos (l : List Nat) (pos : Option Nat) (x y : Nat) :
    (insertPos l pos x).count y = (x :: l).count y :=
  (insertPos_perm l pos x).count_eq y

/-! History lemmas: how `undo`, `redo` and checkpointed mutations act
on the `past`/`future` stacks. -/

theorem Tree.eta (t : Tree) :
    ({ nodes := t.nodes, rootNodeIds := t.rootNodeIds } : Tree) = t := rfl

theorem undoOp_concat (s : AppState) (P : List Tree) (x : Tree)
    (hp : s.past = P ++ [x]) :
    undoOp s =
      { s with
        nodes := x.nodes
        rootNodeIds := x.rootNodeIds
        past := P
        future := s.future ++ [Tree.ofState s] } := by
  unfold undoOp
  rw [hp, List.getLast?_concat, List.dropLast_concat]
  rfl

theorem undoOp_iter (Q : List Tree) (x : Tree) :
    ∀ (P : List Tree) (s : AppState), s.past = P ++ x :: Q →
      undoOp^[Q.length + 1] s =
        { s with
          nodes := x.nodes
          rootNodeIds := x.rootNodeIds
          past := P
          future := s.future ++ Tree.ofState s :: Q.reverse } := by
  induction Q using List.reverseRecOn with
  | nil =>
    intro P s hp
    simpa using undoOp_concat s P x (by simpa using hp)
  | append_singleton Q0 y ih =>
    intro P s hp
    have hp2 : s.past = (P ++ x :: Q0) ++ [y] := by simp [hp]
    have hlen : (Q0 ++ [y]).length + 1 = (Q0.length + 1) + 1 := by simp
    rw [hlen, Function.iterate_succ_apply, undoOp_concat s (P ++ x :: Q0) y hp2,
      ih P _ (by simp)]
    simp [Tree.ofState]

theorem redoOp_concat (s : AppState) (F : List Tree) (x : Tree)
    (hf : s.future = F ++ [x]) :
    redoOp s =
      { s with
        nodes := x.nodes
        rootNodeIds := x.rootNodeIds
        future := F
        past := s.past ++ [Tree.ofState s] } := by
  unfold redoOp
  rw [hf, List.getLast?_concat, List.dropLast_concat]
  rfl

theorem redoOp_iter (Q : List Tree) (x : Tree) :
    ∀ (F : List Tree) (s : AppState), s.future = F ++ x :: Q →
      redoOp^[Q.length + 1] s =
        { s with
          nodes := x.nodes
          rootNodeIds := x.rootNodeIds
          future := F
          past := s.past ++ Tree.ofState s :: Q.reverse } := by
  induction Q using List.reverseRecOn with
  | nil =>
    intro F s hf
    simpa using redoOp_concat s F x (by simpa using hf)
  | append_singleton Q0 y ih =>
    intro F s hf
    have hf2 : s.future = (F ++ x :: Q0) ++ [y] := by simp [hf]
    have hlen : (Q0 ++ [y]).length + 1 = (Q0.length + 1) + 1 := by simp
    rw [hlen, Function.iterate_succ_apply, redoOp_concat s (F ++ x :: Q0) y hf2,
      ih F _ (by simp)]
    simp [Tree.ofState]

theorem mutTrace_length (t : Tree) (fs : List (Tree → Tree)) :
    (mutTrace t fs).length = fs.length := by
  induction fs generalizing t with
  | nil => rfl
  | cons f fs ih => simp [mutTrace, ih]

theorem applyCheckpointed_spec (s : AppState) (f : Tree → Tree)
    (hen : s.currentSession.historyEnabled = true)
    (hlen : s.past.length + 1 ≤ MAX_HISTORY_ITEMS) :
    applyCheckpointed s f =
      { s with
        nodes := (f (Tree.ofState s)).nodes
        rootNodeIds := (f (Tree.ofState s)).rootNodeIds
        past := s.past ++ [f (Tree.ofState s)]
        future := [] } := by
  unfold applyCheckpointed saveHistoryOp
  simp only [hen, Bool.not_true, Bool.false_eq_true, if_false]
  have hno : ¬ (s.past ++
      [{ nodes := (f (Tree.ofState s)).nodes,
         rootNodeIds := (f (Tree.ofState s)).rootNodeIds : Tree }]).length >
      MAX_HISTORY_ITEMS := by
    simp only [List.length_append, List.length_cons, List.length_nil]
    omega
  simp only [if_neg hno]

theorem applyMutations_spec :
    ∀ (fs : List (Tree → Tree)) (s : AppState),
      s.currentSession.historyEnabled = true →
      s.past.length + fs.length ≤ MAX_HISTORY_ITEMS → fs ≠ [] →
      applyMutations s fs =
        { s with
          nodes := ((mutTrace (Tree.ofState s) fs).getLastD (Tree.ofState s)).nodes
          rootNodeIds :=
            ((mutTrace (Tree.ofState s) fs).getLastD (Tree.ofState s)).rootNodeIds
          past := s.past ++ mutTrace (Tree.ofState s) fs
          future := [] } := by
  intro fs
  induction fs with
  | nil => intro s _ _ h; exact absurd rfl h
  | cons f fs ih =>
    intro s hen hlen _
    have hstep := applyCheckpointed_spec s f hen (by
      simp only [List.length_cons] at hlen
      omega)
    by_cases hfs : fs = []
    · subst hfs
      show applyCheckpointed s f = _
      rw [hstep]
      simp [mutTrace]
    · have hrun : applyMutations s (f :: fs) =
          applyMutations (applyCheckpointed s f) fs := rfl
      rw [hrun, hstep]
      rw [ih _ (by exact hen) (by
        simp only [List.length_append, List.length_cons, List.length_nil]
        simp only [List.length_cons] at hlen
        omega) hfs]
      simp only [mutTrace, Tree.ofState, Tree.eta, List.getLastD_cons,
        List.append_assoc, List.singleton_append]

/-- C1, counterexample to the claim as stated: one checkpointed
structural mutation (a `createNode` on the initial state, which has
empty history), followed by one `undo`, does NOT return the tree to its
pre-mutation state — `saveHistory` pushes the post-mutation tree, so the
first `undo` restores the state it started from. -/
theorem C1_counterexample :
    ¬ ((undoOp (applyOp initialState (Op.createNode none {} 0))).nodes =
         initialState.nodes ∧
       (undoOp (applyOp initialState (Op.createNode none {} 0))).rootNodeIds =
         initialState.rootNodeIds) := by
  decide

/-- C1, amended: starting from any state with empty history and history
enabled, for any sequence of `n ≥ 1` checkpointed structural mutations
(`n` at most MAX_HISTORY_ITEMS), `undo` applied `n` times returns the
tree to its post-M1 state (the pre-M1 state is unreachable, since every
checkpoint stores the post-mutation tree), and `redo` applied `n` times
then returns the whole store, node-for-node, to its post-Mn state. -/
theorem C1_undo_redo_roundtrip (s : AppState) (fs : List (Tree → Tree))
    (hen : s.currentSession.historyEnabled = true)
    (hpast : s.past = []) (hfut : s.future = [])
    (hne : fs ≠ []) (hlen : fs.length ≤ MAX_HISTORY_ITEMS) :
    (undoOp^[fs.length] (applyMutations s fs)).nodes =
      ((mutTrace (Tree.ofState s) fs).headD (Tree.ofState s)).nodes ∧
    (undoOp^[fs.length] (applyMutations s fs)).rootNodeIds =
      ((mutTrace (Tree.ofState s) fs).headD (Tree.ofState s)).rootNodeIds ∧
    redoOp^[fs.length] (undoOp^[fs.length] (applyMutations s fs)) =
      applyMutations s fs := by
  have hrun := applyMutations_spec fs s hen
    (by rw [hpast]; simpa using hlen) hne
  have hlentr := mutTrace_length (Tree.ofState s) fs
  cases htr : mutTrace (Tree.ofState s) fs with
  | nil =>
    rw [htr] at hlentr
    exact absurd (List.length_eq_zero.mp hlentr.symm) hne
  | cons T1 rest =>
    rw [htr] at hrun hlentr
    have hcount : fs.length = rest.length + 1 := by simpa using hlentr.symm
    have hundo := undoOp_iter rest T1 [] (applyMutations s fs)
      (by rw [hrun]; simp [hpast])
    rw [hcount, hundo]
    refine ⟨by simp [htr], by simp [htr], ?_⟩
    have hfut2 : (applyMutations s fs).future = [] := by rw [hrun]
    have hredo := redoOp_iter rest.reverse (Tree.ofState (applyMutations s fs)) []
      ({ applyMutations s fs with
          nodes := T1.nodes
          rootNodeIds := T1.rootNodeIds
          past := []
          future := (applyMutations s fs).future ++
            Tree.ofState (applyMutations s fs) :: rest.reverse })
      (by simp [hfut2])
    rw [show rest.length = rest.reverse.length from (List.length_reverse rest).symm,
      hredo]
    rw [hrun]
    simp [Tree.ofState, Tree.eta, hpast]

/-- C1 witness: the amended round trip evaluated for one concrete
mutation on the initial state. -/
theorem C1_roundtrip_witness :
    redoOp^[1] (undoOp^[1] (applyMutations initialState [fun t => t])) =
      applyMutations initialState [fun t => t] :=
  (C1_undo_redo_roundtrip initialState [fun t => t] rfl rfl rfl
    (by simp) (by decide)).2.2

/-- C7: `createNode` depth rejection is atomic.  Whenever the level the
new node would receive (parent's level plus one, or zero for a null
parent) reaches MAX_DEPTH = 6, `createNode` returns `null` and the whole
store state — node map, root sequence and history stacks included — is
exactly unchanged. -/
theorem C7_createNode_depth_rejection_atomic (s : AppState)
    (parentId : Option Nat) (data : NodePatch) (now : Nat)
    (h : createLevel s parentId ≥ MAX_DEPTH) :
    createNodeOp s parentId data now = (none, s) := by
  unfold createNodeOp
  simp only [ge_iff_le, if_pos h]

/-- C7 witness: on the spec's own scenario — a chain A→B→C→D→E→F at
levels 0..5 — creating a child of F is rejected with the state, and in
particular the node count, unchanged. -/
theorem C7_witness :
    createLevel
        (applyOps initialState
          [Op.createNode none {} 0, Op.createNode (some 1) {} 1,
           Op.createNode (some 2) {} 2, Op.createNode (some 3) {} 3,
           Op.createNode (some 4) {} 4, Op.createNode (some 5) {} 5])
        (some 6) ≥ MAX_DEPTH ∧
    createNodeOp
        (applyOps initialState
          [Op.createNode none {} 0, Op.createNode (some 1) {} 1,
           Op.createNode (some 2) {} 2, Op.createNode (some 3) {} 3,
           Op.createNode (some 4) {} 4, Op.createNode (some 5) {} 5])
        (some 6) {} 99 =
      (none,
        applyOps initialState
          [Op.createNode none {} 0, Op.createNode (some 1) {} 1,
           Op.createNode (some 2) {} 2, Op.createNode (some 3) {} 3,
           Op.createNode (some 4) {} 4, Op.createNode (some 5) {} 5]) :=
  ⟨by decide,
    C7_createNode_depth_rejection_atomic _ (some 6) {} 99 (by decide)⟩

theorem canMoveNode_of_absent {nodes : NodeMap} {nodeId : Nat}
    (h : lookupNode nodes nodeId = none) (q : Option Nat) (d : Int) :
    canMoveNode nodeId q nodes d = false := by
  unfold canMoveNode
  split_ifs with h1 h2
  · rfl
  · rfl
  · rw [h]

/-- C8, counterexample to the claim as stated: `moveNode` called with a
present node and a non-null `newParentId` absent from the node map does
NOT return silently — `canMoveNode` accepts the move (the absent
parent's depth computes to −1) and `moveNode` then throws a `TypeError`
reading `.level` of `undefined`. -/
theorem C8_counterexample :
    moveNodeOp (applyOp initialState (Op.createNode none {} 0)) 1 (some 99)
      none = Except.error () := by
  decide

/-- C8, amended: `updateNode`, `deleteNode` and `moveNode` called with an
id absent from the node map are silent no-ops leaving the whole state
unchanged; `moveNode` with a present node id and an absent non-null
`newParentId`, however, either rejects the move (no-op) or throws, and
even in the throwing case the committed state is unchanged. -/
theorem C8_missing_entity_noop (s : AppState) (id tgt : Nat)
    (u : NodePatch) (now : Nat) (pos : Option Nat)
    (hid : lookupNode s.nodes id = none)
    (htgt : lookupNode s.nodes tgt = none) :
    updateNodeOp s id u now = s ∧
    deleteNodeOp s id = s ∧
    (∀ q, moveNodeOp s id q pos = Except.ok s) ∧
    (∀ x, moveNodeOp s x (some tgt) pos = Except.ok s ∨
      moveNodeOp s x (some tgt) pos = Except.error ()) := by
  refine ⟨?_, ?_, ?_, ?_⟩
  · unfold updateNodeOp
    rw [hid]
    simp
  · unfold deleteNodeOp
    rw [hid]
  · intro q
    unfold moveNodeOp
    rw [canMoveNode_of_absent hid q]
    simp
  · intro x
    cases hc : canMoveNode x (some tgt) s.nodes (MAX_DEPTH : Int) with
    | false =>
      left
      unfold moveNodeOp
      rw [hc]
      simp
    | true =>
      unfold moveNodeOp
      rw [hc]
      cases hx : lookupNode s.nodes x with
      | none => left; simp
      | some node =>
        right
        simp only [Bool.not_true, Bool.false_eq_true, if_false]
        have hkey : ∀ op f, lookupNode (updateKey s.nodes op f) tgt = none := by
          intro op f
          rw [lookupNode_updateKey]
          by_cases h : tgt = op
          · rw [if_pos h, ← h, htgt]
            rfl
          · rw [if_neg h, htgt]
        cases hp : node.parentId with
        | none => simp [htgt]
        | some op =>
          by_cases hop : (lookupNode s.nodes op).isSome
          · simp [hop, hkey]
          · simp [hop, htgt]

/-- C8 witness: the amended statement evaluated on a one-node state with
absent ids 50 (operand) and 99 (move target). -/
theorem C8_witness :
    updateNodeOp (applyOp initialState (Op.createNode none {} 0)) 50 {} 7 =
      applyOp initialState (Op.createNode none {} 0) ∧
    deleteNodeOp (applyOp initialState (Op.createNode none {} 0)) 50 =
      applyOp initialState (Op.createNode none {} 0) ∧
    moveNodeOp (applyOp initialState (Op.createNode none {} 0)) 50 (some 1)
        none = Except.ok (applyOp initialState (Op.createNode none {} 0)) ∧
    (moveNodeOp (applyOp initialState (Op.createNode none {} 0)) 1 (some 99)
        none = Except.ok (applyOp initialState (Op.createNode none {} 0)) ∨
     moveNodeOp (applyOp initialState (Op.createNode none {} 0)) 1 (some 99)
        none = Except.error ()) :=
  ⟨(C8_missing_entity_noop _ 50 99 {} 7 none (by decide) (by decide)).1,
   (C8_missing_entity_noop _ 50 99 {} 7 none (by decide) (by decide)).2.1,
   (C8_missing_entity_noop _ 50 99 {} 7 none (by decide) (by decide)).2.2.1
     (some 1),
   (C8_missing_entity_noop _ 50 99 {} 7 none (by decide) (by decide)).2.2.2 1⟩

/-! Snapshot registry lemmas (stable sort by descending `createdAt` and
the eviction loop of `createSnapshot`). -/

theorem insertByCreatedAtDesc_perm (x : Snapshot) (l : List Snapshot) :
    List.Perm (insertByCreatedAtDesc x l) (x :: l) := by
  induction l with
  | nil => simp [insertByCreatedAtDesc]
  | cons y ys ih =>
    unfold insertByCreatedAtDesc
    by_cases h : x.createdAt < y.createdAt
    · simp only [if_pos h]
      exact (ih.cons y).trans (List.Perm.swap x y ys)
    · simp [h]

theorem sortByCreatedAtDesc_perm (l : List Snapshot) :
    List.Perm (sortByCreatedAtDesc l) l := by
  induction l with
  | nil => simp [sortByCreatedAtDesc]
  | cons y ys ih =>
    unfold sortByCreatedAtDesc at *
    exact (insertByCreatedAtDesc_perm y (List.foldr insertByCreatedAtDesc [] ys)).trans
      (ih.cons y)

theorem insertByCreatedAtDesc_sorted (x : Snapshot) (l : List Snapshot)
    (hs : l.Pairwise (fun a b => b.createdAt ≤ a.createdAt)) :
    (insertByCreatedAtDesc x l).Pairwise (fun a b => b.createdAt ≤ a.createdAt) := by
  induction l with
  | nil => simp [insertByCreatedAtDesc]
  | cons y ys ih =>
    rw [List.pairwise_cons] at hs
    unfold insertByCreatedAtDesc
    by_cases h : x.createdAt < y.createdAt
    · rw [if_pos h, List.pairwise_cons]
      constructor
      · intro z hz
        rcases List.mem_cons.mp ((insertByCreatedAtDesc_perm x ys).mem_iff.mp hz) with
          hz | hz
        · exact hz ▸ le_of_lt h
        · exact hs.1 z hz
      · exact ih hs.2
    · rw [if_neg h, List.pairwise_cons]
      constructor
      · intro z hz
        rcases List.mem_cons.mp hz with hz | hz
        · exact hz ▸ le_of_not_lt h
        · exact le_trans (hs.1 z hz) (le_of_not_lt h)
      · exact List.pairwise_cons.mpr hs

theorem sortByCreatedAtDesc_sorted (l : List Snapshot) :
    (sortByCreatedAtDesc l).Pairwise (fun a b => b.createdAt ≤ a.createdAt) := by
  induction l with
  | nil => simp [sortByCreatedAtDesc]
  | cons y ys ih => exact insertByCreatedAtDesc_sorted y _ ih

theorem sortByCreatedAtDesc_concat_max (l : List Snapshot) (x : Snapshot)
    (h : ∀ y ∈ l, y.createdAt < x.createdAt) :
    sortByCreatedAtDesc (l ++ [x]) = x :: sortByCreatedAtDesc l := by
  induction l with
  | nil => rfl
  | cons y ys ih =>
    have hy := h y (List.mem_cons_self y ys)
    show insertByCreatedAtDesc y (sortByCreatedAtDesc (ys ++ [x])) = _
    rw [ih (fun z hz => h z (List.mem_cons_of_mem y hz))]
    show (if y.createdAt < x.createdAt then
            x :: insertByCreatedAtDesc y (sortByCreatedAtDesc ys)
          else y :: x :: sortByCreatedAtDesc ys) = _
    rw [if_pos hy]
    rfl

theorem eraseLoop_eq_filter (dels : List Snapshot) :
    ∀ snaps : List (Nat × Snapshot),
      dels.foldl (fun acc del => acc.filter (fun e => !(e.1 == del.id))) snaps =
        snaps.filter (fun e => !((dels.map (fun d => d.id)).contains e.1)) := by
  induction dels with
  | nil => intro snaps; simp
  | cons d ds ih =>
    intro snaps
    rw [List.foldl_cons, ih, List.filter_filter]
    apply List.filter_congr
    intro e _
    simp only [List.map_cons, List.contains_cons]
    rw [Bool.not_or, Bool.and_comm]

theorem lookupSnapshot_eq_some_of_mem {m : List (Nat × Snapshot)} {j : Nat}
    {n : Snapshot} (hnd : (m.map (fun e => e.1)).Nodup) (h : (j, n) ∈ m) :
    lookupSnapshot m j = some n := by
  induction m with
  | nil => simp at h
  | cons e m ih =>
    rw [List.map_cons, List.nodup_cons] at hnd
    rcases List.mem_cons.mp h with h1 | h1
    · rw [← h1]
      simp [lookupSnapshot, List.find?_cons]
    · have hne : e.1 ≠ j := by
        intro he
        exact hnd.1 (he ▸ (List.mem_map.mpr ⟨(j, n), h1, rfl⟩))
      have : (e.1 == j) = false := by simp [hne]
      simp only [lookupSnapshot, List.find?_cons, this]
      exact ih hnd.2 h1

theorem mem_of_lookupSnapshot_eq_some {m : List (Nat × Snapshot)} {j : Nat}
    {n : Snapshot} (h : lookupSnapshot m j = some n) : (j, n) ∈ m := by
  induction m with
  | nil => simp [lookupSnapshot] at h
  | cons e m ih =>
    by_cases he : e.1 = j
    · have : (e.1 == j) = true := by simp [he]
      simp only [lookupSnapshot, List.find?_cons, this] at h
      injection h with h2
      have : (j, n) = e := by
        cases e
        simp only [Prod.mk.injEq]
        exact ⟨he.symm, h2.symm⟩
      exact this ▸ List.mem_cons_self _ _
    · have : (e.1 == j) = false := by simp [he]
      simp only [lookupSnapshot, List.find?_cons, this] at h
      exact List.mem_cons_of_mem _ (ih h)

set_option maxRecDepth 40000 in
/-- C10, counterexample to the claim as stated: after 50 snapshots taken
within one clock tick (`createdAt` all equal), a 51st `createSnapshot` in
the same tick evicts the NEWLY CREATED snapshot, not an old one — the
stable sort places the new snapshot last among equal timestamps, so it is
the entry trimmed away. -/
theorem C10_counterexample :
    lookupSnapshot
      (createSnapshotOp
        (applyOps initialState
          (List.replicate 50 (Op.createSnapshot "s" none 7)))
        "s" none 7).snapshots 51 = none := by
  decide

/-- C10, amended: after every `createSnapshot` call — unconditionally —
the registry holds at most MAX_SNAPSHOTS = 50 entries and the evicted
snapshots are ones with the oldest `createdAt` timestamps (no evicted
snapshot is newer than any retained one); the newly created snapshot is
retained provided its `createdAt` is strictly greater than every
existing snapshot's (ties, or an imported future-dated registry, can
instead evict the new snapshot, as the counterexample shows). -/
theorem C10_snapshot_registry_bounded (s : AppState) (name : String)
    (desc : Option String) (now : Nat)
    (hnodup : (s.snapshots.map (fun e => e.1)).Nodup)
    (hconsist : ∀ e ∈ s.snapshots, e.2.id = e.1)
    (hbelow : ∀ e ∈ s.snapshots, e.1 < s.nextId) :
    (createSnapshotOp s name desc now).snapshots.length ≤ MAX_SNAPSHOTS ∧
    ((∀ e ∈ s.snapshots, e.2.createdAt < now) →
      (lookupSnapshot (createSnapshotOp s name desc now).snapshots
        s.nextId).isSome = true) ∧
    (∀ e ∈ (createSnapshotOp s name desc now).snapshots,
      ∀ e2 ∈ s.snapshots,
        lookupSnapshot (createSnapshotOp s name desc now).snapshots e2.1 = none →
        e2.2.createdAt ≤ e.2.createdAt) ∧
    (lookupSnapshot (createSnapshotOp s name desc now).snapshots s.nextId = none →
      ∀ e ∈ (createSnapshotOp s name desc now).snapshots,
        now ≤ e.2.createdAt) := by
  classical
  set snap : Snapshot :=
    { id := s.nextId
      name := name
      description := desc
      sessionId := s.currentSession.id
      nodes := s.nodes
      rootNodeIds := s.rootNodeIds
      createdAt := now } with hsnap
  set snaps1 : List (Nat × Snapshot) := s.snapshots ++ [(s.nextId, snap)] with hsnaps1
  have hvals : snaps1.map (fun e => e.2) =
      s.snapshots.map (fun e => e.2) ++ [snap] := by
    simp [hsnaps1]
  have hkeys1 : (snaps1.map (fun e => e.1)).Nodup := by
    rw [hsnaps1]
    rw [List.map_append, List.nodup_append]
    refine ⟨hnodup, by simp, ?_⟩
    intro a ha hb
    simp only [List.map_cons, List.map_nil, List.mem_singleton] at hb
    subst hb
    rcases List.mem_map.mp ha with ⟨e, he, heq⟩
    exact absurd heq (Nat.ne_of_lt (hbelow e he))
  have hconsist1 : ∀ e ∈ snaps1, e.2.id = e.1 := by
    intro e he
    rw [hsnaps1] at he
    rcases List.mem_append.mp he with h | h
    · exact hconsist e h
    · simp only [List.mem_singleton] at h
      rw [h]
  have hmem1 : (s.nextId, snap) ∈ snaps1 := by
    rw [hsnaps1]
    exact List.mem_append.mpr (Or.inr (List.mem_singleton.mpr rfl))
  have hop : (createSnapshotOp s name desc now).snapshots =
      if (sortByCreatedAtDesc (snaps1.map (fun e => e.2))).length > MAX_SNAPSHOTS
      then snaps1.filter (fun e =>
        !(((sortByCreatedAtDesc (snaps1.map (fun e => e.2))).drop
            MAX_SNAPSHOTS).map (fun d => d.id)).contains e.1)
      else snaps1 := by
    show (if (sortByCreatedAtDesc (snaps1.map (fun e => e.2))).length > MAX_SNAPSHOTS
        then ((sortByCreatedAtDesc (snaps1.map (fun e => e.2))).drop
            MAX_SNAPSHOTS).foldl
          (fun acc del => acc.filter (fun e => !(e.1 == del.id))) snaps1
        else snaps1) = _
    rw [eraseLoop_eq_filter]
  by_cases htrim :
      (sortByCreatedAtDesc (snaps1.map (fun e => e.2))).length > MAX_SNAPSHOTS
  · -- eviction happens
    rw [hop, if_pos htrim]
    set dropped := (sortByCreatedAtDesc (snaps1.map (fun e => e.2))).drop
      MAX_SNAPSHOTS with hdropped
    set dropIds := dropped.map (fun d => d.id) with hdropIds
    set kept := snaps1.filter (fun e => !(dropIds.contains e.1)) with hkept
    have hkeptsub : ∀ e ∈ kept, e ∈ snaps1 ∧ e.1 ∉ dropIds := by
      intro e he
      rw [hkept] at he
      have := List.mem_filter.mp he
      refine ⟨this.1, ?_⟩
      have h2 := this.2
      simp only [Bool.not_eq_true'] at h2
      simpa using h2
    have hkeptkeys : (kept.map (fun e => e.1)).Nodup := by
      rw [hkept]
      exact (List.filter_sublist _).map _ |>.nodup hkeys1
    have hvalnodup : ((snaps1.map (fun e => e.2)).map
        (fun v => v.id)).Nodup := by
      have : (snaps1.map (fun e => e.2)).map (fun v => v.id) =
          snaps1.map (fun e => e.1) := by
        rw [List.map_map]
        exact List.map_congr_left hconsist1
      rw [this]
      exact hkeys1
    have hkeeptake : ∀ e ∈ kept, e.2 ∈
        (sortByCreatedAtDesc (snaps1.map (fun e => e.2))).take MAX_SNAPSHOTS := by
      intro e he
      rcases hkeptsub e he with ⟨hin, hid⟩
      have hval : e.2 ∈ sortByCreatedAtDesc (snaps1.map (fun e => e.2)) :=
        (sortByCreatedAtDesc_perm _).mem_iff.mpr (List.mem_map.mpr ⟨e, hin, rfl⟩)
      rw [← List.take_append_drop MAX_SNAPSHOTS
        (sortByCreatedAtDesc (snaps1.map (fun e => e.2)))] at hval
      rcases List.mem_append.mp hval with h | h
      · exact h
      · exfalso
        apply hid
        rw [hdropIds]
        exact List.mem_map.mpr ⟨e.2, h, (hconsist1 e hin)⟩
    refine ⟨?_, ?_, ?_, ?_⟩
    · -- the bound
      have hmapnd : (kept.map (fun e => e.2)).Nodup := by
        apply List.Nodup.of_map (fun v => v.id)
        have : (kept.map (fun e => e.2)).map (fun v => v.id) =
            kept.map (fun e => e.1) := by
          rw [List.map_map]
          refine List.map_congr_left (fun (e : Nat × Snapshot) he => ?_)
          exact hconsist1 e (hkeptsub e he).1
        rw [this]
        exact hkeptkeys
      have hsub : kept.map (fun e => e.2) ⊆
          (sortByCreatedAtDesc (snaps1.map (fun e => e.2))).take MAX_SNAPSHOTS := by
        intro v hv
        rcases List.mem_map.mp hv with ⟨e, he, rfl⟩
        exact hkeeptake e he
      have hle := (List.subperm_of_subset hmapnd hsub).length_le
      rw [List.length_map] at hle
      exact hle.trans (by simpa using List.length_take_le MAX_SNAPSHOTS _)
    · -- the new snapshot is retained when strictly newest
      intro hfresh
      have hsorted : sortByCreatedAtDesc (snaps1.map (fun e => e.2)) =
          snap :: sortByCreatedAtDesc (s.snapshots.map (fun e => e.2)) := by
        rw [hvals]
        apply sortByCreatedAtDesc_concat_max
        intro y hy
        rcases List.mem_map.mp hy with ⟨e, he, rfl⟩
        exact hfresh e he
      have hdropold : ∀ d ∈ dropped, ∃ e ∈ s.snapshots, d = e.2 := by
        intro d hd
        rw [hdropped, hsorted] at hd
        have hd2 : d ∈ sortByCreatedAtDesc (s.snapshots.map (fun e => e.2)) := by
          have hsub : (snap :: sortByCreatedAtDesc
              (s.snapshots.map (fun e => e.2))).drop MAX_SNAPSHOTS ⊆
              sortByCreatedAtDesc (s.snapshots.map (fun e => e.2)) := by
            rw [show MAX_SNAPSHOTS = 49 + 1 from rfl, List.drop_succ_cons]
            exact (List.drop_sublist _ _).subset
          exact hsub hd
        rcases List.mem_map.mp ((sortByCreatedAtDesc_perm _).mem_iff.mp hd2) with
          ⟨e, he, rfl⟩
        exact ⟨e, he, rfl⟩
      have hnextfresh : s.nextId ∉ dropIds := by
        intro hmem
        rcases List.mem_map.mp hmem with ⟨d, hd, hdid⟩
        rcases hdropold d hd with ⟨e, he, rfl⟩
        rw [hconsist e he] at hdid
        exact Nat.ne_of_lt (hbelow e he) hdid
      have hkeptnew : (s.nextId, snap) ∈ kept := by
        rw [hkept]
        refine List.mem_filter.mpr ⟨hmem1, ?_⟩
        simpa using hnextfresh
      rw [lookupSnapshot_eq_some_of_mem hkeptkeys hkeptnew]
      rfl
    · -- evicted snapshots are the oldest
      intro e he e2 he2 hlook
      have he2in : e2 ∈ snaps1 := by
        rw [hsnaps1]
        exact List.mem_append.mpr (Or.inl he2)
      have he2drop : e2.1 ∈ dropIds := by
        by_contra hnot
        have : e2 ∈ kept := by
          rw [hkept]
          exact List.mem_filter.mpr ⟨he2in, by simpa using hnot⟩
        have : lookupSnapshot kept e2.1 = some e2.2 := by
          have he2eta : (e2.1, e2.2) ∈ kept := by
            simpa using this
          exact lookupSnapshot_eq_some_of_mem hkeptkeys he2eta
        rw [hlook] at this
        exact Option.noConfusion this
      rcases List.mem_map.mp he2drop with ⟨d, hd, hdid⟩
      have hdval : d ∈ snaps1.map (fun e => e.2) := by
        have hd2 : d ∈ sortByCreatedAtDesc (snaps1.map (fun e => e.2)) := by
          rw [hdropped] at hd
          exact (List.drop_sublist MAX_SNAPSHOTS
            (sortByCreatedAtDesc (snaps1.map (fun e => e.2)))).subset hd
        exact (sortByCreatedAtDesc_perm _).mem_iff.mp hd2
      have he2val : e2.2 ∈ snaps1.map (fun e => e.2) :=
        List.mem_map.mpr ⟨e2, he2in, rfl⟩
      have hde2 : d = e2.2 := by
        apply List.inj_on_of_nodup_map hvalnodup hdval he2val
        rw [hdid, hconsist1 e2 he2in]
      have hsort := sortByCreatedAtDesc_sorted (snaps1.map (fun e => e.2))
      rw [← List.take_append_drop MAX_SNAPSHOTS
        (sortByCreatedAtDesc (snaps1.map (fun e => e.2)))] at hsort
      have hpar := List.pairwise_append.mp hsort
      rw [hdropped] at hd
      have := hpar.2.2 e.2 (hkeeptake e he) d hd
      rw [hde2] at this
      exact this
    · -- when the new snapshot itself is evicted, every retained one is newer
      intro hlooknew e he
      have hnextdrop : s.nextId ∈ dropIds := by
        by_contra hnot
        have hkn : (s.nextId, snap) ∈ kept := by
          rw [hkept]
          refine List.mem_filter.mpr ⟨hmem1, ?_⟩
          simpa using hnot
        have hsome : lookupSnapshot kept s.nextId = some snap :=
          lookupSnapshot_eq_some_of_mem hkeptkeys hkn
        rw [hlooknew] at hsome
        exact Option.noConfusion hsome
      rcases List.mem_map.mp hnextdrop with ⟨d, hd, hdid⟩
      have hdval : d ∈ snaps1.map (fun e => e.2) := by
        have hd2 : d ∈ sortByCreatedAtDesc (snaps1.map (fun e => e.2)) := by
          rw [hdropped] at hd
          exact (List.drop_sublist MAX_SNAPSHOTS
            (sortByCreatedAtDesc (snaps1.map (fun e => e.2)))).subset hd
        exact (sortByCreatedAtDesc_perm _).mem_iff.mp hd2
      have hsnapval : snap ∈ snaps1.map (fun e => e.2) :=
        List.mem_map.mpr ⟨(s.nextId, snap), hmem1, rfl⟩
      have hdsnap : d = snap := by
        apply List.inj_on_of_nodup_map hvalnodup hdval hsnapval
        rw [hdid, hsnap]
      have hsort := sortByCreatedAtDesc_sorted (snaps1.map (fun e => e.2))
      rw [← List.take_append_drop MAX_SNAPSHOTS
        (sortByCreatedAtDesc (snaps1.map (fun e => e.2)))] at hsort
      have hpar := List.pairwise_append.mp hsort
      rw [hdropped] at hd
      have hle := hpar.2.2 e.2 (hkeeptake e he) d hd
      rw [hdsnap] at hle
      have hsc : snap.createdAt = now := by
        rw [hsnap]
      rw [hsc] at hle
      exact hle
  · -- no eviction
    rw [hop, if_neg htrim]
    refine ⟨?_, ?_, ?_, ?_⟩
    · have hlen : snaps1.length =
          (sortByCreatedAtDesc (snaps1.map (fun e => e.2))).length := by
        rw [(sortByCreatedAtDesc_perm _).length_eq, List.length_map]
      omega
    · intro hfresh2
      rw [lookupSnapshot_eq_some_of_mem hkeys1 hmem1]
      rfl
    · intro e he e2 he2 hlook
      exfalso
      have he2in : (e2.1, e2.2) ∈ snaps1 := by
        rw [hsnaps1]
        exact List.mem_append.mpr (Or.inl (by simpa using he2))
      have := lookupSnapshot_eq_some_of_mem hkeys1 he2in
      rw [hlook] at this
      exact Option.noConfusion this
    · intro hlooknew
      exfalso
      have hsome : lookupSnapshot snaps1 s.nextId = some snap :=
        lookupSnapshot_eq_some_of_mem hkeys1 hmem1
      rw [hlooknew] at hsome
      exact Option.noConfusion hsome

/-- C10 witness: the amended statement evaluated on a state holding one
snapshot taken at time 5, with a new snapshot at time 9. -/
theorem C10_witness :
    ((createSnapshotOp (applyOp initialState (Op.createSnapshot "a" none 5))
        "b" none 9).snapshots.length ≤ MAX_SNAPSHOTS) ∧
    (lookupSnapshot
        (createSnapshotOp (applyOp initialState (Op.createSnapshot "a" none 5))
          "b" none 9).snapshots
        (applyOp initialState (Op.createSnapshot "a" none 5)).nextId).isSome =
      true :=
  ⟨(C10_snapshot_registry_bounded _ "b" none 9 (by decide) (by decide)
      (by decide)).1,
   (C10_snapshot_registry_bounded _ "b" none 9 (by decide) (by decide)
      (by decide)).2.1 (by decide)⟩

/-! Import-pipeline lemmas. -/

theorem mem_setBy {α : Type} {l : List (String × α)} {k : String} {v : α}
    {e : String × α} (h : e ∈ setBy l k v) : e ∈ l ∨ e = (k, v) := by
  unfold setBy at h
  by_cases hf : (l.find? (fun e => e.1 == k)).isSome
  · rw [if_pos hf] at h
    rcases List.mem_map.mp h with ⟨e0, he0, heq⟩
    by_cases hk : e0.1 = k
    · right
      rw [← heq]
      simp [hk]
    · left
      rw [← heq]
      simp [hk]
      exact he0
  · rw [if_neg hf] at h
    rcases List.mem_append.mp h with h | h
    · exact Or.inl h
    · right
      simpa using h

theorem sanitizeSession_selected (v : Option JValue)
    (nodes : List (String × ImportNode)) (now : Int) (counter : Nat) :
    ∀ id ∈ (sanitizeSession v nodes now counter).1.selectedNodeIds,
      (lookupBy nodes id).isSome = true := by
  intro id hid
  unfold sanitizeSession at hid
  cases v with
  | none => simp at hid
  | some val =>
    by_cases hobj : jIsObjLike val = true
    · simp only [hobj, if_true] at hid
      exact (List.mem_filter.mp hid).2
    · simp only [Bool.not_eq_true] at hobj
      simp [hobj] at hid

theorem sanitizeSnapshotStep_preserves (now : Int)
    (acc acc2 : List (String × ImportSnapshot) × Nat) (x : String × JValue)
    (h : sanitizeSnapshotStep now acc x = .ok acc2)
    (hP : ∀ e ∈ acc.1, ∀ rid ∈ e.2.rootNodeIds,
      (lookupBy e.2.nodes rid).isSome = true) :
    ∀ e ∈ acc2.1, ∀ rid ∈ e.2.rootNodeIds,
      (lookupBy e.2.nodes rid).isSome = true := by
  unfold sanitizeSnapshotStep at h
  by_cases hobj : jIsObjLike x.2 = true
  · simp only [hobj, Bool.not_true, Bool.false_eq_true, if_false] at h
    cases hsess : jStr? (jProp x.2 "sessionId") with
    | none =>
      rw [hsess] at h
      injection h with h2
      rw [← h2]
      exact hP
    | some sess =>
      rw [hsess] at h
      cases hnm : sanitizeNodesMap (jProp x.2 "nodes") now acc.2 with
      | error err => rw [hnm] at h; exact Except.noConfusion h
      | ok pr =>
        rw [hnm] at h
        injection h with h2
        rw [← h2]
        intro e he
        rcases mem_setBy he with hmem | hmem
        · exact hP e hmem
        · subst hmem
          intro rid hrid
          exact (List.mem_filter.mp hrid).2
  · simp only [Bool.not_eq_true] at hobj
    simp only [hobj, Bool.not_false, if_true] at h
    injection h with h2
    rw [← h2]
    exact hP

theorem snapFold_roots (now : Int) :
    ∀ (entries : List (String × JValue))
      (acc : List (String × ImportSnapshot) × Nat)
      (out : List (String × ImportSnapshot)) (c2 : Nat),
      (∀ e ∈ acc.1, ∀ rid ∈ e.2.rootNodeIds,
        (lookupBy e.2.nodes rid).isSome = true) →
      entries.foldlM (sanitizeSnapshotStep now) acc = .ok (out, c2) →
      ∀ e ∈ out, ∀ rid ∈ e.2.rootNodeIds,
        (lookupBy e.2.nodes rid).isSome = true := by
  intro entries
  induction entries with
  | nil =>
    intro acc out c2 hP h
    simp only [List.foldlM_nil] at h
    injection h with h2
    rw [h2] at hP
    exact hP
  | cons x xs ih =>
    intro acc out c2 hP h
    rw [List.foldlM_cons] at h
    cases hstep : sanitizeSnapshotStep now acc x with
    | error err =>
      rw [hstep] at h
      exact Except.noConfusion h
    | ok acc1 =>
      rw [hstep] at h
      exact ih acc1 out c2
        (sanitizeSnapshotStep_preserves now acc acc1 x hstep hP) h

theorem sanitizeSnapshots_roots (v : Option JValue) (now : Int) (counter : Nat)
    (out : List (String × ImportSnapshot)) (c2 : Nat)
    (h : sanitizeSnapshots v now counter = .ok (out, c2)) :
    ∀ e ∈ out, ∀ rid ∈ e.2.rootNodeIds,
      (lookupBy e.2.nodes rid).isSome = true := by
  unfold sanitizeSnapshots at h
  cases v with
  | none =>
    injection h with h2
    injection h2 with ha hb
    rw [← ha]
    intro e he
    simp at he
  | some val =>
    by_cases hobj : jIsObjLike val = true
    · simp only [hobj, if_true] at h
      cases hent : jEntriesOf val with
      | none =>
        rw [hent] at h
        injection h with h2
        injection h2 with ha hb
        rw [← ha]
        intro e he
        simp at he
      | some entries =>
        rw [hent] at h
        exact snapFold_roots now entries ([], counter) out c2 (by simp) h
    · simp only [Bool.not_eq_true] at hobj
      simp only [hobj, Bool.false_eq_true, if_false] at h
      injection h with h2
      injection h2 with ha hb
      rw [← ha]
      intro e he
      simp at he

/-- C9, counterexample to the claim as stated: `parseImportData` accepts
a document in which node `a` lists the nonexistent child `zz` and the
session's focus path names the nonexistent `qq`; both dangling ids are
left in place in the reconstructed state (children lists and the focus
path are only type-filtered, never existence-filtered). -/
theorem C9_counterexample :
    parseImportData danglingDoc 7 0 = Except.ok danglingResult ∧
    (lookupBy danglingResult.nodes "a").map (fun n => n.childrenIds) =
      some ["zz"] ∧
    (lookupBy danglingResult.nodes "zz").isSome = false ∧
    danglingResult.session.focusPath = some ["qq"] ∧
    (lookupBy danglingResult.nodes "qq").isSome = false :=
  ⟨rfl, by decide, by decide, by decide, by decide⟩

/-- C9, amended: for every document `parseImportData` accepts, every id
in the resulting `rootNodeIds`, every id in the session's
`selectedNodeIds`, and every id in each snapshot's `rootNodeIds` (with
respect to that snapshot's own node map) refers to a present node —
dangling ids there are dropped.  Children lists and the session's
`focusPath`, however, are only type-filtered and can retain dangling
ids. -/
theorem C9_import_filters_dangling (parsed : JValue) (now : Int)
    (counter : Nat) (r : ImportResult)
    (h : parseImportData parsed now counter = .ok r) :
    (∀ id ∈ r.rootNodeIds, (lookupBy r.nodes id).isSome = true) ∧
    (∀ id ∈ r.session.selectedNodeIds, (lookupBy r.nodes id).isSome = true) ∧
    (∀ e ∈ r.snapshots, ∀ rid ∈ e.2.rootNodeIds,
      (lookupBy e.2.nodes rid).isSome = true) := by
  unfold parseImportData at h
  by_cases hobj : jIsObjLike parsed = true
  · simp only [hobj, Bool.not_true, Bool.false_eq_true, if_false] at h
    cases hnm : sanitizeNodesMap (jProp parsed "nodes") now counter with
    | error err => rw [hnm] at h; exact Except.noConfusion h
    | ok pr =>
      rw [hnm] at h
      have hrest : parseImportData.parseImportRest parsed pr.1 now pr.2 = .ok r := by
        cases hroot : jProp parsed "rootNodeIds" with
        | none => rw [hroot] at h; exact h
        | some v =>
          rw [hroot] at h
          cases v with
          | jarr items => exact h
          | jnull => exact Except.noConfusion h
          | jbool b => exact Except.noConfusion h
          | jnum n => exact Except.noConfusion h
          | jstr s2 => exact Except.noConfusion h
          | jobj fields => exact Except.noConfusion h
      unfold parseImportData.parseImportRest at hrest
      cases hsn : sanitizeSnapshots (jProp parsed "snapshots") now
          (sanitizeSession (jProp parsed "session") pr.1 now pr.2).2 with
      | error err => rw [hsn] at hrest; exact Except.noConfusion hrest
      | ok snpr =>
        rw [hsn] at hrest
        injection hrest with h2
        rw [← h2]
        refine ⟨?_, ?_, ?_⟩
        · intro id hid
          exact (List.mem_filter.mp hid).2
        · exact sanitizeSession_selected _ _ _ _
        · exact sanitizeSnapshots_roots _ now _ snpr.1 snpr.2
            (by rw [hsn])
  · simp only [Bool.not_eq_true] at hobj
    simp only [hobj, Bool.not_false, if_true] at h
    exact Except.noConfusion h

/-- C9 witness: the amended filtering evaluated on the concrete dangling
document — the kept root id `a` exists, the dangling selection id
`bogus` was dropped. -/
theorem C9_witness :
    (lookupBy danglingResult.nodes "a").isSome = true ∧
    danglingResult.session.selectedNodeIds = ["a"] :=
  ⟨(C9_import_filters_dangling danglingDoc 7 0 danglingResult rfl).1 "a"
      (by decide),
   by decide⟩

/-! Well-formedness accessors. -/

theorem WFTree.nodupKeys {nodes : NodeMap} {roots : List Nat}
    (h : WFTree nodes roots) : (mapKeys nodes).Nodup := h.1

theorem WFTree.nodupRoots {nodes : NodeMap} {roots : List Nat}
    (h : WFTree nodes roots) : roots.Nodup := h.2.1

theorem WFTree.lookup_iff_mem {nodes : NodeMap} {roots : List Nat}
    (h : WFTree nodes roots) {k : Nat} {n : ListNode} :
    lookupNode nodes k = some n ↔ (k, n) ∈ nodes :=
  ⟨mem_of_lookupNode_eq_some, lookupNode_eq_some_of_mem h.1⟩

theorem WFTree.id_eq {nodes : NodeMap} {roots : List Nat}
    (h : WFTree nodes roots) {k : Nat} {n : ListNode}
    (hm : lookupNode nodes k = some n) : n.id = k :=
  h.2.2.1 (k, n) (mem_of_lookupNode_eq_some hm)

theorem WFTree.root_entry {nodes : NodeMap} {roots : List Nat}
    (h : WFTree nodes roots) {r : Nat} (hr : r ∈ roots) :
    ∃ n, lookupNode nodes r = some n ∧ n.parentId = none := by
  have := h.2.2.2.1 r hr
  unfold rootEntryOk at this
  cases hl : lookupNode nodes r with
  | none => rw [hl] at this; exact Bool.noConfusion this
  | some n =>
    rw [hl] at this
    exact ⟨n, rfl, by simpa using this⟩

theorem WFTree.root_link {nodes : NodeMap} {roots : List Nat}
    (h : WFTree nodes roots) {k : Nat} {n : ListNode}
    (hm : lookupNode nodes k = some n) (hp : n.parentId = none) :
    k ∈ roots ∧ n.level = 0 := by
  have := h.2.2.2.2.1 (k, n) (mem_of_lookupNode_eq_some hm)
  unfold rootLinkOk at this
  rw [hp] at this
  simp only [Bool.and_eq_true, beq_iff_eq] at this
  exact ⟨by simpa using this.1, this.2⟩

theorem WFTree.parent_link {nodes : NodeMap} {roots : List Nat}
    (h : WFTree nodes roots) {k p : Nat} {n : ListNode}
    (hm : lookupNode nodes k = some n) (hp : n.parentId = some p) :
    ∃ m, lookupNode nodes p = some m ∧ k ∈ m.childrenIds ∧
      n.level = m.level + 1 := by
  have hbool := h.2.2.2.2.2.1 (k, n) (mem_of_lookupNode_eq_some hm)
  unfold parentLinkOk at hbool
  simp only [hp] at hbool
  cases hl : lookupNode nodes p with
  | none => rw [hl] at hbool; exact Bool.noConfusion hbool
  | some m =>
    rw [hl] at hbool
    simp only [Bool.and_eq_true, beq_iff_eq] at hbool
    exact ⟨m, rfl, by simpa using hbool.1, hbool.2⟩

theorem WFTree.child_exists {nodes : NodeMap} {roots : List Nat}
    (h : WFTree nodes roots) {k c : Nat} {n : ListNode}
    (hm : lookupNode nodes k = some n) (hc : c ∈ n.childrenIds) :
    ∃ m, lookupNode nodes c = some m ∧ m.parentId = some k ∧
      m.level = n.level + 1 := by
  have hck := h.2.2.2.2.2.2.1 (k, n) (mem_of_lookupNode_eq_some hm)
  unfold childLinkOk at hck
  have := List.all_eq_true.mp hck c hc
  cases hl : lookupNode nodes c with
  | none => rw [hl] at this; exact Bool.noConfusion this
  | some m =>
    rw [hl] at this
    have hpar : m.parentId = some k := by simpa using this
    rcases h.parent_link hl hpar with ⟨m2, hm2, _, hlvl⟩
    rw [hm] at hm2
    injection hm2 with hm2
    rw [← hm2] at hlvl
    exact ⟨m, rfl, hpar, hlvl⟩

theorem WFTree.children_nodup {nodes : NodeMap} {roots : List Nat}
    (h : WFTree nodes roots) {k : Nat} {n : ListNode}
    (hm : lookupNode nodes k = some n) : n.childrenIds.Nodup :=
  h.2.2.2.2.2.2.2.1 (k, n) (mem_of_lookupNode_eq_some hm)

theorem WFTree.level_le {nodes : NodeMap} {roots : List Nat}
    (h : WFTree nodes roots) {k : Nat} {n : ListNode}
    (hm : lookupNode nodes k = some n) : n.level ≤ MAX_DEPTH - 1 :=
  h.2.2.2.2.2.2.2.2 (k, n) (mem_of_lookupNode_eq_some hm)

/-! Counting measures for fuelled recursions. -/

theorem countP_lt_of_witness {α : Type} (l : List α) (p q : α → Bool)
    (hpq : ∀ a ∈ l, p a = true → q a = true) (w : α) (hw : w ∈ l)
    (hqw : q w = true) (hpw : p w = false) :
    l.countP p < l.countP q := by
  induction l with
  | nil => simp at hw
  | cons a l ih =>
    rw [List.countP_cons, List.countP_cons]
    rcases List.mem_cons.mp hw with rfl | hw2
    · rw [hpw, hqw, if_neg (by simp), if_pos rfl]
      have : l.countP p ≤ l.countP q :=
        List.countP_mono_left (fun a ha => hpq a (List.mem_cons_of_mem _ ha))
      omega
    · have h1 := ih (fun a ha hp => hpq a (List.mem_cons_of_mem _ ha) hp) hw2
      have h2 : (if p a = true then 1 else 0) ≤ (if q a = true then 1 else 0) := by
        by_cases hpa : p a = true
        · rw [if_pos hpa, if_pos (hpq a (List.mem_cons_self a l) hpa)]
        · rw [if_neg hpa]
          omega
      omega

theorem downMeasure_le (nodes : NodeMap) (lvl : Nat) :
    downMeasure nodes lvl ≤ nodes.length + 1 := by
  unfold downMeasure
  have := List.countP_le_length (l := nodes)
    (p := fun e => decide (lvl < e.2.level))
  omega

theorem upMeasure_le (nodes : NodeMap) (lvl : Nat) :
    upMeasure nodes lvl ≤ nodes.length + 1 := by
  unfold upMeasure
  have := List.countP_le_length (l := nodes)
    (p := fun e => decide (e.2.level < lvl))
  omega

theorem downMeasure_succ_lt {nodes : NodeMap} {lvl : Nat}
    {w : Nat × ListNode} (hw : w ∈ nodes) (hlvl : w.2.level = lvl + 1) :
    downMeasure nodes (lvl + 1) < downMeasure nodes lvl := by
  unfold downMeasure
  have := countP_lt_of_witness nodes
    (fun e => decide (lvl + 1 < e.2.level)) (fun e => decide (lvl < e.2.level))
    (fun a _ hp => by
      simp only [decide_eq_true_eq] at *
      omega)
    w hw (by simp [hlvl]) (by simp [hlvl])
  omega

theorem upMeasure_pred_lt {nodes : NodeMap} {lvl : Nat}
    {w : Nat × ListNode} (hw : w ∈ nodes) (hlvl : w.2.level + 1 = lvl) :
    upMeasure nodes w.2.level < upMeasure nodes lvl := by
  unfold upMeasure
  have := countP_lt_of_witness nodes
    (fun e => decide (e.2.level < w.2.level)) (fun e => decide (e.2.level < lvl))
    (fun a _ hp => by
      simp only [decide_eq_true_eq] at *
      omega)
    w hw (by simp; omega) (by simp)
  omega

/-! Theory of the descendant relation on a well-formed tree. -/

theorem Desc.src_lookup {nodes : NodeMap} {a c : Nat} (h : Desc nodes a c) :
    ∃ n, lookupNode nodes a = some n := by
  induction h with
  | child hl hc => exact ⟨_, hl⟩
  | step hd hl hc ih => exact ih

theorem Desc.dst_lookup {nodes : NodeMap} {roots : List Nat}
    (wf : WFTree nodes roots) {a c : Nat} (h : Desc nodes a c) :
    ∃ m, lookupNode nodes c = some m := by
  cases h with
  | child hl hc => rcases wf.child_exists hl hc with ⟨m, hm, _⟩; exact ⟨m, hm⟩
  | step hd hl hc => rcases wf.child_exists hl hc with ⟨m, hm, _⟩; exact ⟨m, hm⟩

theorem Desc.level_lt {nodes : NodeMap} {roots : List Nat}
    (wf : WFTree nodes roots) {a c : Nat} {na nc : ListNode}
    (h : Desc nodes a c) (ha : lookupNode nodes a = some na)
    (hc : lookupNode nodes c = some nc) : na.level < nc.level := by
  induction h generalizing nc with
  | child hl hmem =>
    rcases wf.child_exists hl hmem with ⟨m, hm, _, hlvl⟩
    rw [ha] at hl
    injection hl with hl
    rw [hc] at hm
    injection hm with hm
    subst hl
    subst hm
    omega
  | step hd hl hmem ih =>
    rcases wf.child_exists hl hmem with ⟨m, hm, _, hlvl⟩
    rw [hc] at hm
    injection hm with hm
    subst hm
    have h1 := ih hl
    omega

theorem Desc.trans {nodes : NodeMap} {a b c : Nat}
    (h1 : Desc nodes a b) (h2 : Desc nodes b c) : Desc nodes a c := by
  induction h2 with
  | child hl hc => exact .step h1 hl hc
  | step hd hl hc ih => exact .step ih hl hc

theorem desc_irrefl {nodes : NodeMap} {roots : List Nat}
    (wf : WFTree nodes roots) (a : Nat) : ¬ Desc nodes a a := by
  intro h
  rcases h.src_lookup with ⟨n, hn⟩
  exact absurd (Desc.level_lt wf h hn hn) (lt_irrefl _)

theorem desc_of_parent {nodes : NodeMap} {roots : List Nat}
    (wf : WFTree nodes roots) {c b : Nat} {nc : ListNode}
    (hc : lookupNode nodes c = some nc) (hp : nc.parentId = some b) :
    Desc nodes b c := by
  rcases wf.parent_link hc hp with ⟨m, hm, hmem, _⟩
  exact .child hm hmem

theorem desc_parent_case {nodes : NodeMap} {roots : List Nat}
    (wf : WFTree nodes roots) {a c : Nat} {nc : ListNode}
    (h : Desc nodes a c) (hc : lookupNode nodes c = some nc) :
    ∃ b, nc.parentId = some b ∧ (b = a ∨ Desc nodes a b) := by
  cases h with
  | child hl hmem =>
    rcases wf.child_exists hl hmem with ⟨m, hm, hpar, _⟩
    rw [hc] at hm
    injection hm with hm
    subst hm
    exact ⟨_, hpar, Or.inl rfl⟩
  | step hd hl hmem =>
    rcases wf.child_exists hl hmem with ⟨m, hm, hpar, _⟩
    rw [hc] at hm
    injection hm with hm
    subst hm
    exact ⟨_, hpar, Or.inr hd⟩

theorem desc_unfold {nodes : NodeMap} {roots : List Nat}
    (wf : WFTree nodes roots) {a d : Nat} {n : ListNode}
    (h : Desc nodes a d) (ha : lookupNode nodes a = some n) :
    d ∈ n.childrenIds ∨ ∃ c ∈ n.childrenIds, Desc nodes c d := by
  induction h with
  | child hl hmem =>
    rw [ha] at hl
    injection hl with hl
    subst hl
    exact Or.inl hmem
  | step hd hl hmem ih =>
    rcases ih with hb | ⟨c, hcmem, hcd⟩
    · exact Or.inr ⟨_, hb, .child hl hmem⟩
    · exact Or.inr ⟨c, hcmem, .step hcd hl hmem⟩

theorem not_descEq_parent {nodes : NodeMap} {roots : List Nat}
    (wf : WFTree nodes roots) {k c : Nat} {n : ListNode}
    (hm : lookupNode nodes k = some n) (hc : c ∈ n.childrenIds) :
    ¬ DescEq nodes c k := by
  intro h
  have hkc : Desc nodes k c := .child hm hc
  rcases h with h | h
  · subst h
    exact desc_irrefl wf _ hkc
  · exact desc_irrefl wf _ (hkc.trans h)

theorem anc_total_aux {nodes : NodeMap} {roots : List Nat}
    (wf : WFTree nodes roots) :
    ∀ lvl d nd, lookupNode nodes d = some nd → nd.level ≤ lvl →
      ∀ x y, Desc nodes x d → Desc nodes y d →
        x = y ∨ Desc nodes x y ∨ Desc nodes y x := by
  intro lvl
  induction lvl with
  | zero =>
    intro d nd hd hlvl x y hx hy
    rcases desc_parent_case wf hx hd with ⟨b, hb, _⟩
    rcases wf.parent_link hd hb with ⟨m, _, _, hlev⟩
    omega
  | succ lvl ih =>
    intro d nd hd hlvl x y hx hy
    rcases desc_parent_case wf hx hd with ⟨b, hb, hxb⟩
    rcases desc_parent_case wf hy hd with ⟨b2, hb2, hyb⟩
    rw [hb] at hb2
    injection hb2 with hb2
    subst hb2
    rcases wf.parent_link hd hb with ⟨m, hmb, _, hlev⟩
    rcases hxb with hxb | hxb
    · rcases hyb with hyb | hyb
      · exact Or.inl (hxb.symm.trans hyb)
      · subst hxb
        exact Or.inr (Or.inr hyb)
    · rcases hyb with hyb | hyb
      · subst hyb
        exact Or.inr (Or.inl hxb)
      · exact ih b m hmb (by omega) x y hxb hyb

theorem anc_total {nodes : NodeMap} {roots : List Nat}
    (wf : WFTree nodes roots) {x y d : Nat}
    (hx : Desc nodes x d) (hy : Desc nodes y d) :
    x = y ∨ Desc nodes x y ∨ Desc nodes y x := by
  rcases hx.dst_lookup wf with ⟨nd, hd⟩
  exact anc_total_aux wf nd.level d nd hd (le_refl _) x y hx hy

theorem not_desc_sibling {nodes : NodeMap} {roots : List Nat}
    (wf : WFTree nodes roots) {k c1 c2 : Nat} {n : ListNode}
    (hm : lookupNode nodes k = some n)
    (hc1 : c1 ∈ n.childrenIds) (hc2 : c2 ∈ n.childrenIds) :
    ¬ Desc nodes c1 c2 := by
  intro h
  rcases wf.child_exists hm hc2 with ⟨m2, hl2, hp2, _⟩
  rcases desc_parent_case wf h hl2 with ⟨b, hb, hcb⟩
  rw [hp2] at hb
  injection hb with hb
  subst hb
  rcases hcb with h2 | h2
  · exact not_descEq_parent wf hm hc1 (Or.inl h2.symm)
  · exact not_descEq_parent wf hm hc1 (Or.inr h2)

theorem sibling_disjoint {nodes : NodeMap} {roots : List Nat}
    (wf : WFTree nodes roots) {k c1 c2 : Nat} {n : ListNode}
    (hm : lookupNode nodes k = some n)
    (hc1 : c1 ∈ n.childrenIds) (hc2 : c2 ∈ n.childrenIds) (hne : c1 ≠ c2) :
    ∀ d, DescEq nodes c1 d → DescEq nodes c2 d → False := by
  intro d h1 h2
  rcases h1 with h1 | h1
  · subst h1
    rcases h2 with h2 | h2
    · exact hne h2.symm
    · exact not_desc_sibling wf hm hc2 hc1 h2
  · rcases h2 with h2 | h2
    · subst h2
      exact not_desc_sibling wf hm hc1 hc2 h1
    · rcases anc_total wf h1 h2 with h | h | h
      · exact hne h
      · exact not_desc_sibling wf hm hc1 hc2 h
      · exact not_desc_sibling wf hm hc2 hc1 h

/-! Correctness of the fuelled parent walks (`getNodeDepth`, `getPath`). -/

theorem parentWalk_none (nodes : NodeMap) (f : Nat) (acc : Nat) :
    parentWalk nodes f none acc = acc := by
  cases f <;> rfl

theorem parentWalk_succ (nodes : NodeMap) (f k : Nat) (n : ListNode)
    (acc : Nat) (hk : lookupNode nodes k = some n) :
    parentWalk nodes (f + 1) (some k) acc =
      parentWalk nodes f n.parentId (acc + 1) := by
  conv_lhs => unfold parentWalk
  rw [hk]

theorem pathWalk_none (nodes : NodeMap) (f : Nat) (acc : List ListNode) :
    pathWalk nodes f none acc = acc := by
  cases f <;> rfl

theorem pathWalk_succ (nodes : NodeMap) (f k : Nat) (n : ListNode)
    (acc : List ListNode) (hk : lookupNode nodes k = some n) :
    pathWalk nodes (f + 1) (some k) acc =
      pathWalk nodes f n.parentId (n :: acc) := by
  conv_lhs => unfold pathWalk
  rw [hk]

theorem parentWalk_spec {nodes : NodeMap} {roots : List Nat}
    (wf : WFTree nodes roots) :
    ∀ lvl k n, lookupNode nodes k = some n → n.level = lvl →
      ∀ fuel, upMeasure nodes lvl ≤ fuel → ∀ acc,
        parentWalk nodes fuel (some k) acc = acc + lvl + 1 := by
  intro lvl
  induction lvl using Nat.strongRecOn with
  | ind lvl ih =>
    intro k n hk hlvl fuel hfuel acc
    cases fuel with
    | zero => unfold upMeasure at hfuel; omega
    | succ f =>
      rw [parentWalk_succ nodes f k n acc hk]
      cases hp : n.parentId with
      | none =>
        have hroot := wf.root_link hk hp
        rw [parentWalk_none]
        omega
      | some p =>
        rcases wf.parent_link hk hp with ⟨m, hm, hmem, hlev⟩
        have hlt : upMeasure nodes m.level < upMeasure nodes lvl :=
          upMeasure_pred_lt (mem_of_lookupNode_eq_some hm)
            (by show m.level + 1 = lvl; omega)
        have hrec := ih m.level (by omega) p m hm rfl f (by omega) (acc + 1)
        rw [hrec]
        omega

theorem getNodeDepth_eq_level {nodes : NodeMap} {roots : List Nat}
    (wf : WFTree nodes roots) {k : Nat} {n : ListNode}
    (hk : lookupNode nodes k = some n) :
    getNodeDepth k nodes = (n.level : Int) := by
  unfold getNodeDepth
  rw [parentWalk_spec wf n.level k n hk rfl (nodes.length + 1)
    (upMeasure_le nodes n.level) 0]
  omega

theorem pathWalk_mem {nodes : NodeMap} {roots : List Nat}
    (wf : WFTree nodes roots) :
    ∀ lvl k n, lookupNode nodes k = some n → n.level = lvl →
      ∀ fuel, upMeasure nodes lvl ≤ fuel → ∀ acc m,
        (m ∈ pathWalk nodes fuel (some k) acc ↔
          m ∈ acc ∨ (lookupNode nodes m.id = some m ∧ DescEq nodes m.id k)) := by
  intro lvl
  induction lvl using Nat.strongRecOn with
  | ind lvl ih =>
    intro k n hk hlvl fuel hfuel acc m
    cases fuel with
    | zero => unfold upMeasure at hfuel; omega
    | succ f =>
      rw [pathWalk_succ nodes f k n acc hk]
      cases hp : n.parentId with
      | none =>
        rw [pathWalk_none]
        constructor
        · intro hmem
          rcases List.mem_cons.mp hmem with rfl | hmem2
          · exact Or.inr ⟨by rw [wf.id_eq hk]; exact hk, Or.inl (wf.id_eq hk)⟩
          · exact Or.inl hmem2
        · intro hmem
          rcases hmem with hmem | ⟨hlk, hde⟩
          · exact List.mem_cons_of_mem _ hmem
          · rcases hde with he | hd
            · rw [he, hk] at hlk
              injection hlk with hlk
              rw [hlk]
              exact List.mem_cons_self _ _
            · exfalso
              rcases desc_parent_case wf hd hk with ⟨b, hb, _⟩
              rw [hp] at hb
              exact Option.noConfusion hb
      | some p =>
        rcases wf.parent_link hk hp with ⟨pm, hpm, hmem, hlev⟩
        have hlt : upMeasure nodes pm.level < upMeasure nodes lvl :=
          upMeasure_pred_lt (mem_of_lookupNode_eq_some hpm)
            (by show pm.level + 1 = lvl; omega)
        rw [ih pm.level (by omega) p pm hpm rfl f (by omega) (n :: acc) m]
        constructor
        · intro hc
          rcases hc with hc | ⟨hlk, hde⟩
          · rcases List.mem_cons.mp hc with rfl | hc2
            · exact Or.inr ⟨by rw [wf.id_eq hk]; exact hk, Or.inl (wf.id_eq hk)⟩
            · exact Or.inl hc2
          · refine Or.inr ⟨hlk, Or.inr ?_⟩
            rcases hde with he | hd
            · rw [he]
              exact desc_of_parent wf hk hp
            · exact hd.trans (desc_of_parent wf hk hp)
        · intro hc
          rcases hc with hc | ⟨hlk, hde⟩
          · exact Or.inl (List.mem_cons_of_mem _ hc)
          · rcases hde with he | hd
            · left
              rw [he, hk] at hlk
              injection hlk with hlk
              rw [hlk]
              exact List.mem_cons_self _ _
            · rcases desc_parent_case wf hd hk with ⟨b, hb, hcb⟩
              rw [hp] at hb
              injection hb with hb
              subst hb
              refine Or.inr ⟨hlk, ?_⟩
              rcases hcb with hcb | hcb
              · exact Or.inl hcb.symm
              · exact Or.inr hcb

theorem mem_getPath {nodes : NodeMap} {roots : List Nat}
    (wf : WFTree nodes roots) {k : Nat} {n : ListNode}
    (hk : lookupNode nodes k = some n) (m : ListNode) :
    m ∈ getPath k nodes ↔
      lookupNode nodes m.id = some m ∧ DescEq nodes m.id k := by
  unfold getPath
  rw [pathWalk_mem wf n.level k n hk rfl (nodes.length + 1)
    (upMeasure_le nodes n.level) [] m]
  simp

theorem getPath_missing {nodes : NodeMap} {k : Nat}
    (hk : lookupNode nodes k = none) : getPath k nodes = [] := by
  unfold getPath pathWalk
  rw [hk]

/-! Subtree id lists: stability in the fuel, membership, uniqueness. -/

theorem flatMap_congr_mem {α β : Type} {l : List α} {f g : α → List β}
    (h : ∀ a ∈ l, f a = g a) : l.flatMap f = l.flatMap g := by
  induction l with
  | nil => rfl
  | cons a l ih =>
    rw [List.flatMap_cons, List.flatMap_cons, h a (List.mem_cons_self _ _),
      ih (fun x hx => h x (List.mem_cons_of_mem _ hx))]

theorem lookup_mem_mapKeys {nodes : NodeMap} {k : Nat} {n : ListNode}
    (h : lookupNode nodes k = some n) : k ∈ mapKeys nodes :=
  List.mem_map.mpr ⟨(k, n), mem_of_lookupNode_eq_some h, rfl⟩

theorem subtreeIdsF_succ_some (nodes : NodeMap) (f id : Nat) (n : ListNode)
    (h : lookupNode nodes id = some n) :
    subtreeIdsF nodes (f + 1) id =
      id :: n.childrenIds.flatMap (subtreeIdsF nodes f) := by
  conv_lhs => unfold subtreeIdsF
  rw [h]

theorem subtreeIdsF_stable {nodes : NodeMap} {roots : List Nat}
    (wf : WFTree nodes roots) :
    ∀ dm k n, lookupNode nodes k = some n → downMeasure nodes n.level ≤ dm →
      ∀ f1 f2, downMeasure nodes n.level ≤ f1 → downMeasure nodes n.level ≤ f2 →
        subtreeIdsF nodes f1 k = subtreeIdsF nodes f2 k := by
  intro dm
  induction dm using Nat.strongRecOn with
  | ind dm ih =>
    intro k n hk hdm f1 f2 h1 h2
    have hpos : 1 ≤ downMeasure nodes n.level := by unfold downMeasure; omega
    cases f1 with
    | zero => omega
    | succ g1 =>
      cases f2 with
      | zero => omega
      | succ g2 =>
        rw [subtreeIdsF_succ_some nodes g1 k n hk,
          subtreeIdsF_succ_some nodes g2 k n hk]
        congr 1
        apply flatMap_congr_mem
        intro c hc
        rcases wf.child_exists hk hc with ⟨m, hm, _, hlvl⟩
        have hdml : downMeasure nodes m.level < downMeasure nodes n.level := by
          have h0 := @downMeasure_succ_lt _ n.level _
            (mem_of_lookupNode_eq_some hm) (by show m.level = n.level + 1; omega)
          rw [hlvl]
          exact h0
        exact ih (downMeasure nodes m.level) (by omega) c m hm (le_refl _)
          g1 g2 (by omega) (by omega)

theorem subtreeIds_unfold {nodes : NodeMap} {roots : List Nat}
    (wf : WFTree nodes roots) {k : Nat} {n : ListNode}
    (hk : lookupNode nodes k = some n) :
    subtreeIds nodes k = k :: n.childrenIds.flatMap (fun c => subtreeIds nodes c) := by
  unfold subtreeIds
  rw [subtreeIdsF_succ_some nodes nodes.length k n hk]
  congr 1
  apply flatMap_congr_mem
  intro c hc
  rcases wf.child_exists hk hc with ⟨m, hm, _, hlvl⟩
  have hdml : downMeasure nodes m.level < downMeasure nodes n.level := by
    have h0 := @downMeasure_succ_lt _ n.level _
      (mem_of_lookupNode_eq_some hm) (by show m.level = n.level + 1; omega)
    rw [hlvl]
    exact h0
  have hle := downMeasure_le nodes n.level
  exact subtreeIdsF_stable wf (downMeasure nodes m.level) c m hm (le_refl _)
    nodes.length (nodes.length + 1) (by omega) (by omega)

theorem mem_subtreeIds_aux {nodes : NodeMap} {roots : List Nat}
    (wf : WFTree nodes roots) :
    ∀ dm k n, lookupNode nodes k = some n → downMeasure nodes n.level ≤ dm →
      ∀ d, d ∈ subtreeIds nodes k ↔ DescEq nodes k d := by
  intro dm
  induction dm using Nat.strongRecOn with
  | ind dm ih =>
    intro k n hk hdm d
    rw [subtreeIds_unfold wf hk]
    simp only [List.mem_cons, List.mem_flatMap]
    constructor
    · rintro (rfl | ⟨c, hc, hdc⟩)
      · exact Or.inl rfl
      · rcases wf.child_exists hk hc with ⟨m, hm, _, hlvl⟩
        have hdml : downMeasure nodes m.level < downMeasure nodes n.level := by
          have h0 := @downMeasure_succ_lt _ n.level _
            (mem_of_lookupNode_eq_some hm) (by show m.level = n.level + 1; omega)
          rw [hlvl]
          exact h0
        have hde := (ih (downMeasure nodes m.level) (by omega) c m hm (le_refl _) d).mp hdc
        rcases hde with rfl | hde
        · exact Or.inr (.child hk hc)
        · exact Or.inr ((Desc.child hk hc).trans hde)
    · rintro (rfl | hde)
      · exact Or.inl rfl
      · rcases desc_unfold wf hde hk with hmem | ⟨c, hc, hcd⟩
        · rcases wf.child_exists hk hmem with ⟨m, hm, _, hlvl⟩
          have hdml : downMeasure nodes m.level < downMeasure nodes n.level := by
            have h0 := @downMeasure_succ_lt _ n.level _
              (mem_of_lookupNode_eq_some hm) (by show m.level = n.level + 1; omega)
            rw [hlvl]
            exact h0
          exact Or.inr ⟨d, hmem,
            (ih (downMeasure nodes m.level) (by omega) d m hm (le_refl _) d).mpr (Or.inl rfl)⟩
        · rcases wf.child_exists hk hc with ⟨m, hm, _, hlvl⟩
          have hdml : downMeasure nodes m.level < downMeasure nodes n.level := by
            have h0 := @downMeasure_succ_lt _ n.level _
              (mem_of_lookupNode_eq_some hm) (by show m.level = n.level + 1; omega)
            rw [hlvl]
            exact h0
          exact Or.inr ⟨c, hc,
            (ih (downMeasure nodes m.level) (by omega) c m hm (le_refl _) d).mpr (Or.inr hcd)⟩

theorem mem_subtreeIds {nodes : NodeMap} {roots : List Nat}
    (wf : WFTree nodes roots) {k : Nat} {n : ListNode}
    (hk : lookupNode nodes k = some n) (d : Nat) :
    d ∈ subtreeIds nodes k ↔ DescEq nodes k d :=
  mem_subtreeIds_aux wf (downMeasure nodes n.level) k n hk (le_refl _) d

theorem subtreeIds_nodup_aux {nodes : NodeMap} {roots : List Nat}
    (wf : WFTree nodes roots) :
    ∀ dm k n, lookupNode nodes k = some n → downMeasure nodes n.level ≤ dm →
      (subtreeIds nodes k).Nodup := by
  intro dm
  induction dm using Nat.strongRecOn with
  | ind dm ih =>
    intro k n hk hdm
    rw [subtreeIds_unfold wf hk]
    have haux : ∀ l : List Nat, (∀ c ∈ l, c ∈ n.childrenIds) → l.Nodup →
        (l.flatMap (fun c => subtreeIds nodes c)).Nodup := by
      intro l
      induction l with
      | nil => intro _ _; simp
      | cons c cs ihl =>
        intro hsub hnd
        obtain ⟨hnotin, hnd2⟩ := List.nodup_cons.mp hnd
        have hcmem := hsub c (List.mem_cons_self _ _)
        rcases wf.child_exists hk hcmem with ⟨m, hm, _, hlvl⟩
        have hdml : downMeasure nodes m.level < downMeasure nodes n.level := by
          have h0 := @downMeasure_succ_lt _ n.level _
            (mem_of_lookupNode_eq_some hm) (by show m.level = n.level + 1; omega)
          rw [hlvl]
          exact h0
        rw [List.flatMap_cons, List.nodup_append]
        refine ⟨ih (downMeasure nodes m.level) (by omega) c m hm (le_refl _),
          ihl (fun x hx => hsub x (List.mem_cons_of_mem _ hx)) hnd2, ?_⟩
        intro a ha hb
        rcases List.mem_flatMap.mp hb with ⟨c2, hc2, hac2⟩
        have hde1 : DescEq nodes c a := (mem_subtreeIds wf hm a).mp ha
        rcases wf.child_exists hk (hsub c2 (List.mem_cons_of_mem _ hc2)) with ⟨m2, hm2, _, _⟩
        have hde2 : DescEq nodes c2 a := (mem_subtreeIds wf hm2 a).mp hac2
        exact sibling_disjoint wf hk hcmem (hsub c2 (List.mem_cons_of_mem _ hc2))
          (fun he => hnotin (by rw [he]; exact hc2)) a hde1 hde2
    rw [List.nodup_cons]
    refine ⟨?_, haux n.childrenIds (fun c hc => hc) (wf.children_nodup hk)⟩
    intro hkin
    rcases List.mem_flatMap.mp hkin with ⟨c, hc, hkc⟩
    rcases wf.child_exists hk hc with ⟨m, hm, _, _⟩
    exact not_descEq_parent wf hk hc ((mem_subtreeIds wf hm k).mp hkc)

theorem subtreeIds_nodup {nodes : NodeMap} {roots : List Nat}
    (wf : WFTree nodes roots) {k : Nat} {n : ListNode}
    (hk : lookupNode nodes k = some n) : (subtreeIds nodes k).Nodup :=
  subtreeIds_nodup_aux wf (downMeasure nodes n.level) k n hk (le_refl _)

theorem subtreeIds_subset_keys {nodes : NodeMap} {roots : List Nat}
    (wf : WFTree nodes roots) {k : Nat} {n : ListNode}
    (hk : lookupNode nodes k = some n) :
    ∀ d ∈ subtreeIds nodes k, d ∈ mapKeys nodes := by
  intro d hd
  rcases (mem_subtreeIds wf hk d).mp hd with rfl | hde
  · exact lookup_mem_mapKeys hk
  · rcases hde.dst_lookup wf with ⟨m, hm⟩
    exact lookup_mem_mapKeys hm

theorem subtreeIds_length_le {nodes : NodeMap} {roots : List Nat}
    (wf : WFTree nodes roots) {k : Nat} {n : ListNode}
    (hk : lookupNode nodes k = some n) :
    (subtreeIds nodes k).length ≤ nodes.length := by
  have hsp : (subtreeIds nodes k).Subperm (mapKeys nodes) :=
    List.subperm_of_subset (subtreeIds_nodup wf hk) (subtreeIds_subset_keys wf hk)
  have hle := hsp.length_le
  simpa [mapKeys] using hle

/-! The breadth-first search of `getAllChildren` visits exactly the
strict descendants. -/

theorem bfsCollect_nil_queue (nodes : NodeMap) (fuel : Nat) (acc : List ListNode) :
    bfsCollect nodes fuel [] acc = acc := by
  cases fuel <;> rfl

theorem bfsCollect_succ_some (nodes : NodeMap) (f q : Nat) (rest : List Nat)
    (acc : List ListNode) (nq : ListNode) (h : lookupNode nodes q = some nq) :
    bfsCollect nodes (f + 1) (q :: rest) acc =
      bfsCollect nodes f (rest ++ nq.childrenIds) (acc ++ [nq]) := by
  conv_lhs => unfold bfsCollect
  rw [h]

theorem bfsCollect_mem {nodes : NodeMap} {roots : List Nat}
    (wf : WFTree nodes roots) :
    ∀ fuel queue acc m,
      (∀ q ∈ queue, ∃ nq, lookupNode nodes q = some nq) →
      (queue.map (fun q => (subtreeIds nodes q).length)).sum ≤ fuel →
      (m ∈ bfsCollect nodes fuel queue acc ↔
        m ∈ acc ∨ ∃ q ∈ queue, lookupNode nodes m.id = some m ∧ DescEq nodes q m.id) := by
  intro fuel
  induction fuel using Nat.strongRecOn with
  | ind fuel ih =>
    intro queue acc m hpres hfuel
    cases queue with
    | nil =>
      rw [bfsCollect_nil_queue]
      simp
    | cons q rest =>
      rcases hpres q (List.mem_cons_self _ _) with ⟨nq, hnq⟩
      have hsubq : (subtreeIds nodes q).length =
          1 + (nq.childrenIds.map (fun c => (subtreeIds nodes c).length)).sum := by
        rw [subtreeIds_unfold wf hnq]
        simp [List.length_flatMap, Function.comp_def]
        omega
      rw [List.map_cons, List.sum_cons] at hfuel
      cases fuel with
      | zero => omega
      | succ f =>
        rw [bfsCollect_succ_some nodes f q rest acc nq hnq]
        have hfuel2 : ((rest ++ nq.childrenIds).map
            (fun q => (subtreeIds nodes q).length)).sum ≤ f := by
          rw [List.map_append, List.sum_append]
          omega
        have hpres2 : ∀ x ∈ rest ++ nq.childrenIds, ∃ nx, lookupNode nodes x = some nx := by
          intro x hx
          rcases List.mem_append.mp hx with hx | hx
          · exact hpres x (List.mem_cons_of_mem _ hx)
          · rcases wf.child_exists hnq hx with ⟨mx, hmx, _⟩
            exact ⟨mx, hmx⟩
        rw [ih f (by omega) (rest ++ nq.childrenIds) (acc ++ [nq]) m hpres2 hfuel2]
        constructor
        · rintro (hin | ⟨q2, hq2, hlk, hde⟩)
          · rcases List.mem_append.mp hin with hin | hin
            · exact Or.inl hin
            · have hmeq : m = nq := by simpa using hin
              subst hmeq
              exact Or.inr ⟨q, List.mem_cons_self _ _,
                by rw [wf.id_eq hnq]; exact hnq, Or.inl (wf.id_eq hnq).symm⟩
          · rcases List.mem_append.mp hq2 with h2 | h2
            · exact Or.inr ⟨q2, List.mem_cons_of_mem _ h2, hlk, hde⟩
            · refine Or.inr ⟨q, List.mem_cons_self _ _, hlk, Or.inr ?_⟩
              have hqq2 : Desc nodes q q2 := .child hnq h2
              rcases hde with he | hd
              · rw [← he]
                exact hqq2
              · exact hqq2.trans hd
        · rintro (hin | ⟨q2, hq2, hlk, hde⟩)
          · exact Or.inl (List.mem_append.mpr (Or.inl hin))
          · rcases List.mem_cons.mp hq2 with rfl | h2
            · rcases hde with he | hd
              · left
                apply List.mem_append.mpr
                right
                have hmeq : m = nq := by
                  rw [← he] at hlk
                  rw [hnq] at hlk
                  injection hlk with h3
                  rw [← h3]
                simp [hmeq]
              · rcases desc_unfold wf hd hnq with hmem | ⟨c, hc, hcd⟩
                · exact Or.inr ⟨m.id, List.mem_append.mpr (Or.inr hmem), hlk, Or.inl rfl⟩
                · exact Or.inr ⟨c, List.mem_append.mpr (Or.inr hc), hlk, Or.inr hcd⟩
            · exact Or.inr ⟨q2, List.mem_append.mpr (Or.inl h2), hlk, hde⟩

theorem mem_getAllChildren {nodes : NodeMap} {roots : List Nat}
    (wf : WFTree nodes roots) {X : Nat} {nX : ListNode}
    (hX : lookupNode nodes X = some nX) (m : ListNode) :
    m ∈ getAllChildren X nodes ↔
      lookupNode nodes m.id = some m ∧ Desc nodes X m.id := by
  unfold getAllChildren
  rw [hX]
  have hsum : (nX.childrenIds.map (fun q => (subtreeIds nodes q).length)).sum + 1 =
      (subtreeIds nodes X).length := by
    rw [subtreeIds_unfold wf hX]
    simp [List.length_flatMap, Function.comp_def]
  have hlen := subtreeIds_length_le wf hX
  have hfuel : (nX.childrenIds.map (fun q => (subtreeIds nodes q).length)).sum ≤
      bfsFuel nodes + nX.childrenIds.length := by
    unfold bfsFuel
    omega
  have hpres : ∀ q ∈ nX.childrenIds, ∃ nq, lookupNode nodes q = some nq := by
    intro q hq
    rcases wf.child_exists hX hq with ⟨nq, hnq, _⟩
    exact ⟨nq, hnq⟩
  rw [bfsCollect_mem wf (bfsFuel nodes + nX.childrenIds.length) nX.childrenIds [] m hpres hfuel]
  simp only [List.not_mem_nil, false_or]
  constructor
  · rintro ⟨q, hq, hlk, hde⟩
    refine ⟨hlk, ?_⟩
    rcases hde with rfl | hd
    · exact .child hX hq
    · exact (Desc.child hX hq).trans hd
  · rintro ⟨hlk, hd⟩
    rcases desc_unfold wf hd hX with hmem | ⟨c, hc, hcd⟩
    · exact ⟨m.id, hmem, hlk, Or.inl rfl⟩
    · exact ⟨c, hc, hlk, Or.inr hcd⟩

/-! The subtree height function: upper bound and attainment. -/

theorem subtreeDepthFuel_succ_some (nodes : NodeMap) (f k : Nat) (n : ListNode)
    (h : lookupNode nodes k = some n) :
    subtreeDepthFuel nodes (f + 1) k =
      if n.childrenIds.isEmpty then 0
      else 1 + (n.childrenIds.map (subtreeDepthFuel nodes f)).foldl max 0 := by
  conv_lhs => unfold subtreeDepthFuel
  rw [h]

theorem foldl_max_init_le (l : List Nat) : ∀ a, a ≤ l.foldl max a := by
  induction l with
  | nil => intro a; exact le_refl a
  | cons b l ih =>
    intro a
    exact le_trans (Nat.le_max_left a b) (ih (max a b))

theorem le_foldl_max {l : List Nat} {y : Nat} (hy : y ∈ l) :
    ∀ a, y ≤ l.foldl max a := by
  induction l with
  | nil => simp at hy
  | cons b l ih =>
    intro a
    rcases List.mem_cons.mp hy with rfl | hy2
    · exact le_trans (Nat.le_max_right a y) (foldl_max_init_le l (max a y))
    · exact ih hy2 (max a b)

theorem foldl_max_choice (l : List Nat) :
    ∀ a, l.foldl max a = a ∨ l.foldl max a ∈ l := by
  induction l with
  | nil => intro a; exact Or.inl rfl
  | cons b l ih =>
    intro a
    rw [List.foldl_cons]
    rcases ih (max a b) with h | h
    · rw [h]
      rcases max_choice a b with h2 | h2
      · exact Or.inl h2
      · exact Or.inr (by rw [h2]; exact List.mem_cons_self _ _)
    · exact Or.inr (List.mem_cons_of_mem _ h)

theorem subtreeDepthFuel_ub {nodes : NodeMap} {roots : List Nat}
    (wf : WFTree nodes roots) :
    ∀ dm k n, lookupNode nodes k = some n → downMeasure nodes n.level ≤ dm →
      ∀ fuel, downMeasure nodes n.level ≤ fuel →
      ∀ d nd, DescEq nodes k d → lookupNode nodes d = some nd →
        nd.level ≤ n.level + subtreeDepthFuel nodes fuel k := by
  intro dm
  induction dm using Nat.strongRecOn with
  | ind dm ih =>
    intro k n hk hdm fuel hfuel d nd hde hd
    have hpos : 1 ≤ downMeasure nodes n.level := by unfold downMeasure; omega
    cases fuel with
    | zero => omega
    | succ f =>
      rw [subtreeDepthFuel_succ_some nodes f k n hk]
      rcases hde with rfl | hdesc
      · rw [hk] at hd
        injection hd with hd
        subst hd
        exact Nat.le_add_right _ _
      · obtain ⟨c, hc, hcde⟩ : ∃ c ∈ n.childrenIds, DescEq nodes c d := by
          rcases desc_unfold wf hdesc hk with hmem | ⟨c, hc, hcd⟩
          · exact ⟨d, hmem, Or.inl rfl⟩
          · exact ⟨c, hc, Or.inr hcd⟩
        have hemp : n.childrenIds.isEmpty = false := by
          cases hcs : n.childrenIds with
          | nil => rw [hcs] at hc; simp at hc
          | cons a l => rfl
        simp only [hemp, Bool.false_eq_true, if_false]
        rcases wf.child_exists hk hc with ⟨mc, hmc, _, hlvl⟩
        have hdml : downMeasure nodes mc.level < downMeasure nodes n.level := by
          have h0 := @downMeasure_succ_lt _ n.level _
            (mem_of_lookupNode_eq_some hmc) (by show mc.level = n.level + 1; omega)
          rw [hlvl]
          exact h0
        have hrec := ih (downMeasure nodes mc.level) (by omega) c mc hmc (le_refl _)
          f (by omega) d nd hcde hd
        have hmax : subtreeDepthFuel nodes f c ≤
            (n.childrenIds.map (subtreeDepthFuel nodes f)).foldl max 0 :=
          le_foldl_max (List.mem_map.mpr ⟨c, hc, rfl⟩) 0
        omega

theorem subtreeDepthFuel_attained {nodes : NodeMap} {roots : List Nat}
    (wf : WFTree nodes roots) :
    ∀ dm k n, lookupNode nodes k = some n → downMeasure nodes n.level ≤ dm →
      ∀ fuel, downMeasure nodes n.level ≤ fuel →
      ∃ d nd, DescEq nodes k d ∧ lookupNode nodes d = some nd ∧
        nd.level = n.level + subtreeDepthFuel nodes fuel k := by
  intro dm
  induction dm using Nat.strongRecOn with
  | ind dm ih =>
    intro k n hk hdm fuel hfuel
    have hpos : 1 ≤ downMeasure nodes n.level := by unfold downMeasure; omega
    cases fuel with
    | zero => omega
    | succ f =>
      rw [subtreeDepthFuel_succ_some nodes f k n hk]
      cases hemp : n.childrenIds.isEmpty
      · simp only [Bool.false_eq_true, if_false]
        obtain ⟨c, hc, hcM⟩ : ∃ c ∈ n.childrenIds, subtreeDepthFuel nodes f c =
            (n.childrenIds.map (subtreeDepthFuel nodes f)).foldl max 0 := by
          rcases foldl_max_choice (n.childrenIds.map (subtreeDepthFuel nodes f)) 0 with h0 | hM
          · have hne : n.childrenIds ≠ [] := by
              intro hnil
              rw [hnil] at hemp
              simp at hemp
            obtain ⟨a, ha⟩ := List.exists_mem_of_ne_nil _ hne
            refine ⟨a, ha, ?_⟩
            have hle : subtreeDepthFuel nodes f a ≤
                (n.childrenIds.map (subtreeDepthFuel nodes f)).foldl max 0 :=
              le_foldl_max (List.mem_map.mpr ⟨a, ha, rfl⟩) 0
            omega
          · rcases List.mem_map.mp hM with ⟨c, hc, hcM⟩
            exact ⟨c, hc, hcM⟩
        rcases wf.child_exists hk hc with ⟨mc, hmc, _, hlvl⟩
        have hdml : downMeasure nodes mc.level < downMeasure nodes n.level := by
          have h0 := @downMeasure_succ_lt _ n.level _
            (mem_of_lookupNode_eq_some hmc) (by show mc.level = n.level + 1; omega)
          rw [hlvl]
          exact h0
        rcases ih (downMeasure nodes mc.level) (by omega) c mc hmc (le_refl _)
          f (by omega) with ⟨d, nd, hde, hd, hlev⟩
        refine ⟨d, nd, ?_, hd, by omega⟩
        rcases hde with rfl | hde
        · exact Or.inr (.child hk hc)
        · exact Or.inr ((Desc.child hk hc).trans hde)
      · simp only [if_true]
        exact ⟨k, n, Or.inl rfl, hk, by omega⟩

theorem getMaxDepthInSubtree_ub {nodes : NodeMap} {roots : List Nat}
    (wf : WFTree nodes roots) {k : Nat} {n : ListNode}
    (hk : lookupNode nodes k = some n) {d : Nat} {nd : ListNode}
    (hde : DescEq nodes k d) (hd : lookupNode nodes d = some nd) :
    nd.level ≤ n.level + getMaxDepthInSubtree k nodes := by
  unfold getMaxDepthInSubtree
  exact subtreeDepthFuel_ub wf (downMeasure nodes n.level) k n hk (le_refl _)
    (nodes.length + 1) (downMeasure_le nodes n.level) d nd hde hd

theorem getMaxDepthInSubtree_attained {nodes : NodeMap} {roots : List Nat}
    (wf : WFTree nodes roots) {k : Nat} {n : ListNode}
    (hk : lookupNode nodes k = some n) :
    ∃ d nd, DescEq nodes k d ∧ lookupNode nodes d = some nd ∧
      nd.level = n.level + getMaxDepthInSubtree k nodes := by
  unfold getMaxDepthInSubtree
  exact subtreeDepthFuel_attained wf (downMeasure nodes n.level) k n hk (le_refl _)
    (nodes.length + 1) (downMeasure_le nodes n.level)

/-! Evaluation lemmas for `canMoveNode` and the C4 characterization. -/

theorem getNodeDepth_missing {nodes : NodeMap} {p : Nat}
    (hp : lookupNode nodes p = none) : getNodeDepth p nodes = -1 := by
  unfold getNodeDepth
  have h1 : parentWalk nodes (nodes.length + 1) (some p) 0 = 0 := by
    conv_lhs => unfold parentWalk
    rw [hp]
  rw [h1]
  simp

theorem canMoveNode_eval_self {nodes : NodeMap} {nodeId : Nat}
    {newParentId : Option Nat} {maxDepth : Int}
    (h : (newParentId == some nodeId) = true) :
    canMoveNode nodeId newParentId nodes maxDepth = false := by
  simp [canMoveNode, h]

theorem canMoveNode_none_absent {nodes : NodeMap} {nodeId : Nat} {maxDepth : Int}
    (hn : lookupNode nodes nodeId = none) :
    canMoveNode nodeId none nodes maxDepth = false := by
  simp [canMoveNode, hn]

theorem canMoveNode_none_depth {nodes : NodeMap} {nodeId : Nat} {maxDepth : Int}
    {n : ListNode} (hn : lookupNode nodes nodeId = some n) :
    (canMoveNode nodeId none nodes maxDepth = true ↔
      -1 + (getMaxDepthInSubtree nodeId nodes : Int) + 1 < maxDepth) := by
  simp [canMoveNode, hn]

theorem canMoveNode_some_path {nodes : NodeMap} {nodeId p : Nat} {maxDepth : Int}
    (hpath : (getPath p nodes).any (fun n => n.id == nodeId) = true) :
    canMoveNode nodeId (some p) nodes maxDepth = false := by
  simp [canMoveNode, hpath]

theorem canMoveNode_some_absent {nodes : NodeMap} {nodeId p : Nat} {maxDepth : Int}
    (hpath : (getPath p nodes).any (fun n => n.id == nodeId) = false)
    (hn : lookupNode nodes nodeId = none) :
    canMoveNode nodeId (some p) nodes maxDepth = false := by
  simp [canMoveNode, hpath, hn]

theorem canMoveNode_some_depth {nodes : NodeMap} {nodeId p : Nat} {maxDepth : Int}
    {n : ListNode}
    (hself : ((some p : Option Nat) == some nodeId) = false)
    (hpath : (getPath p nodes).any (fun n => n.id == nodeId) = false)
    (hn : lookupNode nodes nodeId = some n) :
    (canMoveNode nodeId (some p) nodes maxDepth = true ↔
      getNodeDepth p nodes + (getMaxDepthInSubtree nodeId nodes : Int) + 1 <
        maxDepth) := by
  simp [canMoveNode, hself, hpath, hn]

theorem depth_check_iff {nodes : NodeMap} {roots : List Nat}
    (wf : WFTree nodes roots) {nodeId : Nat} {n : ListNode}
    (hn : lookupNode nodes nodeId = some n) (pd maxDepth : Int) :
    (pd + (getMaxDepthInSubtree nodeId nodes : Int) + 1 < maxDepth) ↔
      (∀ d nd, DescEq nodes nodeId d → lookupNode nodes d = some nd →
        pd + 1 + ((nd.level : Int) - (n.level : Int)) < maxDepth) := by
  constructor
  · intro h d nd hde hd
    have hub := getMaxDepthInSubtree_ub wf hn hde hd
    have hub2 : (nd.level : Int) ≤ (n.level : Int) + (getMaxDepthInSubtree nodeId nodes : Int) := by
      exact_mod_cast hub
    omega
  · intro h
    rcases getMaxDepthInSubtree_attained wf hn with ⟨d, nd, hde, hd, hlev⟩
    have h2 := h d nd hde hd
    have hc : (nd.level : Int) = (n.level : Int) + (getMaxDepthInSubtree nodeId nodes : Int) := by
      exact_mod_cast hlev
    omega

/-- C4: `canMoveNode` legality.  On a well-formed tree the check returns
`true` exactly when the target is not the node itself, the target is not
a strict descendant of the node (so no cycle can form), the node exists,
and the depth constraint holds: with the target parent's depth taken as
its level (−1 for a null or absent target), every node of the moved
subtree would land at a level strictly below `maxDepth`. -/
theorem C4_canMoveNode_legality (nodes : NodeMap) (roots : List Nat)
    (wf : WFTree nodes roots) (nodeId : Nat) (newParentId : Option Nat)
    (maxDepth : Int) :
    canMoveNode nodeId newParentId nodes maxDepth = true ↔
      newParentId ≠ some nodeId ∧
      (∀ p, newParentId = some p → ¬ Desc nodes nodeId p) ∧
      (∃ n, lookupNode nodes nodeId = some n ∧
        ∀ d nd, DescEq nodes nodeId d → lookupNode nodes d = some nd →
          newParentLevel nodes newParentId + 1 +
            ((nd.level : Int) - (n.level : Int)) < maxDepth) := by
  by_cases hself : newParentId = some nodeId
  · rw [canMoveNode_eval_self (by simp [hself])]
    simp [hself]
  · have hne : (newParentId == some nodeId) = false := by
      simp only [beq_eq_false_iff_ne, ne_eq]
      exact hself
    cases newParentId with
    | none =>
      cases hn : lookupNode nodes nodeId with
      | none =>
        rw [canMoveNode_none_absent hn]
        simp
      | some n =>
        rw [canMoveNode_none_depth hn]
        have hpl : newParentLevel nodes none = -1 := rfl
        rw [hpl]
        constructor
        · intro hlt
          exact ⟨by simp, by simp, n, rfl,
            fun d nd hde hd => (depth_check_iff wf hn (-1) maxDepth).mp hlt d nd hde hd⟩
        · rintro ⟨-, -, n2, hn2, hall⟩
          injection hn2 with he
          subst he
          exact (depth_check_iff wf hn (-1) maxDepth).mpr hall
    | some p =>
      have hpne : p ≠ nodeId := fun he => hself (by rw [he])
      cases hp : lookupNode nodes p with
      | none =>
        have hpath : (getPath p nodes).any (fun m => m.id == nodeId) = false := by
          rw [getPath_missing hp]
          rfl
        cases hn : lookupNode nodes nodeId with
        | none =>
          rw [canMoveNode_some_absent hpath hn]
          simp
        | some n =>
          rw [canMoveNode_some_depth hne hpath hn, getNodeDepth_missing hp]
          have hpl : newParentLevel nodes (some p) = -1 := by
            simp only [newParentLevel]
            rw [hp]
          rw [hpl]
          constructor
          · intro hlt
            refine ⟨hself, ?_, n, rfl,
              fun d nd hde hd => (depth_check_iff wf hn (-1) maxDepth).mp hlt d nd hde hd⟩
            rintro q hq hdesc
            injection hq with hq
            subst hq
            rcases hdesc.dst_lookup wf with ⟨m, hm⟩
            rw [hp] at hm
            exact Option.noConfusion hm
          · rintro ⟨-, -, n2, hn2, hall⟩
            injection hn2 with he
            subst he
            exact (depth_check_iff wf hn (-1) maxDepth).mpr hall
      | some np =>
        have hpathiff : ((getPath p nodes).any (fun m => m.id == nodeId) = true) ↔
            ((lookupNode nodes nodeId).isSome = true ∧ DescEq nodes nodeId p) := by
          rw [List.any_eq_true]
          constructor
          · rintro ⟨m, hm, hmid⟩
            have hmid2 : m.id = nodeId := by simpa using hmid
            have hmem := (mem_getPath wf hp m).mp hm
            rw [hmid2] at hmem
            exact ⟨by rw [hmem.1]; rfl, hmem.2⟩
          · rintro ⟨hsome, hde⟩
            cases hn2 : lookupNode nodes nodeId with
            | none => rw [hn2] at hsome; exact absurd hsome (by simp)
            | some n2 =>
              refine ⟨n2, ?_, by simp [wf.id_eq hn2]⟩
              apply (mem_getPath wf hp n2).mpr
              rw [wf.id_eq hn2]
              exact ⟨hn2, hde⟩
        by_cases hpa : (getPath p nodes).any (fun m => m.id == nodeId) = true
        · rw [canMoveNode_some_path hpa]
          rcases hpathiff.mp hpa with ⟨hsome, hde⟩
          rcases hde with he | hdesc
          · exact absurd he.symm hpne
          · constructor
            · intro hcon
              exact absurd hcon (by simp)
            · rintro ⟨-, hforall, -⟩
              exact (hforall p rfl hdesc).elim
        · have hpa2 : (getPath p nodes).any (fun m => m.id == nodeId) = false := by
            simpa using hpa
          cases hn : lookupNode nodes nodeId with
          | none =>
            rw [canMoveNode_some_absent hpa2 hn]
            simp
          | some n =>
            rw [canMoveNode_some_depth hne hpa2 hn, getNodeDepth_eq_level wf hp]
            have hpl : newParentLevel nodes (some p) = (np.level : Int) := by
              simp only [newParentLevel]
              rw [hp]
            rw [hpl]
            have hnodesc : ∀ q, (some p : Option Nat) = some q → ¬ Desc nodes nodeId q := by
              rintro q hq hdesc
              injection hq with hq
              subst hq
              exact hpa (hpathiff.mpr ⟨by rw [hn]; rfl, Or.inr hdesc⟩)
            constructor
            · intro hlt
              exact ⟨hself, hnodesc, n, rfl,
                fun d nd hde hd =>
                  (depth_check_iff wf hn (np.level : Int) maxDepth).mp hlt d nd hde hd⟩
            · rintro ⟨-, -, n2, hn2, hall⟩
              injection hn2 with he
              subst he
              exact (depth_check_iff wf hn (np.level : Int) maxDepth).mpr hall


/-- C4 witness: the characterization evaluated on the three-node chain,
for moving the grandchild (id 3) under the root (id 1). -/
theorem C4_witness :
    canMoveNode 3 (some 1) chain3.nodes 6 = true ↔
      (some 1 : Option Nat) ≠ some 3 ∧
      (∀ p, (some 1 : Option Nat) = some p → ¬ Desc chain3.nodes 3 p) ∧
      (∃ n, lookupNode chain3.nodes 3 = some n ∧
        ∀ d nd, DescEq chain3.nodes 3 d → lookupNode chain3.nodes d = some nd →
          newParentLevel chain3.nodes (some 1) + 1 +
            ((nd.level : Int) - (n.level : Int)) < 6) :=
  C4_canMoveNode_legality chain3.nodes chain3.rootNodeIds (by decide) 3 (some 1) 6

/-! The level-relabelling recursion of `moveNode`. -/

theorem updateLevels_succ_some (m : NodeMap) (f id base : Nat) (n : ListNode)
    (h : lookupNode m id = some n) :
    updateLevels m (f + 1) id base =
      n.childrenIds.foldl (fun acc cid => updateLevels acc f cid (base + 1))
        (updateKey m id (fun x => { x with level := base })) := by
  conv_lhs => unfold updateLevels
  rw [h]

/-- `updateLevels` on a map whose subtree below `c` has the shape of the
well-formed reference map `m0` (same presence and children lists) sets
each subtree node's level to the base plus its relative depth below `c`,
and touches nothing else. -/
theorem updateLevels_spec {m0 : NodeMap} {roots : List Nat}
    (wf : WFTree m0 roots) :
    ∀ dm c nc, lookupNode m0 c = some nc → downMeasure m0 nc.level ≤ dm →
    ∀ fuel, downMeasure m0 nc.level ≤ fuel →
    ∀ base m,
      (∀ k nk, DescEq m0 c k → lookupNode m0 k = some nk →
        ∃ a, lookupNode m k = some a ∧ a.childrenIds = nk.childrenIds) →
      (∀ k nk, DescEq m0 c k → lookupNode m0 k = some nk →
        lookupNode (updateLevels m fuel c base) k =
          (lookupNode m k).map
            (fun x => { x with level := base + (nk.level - nc.level) })) ∧
      (∀ k, ¬ DescEq m0 c k →
        lookupNode (updateLevels m fuel c base) k = lookupNode m k) := by
  intro dm
  induction dm using Nat.strongRecOn with
  | ind dm ih =>
    intro c nc hc hdm fuel hfuel base m hsh
    have hpos : 1 ≤ downMeasure m0 nc.level := by unfold downMeasure; omega
    cases fuel with
    | zero => omega
    | succ f =>
      obtain ⟨a, ha, hach⟩ := hsh c nc (Or.inl rfl) hc
      rw [updateLevels_succ_some m f c base a ha, hach]
      have hdisj : ∀ x1 x2, x1 ∈ nc.childrenIds → x2 ∈ nc.childrenIds → x1 ≠ x2 →
          ∀ d, DescEq m0 x1 d → DescEq m0 x2 d → False :=
        fun x1 x2 h1 h2 hne => sibling_disjoint wf hc h1 h2 hne
      have hchildlt : ∀ x ∈ nc.childrenIds, ∃ nx, lookupNode m0 x = some nx ∧
          nx.level = nc.level + 1 ∧
          downMeasure m0 nx.level < downMeasure m0 nc.level := by
        intro x hx
        rcases wf.child_exists hc hx with ⟨nx, hnx, _, hlvl⟩
        refine ⟨nx, hnx, hlvl, ?_⟩
        have h0 := @downMeasure_succ_lt _ nc.level _
          (mem_of_lookupNode_eq_some hnx) (by show nx.level = nc.level + 1; omega)
        rw [hlvl]
        exact h0
      have hfold : ∀ cs : List Nat, (∀ x ∈ cs, x ∈ nc.childrenIds) → cs.Nodup →
          ∀ m2, (∀ k nk, (∃ x ∈ cs, DescEq m0 x k) → lookupNode m0 k = some nk →
            ∃ a2, lookupNode m2 k = some a2 ∧ a2.childrenIds = nk.childrenIds) →
          (∀ k nk, (∃ x ∈ cs, DescEq m0 x k) → lookupNode m0 k = some nk →
            lookupNode (cs.foldl (fun acc cid => updateLevels acc f cid (base + 1)) m2) k =
              (lookupNode m2 k).map
                (fun x => { x with level := base + 1 + (nk.level - (nc.level + 1)) })) ∧
          (∀ k, ¬ (∃ x ∈ cs, DescEq m0 x k) →
            lookupNode (cs.foldl (fun acc cid => updateLevels acc f cid (base + 1)) m2) k =
              lookupNode m2 k) := by
        intro cs
        induction cs with
        | nil =>
          intro _ _ m2 _
          constructor
          · rintro k nk ⟨x, hx, -⟩ -
            simp at hx
          · intro k _
            rfl
        | cons x cs ihcs =>
          intro hsub hnd m2 hsh2
          obtain ⟨hxnotin, hnd2⟩ := List.nodup_cons.mp hnd
          have hxmem := hsub x (List.mem_cons_self _ _)
          rcases hchildlt x hxmem with ⟨nx, hnx, hnxlvl, hnxdm⟩
          obtain ⟨hA, hB⟩ := ih (downMeasure m0 nx.level) (by omega) x nx hnx (le_refl _)
            f (by omega) (base + 1) m2
            (fun k nk hde hk => hsh2 k nk ⟨x, List.mem_cons_self _ _, hde⟩ hk)
          have hsh3 : ∀ k nk, (∃ x2 ∈ cs, DescEq m0 x2 k) → lookupNode m0 k = some nk →
              ∃ a2, lookupNode (updateLevels m2 f x (base + 1)) k = some a2 ∧
                a2.childrenIds = nk.childrenIds := by
            intro k nk hex hk
            rcases hex with ⟨x2, hx2, hde2⟩
            have hnotx : ¬ DescEq m0 x k := by
              intro hdex
              exact hdisj x x2 hxmem (hsub x2 (List.mem_cons_of_mem _ hx2))
                (fun he => hxnotin (by rw [he]; exact hx2)) k hdex hde2
            rw [hB k hnotx]
            exact hsh2 k nk ⟨x2, List.mem_cons_of_mem _ hx2, hde2⟩ hk
          obtain ⟨hRA, hRB⟩ := ihcs (fun y hy => hsub y (List.mem_cons_of_mem _ hy)) hnd2
            (updateLevels m2 f x (base + 1)) hsh3
          rw [List.foldl_cons]
          constructor
          · intro k nk hex hk
            rcases hex with ⟨x2, hx2, hde2⟩
            rcases List.mem_cons.mp hx2 with rfl | hx2tail
            · have hnotrest : ¬ ∃ y ∈ cs, DescEq m0 y k := by
                rintro ⟨y, hy, hdey⟩
                exact hdisj x2 y hxmem (hsub y (List.mem_cons_of_mem _ hy))
                  (fun he => hxnotin (by rw [he]; exact hy)) k hde2 hdey
              rw [hRB k hnotrest, hA k nk hde2 hk, hnxlvl]
            · have hnotx : ¬ DescEq m0 x k := by
                intro hdex
                exact hdisj x x2 hxmem (hsub x2 hx2)
                  (fun he => hxnotin (by rw [he]; exact hx2tail)) k hdex hde2
              rw [hRA k nk ⟨x2, hx2tail, hde2⟩ hk, hB k hnotx]
          · intro k hnone
            have hnotx : ¬ DescEq m0 x k := fun hdex =>
              hnone ⟨x, List.mem_cons_self _ _, hdex⟩
            have hnotrest : ¬ ∃ y ∈ cs, DescEq m0 y k := by
              rintro ⟨y, hy, hdey⟩
              exact hnone ⟨y, List.mem_cons_of_mem _ hy, hdey⟩
            rw [hRB k hnotrest, hB k hnotx]
      have hm1sh : ∀ k nk, (∃ x ∈ nc.childrenIds, DescEq m0 x k) →
          lookupNode m0 k = some nk →
          ∃ a2, lookupNode (updateKey m c (fun x => { x with level := base })) k = some a2 ∧
            a2.childrenIds = nk.childrenIds := by
        intro k nk hex hk
        rcases hex with ⟨x, hx, hde⟩
        have hkc : k ≠ c := by
          intro he
          apply not_descEq_parent wf hc hx
          rw [← he]
          exact hde
        have hdc : DescEq m0 c k := by
          rcases hde with he2 | hd2
          · exact Or.inr (.child hc (he2 ▸ hx))
          · exact Or.inr ((Desc.child hc hx).trans hd2)
        obtain ⟨a2, ha2, hach2⟩ := hsh k nk hdc hk
        refine ⟨a2, ?_, hach2⟩
        rw [lookupNode_updateKey, if_neg hkc, ha2]
      obtain ⟨hFA, hFB⟩ := hfold nc.childrenIds (fun x hx => hx) (wf.children_nodup hc)
        (updateKey m c (fun x => { x with level := base })) hm1sh
      constructor
      · intro k nk hde hk
        rcases hde with rfl | hdesc
        · have hnot : ¬ ∃ x ∈ nc.childrenIds, DescEq m0 x c := by
            rintro ⟨x, hx, hdex⟩
            exact not_descEq_parent wf hc hx hdex
          rw [hFB c hnot, lookupNode_updateKey, if_pos rfl, ha]
          rw [hc] at hk
          injection hk with hk
          subst hk
          simp
        · obtain ⟨x, hx, hdex⟩ : ∃ x ∈ nc.childrenIds, DescEq m0 x k := by
            rcases desc_unfold wf hdesc hc with hmem | ⟨x, hx, hxd⟩
            · exact ⟨k, hmem, Or.inl rfl⟩
            · exact ⟨x, hx, Or.inr hxd⟩
          have hkc : k ≠ c := by
            intro he
            subst he
            exact (desc_irrefl wf k) hdesc
          have hlvlgt : nc.level < nk.level := Desc.level_lt wf hdesc hc hk
          have harith : base + 1 + (nk.level - (nc.level + 1)) =
              base + (nk.level - nc.level) := by omega
          rw [hFA k nk ⟨x, hx, hdex⟩ hk, lookupNode_updateKey, if_neg hkc, harith]
      · intro k hnde
        have hnot : ¬ ∃ x ∈ nc.childrenIds, DescEq m0 x k := by
          rintro ⟨x, hx, hdex⟩
          apply hnde
          rcases hdex with he | hd
          · exact Or.inr (.child hc (he ▸ hx))
          · exact Or.inr ((Desc.child hc hx).trans hd)
        have hkc : k ≠ c := fun he => hnde (Or.inl he.symm)
        rw [hFB k hnot, lookupNode_updateKey, if_neg hkc]

/-- The outer re-levelling loop of `moveNode`: folding `updateLevels`
over (a sublist of) the moved node's children at full fuel. -/
theorem updateLevels_fold_spec {m0 : NodeMap} {roots : List Nat}
    (wf : WFTree m0 roots) {X : Nat} {nX : ListNode}
    (hX : lookupNode m0 X = some nX) (base : Nat) :
    ∀ cs : List Nat, (∀ x ∈ cs, x ∈ nX.childrenIds) → cs.Nodup →
    ∀ m2, (∀ k nk, (∃ x ∈ cs, DescEq m0 x k) → lookupNode m0 k = some nk →
        ∃ a, lookupNode m2 k = some a ∧ a.childrenIds = nk.childrenIds) →
    (∀ k nk, (∃ x ∈ cs, DescEq m0 x k) → lookupNode m0 k = some nk →
      lookupNode (cs.foldl (fun acc cid => updateLevels acc (m0.length + 1) cid base) m2) k =
        (lookupNode m2 k).map
          (fun x => { x with level := base + (nk.level - (nX.level + 1)) })) ∧
    (∀ k, ¬ (∃ x ∈ cs, DescEq m0 x k) →
      lookupNode (cs.foldl (fun acc cid => updateLevels acc (m0.length + 1) cid base) m2) k =
        lookupNode m2 k) := by
  intro cs
  induction cs with
  | nil =>
    intro _ _ m2 _
    constructor
    · rintro k nk ⟨x, hx, -⟩ -
      simp at hx
    · intro k _
      rfl
  | cons x cs ihcs =>
    intro hsub hnd m2 hsh2
    obtain ⟨hxnotin, hnd2⟩ := List.nodup_cons.mp hnd
    have hxmem := hsub x (List.mem_cons_self _ _)
    rcases wf.child_exists hX hxmem with ⟨nx, hnx, _, hnxlvl⟩
    have hdisj : ∀ x1 x2, x1 ∈ nX.childrenIds → x2 ∈ nX.childrenIds → x1 ≠ x2 →
        ∀ d, DescEq m0 x1 d → DescEq m0 x2 d → False :=
      fun x1 x2 h1 h2 hne => sibling_disjoint wf hX h1 h2 hne
    obtain ⟨hA, hB⟩ := updateLevels_spec wf (downMeasure m0 nx.level) x nx hnx (le_refl _)
      (m0.length + 1) (downMeasure_le m0 nx.level) base m2
      (fun k nk hde hk => hsh2 k nk ⟨x, List.mem_cons_self _ _, hde⟩ hk)
    have hsh3 : ∀ k nk, (∃ x2 ∈ cs, DescEq m0 x2 k) → lookupNode m0 k = some nk →
        ∃ a, lookupNode (updateLevels m2 (m0.length + 1) x base) k = some a ∧
          a.childrenIds = nk.childrenIds := by
      intro k nk hex hk
      rcases hex with ⟨x2, hx2, hde2⟩
      have hnotx : ¬ DescEq m0 x k := by
        intro hdex
        exact hdisj x x2 hxmem (hsub x2 (List.mem_cons_of_mem _ hx2))
          (fun he => hxnotin (by rw [he]; exact hx2)) k hdex hde2
      rw [hB k hnotx]
      exact hsh2 k nk ⟨x2, List.mem_cons_of_mem _ hx2, hde2⟩ hk
    obtain ⟨hRA, hRB⟩ := ihcs (fun y hy => hsub y (List.mem_cons_of_mem _ hy)) hnd2
      (updateLevels m2 (m0.length + 1) x base) hsh3
    rw [List.foldl_cons]
    constructor
    · intro k nk hex hk
      rcases hex with ⟨x2, hx2, hde2⟩
      rcases List.mem_cons.mp hx2 with rfl | hx2tail
      · have hnotrest : ¬ ∃ y ∈ cs, DescEq m0 y k := by
          rintro ⟨y, hy, hdey⟩
          exact hdisj x2 y hxmem (hsub y (List.mem_cons_of_mem _ hy))
            (fun he => hxnotin (by rw [he]; exact hy)) k hde2 hdey
        rw [hRB k hnotrest, hA k nk hde2 hk, hnxlvl]
      · have hnotx : ¬ DescEq m0 x k := by
          intro hdex
          exact hdisj x x2 hxmem (hsub x2 hx2)
            (fun he => hxnotin (by rw [he]; exact hx2tail)) k hdex hde2
        rw [hRA k nk ⟨x2, hx2tail, hde2⟩ hk, hB k hnotx]
    · intro k hnone
      have hnotx : ¬ DescEq m0 x k := fun hdex =>
        hnone ⟨x, List.mem_cons_self _ _, hdex⟩
      have hnotrest : ¬ ∃ y ∈ cs, DescEq m0 y k := by
        rintro ⟨y, hy, hdey⟩
        exact hnone ⟨y, List.mem_cons_of_mem _ hy, hdey⟩
      rw [hRB k hnotrest, hB k hnotx]

/-! Consequences of a successful `canMoveNode` check. -/

theorem canMove_self_false {nodes : NodeMap} {nodeId p : Nat} {maxDepth : Int}
    (hcm : canMoveNode nodeId (some p) nodes maxDepth = true) :
    ((some p : Option Nat) == some nodeId) = false := by
  cases hb : ((some p : Option Nat) == some nodeId)
  · rfl
  · rw [canMoveNode_eval_self hb] at hcm
    exact Bool.noConfusion hcm

theorem canMove_path_false {nodes : NodeMap} {nodeId p : Nat} {maxDepth : Int}
    (hcm : canMoveNode nodeId (some p) nodes maxDepth = true) :
    (getPath p nodes).any (fun m => m.id == nodeId) = false := by
  cases hpa : (getPath p nodes).any (fun m => m.id == nodeId)
  · rfl
  · rw [canMoveNode_some_path hpa] at hcm
    exact Bool.noConfusion hcm

theorem canMove_not_desc {nodes : NodeMap} {roots : List Nat}
    (wf : WFTree nodes roots) {nodeId p : Nat} {maxDepth : Int} {n np : ListNode}
    (hn : lookupNode nodes nodeId = some n) (hp : lookupNode nodes p = some np)
    (hcm : canMoveNode nodeId (some p) nodes maxDepth = true) :
    ¬ Desc nodes nodeId p := by
  intro hdesc
  have hpa : (getPath p nodes).any (fun m => m.id == nodeId) = true := by
    apply List.any_eq_true.mpr
    refine ⟨n, ?_, by simp [wf.id_eq hn]⟩
    apply (mem_getPath wf hp n).mpr
    rw [wf.id_eq hn]
    exact ⟨hn, Or.inr hdesc⟩
  rw [canMoveNode_some_path hpa] at hcm
  exact Bool.noConfusion hcm

/-- The re-levelling loop of `moveNode` on a map that agrees with the
live tree on the moved node's strict-descendant entries: each strict
descendant's level becomes the node's new level plus its relative depth,
and every other key is untouched. -/
theorem relevel_fold {s : AppState} (wf : WFTree s.nodes s.rootNodeIds)
    {nodeId : Nat} {node : ListNode} (hn : lookupNode s.nodes nodeId = some node)
    (newLevel : Nat) (m2 : NodeMap)
    (hag : ∀ k nk, Desc s.nodes nodeId k → lookupNode s.nodes k = some nk →
      lookupNode m2 k = some nk) :
    (∀ d nd, Desc s.nodes nodeId d → lookupNode s.nodes d = some nd →
      lookupNode (node.childrenIds.foldl
        (fun acc cid => updateLevels acc (s.nodes.length + 1) cid (newLevel + 1)) m2) d =
        some { nd with level := newLevel + (nd.level - node.level) }) ∧
    (∀ k, ¬ Desc s.nodes nodeId k →
      lookupNode (node.childrenIds.foldl
        (fun acc cid => updateLevels acc (s.nodes.length + 1) cid (newLevel + 1)) m2) k =
        lookupNode m2 k) := by
  have hsubexists : ∀ d, Desc s.nodes nodeId d →
      ∃ x ∈ node.childrenIds, DescEq s.nodes x d := by
    intro d hd
    rcases desc_unfold wf hd hn with hmem | ⟨x, hx, hxd⟩
    · exact ⟨d, hmem, Or.inl rfl⟩
    · exact ⟨x, hx, Or.inr hxd⟩
  have hkeysub : ∀ k, (∃ x ∈ node.childrenIds, DescEq s.nodes x k) →
      Desc s.nodes nodeId k := by
    rintro k ⟨x, hx, hde⟩
    rcases hde with he | hd
    · exact .child hn (he ▸ hx)
    · exact (Desc.child hn hx).trans hd
  obtain ⟨hA, hB⟩ := updateLevels_fold_spec wf hn (newLevel + 1) node.childrenIds
    (fun x hx => hx) (wf.children_nodup hn) m2
    (fun k nk hex hk => ⟨nk, hag k nk (hkeysub k hex) hk, rfl⟩)
  constructor
  · intro d nd hd hdl
    rw [hA d nd (hsubexists d hd) hdl, hag d nd hd hdl]
    have hgt : node.level < nd.level := Desc.level_lt wf hd hn hdl
    have harith : newLevel + 1 + (nd.level - (node.level + 1)) =
        newLevel + (nd.level - node.level) := by omega
    show some ({ nd with level := newLevel + 1 + (nd.level - (node.level + 1)) } : ListNode) =
      some ({ nd with level := newLevel + (nd.level - node.level) } : ListNode)
    rw [harith]
  · intro k hk
    exact hB k (fun hex => hk (hkeysub k hex))

theorem mapKeys_updateLevels : ∀ (fuel id base : Nat) (m : NodeMap),
    mapKeys (updateLevels m fuel id base) = mapKeys m := by
  intro fuel
  induction fuel with
  | zero =>
    intro id base m
    rfl
  | succ f ih =>
    intro id base m
    cases hl : lookupNode m id with
    | none =>
      have h1 : updateLevels m (f + 1) id base = m := by
        conv_lhs => unfold updateLevels
        rw [hl]
      rw [h1]
    | some n =>
      rw [updateLevels_succ_some m f id base n hl]
      have haux : ∀ (cs : List Nat) (acc : NodeMap), mapKeys acc = mapKeys m →
          mapKeys (cs.foldl (fun a cid => updateLevels a f cid (base + 1)) acc) =
            mapKeys m := by
        intro cs
        induction cs with
        | nil =>
          intro acc hacc
          exact hacc
        | cons c cs ih2 =>
          intro acc hacc
          rw [List.foldl_cons]
          exact ih2 _ (by rw [ih c (base + 1) acc, hacc])
      exact haux _ _ (mapKeys_updateKey m id _)

theorem mapKeys_relevel (cs : List Nat) (F base : Nat) :
    ∀ (m : NodeMap),
      mapKeys (cs.foldl (fun acc cid => updateLevels acc F cid base) m) =
        mapKeys m := by
  induction cs with
  | nil =>
    intro m
    rfl
  | cons c cs ih =>
    intro m
    rw [List.foldl_cons, ih, mapKeys_updateLevels]

/-- The success path of `moveNode` on a well-formed state: with a legal
move and a present (or null) target parent, the action commits a
checkpointed state whose node map re-parents the node, re-levels its
whole subtree relative to the new parent, splices the node into the
target's children (or the root sequence), detaches it from its old
parent, and leaves every other key and all non-tree fields untouched. -/
theorem moveNodeOp_ok {s : AppState} (wf : WFTree s.nodes s.rootNodeIds)
    {nodeId : Nat} {newParentId : Option Nat} (position : Option Nat)
    {node : ListNode} (hn : lookupNode s.nodes nodeId = some node)
    (hcm : canMoveNode nodeId newParentId s.nodes (MAX_DEPTH : Int) = true)
    (hpar : newParentId = none ∨
      ∃ p np, newParentId = some p ∧ lookupNode s.nodes p = some np) :
    ∃ t4 newLevel,
      moveNodeOp s nodeId newParentId position = .ok (saveHistoryOp t4) ∧
      t4.currentSession = s.currentSession ∧
      t4.templates = s.templates ∧
      t4.snapshots = s.snapshots ∧
      t4.past = s.past ∧
      t4.future = s.future ∧
      t4.nextId = s.nextId ∧
      (newParentId = none → newLevel = 0) ∧
      (∀ p np, newParentId = some p → lookupNode s.nodes p = some np →
        newLevel = np.level + 1) ∧
      (∀ d nd, DescEq s.nodes nodeId d → lookupNode s.nodes d = some nd →
        newLevel + (nd.level - node.level) ≤ MAX_DEPTH - 1) ∧
      lookupNode t4.nodes nodeId =
        some { node with parentId := newParentId, level := newLevel } ∧
      (∀ d nd, Desc s.nodes nodeId d → lookupNode s.nodes d = some nd →
        lookupNode t4.nodes d =
          some { nd with level := newLevel + (nd.level - node.level) }) ∧
      (∀ p np, newParentId = some p → lookupNode s.nodes p = some np →
        lookupNode t4.nodes p = some { np with childrenIds := insertPos (if node.parentId = some p then np.childrenIds.filter (fun cid => !(cid == nodeId)) else np.childrenIds) position nodeId }) ∧
      (∀ op nop, node.parentId = some op → newParentId ≠ some op →
        lookupNode s.nodes op = some nop →
        lookupNode t4.nodes op = some { nop with childrenIds := nop.childrenIds.filter (fun cid => !(cid == nodeId)) }) ∧
      (∀ k, k ≠ nodeId → ¬ Desc s.nodes nodeId k → node.parentId ≠ some k →
        newParentId ≠ some k →
        lookupNode t4.nodes k = lookupNode s.nodes k) ∧
      (newParentId = none →
        t4.rootNodeIds = insertPos (if node.parentId = none
          then s.rootNodeIds.filter (fun rid => !(rid == nodeId))
          else s.rootNodeIds) position nodeId) ∧
      (∀ p, newParentId = some p →
        t4.rootNodeIds = (if node.parentId = none
          then s.rootNodeIds.filter (fun rid => !(rid == nodeId))
          else s.rootNodeIds)) ∧
      mapKeys t4.nodes = mapKeys s.nodes := by
  have hMD : MAX_DEPTH = 6 := rfl
  have hirr : ¬ Desc s.nodes nodeId nodeId := desc_irrefl wf nodeId
  rcases hpar with rfl | ⟨p, np, rfl, hnp⟩
  · -- newParentId = none, newLevel = 0
    have hdepth := (canMoveNode_none_depth hn).mp hcm
    have hcap : ∀ d nd, DescEq s.nodes nodeId d → lookupNode s.nodes d = some nd →
        0 + (nd.level - node.level) ≤ MAX_DEPTH - 1 := by
      intro d nd hde hd
      have h2 := (depth_check_iff wf hn (-1) (MAX_DEPTH : Int)).mp hdepth d nd hde hd
      have hge : node.level ≤ nd.level := by
        rcases hde with rfl | hdd
        · rw [hn] at hd
          injection hd with hd
          subst hd
          exact le_refl _
        · exact le_of_lt (Desc.level_lt wf hdd hn hd)
      rw [show ((MAX_DEPTH : Nat) : Int) = 6 from rfl] at h2
      rw [hMD]
      omega
    cases hop : node.parentId with
    | none =>
      have hag : ∀ k nk, Desc s.nodes nodeId k → lookupNode s.nodes k = some nk →
          lookupNode (updateKey s.nodes nodeId
            (fun n => { n with parentId := none, level := 0 })) k = some nk := by
        intro k nk hk hkl
        have hkne : k ≠ nodeId := fun he => hirr (he ▸ hk)
        rw [lookupNode_updateKey, if_neg hkne]
        exact hkl
      obtain ⟨hF1, hF2⟩ := relevel_fold wf hn 0
        (updateKey s.nodes nodeId (fun n => { n with parentId := none, level := 0 })) hag
      refine ⟨{ s with
          nodes := node.childrenIds.foldl
            (fun acc cid => updateLevels acc (s.nodes.length + 1) cid (0 + 1))
            (updateKey s.nodes nodeId (fun n => { n with parentId := none, level := 0 }))
          rootNodeIds := insertPos (s.rootNodeIds.filter (fun rid => !(rid == nodeId)))
            position nodeId },
        0, ?_, rfl, rfl, rfl, rfl, rfl, rfl, fun _ => rfl,
        ?_, hcap, ?_, ?_, ?_, ?_, ?_, ?_, ?_, ?_⟩
      · simp [moveNodeOp, hcm, hn, hop]
      · intro p2 np2 h2
        exact absurd h2 (by simp)
      · dsimp only
        rw [hF2 nodeId hirr, lookupNode_updateKey, if_pos rfl, hn]
        rfl
      · intro d nd hd hdl
        exact hF1 d nd hd hdl
      · intro p2 np2 h2
        exact absurd h2 (by simp)
      · intro op2 nop2 hopeq
        exact absurd hopeq (by simp)
      · intro k hknid hknd _ _
        dsimp only
        rw [hF2 k hknd, lookupNode_updateKey, if_neg hknid]
      · intro _
        dsimp only
        simp
      · intro p2 h2
        exact absurd h2 (by simp)
      · dsimp only
        simp [mapKeys_updateKey, mapKeys_relevel]
    | some op =>
      rcases wf.parent_link hn hop with ⟨nop, hnop, hmemop, hlvlop⟩
      have hDop : Desc s.nodes op nodeId := desc_of_parent wf hn hop
      have hnodne : nodeId ≠ op := by
        intro he
        exact desc_irrefl wf op (he ▸ hDop)
      have hnotdescop : ¬ Desc s.nodes nodeId op :=
        fun hcon => desc_irrefl wf nodeId (hcon.trans hDop)
      have hopS : (lookupNode s.nodes op).isSome = true := by
        rw [hnop]
        rfl
      have hag : ∀ k nk, Desc s.nodes nodeId k → lookupNode s.nodes k = some nk →
          lookupNode (updateKey (updateKey s.nodes op (fun pn =>
              { pn with childrenIds := pn.childrenIds.filter (fun cid => !(cid == nodeId)) }))
            nodeId (fun n => { n with parentId := none, level := 0 })) k = some nk := by
        intro k nk hk hkl
        have hkne : k ≠ nodeId := fun he => hirr (he ▸ hk)
        have hkop : k ≠ op := fun he => hnotdescop (he ▸ hk)
        rw [lookupNode_updateKey, if_neg hkne, lookupNode_updateKey, if_neg hkop]
        exact hkl
      obtain ⟨hF1, hF2⟩ := relevel_fold wf hn 0
        (updateKey (updateKey s.nodes op (fun pn =>
            { pn with childrenIds := pn.childrenIds.filter (fun cid => !(cid == nodeId)) }))
          nodeId (fun n => { n with parentId := none, level := 0 })) hag
      refine ⟨{ s with
          nodes := node.childrenIds.foldl
            (fun acc cid => updateLevels acc (s.nodes.length + 1) cid (0 + 1))
            (updateKey (updateKey s.nodes op (fun pn =>
                { pn with childrenIds := pn.childrenIds.filter (fun cid => !(cid == nodeId)) }))
              nodeId (fun n => { n with parentId := none, level := 0 }))
          rootNodeIds := insertPos s.rootNodeIds position nodeId },
        0, ?_, rfl, rfl, rfl, rfl, rfl, rfl, fun _ => rfl,
        ?_, hcap, ?_, ?_, ?_, ?_, ?_, ?_, ?_, ?_⟩
      · simp [moveNodeOp, hcm, hn, hop, hopS]
      · intro p2 np2 h2
        exact absurd h2 (by simp)
      · dsimp only
        rw [hF2 nodeId hirr, lookupNode_updateKey, if_pos rfl, lookupNode_updateKey,
          if_neg hnodne, hn]
        rfl
      · intro d nd hd hdl
        exact hF1 d nd hd hdl
      · intro p2 np2 h2
        exact absurd h2 (by simp)
      · intro op2 nop2 hopeq hne2 hlop2
        injection hopeq with hopeq
        subst hopeq
        rw [hnop] at hlop2
        injection hlop2 with hlop2
        subst hlop2
        dsimp only
        rw [hF2 op hnotdescop, lookupNode_updateKey, if_neg (Ne.symm hnodne),
          lookupNode_updateKey, if_pos rfl, hnop]
        rfl
      · intro k hknid hknd hkpar _
        have hkop : k ≠ op := by
          intro he
          exact hkpar (by rw [he])
        dsimp only
        rw [hF2 k hknd, lookupNode_updateKey, if_neg hknid, lookupNode_updateKey,
          if_neg hkop]
      · intro _
        dsimp only
        simp
      · intro p2 h2
        exact absurd h2 (by simp)
      · dsimp only
        simp [mapKeys_updateKey, mapKeys_relevel]
  · -- newParentId = some p, p present
    have hself := canMove_self_false hcm
    have hpne : p ≠ nodeId := by simpa using hself
    have hpath := canMove_path_false hcm
    have hnotdescp : ¬ Desc s.nodes nodeId p := canMove_not_desc wf hn hnp hcm
    have hdlt := (canMoveNode_some_depth hself hpath hn).mp hcm
    rw [getNodeDepth_eq_level wf hnp] at hdlt
    have hcap : ∀ d nd, DescEq s.nodes nodeId d → lookupNode s.nodes d = some nd →
        (np.level + 1) + (nd.level - node.level) ≤ MAX_DEPTH - 1 := by
      intro d nd hde hd
      have h2 := (depth_check_iff wf hn (np.level : Int) (MAX_DEPTH : Int)).mp hdlt d nd hde hd
      have hge : node.level ≤ nd.level := by
        rcases hde with rfl | hdd
        · rw [hn] at hd
          injection hd with hd
          subst hd
          exact le_refl _
        · exact le_of_lt (Desc.level_lt wf hdd hn hd)
      rw [show ((MAX_DEPTH : Nat) : Int) = 6 from rfl] at h2
      rw [hMD]
      omega
    have hclause9 : ∀ p2 np2, (some p : Option Nat) = some p2 →
        lookupNode s.nodes p2 = some np2 → np.level + 1 = np2.level + 1 := by
      intro p2 np2 h2 hl2
      injection h2 with h2
      subst h2
      rw [hnp] at hl2
      injection hl2 with hl2
      subst hl2
      rfl
    cases hop : node.parentId with
    | none =>
      have hag : ∀ k nk, Desc s.nodes nodeId k → lookupNode s.nodes k = some nk →
          lookupNode (updateKey s.nodes nodeId
            (fun n => { n with parentId := some p, level := np.level + 1 })) k = some nk := by
        intro k nk hk hkl
        have hkne : k ≠ nodeId := fun he => hirr (he ▸ hk)
        rw [lookupNode_updateKey, if_neg hkne]
        exact hkl
      obtain ⟨hF1, hF2⟩ := relevel_fold wf hn (np.level + 1)
        (updateKey s.nodes nodeId
          (fun n => { n with parentId := some p, level := np.level + 1 })) hag
      have hnod3p : lookupNode (node.childrenIds.foldl
          (fun acc cid => updateLevels acc (s.nodes.length + 1) cid (np.level + 1 + 1))
          (updateKey s.nodes nodeId
            (fun n => { n with parentId := some p, level := np.level + 1 }))) p = some np := by
        rw [hF2 p hnotdescp, lookupNode_updateKey, if_neg hpne]
        exact hnp
      refine ⟨{ s with
          nodes := updateKey (node.childrenIds.foldl
              (fun acc cid => updateLevels acc (s.nodes.length + 1) cid (np.level + 1 + 1))
              (updateKey s.nodes nodeId
                (fun n => { n with parentId := some p, level := np.level + 1 })))
            p (fun pn => { pn with childrenIds := insertPos pn.childrenIds position nodeId })
          rootNodeIds := s.rootNodeIds.filter (fun rid => !(rid == nodeId)) },
        np.level + 1, ?_, rfl, rfl, rfl, rfl, rfl, rfl, ?_, hclause9, hcap,
        ?_, ?_, ?_, ?_, ?_, ?_, ?_, ?_⟩
      · simp [moveNodeOp, hcm, hn, hop, hnp, hnod3p]
      · intro h2
        exact absurd h2 (by simp)
      · dsimp only
        rw [lookupNode_updateKey, if_neg (Ne.symm hpne), hF2 nodeId hirr,
          lookupNode_updateKey, if_pos rfl, hn]
        rfl
      · intro d nd hd hdl
        have hdp : d ≠ p := fun he => hnotdescp (he ▸ hd)
        dsimp only
        rw [lookupNode_updateKey, if_neg hdp, hF1 d nd hd hdl]
      · intro p2 np2 h2 hl2
        injection h2 with h2
        subst h2
        rw [hnp] at hl2
        injection hl2 with hl2
        subst hl2
        dsimp only
        rw [lookupNode_updateKey, if_pos rfl, hnod3p]
        simp
      · intro op2 nop2 hopeq
        exact absurd hopeq (by simp)
      · intro k hknid hknd _ hknp
        have hkp : k ≠ p := fun he => hknp (by rw [he])
        dsimp only
        rw [lookupNode_updateKey, if_neg hkp, hF2 k hknd, lookupNode_updateKey,
          if_neg hknid]
      · intro h2
        exact absurd h2 (by simp)
      · intro p2 _
        dsimp only
        simp
      · dsimp only
        simp [mapKeys_updateKey, mapKeys_relevel]
    | some op =>
      rcases wf.parent_link hn hop with ⟨nop, hnop, hmemop, hlvlop⟩
      have hDop : Desc s.nodes op nodeId := desc_of_parent wf hn hop
      have hnodne : nodeId ≠ op := by
        intro he
        exact desc_irrefl wf op (he ▸ hDop)
      have hnotdescop : ¬ Desc s.nodes nodeId op :=
        fun hcon => desc_irrefl wf nodeId (hcon.trans hDop)
      have hopS : (lookupNode s.nodes op).isSome = true := by
        rw [hnop]
        rfl
      have hag : ∀ k nk, Desc s.nodes nodeId k → lookupNode s.nodes k = some nk →
          lookupNode (updateKey (updateKey s.nodes op (fun pn =>
              { pn with childrenIds := pn.childrenIds.filter (fun cid => !(cid == nodeId)) }))
            nodeId (fun n => { n with parentId := some p, level := np.level + 1 })) k =
            some nk := by
        intro k nk hk hkl
        have hkne : k ≠ nodeId := fun he => hirr (he ▸ hk)
        have hkop : k ≠ op := fun he => hnotdescop (he ▸ hk)
        rw [lookupNode_updateKey, if_neg hkne, lookupNode_updateKey, if_neg hkop]
        exact hkl
      obtain ⟨hF1, hF2⟩ := relevel_fold wf hn (np.level + 1)
        (updateKey (updateKey s.nodes op (fun pn =>
            { pn with childrenIds := pn.childrenIds.filter (fun cid => !(cid == nodeId)) }))
          nodeId (fun n => { n with parentId := some p, level := np.level + 1 })) hag
      by_cases hpo : p = op
      · -- moving within the same parent
        subst hpo
        rw [hnp] at hnop
        injection hnop with hnop2
        subst hnop2
        have hT1p : lookupNode (updateKey s.nodes p (fun pn =>
            { pn with childrenIds := pn.childrenIds.filter (fun cid => !(cid == nodeId)) })) p =
            some { np with childrenIds := np.childrenIds.filter (fun cid => !(cid == nodeId)) } := by
          rw [lookupNode_updateKey, if_pos rfl, hnp]
          rfl
        have hnod3p : lookupNode (node.childrenIds.foldl
            (fun acc cid => updateLevels acc (s.nodes.length + 1) cid (np.level + 1 + 1))
            (updateKey (updateKey s.nodes p (fun pn =>
                { pn with childrenIds := pn.childrenIds.filter (fun cid => !(cid == nodeId)) }))
              nodeId (fun n => { n with parentId := some p, level := np.level + 1 }))) p =
            some { np with childrenIds := np.childrenIds.filter (fun cid => !(cid == nodeId)) } := by
          rw [hF2 p hnotdescp, lookupNode_updateKey, if_neg hpne]
          exact hT1p
        refine ⟨{ s with
            nodes := updateKey (node.childrenIds.foldl
                (fun acc cid => updateLevels acc (s.nodes.length + 1) cid (np.level + 1 + 1))
                (updateKey (updateKey s.nodes p (fun pn =>
                    { pn with childrenIds := pn.childrenIds.filter (fun cid => !(cid == nodeId)) }))
                  nodeId (fun n => { n with parentId := some p, level := np.level + 1 })))
              p (fun pn => { pn with childrenIds := insertPos pn.childrenIds position nodeId }) },
          np.level + 1, ?_, rfl, rfl, rfl, rfl, rfl, rfl, ?_, hclause9, hcap,
          ?_, ?_, ?_, ?_, ?_, ?_, ?_, ?_⟩
        · simp [moveNodeOp, hcm, hn, hop, hopS, hT1p, hnod3p]
        · intro h2
          exact absurd h2 (by simp)
        · dsimp only
          rw [lookupNode_updateKey, if_neg (Ne.symm hpne), hF2 nodeId hirr,
            lookupNode_updateKey, if_pos rfl, lookupNode_updateKey, if_neg hnodne, hn]
          rfl
        · intro d nd hd hdl
          have hdp : d ≠ p := fun he => hnotdescp (he ▸ hd)
          dsimp only
          rw [lookupNode_updateKey, if_neg hdp, hF1 d nd hd hdl]
        · intro p2 np2 h2 hl2
          injection h2 with h2
          subst h2
          rw [hnp] at hl2
          injection hl2 with hl2
          subst hl2
          dsimp only
          rw [lookupNode_updateKey, if_pos rfl, hnod3p]
          simp
        · intro op2 nop2 hopeq hne2 hlop2
          injection hopeq with hopeq
          subst hopeq
          exact absurd rfl hne2
        · intro k hknid hknd hkpar _
          have hkp : k ≠ p := by
            intro he
            exact hkpar (by rw [he])
          dsimp only
          rw [lookupNode_updateKey, if_neg hkp, hF2 k hknd, lookupNode_updateKey,
            if_neg hknid, lookupNode_updateKey, if_neg hkp]
        · intro h2
          exact absurd h2 (by simp)
        · intro p2 _
          dsimp only
          simp
        · dsimp only
          simp [mapKeys_updateKey, mapKeys_relevel]
      · -- distinct old and new parents
        have hT1p : lookupNode (updateKey s.nodes op (fun pn =>
            { pn with childrenIds := pn.childrenIds.filter (fun cid => !(cid == nodeId)) })) p =
            some np := by
          rw [lookupNode_updateKey, if_neg hpo]
          exact hnp
        have hnod3p : lookupNode (node.childrenIds.foldl
            (fun acc cid => updateLevels acc (s.nodes.length + 1) cid (np.level + 1 + 1))
            (updateKey (updateKey s.nodes op (fun pn =>
                { pn with childrenIds := pn.childrenIds.filter (fun cid => !(cid == nodeId)) }))
              nodeId (fun n => { n with parentId := some p, level := np.level + 1 }))) p =
            some np := by
          rw [hF2 p hnotdescp, lookupNode_updateKey, if_neg hpne, lookupNode_updateKey,
            if_neg hpo]
          exact hnp
        refine ⟨{ s with
            nodes := updateKey (node.childrenIds.foldl
                (fun acc cid => updateLevels acc (s.nodes.length + 1) cid (np.level + 1 + 1))
                (updateKey (updateKey s.nodes op (fun pn =>
                    { pn with childrenIds := pn.childrenIds.filter (fun cid => !(cid == nodeId)) }))
                  nodeId (fun n => { n with parentId := some p, level := np.level + 1 })))
              p (fun pn => { pn with childrenIds := insertPos pn.childrenIds position nodeId }) },
          np.level + 1, ?_, rfl, rfl, rfl, rfl, rfl, rfl, ?_, hclause9, hcap,
          ?_, ?_, ?_, ?_, ?_, ?_, ?_, ?_⟩
        · simp [moveNodeOp, hcm, hn, hop, hopS, hT1p, hnod3p]
        · intro h2
          exact absurd h2 (by simp)
        · dsimp only
          rw [lookupNode_updateKey, if_neg (Ne.symm hpne), hF2 nodeId hirr,
            lookupNode_updateKey, if_pos rfl, lookupNode_updateKey, if_neg hnodne, hn]
          rfl
        · intro d nd hd hdl
          have hdp : d ≠ p := fun he => hnotdescp (he ▸ hd)
          dsimp only
          rw [lookupNode_updateKey, if_neg hdp, hF1 d nd hd hdl]
        · intro p2 np2 h2 hl2
          injection h2 with h2
          subst h2
          rw [hnp] at hl2
          injection hl2 with hl2
          subst hl2
          have hcond : ¬ ((some op : Option Nat) = some p) := by
            intro h3
            injection h3 with h3
            exact hpo h3.symm
          dsimp only
          rw [lookupNode_updateKey, if_pos rfl, hnod3p, if_neg hcond]
          rfl
        · intro op2 nop2 hopeq hne2 hlop2
          injection hopeq with hopeq
          subst hopeq
          rw [hnop] at hlop2
          injection hlop2 with hlop2
          subst hlop2
          have hopp : op ≠ p := fun he => hpo he.symm
          dsimp only
          rw [lookupNode_updateKey, if_neg hopp, hF2 op hnotdescop, lookupNode_updateKey,
            if_neg (Ne.symm hnodne), lookupNode_updateKey, if_pos rfl, hnop]
          rfl
        · intro k hknid hknd hkpar hknp
          have hkop : k ≠ op := by
            intro he
            exact hkpar (by rw [he])
          have hkp : k ≠ p := fun he => hknp (by rw [he])
          dsimp only
          rw [lookupNode_updateKey, if_neg hkp, hF2 k hknd, lookupNode_updateKey,
            if_neg hknid, lookupNode_updateKey, if_neg hkop]
        · intro h2
          exact absurd h2 (by simp)
        · intro p2 _
          dsimp only
          simp
        · dsimp only
          simp [mapKeys_updateKey, mapKeys_relevel]

/-! `saveHistory` only touches the history stacks. -/

theorem saveHistoryOp_nodes (t : AppState) : (saveHistoryOp t).nodes = t.nodes := by
  unfold saveHistoryOp
  by_cases h : (!t.currentSession.historyEnabled) = true
  · rw [if_pos h]
  · rw [if_neg h]

theorem saveHistoryOp_rootNodeIds (t : AppState) :
    (saveHistoryOp t).rootNodeIds = t.rootNodeIds := by
  unfold saveHistoryOp
  by_cases h : (!t.currentSession.historyEnabled) = true
  · rw [if_pos h]
  · rw [if_neg h]

theorem saveHistoryOp_currentSession (t : AppState) :
    (saveHistoryOp t).currentSession = t.currentSession := by
  unfold saveHistoryOp
  by_cases h : (!t.currentSession.historyEnabled) = true
  · rw [if_pos h]
  · rw [if_neg h]

theorem saveHistoryOp_templates (t : AppState) :
    (saveHistoryOp t).templates = t.templates := by
  unfold saveHistoryOp
  by_cases h : (!t.currentSession.historyEnabled) = true
  · rw [if_pos h]
  · rw [if_neg h]

theorem saveHistoryOp_snapshots (t : AppState) :
    (saveHistoryOp t).snapshots = t.snapshots := by
  unfold saveHistoryOp
  by_cases h : (!t.currentSession.historyEnabled) = true
  · rw [if_pos h]
  · rw [if_neg h]

theorem saveHistoryOp_nextId (t : AppState) : (saveHistoryOp t).nextId = t.nextId := by
  unfold saveHistoryOp
  by_cases h : (!t.currentSession.historyEnabled) = true
  · rw [if_pos h]
  · rw [if_neg h]

theorem saveHistoryOp_past (t : AppState) :
    (saveHistoryOp t).past = t.past ∨
      ((saveHistoryOp t).past =
          (t.past ++ [({ nodes := t.nodes, rootNodeIds := t.rootNodeIds } : Tree)]) ∨
        (saveHistoryOp t).past =
          (t.past ++ [({ nodes := t.nodes, rootNodeIds := t.rootNodeIds } : Tree)]).drop 1) := by
  unfold saveHistoryOp
  by_cases h : (!t.currentSession.historyEnabled) = true
  · rw [if_pos h]
    exact Or.inl rfl
  · rw [if_neg h]
    dsimp only
    by_cases h2 : (t.past ++ [({ nodes := t.nodes, rootNodeIds := t.rootNodeIds } : Tree)]).length >
        MAX_HISTORY_ITEMS
    · rw [if_pos h2]
      exact Or.inr (Or.inr rfl)
    · rw [if_neg h2]
      exact Or.inr (Or.inl rfl)

theorem saveHistoryOp_future (t : AppState) :
    (saveHistoryOp t).future = t.future ∨ (saveHistoryOp t).future = [] := by
  unfold saveHistoryOp
  by_cases h : (!t.currentSession.historyEnabled) = true
  · rw [if_pos h]
    exact Or.inl rfl
  · rw [if_neg h]
    exact Or.inr rfl

/-! Transfer of the descendant relation between maps that agree on the
children structure over a subtree. -/

theorem desc_transfer {m mP : NodeMap} {X : Nat}
    (h : ∀ k a, DescEq m X k → lookupNode m k = some a →
      ∃ b, lookupNode mP k = some b ∧ b.childrenIds = a.childrenIds) :
    ∀ d, Desc m X d → Desc mP X d := by
  intro d hd
  induction hd with
  | child hl hc =>
    rcases h X _ (Or.inl rfl) hl with ⟨b, hb, hbc⟩
    exact .child hb (by rw [hbc]; exact hc)
  | step hd2 hl hc ihd =>
    rcases h _ _ (Or.inr hd2) hl with ⟨b, hb, hbc⟩
    exact .step ihd hb (by rw [hbc]; exact hc)

theorem desc_transfer_rev {m mP : NodeMap} {roots : List Nat}
    (wf : WFTree m roots) {X : Nat} {nX : ListNode}
    (hX : lookupNode m X = some nX)
    (h : ∀ k a, DescEq m X k → lookupNode m k = some a →
      ∃ b, lookupNode mP k = some b ∧ b.childrenIds = a.childrenIds) :
    ∀ d, Desc mP X d → Desc m X d := by
  intro d hd
  induction hd with
  | child hl hc =>
    rcases h X nX (Or.inl rfl) hX with ⟨b, hb, hbc⟩
    rw [hl] at hb
    injection hb with hb
    subst hb
    exact .child hX (hbc ▸ hc)
  | step hd2 hl hc ihd =>
    rcases ihd.dst_lookup wf with ⟨a0, ha0⟩
    rcases h _ a0 (Or.inr ihd) ha0 with ⟨b, hb, hbc⟩
    rw [hl] at hb
    injection hb with hb
    subst hb
    exact .step ihd ha0 (hbc ▸ hc)

/-- C5: a legal `moveNode` (the move check passes, the target parent is
null or present) commits a state in which the moved node carries its new
parent and level, the set of its strict descendants is exactly preserved,
and every descendant's level is the node's new level plus the
descendant's relative depth below the node. -/
theorem C5_move_preserves_subtree (s : AppState)
    (wf : WFTree s.nodes s.rootNodeIds) (X : Nat) (P : Option Nat)
    (position : Option Nat) (node : ListNode)
    (hn : lookupNode s.nodes X = some node)
    (hcm : canMoveNode X P s.nodes (MAX_DEPTH : Int) = true)
    (hpar : P = none ∨ ∃ p np, P = some p ∧ lookupNode s.nodes p = some np) :
    ∃ s2 newLevel, moveNodeOp s X P position = .ok s2 ∧
      (P = none → newLevel = 0) ∧
      (∀ p np, P = some p → lookupNode s.nodes p = some np →
        newLevel = np.level + 1) ∧
      lookupNode s2.nodes X = some { node with parentId := P, level := newLevel } ∧
      (∀ d, Desc s.nodes X d ↔ Desc s2.nodes X d) ∧
      (∀ d nd, Desc s.nodes X d → lookupNode s.nodes d = some nd →
        ∃ nd2, lookupNode s2.nodes d = some nd2 ∧
          nd2.level + node.level = newLevel + nd.level) := by
  obtain ⟨t4, newLevel, heq, -, -, -, -, -, -, h8, h9, -,
    hXlook, hdesc, -, -, -, -, -, -⟩ := moveNodeOp_ok wf position hn hcm hpar
  have hagree : ∀ k a, DescEq s.nodes X k → lookupNode s.nodes k = some a →
      ∃ b, lookupNode t4.nodes k = some b ∧ b.childrenIds = a.childrenIds := by
    intro k a hde hka
    rcases hde with rfl | hdd
    · rw [hn] at hka
      injection hka with hka
      subst hka
      exact ⟨_, hXlook, rfl⟩
    · exact ⟨_, hdesc k a hdd hka, rfl⟩
  refine ⟨saveHistoryOp t4, newLevel, heq, h8, h9, ?_, ?_, ?_⟩
  · rw [saveHistoryOp_nodes]
    exact hXlook
  · intro d
    rw [saveHistoryOp_nodes]
    constructor
    · exact desc_transfer hagree d
    · exact desc_transfer_rev wf hn hagree d
  · intro d nd hd hdl
    rw [saveHistoryOp_nodes]
    refine ⟨_, hdesc d nd hd hdl, ?_⟩
    have hgt : node.level < nd.level := Desc.level_lt wf hd hn hdl
    show newLevel + (nd.level - node.level) + node.level = newLevel + nd.level
    omega

/-- C5 witness: the preserved-subtree statement evaluated on the
three-node chain, moving the grandchild (id 3) under the root (id 1). -/
theorem C5_witness :
    ∃ s2 newLevel, moveNodeOp chain3 3 (some 1) none = Except.ok s2 ∧
      ((some 1 : Option Nat) = none → newLevel = 0) ∧
      (∀ p np, (some 1 : Option Nat) = some p → lookupNode chain3.nodes p = some np →
        newLevel = np.level + 1) ∧
      lookupNode s2.nodes 3 =
        some { mkListNode 3 0 {} 2 (some 2) with parentId := some 1, level := newLevel } ∧
      (∀ d, Desc chain3.nodes 3 d ↔ Desc s2.nodes 3 d) ∧
      (∀ d nd, Desc chain3.nodes 3 d → lookupNode chain3.nodes d = some nd →
        ∃ nd2, lookupNode s2.nodes d = some nd2 ∧
          nd2.level + (mkListNode 3 0 {} 2 (some 2)).level = newLevel + nd.level) :=
  C5_move_preserves_subtree chain3 (by decide) 3 (some 1) none
    (mkListNode 3 0 {} 2 (some 2)) (by decide) (by decide)
    (Or.inr ⟨1, { mkListNode 1 0 {} 0 none with childrenIds := [2] }, rfl, by decide⟩)

/-! The delete cascade. -/

theorem contains_eq_true_iff {l : List Nat} {a : Nat} :
    l.contains a = true ↔ a ∈ l :=
  ⟨fun h => List.mem_of_elem_eq_true h, fun h => List.elem_eq_true_of_mem h⟩

theorem toDelete_iff {s : AppState} (wf : WFTree s.nodes s.rootNodeIds)
    {X : Nat} {node : ListNode} (hn : lookupNode s.nodes X = some node) :
    ∀ k, k ∈ (X :: (getAllChildren X s.nodes).map (fun n => n.id)) ↔
      DescEq s.nodes X k := by
  intro k
  simp only [List.mem_cons, List.mem_map]
  constructor
  · rintro (rfl | ⟨m, hm, rfl⟩)
    · exact Or.inl rfl
    · exact Or.inr ((mem_getAllChildren wf hn m).mp hm).2
  · rintro (rfl | hd)
    · exact Or.inl rfl
    · rcases hd.dst_lookup wf with ⟨nd, hnd⟩
      refine Or.inr ⟨nd, (mem_getAllChildren wf hn nd).mpr ⟨?_, ?_⟩, wf.id_eq hnd⟩
      · rw [wf.id_eq hnd]
        exact hnd
      · rw [wf.id_eq hnd]
        exact hd

/-- C6: the delete cascade, for every conclusion of the claim except the
focus path.  After `deleteNode(X)` on a present node of a well-formed
state, neither `X` nor any of its former descendants appears in the node
map, the root sequence, any remaining node's children list, the
selection, or the focused-node field.  (The session's `focusPath` is NOT
purged; see the counterexample.) -/
theorem C6_delete_cascades (s : AppState) (wf : WFTree s.nodes s.rootNodeIds)
    (X : Nat) (node : ListNode) (hn : lookupNode s.nodes X = some node) :
    ∀ d, DescEq s.nodes X d →
      lookupNode (deleteNodeOp s X).nodes d = none ∧
      d ∉ (deleteNodeOp s X).rootNodeIds ∧
      (∀ k nk, lookupNode (deleteNodeOp s X).nodes k = some nk →
        d ∉ nk.childrenIds) ∧
      d ∉ (deleteNodeOp s X).currentSession.selectedNodeIds ∧
      (deleteNodeOp s X).currentSession.focusedNodeId ≠ some d := by
  have htd := toDelete_iff wf hn
  have hcont : ∀ k, ((X :: (getAllChildren X s.nodes).map (fun n => n.id)).contains k) = true ↔
      DescEq s.nodes X k := by
    intro k
    rw [contains_eq_true_iff]
    exact htd k
  have hSel : (deleteNodeOp s X).currentSession.selectedNodeIds =
      s.currentSession.selectedNodeIds.filter
        (fun sid => !((X :: (getAllChildren X s.nodes).map (fun n => n.id)).contains sid)) := by
    cases hop : node.parentId with
    | none => simp [deleteNodeOp, hn, hop, saveHistoryOp_currentSession]
    | some op =>
      rcases wf.parent_link hn hop with ⟨nop, hnop, -, -⟩
      have hopS : (lookupNode s.nodes op).isSome = true := by
        rw [hnop]
        rfl
      simp [deleteNodeOp, hn, hop, hopS, saveHistoryOp_currentSession]
  have hFoc : ∀ f, (deleteNodeOp s X).currentSession.focusedNodeId = some f →
      ((X :: (getAllChildren X s.nodes).map (fun n => n.id)).contains f) = false := by
    intro f hf
    have hf2 : (match s.currentSession.focusedNodeId with
        | some f0 =>
          if ((X :: (getAllChildren X s.nodes).map (fun n => n.id)).contains f0)
          then none else some f0
        | none => none) = some f := by
      cases hop : node.parentId with
      | none =>
        rw [show (deleteNodeOp s X).currentSession.focusedNodeId =
          (match s.currentSession.focusedNodeId with
            | some f0 =>
              if ((X :: (getAllChildren X s.nodes).map (fun n => n.id)).contains f0)
              then none else some f0
            | none => none) from by
          simp [deleteNodeOp, hn, hop, saveHistoryOp_currentSession]] at hf
        exact hf
      | some op =>
        rcases wf.parent_link hn hop with ⟨nop, hnop, -, -⟩
        have hopS : (lookupNode s.nodes op).isSome = true := by
          rw [hnop]
          rfl
        rw [show (deleteNodeOp s X).currentSession.focusedNodeId =
          (match s.currentSession.focusedNodeId with
            | some f0 =>
              if ((X :: (getAllChildren X s.nodes).map (fun n => n.id)).contains f0)
              then none else some f0
            | none => none) from by
          simp [deleteNodeOp, hn, hop, hopS, saveHistoryOp_currentSession]] at hf
        exact hf
    cases hfo : s.currentSession.focusedNodeId with
    | none =>
      rw [hfo] at hf2
      have hf3 : (none : Option Nat) = some f := hf2
      exact Option.noConfusion hf3
    | some f0 =>
      rw [hfo] at hf2
      have hf3 : (if ((X :: (getAllChildren X s.nodes).map (fun n => n.id)).contains f0) = true
          then (none : Option Nat) else some f0) = some f := hf2
      by_cases hc : ((X :: (getAllChildren X s.nodes).map (fun n => n.id)).contains f0) = true
      · rw [if_pos hc] at hf3
        exact Option.noConfusion hf3
      · rw [if_neg hc] at hf3
        injection hf3 with hf3
        rw [← hf3]
        cases hb : ((X :: (getAllChildren X s.nodes).map (fun n => n.id)).contains f0) with
        | false => rfl
        | true => exact absurd hb hc
  intro d hde
  have hdc : ((X :: (getAllChildren X s.nodes).map (fun n => n.id)).contains d) = true :=
    (hcont d).mpr hde
  have hdparent : ∀ nd, lookupNode s.nodes d = some nd →
      (d = X ∧ nd = node) ∨ ∃ b, nd.parentId = some b ∧ DescEq s.nodes X b := by
    intro nd hnd
    rcases hde with rfl | hdd
    · rw [hn] at hnd
      injection hnd with hnd
      exact Or.inl ⟨rfl, hnd.symm⟩
    · rcases desc_parent_case wf hdd hnd with ⟨b, hb, hXb⟩
      refine Or.inr ⟨b, hb, ?_⟩
      rcases hXb with he | hXb2
      · exact Or.inl he.symm
      · exact Or.inr hXb2
  cases hop : node.parentId with
  | none =>
    have hNodes : (deleteNodeOp s X).nodes =
        s.nodes.filter
          (fun e => !((X :: (getAllChildren X s.nodes).map (fun n => n.id)).contains e.1)) := by
      simp [deleteNodeOp, hn, hop, saveHistoryOp_nodes]
    have hRoots : (deleteNodeOp s X).rootNodeIds =
        s.rootNodeIds.filter (fun rid => !(rid == X)) := by
      simp [deleteNodeOp, hn, hop, saveHistoryOp_rootNodeIds]
    refine ⟨?_, ?_, ?_, ?_, ?_⟩
    · rw [hNodes, lookupNode_filterOut, if_pos hdc]
    · rw [hRoots]
      intro hmem
      obtain ⟨hmem2, hpred⟩ := List.mem_filter.mp hmem
      rcases hde with rfl | hdd
      · simp at hpred
      · rcases wf.root_entry hmem2 with ⟨nd, hnd, hpnone⟩
        rcases hdparent nd hnd with ⟨rfl, -⟩ | ⟨b, hb, -⟩
        · exact absurd hdd (desc_irrefl wf _)
        · rw [hpnone] at hb
          exact Option.noConfusion hb
    · intro k nk hlk
      rw [hNodes, lookupNode_filterOut] at hlk
      by_cases hck : ((X :: (getAllChildren X s.nodes).map (fun n => n.id)).contains k) = true
      · rw [if_pos hck] at hlk
        exact Option.noConfusion hlk
      · have hkmem : k ∉ (X :: (getAllChildren X s.nodes).map (fun n => n.id)) := by
          intro hmm
          exact hck (contains_eq_true_iff.mpr hmm)
        rw [if_neg hck] at hlk
        intro hdmem
        rcases wf.child_exists hlk hdmem with ⟨nd, hnd, hdp, -⟩
        rcases hdparent nd hnd with ⟨rfl, hndeq⟩ | ⟨b, hb, hXb⟩
        · rw [hndeq, hop] at hdp
          exact Option.noConfusion hdp
        · rw [hdp] at hb
          injection hb with hb
          subst hb
          exact hkmem ((htd k).mpr hXb)
    · rw [hSel]
      intro hmem
      obtain ⟨-, hpred⟩ := List.mem_filter.mp hmem
      rw [hdc] at hpred
      exact Bool.noConfusion hpred
    · intro heq
      have := hFoc d heq
      rw [hdc] at this
      exact Bool.noConfusion this
  | some op =>
    rcases wf.parent_link hn hop with ⟨nop, hnop, hmemop, hlvlop⟩
    have hDop : Desc s.nodes op X := desc_of_parent wf hn hop
    have hnodne : X ≠ op := by
      intro he
      exact desc_irrefl wf op (he ▸ hDop)
    have hnotdescop : ¬ Desc s.nodes op op := desc_irrefl wf op
    have hnotXop : ¬ DescEq s.nodes X op := by
      rintro (he | hdd)
      · exact hnodne he
      · exact desc_irrefl wf X (hdd.trans hDop)
    have hopS : (lookupNode s.nodes op).isSome = true := by
      rw [hnop]
      rfl
    have hNodes : (deleteNodeOp s X).nodes =
        (updateKey s.nodes op (fun p =>
            { p with childrenIds := p.childrenIds.filter (fun cid => !(cid == X)) })).filter
          (fun e => !((X :: (getAllChildren X s.nodes).map (fun n => n.id)).contains e.1)) := by
      simp [deleteNodeOp, hn, hop, hopS, saveHistoryOp_nodes]
    have hRoots : (deleteNodeOp s X).rootNodeIds = s.rootNodeIds := by
      simp [deleteNodeOp, hn, hop, hopS, saveHistoryOp_rootNodeIds]
    refine ⟨?_, ?_, ?_, ?_, ?_⟩
    · rw [hNodes, lookupNode_filterOut, if_pos hdc]
    · rw [hRoots]
      intro hmem
      rcases wf.root_entry hmem with ⟨nd, hnd, hpnone⟩
      rcases hdparent nd hnd with ⟨rfl, hndeq⟩ | ⟨b, hb, -⟩
      · rw [hndeq, hop] at hpnone
        exact Option.noConfusion hpnone
      · rw [hpnone] at hb
        exact Option.noConfusion hb
    · intro k nk hlk
      rw [hNodes, lookupNode_filterOut] at hlk
      by_cases hck : ((X :: (getAllChildren X s.nodes).map (fun n => n.id)).contains k) = true
      · rw [if_pos hck] at hlk
        exact Option.noConfusion hlk
      · have hkmem : k ∉ (X :: (getAllChildren X s.nodes).map (fun n => n.id)) := by
          intro hmm
          exact hck (contains_eq_true_iff.mpr hmm)
        rw [if_neg hck, lookupNode_updateKey] at hlk
        by_cases hkop : k = op
        · subst hkop
          rw [if_pos rfl, hnop] at hlk
          injection hlk with hlk
          subst hlk
          intro hdmem
          obtain ⟨hdmem2, hdpred⟩ := List.mem_filter.mp hdmem
          rcases hde with rfl | hdd
          · simp at hdpred
          · rcases wf.child_exists hnop hdmem2 with ⟨nd, hnd, hdp, -⟩
            rcases hdparent nd hnd with ⟨rfl, -⟩ | ⟨b, hb, hXb⟩
            · exact absurd hdd (desc_irrefl wf _)
            · rw [hdp] at hb
              injection hb with hb
              subst hb
              exact hnotXop hXb
        · rw [if_neg hkop] at hlk
          intro hdmem
          rcases wf.child_exists hlk hdmem with ⟨nd, hnd, hdp, -⟩
          rcases hdparent nd hnd with ⟨rfl, hndeq⟩ | ⟨b, hb, hXb⟩
          · rw [hndeq, hop] at hdp
            injection hdp with hdp
            exact hkop hdp.symm
          · rw [hdp] at hb
            injection hb with hb
            subst hb
            exact hkmem ((htd k).mpr hXb)
    · rw [hSel]
      intro hmem
      obtain ⟨-, hpred⟩ := List.mem_filter.mp hmem
      rw [hdc] at hpred
      exact Bool.noConfusion hpred
    · intro heq
      have := hFoc d heq
      rw [hdc] at this
      exact Bool.noConfusion this

/-- C6 counterexample: `deleteNode` does not purge the breadcrumb
`focusPath`.  Zooming into the grandchild of the three-node chain and
then deleting it leaves the deleted id 3 (and 2, 1 as prefix) in
`focusPath` while node 3 is gone from the map. -/
theorem C6_counterexample :
    (deleteNodeOp (zoomInOp chain3 3) 3).currentSession.focusPath = some [1, 2, 3] ∧
    lookupNode (deleteNodeOp (zoomInOp chain3 3) 3).nodes 3 = none := by
  decide

/-- C6 witness: the amended cascade evaluated on the three-node chain,
deleting the middle node (id 2) and checking its child (id 3). -/
theorem C6_witness :
    lookupNode (deleteNodeOp chain3 2).nodes 3 = none ∧
    3 ∉ (deleteNodeOp chain3 2).rootNodeIds ∧
    (∀ k nk, lookupNode (deleteNodeOp chain3 2).nodes k = some nk →
      3 ∉ nk.childrenIds) ∧
    3 ∉ (deleteNodeOp chain3 2).currentSession.selectedNodeIds ∧
    (deleteNodeOp chain3 2).currentSession.focusedNodeId ≠ some 3 :=
  C6_delete_cascades chain3 (by decide) 2
    ({ mkListNode 2 0 {} 1 (some 1) with childrenIds := [3] }) (by decide) 3
    (Or.inr (@Desc.child chain3.nodes 2
      ({ mkListNode 2 0 {} 1 (some 1) with childrenIds := [3] }) 3
      (by decide) (by decide)))

/-! Preservation of the reachable-state invariant, operation by
operation. -/

theorem keysBelow_mono {m : NodeMap} {c c2 : Nat} (hc : c ≤ c2)
    (h : keysBelow m c) : keysBelow m c2 :=
  fun e he => lt_of_lt_of_le (h e he) hc

theorem keysBelow_of_mapKeys_eq {m m2 : NodeMap} {c : Nat}
    (he : mapKeys m2 = mapKeys m) (h : keysBelow m c) : keysBelow m2 c := by
  intro e hem
  have hk : e.1 ∈ mapKeys m := by
    rw [← he]
    exact List.mem_map.mpr ⟨e, hem, rfl⟩
  rcases List.mem_map.mp hk with ⟨e0, he0, heq⟩
  rw [← heq]
  exact h e0 he0

theorem Inv.of_parts {s s2 : AppState} (hn : s2.nodes = s.nodes)
    (hr : s2.rootNodeIds = s.rootNodeIds) (hp : s2.past = s.past)
    (hf : s2.future = s.future) (hsn : s2.snapshots = s.snapshots)
    (hni : s.nextId ≤ s2.nextId) (hs : Inv s) : Inv s2 := by
  obtain ⟨h1, h2, h3, h4, h5, h6⟩ := hs
  refine ⟨?_, ?_, ?_, ?_, ?_, ?_⟩
  · rw [hn, hr]
    exact h1
  · rw [hn]
    exact keysBelow_mono hni h2
  · rw [hp]
    intro t ht
    exact ⟨(h3 t ht).1, keysBelow_mono hni (h3 t ht).2⟩
  · rw [hf]
    intro t ht
    exact ⟨(h4 t ht).1, keysBelow_mono hni (h4 t ht).2⟩
  · rw [hsn]
    intro e he
    obtain ⟨a, b, c2, d⟩ := h5 e he
    exact ⟨a, keysBelow_mono hni b, c2, lt_of_lt_of_le d hni⟩
  · rw [hsn]
    exact h6

theorem inv_saveHistoryOp {s : AppState} (hs : Inv s) : Inv (saveHistoryOp s) := by
  obtain ⟨h1, h2, h3, h4, h5, h6⟩ := hs
  refine ⟨?_, ?_, ?_, ?_, ?_, ?_⟩
  · rw [saveHistoryOp_nodes, saveHistoryOp_rootNodeIds]
    exact h1
  · rw [saveHistoryOp_nodes, saveHistoryOp_nextId]
    exact h2
  · intro t ht
    rw [saveHistoryOp_nextId]
    rcases saveHistoryOp_past s with hp | hp | hp
    · rw [hp] at ht
      exact h3 t ht
    · rw [hp] at ht
      rcases List.mem_append.mp ht with hm | hm
      · exact h3 t hm
      · rw [List.mem_singleton] at hm
        subst hm
        exact ⟨h1, h2⟩
    · rw [hp] at ht
      rcases List.mem_append.mp (List.mem_of_mem_drop ht) with hm | hm
      · exact h3 t hm
      · rw [List.mem_singleton] at hm
        subst hm
        exact ⟨h1, h2⟩
  · intro t ht
    rw [saveHistoryOp_nextId]
    rcases saveHistoryOp_future s with hf | hf
    · rw [hf] at ht
      exact h4 t ht
    · rw [hf] at ht
      exact absurd ht (List.not_mem_nil t)
  · intro e he
    rw [saveHistoryOp_snapshots] at he
    rw [saveHistoryOp_nextId]
    exact h5 e he
  · rw [saveHistoryOp_snapshots]
    exact h6

theorem mem_of_getLast_eq {α : Type} :
    ∀ {l : List α} {x : α}, l.getLast? = some x → x ∈ l := by
  intro l
  induction l with
  | nil =>
    intro x h
    exact Option.noConfusion h
  | cons a l ih =>
    intro x h
    cases l with
    | nil =>
      have hax : a = x := by simpa using h
      rw [hax]
      exact List.mem_singleton_self x
    | cons b l2 =>
      rw [List.getLast?_cons_cons] at h
      exact List.mem_cons_of_mem _ (ih h)

theorem inv_undoOp {s : AppState} (hs : Inv s) : Inv (undoOp s) := by
  obtain ⟨h1, h2, h3, h4, h5, h6⟩ := hs
  unfold undoOp
  cases hl : s.past.getLast? with
  | none => exact ⟨h1, h2, h3, h4, h5, h6⟩
  | some previous =>
    obtain ⟨hw, hk⟩ := h3 previous (mem_of_getLast_eq hl)
    refine ⟨hw, hk, ?_, ?_, h5, h6⟩
    · intro t ht
      exact h3 t ((List.dropLast_sublist s.past).subset ht)
    · intro t ht
      rcases List.mem_append.mp ht with hm | hm
      · exact h4 t hm
      · rw [List.mem_singleton] at hm
        subst hm
        exact ⟨h1, h2⟩

theorem inv_redoOp {s : AppState} (hs : Inv s) : Inv (redoOp s) := by
  obtain ⟨h1, h2, h3, h4, h5, h6⟩ := hs
  unfold redoOp
  cases hl : s.future.getLast? with
  | none => exact ⟨h1, h2, h3, h4, h5, h6⟩
  | some next =>
    obtain ⟨hw, hk⟩ := h4 next (mem_of_getLast_eq hl)
    refine ⟨hw, hk, ?_, ?_, h5, h6⟩
    · intro t ht
      rcases List.mem_append.mp ht with hm | hm
      · exact h3 t hm
      · rw [List.mem_singleton] at hm
        subst hm
        exact ⟨h1, h2⟩
    · intro t ht
      exact h4 t ((List.dropLast_sublist s.future).subset ht)

theorem inv_selectNodeOp {s : AppState} (id : Nat) (multi : Bool)
    (hs : Inv s) : Inv (selectNodeOp s id multi) := by
  unfold selectNodeOp
  split
  · split
    · exact hs
    · exact Inv.of_parts rfl rfl rfl rfl rfl (le_refl _) hs
  · exact Inv.of_parts rfl rfl rfl rfl rfl (le_refl _) hs

theorem inv_deselectNodeOp {s : AppState} (id : Nat) (hs : Inv s) :
    Inv (deselectNodeOp s id) :=
  Inv.of_parts rfl rfl rfl rfl rfl (le_refl _) hs

theorem inv_clearSelectionOp {s : AppState} (hs : Inv s) :
    Inv (clearSelectionOp s) :=
  Inv.of_parts rfl rfl rfl rfl rfl (le_refl _) hs

theorem inv_selectAllOp {s : AppState} (hs : Inv s) : Inv (selectAllOp s) :=
  Inv.of_parts rfl rfl rfl rfl rfl (le_refl _) hs

theorem inv_setFocusNodeOp {s : AppState} (id : Option Nat) (hs : Inv s) :
    Inv (setFocusNodeOp s id) :=
  Inv.of_parts rfl rfl rfl rfl rfl (le_refl _) hs

theorem inv_zoomInOp {s : AppState} (id : Nat) (hs : Inv s) :
    Inv (zoomInOp s id) := by
  unfold zoomInOp
  cases hl : lookupNode s.nodes id with
  | none => exact hs
  | some n => exact Inv.of_parts rfl rfl rfl rfl rfl (le_refl _) hs

theorem inv_zoomOutOp {s : AppState} (hs : Inv s) : Inv (zoomOutOp s) := by
  unfold zoomOutOp
  cases hl : s.currentSession.focusPath with
  | none => exact Inv.of_parts rfl rfl rfl rfl rfl (le_refl _) hs
  | some path =>
    repeat' split
    all_goals exact Inv.of_parts rfl rfl rfl rfl rfl (le_refl _) hs

theorem inv_createTemplateOp {s : AppState} (nodeId : Nat) (name : String)
    (description : Option String) (now : Nat) (hs : Inv s) :
    Inv (createTemplateOp s nodeId name description now) := by
  unfold createTemplateOp
  cases hl : lookupNode s.nodes nodeId with
  | none => exact hs
  | some n => exact @Inv.of_parts s _ rfl rfl rfl rfl rfl (Nat.le_succ s.nextId) hs

theorem inv_deleteTemplateOp {s : AppState} (id : Nat) (hs : Inv s) :
    Inv (deleteTemplateOp s id) :=
  Inv.of_parts rfl rfl rfl rfl rfl (le_refl _) hs

theorem inv_deleteSnapshotOp {s : AppState} (id : Nat) (hs : Inv s) :
    Inv (deleteSnapshotOp s id) := by
  obtain ⟨h1, h2, h3, h4, h5, h6⟩ := hs
  refine ⟨h1, h2, h3, h4, ?_, ?_⟩
  · intro e he
    exact h5 e (List.mem_of_mem_filter he)
  · exact ((List.filter_sublist _).map _).nodup h6

theorem filterFold_sublist (dels : List Snapshot) :
    ∀ (init : List (Nat × Snapshot)),
      List.Sublist
        (dels.foldl (fun acc del => acc.filter (fun e => !(e.1 == del.id))) init)
        init := by
  induction dels with
  | nil =>
    intro init
    exact List.Sublist.refl init
  | cons d dels ih =>
    intro init
    rw [List.foldl_cons]
    exact (ih _).trans (List.filter_sublist _)

theorem inv_createSnapshotOp {s : AppState} (name : String)
    (description : Option String) (now : Nat) (hs : Inv s) :
    Inv (createSnapshotOp s name description now) := by
  obtain ⟨h1, h2, h3, h4, h5, h6⟩ := hs
  unfold createSnapshotOp
  have hsub : ∀ e, e ∈ (createSnapshotOp s name description now).snapshots →
      e ∈ s.snapshots ++ [(s.nextId,
        ({ id := s.nextId, name := name, description := description,
           sessionId := s.currentSession.id, nodes := s.nodes,
           rootNodeIds := s.rootNodeIds, createdAt := now } : Snapshot))] := by
    intro e he
    unfold createSnapshotOp at he
    dsimp only at he
    by_cases hlen : (sortByCreatedAtDesc ((s.snapshots ++ [(s.nextId,
        ({ id := s.nextId, name := name, description := description,
           sessionId := s.currentSession.id, nodes := s.nodes,
           rootNodeIds := s.rootNodeIds, createdAt := now } : Snapshot))]).map
            (fun e => e.2))).length > MAX_SNAPSHOTS
    · rw [if_pos hlen] at he
      exact (filterFold_sublist _ _).subset he
    · rw [if_neg hlen] at he
      exact he
  have hndall : ((s.snapshots ++ [(s.nextId,
      ({ id := s.nextId, name := name, description := description,
         sessionId := s.currentSession.id, nodes := s.nodes,
         rootNodeIds := s.rootNodeIds, createdAt := now } : Snapshot))]).map
          (fun e => e.1)).Nodup := by
    rw [List.map_append]
    rw [List.nodup_append]
    refine ⟨h6, List.nodup_singleton _, ?_⟩
    intro k hk hk2
    simp only [List.map_cons, List.map_nil, List.mem_singleton] at hk2
    subst hk2
    rcases List.mem_map.mp hk with ⟨e, he, heq⟩
    obtain ⟨-, -, -, hlt⟩ := h5 e he
    rw [heq] at hlt
    exact lt_irrefl _ hlt
  refine ⟨h1, keysBelow_mono (Nat.le_succ _) h2, ?_, ?_, ?_, ?_⟩
  · intro t ht
    exact ⟨(h3 t ht).1, keysBelow_mono (Nat.le_succ _) (h3 t ht).2⟩
  · intro t ht
    exact ⟨(h4 t ht).1, keysBelow_mono (Nat.le_succ _) (h4 t ht).2⟩
  · intro e he
    rcases List.mem_append.mp (hsub e he) with hm | hm
    · obtain ⟨a, b, c2, d⟩ := h5 e hm
      exact ⟨a, keysBelow_mono (Nat.le_succ _) b, c2, Nat.lt_succ_of_lt d⟩
    · rw [List.mem_singleton] at hm
      subst hm
      exact ⟨h1, keysBelow_mono (Nat.le_succ _) h2, rfl, Nat.lt_succ_self _⟩
  · have hstep : List.Sublist ((createSnapshotOp s name description now).snapshots)
        (s.snapshots ++ [(s.nextId,
          ({ id := s.nextId, name := name, description := description,
             sessionId := s.currentSession.id, nodes := s.nodes,
             rootNodeIds := s.rootNodeIds, createdAt := now } : Snapshot))]) := by
      unfold createSnapshotOp
      dsimp only
      split
      · exact filterFold_sublist _ _
      · exact List.Sublist.refl _
    exact (hstep.map _).nodup hndall

theorem inv_restoreSnapshotOp {s : AppState} (id : Nat) (hs : Inv s) :
    Inv (restoreSnapshotOp s id) := by
  obtain ⟨h1, h2, h3, h4, h5, h6⟩ := hs
  unfold restoreSnapshotOp
  cases hl : lookupSnapshot s.snapshots id with
  | none => exact ⟨h1, h2, h3, h4, h5, h6⟩
  | some snap =>
    obtain ⟨hw, hk, -, -⟩ := h5 (id, snap) (mem_of_lookupSnapshot_eq_some hl)
    exact inv_saveHistoryOp ⟨hw, hk, h3, h4, h5, h6⟩

/-! Mutations that only touch presentational fields preserve the tree
structure. -/

theorem mapKeys_map_keep {m : NodeMap} {h : Nat × ListNode → Nat × ListNode}
    (hk : ∀ e ∈ m, (h e).1 = e.1) : mapKeys (m.map h) = mapKeys m := by
  unfold mapKeys
  rw [List.map_map]
  exact List.map_congr_left (fun e he => hk e he)

theorem lookupNode_map_keep {m : NodeMap} (h : Nat × ListNode → Nat × ListNode)
    (hk : ∀ e ∈ m, (h e).1 = e.1) (j : Nat) :
    (lookupNode (m.map h) j = none ∧ lookupNode m j = none) ∨
    (∃ e, e ∈ m ∧ e.1 = j ∧ lookupNode m j = some e.2 ∧
      lookupNode (m.map h) j = some (h e).2) := by
  induction m with
  | nil => exact Or.inl ⟨rfl, rfl⟩
  | cons e m ih =>
    rw [List.map_cons, lookupNode_cons, lookupNode_cons]
    by_cases he : e.1 = j
    · refine Or.inr ⟨e, List.mem_cons_self e m, he, by rw [if_pos he], ?_⟩
      rw [if_pos (by rw [hk e (List.mem_cons_self e m)]; exact he)]
    · rw [if_neg he, if_neg (by rw [hk e (List.mem_cons_self e m)]; exact he)]
      rcases ih (fun e2 he2 => hk e2 (List.mem_cons_of_mem e he2)) with
        ⟨ha, hb⟩ | ⟨e2, he2, he2a, he2b, he2c⟩
      · exact Or.inl ⟨ha, hb⟩
      · exact Or.inr ⟨e2, List.mem_cons_of_mem e he2, he2a, he2b, he2c⟩

theorem WFTree_map_keep {m : NodeMap} {roots : List Nat} (wf : WFTree m roots)
    (h : Nat × ListNode → Nat × ListNode)
    (hkeep : ∀ e ∈ m, (h e).1 = e.1 ∧ (h e).2.id = e.2.id ∧
      (h e).2.parentId = e.2.parentId ∧ (h e).2.childrenIds = e.2.childrenIds ∧
      (h e).2.level = e.2.level) :
    WFTree (m.map h) roots := by
  obtain ⟨w1, w2, w3, w4, w5, w6, w7, w8, w9⟩ := wf
  have hk1 : ∀ e ∈ m, (h e).1 = e.1 := fun e he => (hkeep e he).1
  have hlk := lookupNode_map_keep h hk1
  refine ⟨?_, w2, ?_, ?_, ?_, ?_, ?_, ?_, ?_⟩
  · have := mapKeys_map_keep hk1
    unfold mapKeys at this
    rw [this]
    exact w1
  · intro e2 he2
    rcases List.mem_map.mp he2 with ⟨e, he, rfl⟩
    rw [(hkeep e he).2.1, w3 e he, (hkeep e he).1]
  · intro r hr
    have h4 := w4 r hr
    unfold rootEntryOk at h4 ⊢
    rcases hlk r with ⟨hm1, hm2⟩ | ⟨e, he, -, hl1, hl2⟩
    · rw [hm2] at h4
      exact absurd h4 (by simp)
    · rw [hl2]
      rw [hl1] at h4
      have h4b : (e.2.parentId == none) = true := h4
      show ((h e).2.parentId == none) = true
      rw [(hkeep e he).2.2.1]
      exact h4b
  · intro e2 he2
    rcases List.mem_map.mp he2 with ⟨e, he, rfl⟩
    have h5 := w5 e he
    unfold rootLinkOk at h5 ⊢
    rw [(hkeep e he).2.2.1]
    cases hp : e.2.parentId with
    | none =>
      rw [hp] at h5
      have h5b : (roots.contains e.1 && (e.2.level == 0)) = true := h5
      show (roots.contains (h e).1 && ((h e).2.level == 0)) = true
      rw [(hkeep e he).1, (hkeep e he).2.2.2.2]
      exact h5b
    | some p => rfl
  · intro e2 he2
    rcases List.mem_map.mp he2 with ⟨e, he, rfl⟩
    have h6 := w6 e he
    unfold parentLinkOk at h6 ⊢
    rw [(hkeep e he).2.2.1]
    cases hp : e.2.parentId with
    | none => rfl
    | some p =>
      rw [hp] at h6
      have h6c : (match lookupNode m p with
          | none => false
          | some mm => mm.childrenIds.contains e.1 &&
              (e.2.level == mm.level + 1)) = true := h6
      show (match lookupNode (List.map h m) p with
        | none => false
        | some mm => mm.childrenIds.contains (h e).1 &&
            ((h e).2.level == mm.level + 1)) = true
      rcases hlk p with ⟨hm1, hm2⟩ | ⟨ep, hep, -, hlp1, hlp2⟩
      · rw [hm2] at h6c
        exact absurd h6c (by simp)
      · rw [hlp2]
        rw [hlp1] at h6c
        have h6b : (ep.2.childrenIds.contains e.1 &&
            (e.2.level == ep.2.level + 1)) = true := h6c
        show ((h ep).2.childrenIds.contains (h e).1 &&
            ((h e).2.level == (h ep).2.level + 1)) = true
        rw [(hkeep ep hep).2.2.2.1, (hkeep e he).1, (hkeep e he).2.2.2.2,
          (hkeep ep hep).2.2.2.2]
        exact h6b
  · intro e2 he2
    rcases List.mem_map.mp he2 with ⟨e, he, rfl⟩
    have h7 := w7 e he
    unfold childLinkOk at h7 ⊢
    rw [(hkeep e he).2.2.2.1]
    rw [List.all_eq_true] at h7 ⊢
    intro c hc
    have h7c : (match lookupNode m c with
        | none => false
        | some mm => mm.parentId == some e.1) = true := h7 c hc
    show (match lookupNode (List.map h m) c with
      | none => false
      | some mm => mm.parentId == some (h e).1) = true
    rcases hlk c with ⟨hm1, hm2⟩ | ⟨ec, hec, -, hlc1, hlc2⟩
    · rw [hm2] at h7c
      exact absurd h7c (by simp)
    · rw [hlc2]
      rw [hlc1] at h7c
      have h7b : (ec.2.parentId == some e.1) = true := h7c
      show ((h ec).2.parentId == some (h e).1) = true
      rw [(hkeep ec hec).2.2.1, (hkeep e he).1]
      exact h7b
  · intro e2 he2
    rcases List.mem_map.mp he2 with ⟨e, he, rfl⟩
    rw [(hkeep e he).2.2.2.1]
    exact w8 e he
  · intro e2 he2
    rcases List.mem_map.mp he2 with ⟨e, he, rfl⟩
    rw [(hkeep e he).2.2.2.2]
    exact w9 e he

theorem inv_map_keep {s : AppState} (hs : Inv s)
    (h : Nat × ListNode → Nat × ListNode)
    (hkeep : ∀ e ∈ s.nodes, (h e).1 = e.1 ∧ (h e).2.id = e.2.id ∧
      (h e).2.parentId = e.2.parentId ∧ (h e).2.childrenIds = e.2.childrenIds ∧
      (h e).2.level = e.2.level) :
    Inv { s with nodes := s.nodes.map h } := by
  obtain ⟨h1, h2, h3, h4, h5, h6⟩ := hs
  exact ⟨WFTree_map_keep h1 h hkeep,
    keysBelow_of_mapKeys_eq (mapKeys_map_keep (fun e he => (hkeep e he).1)) h2,
    h3, h4, h5, h6⟩

theorem inv_toggleCollapseOp {s : AppState} (id : Nat) (hs : Inv s) :
    Inv (toggleCollapseOp s id) := by
  unfold toggleCollapseOp
  split
  · unfold updateKey
    exact inv_map_keep hs _ (fun e he => by
      by_cases hei : (e.1 == id) = true <;> simp [hei])
  · exact hs

theorem inv_toggleDoneOp {s : AppState} (id : Nat) (hs : Inv s) :
    Inv (toggleDoneOp s id) := by
  unfold toggleDoneOp
  split
  · unfold updateKey
    exact inv_map_keep hs _ (fun e he => by
      by_cases hei : (e.1 == id) = true <;> simp [hei])
  · exact hs

theorem inv_togglePinOp {s : AppState} (id : Nat) (hs : Inv s) :
    Inv (togglePinOp s id) := by
  unfold togglePinOp
  split
  · unfold updateKey
    exact inv_map_keep hs _ (fun e he => by
      by_cases hei : (e.1 == id) = true <;> simp [hei])
  · exact hs

theorem inv_collapseAllOp {s : AppState} (hs : Inv s) :
    Inv (collapseAllOp s) := by
  unfold collapseAllOp
  exact inv_map_keep hs _ (fun e he => by
    by_cases hc : e.2.childrenIds.length > 0 <;> simp [hc])

theorem inv_expandAllOp {s : AppState} (hs : Inv s) : Inv (expandAllOp s) := by
  unfold expandAllOp
  exact inv_map_keep hs _ (fun e he => by simp)

theorem inv_collapseToLevelOp {s : AppState} (level : Nat) (hs : Inv s) :
    Inv (collapseToLevelOp s level) := by
  unfold collapseToLevelOp
  exact inv_map_keep hs _ (fun e he => by
    by_cases hc : e.2.level ≥ level ∧ e.2.childrenIds.length > 0 <;> simp [hc])

theorem inv_updateNodeOp {s : AppState} (id : Nat) (updates : NodePatch)
    (now : Nat) (hcp : contentPatch updates = true) (hs : Inv s) :
    Inv (updateNodeOp s id updates now) := by
  unfold updateNodeOp
  have hid : updates.id = none := by
    unfold contentPatch at hcp
    simp only [Bool.and_eq_true, Option.isNone_iff_eq_none] at hcp
    exact hcp.1.1.1
  have hpid : updates.parentId = none := by
    unfold contentPatch at hcp
    simp only [Bool.and_eq_true, Option.isNone_iff_eq_none] at hcp
    exact hcp.1.1.2
  have hcid : updates.childrenIds = none := by
    unfold contentPatch at hcp
    simp only [Bool.and_eq_true, Option.isNone_iff_eq_none] at hcp
    exact hcp.1.2
  have hlvl : updates.level = none := by
    unfold contentPatch at hcp
    simp only [Bool.and_eq_true, Option.isNone_iff_eq_none] at hcp
    exact hcp.2
  split
  · unfold updateKey
    exact inv_map_keep hs _ (fun e he => by
      by_cases hei : (e.1 == id) = true <;>
        simp [hei, applyPatch, hid, hpid, hcid, hlvl])
  · exact hs

/-! `createNode` with a null or present parent preserves the invariant. -/

theorem mem_keys_of_lookup {m : NodeMap} {j : Nat} {n : ListNode}
    (h : lookupNode m j = some n) : j ∈ mapKeys m :=
  lookupNode_isSome_iff.mp (by rw [h]; rfl)

theorem lookupNode_append_fresh {m : NodeMap} {X : Nat} {v : ListNode}
    (j : Nat) (hj : j ≠ X) : lookupNode (m ++ [(X, v)]) j = lookupNode m j := by
  rw [lookupNode_append]
  cases hl : lookupNode m j with
  | some n => rfl
  | none =>
    show lookupNode [(X, v)] j = none
    rw [lookupNode_cons, if_neg (fun he => hj he.symm)]
    rfl

theorem lookupNode_append_self {m : NodeMap} {X : Nat} {v : ListNode}
    (hlkX : lookupNode m X = none) :
    lookupNode (m ++ [(X, v)]) X = some v := by
  rw [lookupNode_append, hlkX]
  show lookupNode [(X, v)] X = some v
  rw [lookupNode_cons, if_pos rfl]

theorem mem_updateKey {m : NodeMap} {k : Nat} {f : ListNode → ListNode}
    {e2 : Nat × ListNode} (h : e2 ∈ updateKey m k f) :
    ∃ e ∈ m, e2 = (if e.1 == k then (e.1, f e.2) else e) := by
  unfold updateKey at h
  rcases List.mem_map.mp h with ⟨e, he, rfl⟩
  exact ⟨e, he, rfl⟩

theorem WFTree_append_root {m : NodeMap} {roots : List Nat}
    (wf : WFTree m roots) {X : Nat} (hX : X ∉ mapKeys m) {v : ListNode}
    (hvid : v.id = X) (hvp : v.parentId = none) (hvc : v.childrenIds = [])
    (hvl : v.level = 0) :
    WFTree (m ++ [(X, v)]) (roots ++ [X]) := by
  obtain ⟨w1, w2, w3, w4, w5, w6, w7, w8, w9⟩ := wf
  have hrootsub : ∀ r ∈ roots, r ∈ mapKeys m := by
    intro r hr
    have h4 := w4 r hr
    unfold rootEntryOk at h4
    cases hl : lookupNode m r with
    | none =>
      rw [hl] at h4
      exact absurd h4 (by simp)
    | some n => exact mem_keys_of_lookup hl
  have hXroots : X ∉ roots := fun hr => hX (hrootsub X hr)
  have hlkX : lookupNode m X = none := lookupNode_eq_none_iff.mpr hX
  refine ⟨?_, ?_, ?_, ?_, ?_, ?_, ?_, ?_, ?_⟩
  · show (mapKeys (m ++ [(X, v)])).Nodup
    rw [mapKeys_append, List.nodup_append]
    refine ⟨w1, List.nodup_singleton _, ?_⟩
    intro a ha ha2
    rw [show mapKeys [(X, v)] = [X] from rfl, List.mem_singleton] at ha2
    subst ha2
    exact hX ha
  · rw [List.nodup_append]
    refine ⟨w2, List.nodup_singleton _, ?_⟩
    intro a ha ha2
    rw [List.mem_singleton] at ha2
    subst ha2
    exact hXroots ha
  · intro e he
    rcases List.mem_append.mp he with hm | hm
    · exact w3 e hm
    · rw [List.mem_singleton] at hm
      subst hm
      exact hvid
  · intro r hr
    rcases List.mem_append.mp hr with hm | hm
    · have h4 := w4 r hm
      unfold rootEntryOk at h4 ⊢
      have hrX : r ≠ X := fun he => hX (he ▸ hrootsub r hm)
      rw [lookupNode_append_fresh r hrX]
      exact h4
    · rw [List.mem_singleton] at hm
      subst hm
      unfold rootEntryOk
      rw [lookupNode_append_self hlkX]
      show (v.parentId == none) = true
      rw [hvp]
      rfl
  · intro e he
    rcases List.mem_append.mp he with hm | hm
    · have h5 := w5 e hm
      unfold rootLinkOk at h5 ⊢
      cases hp : e.2.parentId with
      | none =>
        rw [hp] at h5
        have h5b : (roots.contains e.1 && (e.2.level == 0)) = true := h5
        show ((roots ++ [X]).contains e.1 && (e.2.level == 0)) = true
        rw [Bool.and_eq_true] at h5b
        rw [Bool.and_eq_true]
        refine ⟨?_, h5b.2⟩
        rw [contains_eq_true_iff]
        exact List.mem_append.mpr (Or.inl (contains_eq_true_iff.mp h5b.1))
      | some p => rfl
    · rw [List.mem_singleton] at hm
      subst hm
      unfold rootLinkOk
      show (match v.parentId with
        | none => (roots ++ [X]).contains X && (v.level == 0)
        | some _ => true) = true
      rw [hvp]
      show ((roots ++ [X]).contains X && (v.level == 0)) = true
      rw [Bool.and_eq_true]
      refine ⟨?_, by rw [hvl]; rfl⟩
      rw [contains_eq_true_iff]
      exact List.mem_append.mpr (Or.inr (List.mem_singleton_self X))
  · intro e he
    rcases List.mem_append.mp he with hm | hm
    · have h6 := w6 e hm
      unfold parentLinkOk at h6 ⊢
      cases hp : e.2.parentId with
      | none => rfl
      | some p =>
        rw [hp] at h6
        have h6c : (match lookupNode m p with
            | none => false
            | some mm => mm.childrenIds.contains e.1 &&
                (e.2.level == mm.level + 1)) = true := h6
        show (match lookupNode (m ++ [(X, v)]) p with
          | none => false
          | some mm => mm.childrenIds.contains e.1 &&
              (e.2.level == mm.level + 1)) = true
        cases hl : lookupNode m p with
        | none =>
          rw [hl] at h6c
          exact absurd h6c (by simp)
        | some npp =>
          have hpX : p ≠ X := fun he2 => hX (he2 ▸ mem_keys_of_lookup hl)
          rw [lookupNode_append_fresh p hpX, hl]
          rw [hl] at h6c
          exact h6c
    · rw [List.mem_singleton] at hm
      subst hm
      unfold parentLinkOk
      show (match v.parentId with
        | none => true
        | some p =>
          match lookupNode (m ++ [(X, v)]) p with
          | none => false
          | some mm => mm.childrenIds.contains X && (v.level == mm.level + 1)) = true
      rw [hvp]
  · intro e he
    rcases List.mem_append.mp he with hm | hm
    · have h7 := w7 e hm
      unfold childLinkOk at h7 ⊢
      rw [List.all_eq_true] at h7 ⊢
      intro c hc
      have h7c : (match lookupNode m c with
          | none => false
          | some mm => mm.parentId == some e.1) = true := h7 c hc
      show (match lookupNode (m ++ [(X, v)]) c with
        | none => false
        | some mm => mm.parentId == some e.1) = true
      cases hl : lookupNode m c with
      | none =>
        rw [hl] at h7c
        exact absurd h7c (by simp)
      | some nc =>
        have hcX : c ≠ X := fun he2 => hX (he2 ▸ mem_keys_of_lookup hl)
        rw [lookupNode_append_fresh c hcX, hl]
        rw [hl] at h7c
        exact h7c
    · rw [List.mem_singleton] at hm
      subst hm
      unfold childLinkOk
      show (v.childrenIds.all (fun c =>
        match lookupNode (m ++ [(X, v)]) c with
        | none => false
        | some mm => mm.parentId == some X)) = true
      rw [hvc]
      rfl
  · intro e he
    rcases List.mem_append.mp he with hm | hm
    · exact w8 e hm
    · rw [List.mem_singleton] at hm
      subst hm
      show v.childrenIds.Nodup
      rw [hvc]
      exact List.nodup_nil
  · intro e he
    rcases List.mem_append.mp he with hm | hm
    · exact w9 e hm
    · rw [List.mem_singleton] at hm
      subst hm
      show v.level ≤ MAX_DEPTH - 1
      rw [hvl]
      exact Nat.zero_le _

theorem WFTree_append_child {m : NodeMap} {roots : List Nat}
    (wf : WFTree m roots) {X pid : Nat} {np : ListNode}
    (hnp : lookupNode m pid = some np) (hX : X ∉ mapKeys m) {v : ListNode}
    (hvid : v.id = X) (hvp : v.parentId = some pid) (hvc : v.childrenIds = [])
    (hvl : v.level = np.level + 1) (hcap : np.level + 1 ≤ MAX_DEPTH - 1) :
    WFTree (updateKey (m ++ [(X, v)])
        pid (fun p => { p with childrenIds := p.childrenIds ++ [X], isCollapsed := false }))
      roots := by
  obtain ⟨w1, w2, w3, w4, w5, w6, w7, w8, w9⟩ := wf
  have hXpid : X ≠ pid := fun he => hX (he ▸ mem_keys_of_lookup hnp)
  have hlkX : lookupNode m X = none := lookupNode_eq_none_iff.mpr hX
  have hlk2 : ∀ j, j ≠ pid → j ≠ X →
      lookupNode (updateKey (m ++ [(X, v)])
        pid (fun p => { p with childrenIds := p.childrenIds ++ [X], isCollapsed := false })) j = lookupNode m j := by
    intro j hjp hjX
    rw [lookupNode_updateKey, if_neg hjp, lookupNode_append_fresh j hjX]
  have hlkP : lookupNode (updateKey (m ++ [(X, v)])
      pid (fun p => { p with childrenIds := p.childrenIds ++ [X], isCollapsed := false })) pid =
      some { np with childrenIds := np.childrenIds ++ [X], isCollapsed := false } := by
    rw [lookupNode_updateKey, if_pos rfl, lookupNode_append_fresh pid (Ne.symm hXpid)]
    rw [hnp]
    rfl
  have hlkXv : lookupNode (updateKey (m ++ [(X, v)])
      pid (fun p => { p with childrenIds := p.childrenIds ++ [X], isCollapsed := false })) X =
      some v := by
    rw [lookupNode_updateKey, if_neg hXpid, lookupNode_append_self hlkX]
  have hchildkeys : ∀ e ∈ m, ∀ c ∈ e.2.childrenIds, c ∈ mapKeys m := by
    intro e he c hc
    have h7 := w7 e he
    unfold childLinkOk at h7
    rw [List.all_eq_true] at h7
    have h7c : (match lookupNode m c with
        | none => false
        | some mm => mm.parentId == some e.1) = true := h7 c hc
    cases hl : lookupNode m c with
    | none =>
      rw [hl] at h7c
      exact absurd h7c (by simp)
    | some nc => exact mem_keys_of_lookup hl
  have hmemsplit : ∀ e2, e2 ∈ updateKey (m ++ [(X, v)])
      pid (fun p => { p with childrenIds := p.childrenIds ++ [X], isCollapsed := false }) →
      (e2 ∈ m ∧ e2.1 ≠ pid) ∨
      e2 = (pid, { np with childrenIds := np.childrenIds ++ [X], isCollapsed := false }) ∨
      e2 = (X, v) := by
    intro e2 h
    obtain ⟨e, he, heq⟩ := mem_updateKey h
    rcases List.mem_append.mp he with hm | hm
    · by_cases hep : e.1 = pid
      · have hev : e.2 = np := by
          have h0 := lookupNode_eq_some_of_mem w1 (show (pid, e.2) ∈ m from by
            rw [← hep]; exact hm)
          rw [hnp] at h0
          injection h0 with h0
          exact h0.symm
        refine Or.inr (Or.inl ?_)
        rw [heq, if_pos (by rw [hep]; exact beq_self_eq_true pid)]
        rw [hep, hev]
      · refine Or.inl ⟨?_, ?_⟩
        · rw [heq, if_neg (by simpa using hep)]
          exact hm
        · rw [heq, if_neg (by simpa using hep)]
          exact hep
    · rw [List.mem_singleton] at hm
      subst hm
      refine Or.inr (Or.inr ?_)
      rw [heq, if_neg (by simpa using hXpid)]
  refine ⟨?_, w2, ?_, ?_, ?_, ?_, ?_, ?_, ?_⟩
  · show (mapKeys (updateKey (m ++ [(X, v)]) pid _)).Nodup
    rw [mapKeys_updateKey, mapKeys_append, List.nodup_append]
    refine ⟨w1, List.nodup_singleton _, ?_⟩
    intro a ha ha2
    rw [show mapKeys [(X, v)] = [X] from rfl, List.mem_singleton] at ha2
    subst ha2
    exact hX ha
  · intro e2 he2
    rcases hmemsplit e2 he2 with ⟨hm, -⟩ | rfl | rfl
    · exact w3 e2 hm
    · show np.id = pid
      exact w3 (pid, np) (mem_of_lookupNode_eq_some hnp)
    · exact hvid
  · intro r hr
    have h4 := w4 r hr
    unfold rootEntryOk at h4 ⊢
    cases hl : lookupNode m r with
    | none =>
      rw [hl] at h4
      exact absurd h4 (by simp)
    | some nr =>
      rw [hl] at h4
      have h4b : (nr.parentId == none) = true := h4
      have hrX : r ≠ X := fun he => hX (he ▸ mem_keys_of_lookup hl)
      by_cases hrp : r = pid
      · rw [hrp, hlkP]
        rw [hrp, hnp] at hl
        injection hl with hl
        subst hl
        exact h4b
      · rw [hlk2 r hrp hrX, hl]
        exact h4b
  · intro e2 he2
    rcases hmemsplit e2 he2 with ⟨hm, -⟩ | rfl | rfl
    · exact w5 e2 hm
    · have h5 := w5 (pid, np) (mem_of_lookupNode_eq_some hnp)
      unfold rootLinkOk at h5 ⊢
      cases hp : np.parentId with
      | none =>
        rw [hp] at h5
        have h5b : (roots.contains pid && (np.level == 0)) = true := h5
        exact h5b
      | some q => rfl
    · unfold rootLinkOk
      show (match v.parentId with
        | none => roots.contains X && (v.level == 0)
        | some _ => true) = true
      rw [hvp]
  · intro e2 he2
    rcases hmemsplit e2 he2 with ⟨hm, -⟩ | rfl | rfl
    · have h6 := w6 e2 hm
      unfold parentLinkOk at h6 ⊢
      cases hp : e2.2.parentId with
      | none => rfl
      | some q =>
        rw [hp] at h6
        have h6c : (match lookupNode m q with
            | none => false
            | some mm => mm.childrenIds.contains e2.1 &&
                (e2.2.level == mm.level + 1)) = true := h6
        show (match lookupNode (updateKey (m ++ [(X, v)]) pid
            (fun p => { p with childrenIds := p.childrenIds ++ [X], isCollapsed := false })) q with
          | none => false
          | some mm => mm.childrenIds.contains e2.1 &&
              (e2.2.level == mm.level + 1)) = true
        cases hl : lookupNode m q with
        | none =>
          rw [hl] at h6c
          exact absurd h6c (by simp)
        | some nq =>
          rw [hl] at h6c
          have h6b : (nq.childrenIds.contains e2.1 &&
              (e2.2.level == nq.level + 1)) = true := h6c
          have hqX : q ≠ X := fun he2 => hX (he2 ▸ mem_keys_of_lookup hl)
          by_cases hqp : q = pid
          · subst hqp
            rw [hlkP]
            rw [hnp] at hl
            injection hl with hl
            subst hl
            show ((np.childrenIds ++ [X]).contains e2.1 &&
                (e2.2.level == np.level + 1)) = true
            rw [Bool.and_eq_true] at h6b
            rw [Bool.and_eq_true]
            refine ⟨?_, h6b.2⟩
            rw [contains_eq_true_iff]
            exact List.mem_append.mpr (Or.inl (contains_eq_true_iff.mp h6b.1))
          · rw [hlk2 q hqp hqX, hl]
            exact h6b
    · have h6 := w6 (pid, np) (mem_of_lookupNode_eq_some hnp)
      unfold parentLinkOk at h6 ⊢
      cases hp : np.parentId with
      | none => rfl
      | some q =>
        rw [hp] at h6
        have h6c : (match lookupNode m q with
            | none => false
            | some mm => mm.childrenIds.contains pid &&
                (np.level == mm.level + 1)) = true := h6
        show (match lookupNode (updateKey (m ++ [(X, v)]) pid
            (fun p => { p with childrenIds := p.childrenIds ++ [X], isCollapsed := false })) q with
          | none => false
          | some mm => mm.childrenIds.contains pid &&
              (np.level == mm.level + 1)) = true
        cases hl : lookupNode m q with
        | none =>
          rw [hl] at h6c
          exact absurd h6c (by simp)
        | some nq =>
          rw [hl] at h6c
          have h6b : (nq.childrenIds.contains pid &&
              (np.level == nq.level + 1)) = true := h6c
          have hqX : q ≠ X := fun he2 => hX (he2 ▸ mem_keys_of_lookup hl)
          by_cases hqp : q = pid
          · rw [hqp, hlkP]
            rw [hqp, hnp] at hl
            injection hl with hl
            subst hl
            show ((np.childrenIds ++ [X]).contains pid &&
                (np.level == np.level + 1)) = true
            rw [Bool.and_eq_true] at h6b
            rw [Bool.and_eq_true]
            refine ⟨?_, h6b.2⟩
            rw [contains_eq_true_iff]
            exact List.mem_append.mpr (Or.inl (contains_eq_true_iff.mp h6b.1))
          · rw [hlk2 q hqp hqX, hl]
            exact h6b
    · unfold parentLinkOk
      show (match v.parentId with
        | none => true
        | some q =>
          match lookupNode (updateKey (m ++ [(X, v)]) pid
            (fun p => { p with childrenIds := p.childrenIds ++ [X], isCollapsed := false })) q with
          | none => false
          | some mm => mm.childrenIds.contains X && (v.level == mm.level + 1)) = true
      rw [hvp]
      show (match lookupNode (updateKey (m ++ [(X, v)]) pid
          (fun p => { p with childrenIds := p.childrenIds ++ [X], isCollapsed := false })) pid with
        | none => false
        | some mm => mm.childrenIds.contains X && (v.level == mm.level + 1)) = true
      rw [hlkP]
      show ((np.childrenIds ++ [X]).contains X && (v.level == np.level + 1)) = true
      rw [Bool.and_eq_true]
      refine ⟨?_, by rw [hvl]; exact beq_self_eq_true _⟩
      rw [contains_eq_true_iff]
      exact List.mem_append.mpr (Or.inr (List.mem_singleton_self X))
  · intro e2 he2
    rcases hmemsplit e2 he2 with ⟨hm, -⟩ | rfl | rfl
    · have h7 := w7 e2 hm
      unfold childLinkOk at h7 ⊢
      rw [List.all_eq_true] at h7 ⊢
      intro c hc
      have h7c : (match lookupNode m c with
          | none => false
          | some mm => mm.parentId == some e2.1) = true := h7 c hc
      show (match lookupNode (updateKey (m ++ [(X, v)]) pid
          (fun p => { p with childrenIds := p.childrenIds ++ [X], isCollapsed := false })) c with
        | none => false
        | some mm => mm.parentId == some e2.1) = true
      cases hl : lookupNode m c with
      | none =>
        rw [hl] at h7c
        exact absurd h7c (by simp)
      | some nc =>
        rw [hl] at h7c
        have h7b : (nc.parentId == some e2.1) = true := h7c
        have hcX : c ≠ X := fun he2 => hX (he2 ▸ mem_keys_of_lookup hl)
        by_cases hcp : c = pid
        · subst hcp
          rw [hlkP]
          rw [hnp] at hl
          injection hl with hl
          subst hl
          exact h7b
        · rw [hlk2 c hcp hcX, hl]
          exact h7b
    · have h7 := w7 (pid, np) (mem_of_lookupNode_eq_some hnp)
      unfold childLinkOk at h7 ⊢
      rw [List.all_eq_true] at h7 ⊢
      intro c hc
      show (match lookupNode (updateKey (m ++ [(X, v)]) pid
          (fun p => { p with childrenIds := p.childrenIds ++ [X], isCollapsed := false })) c with
        | none => false
        | some mm => mm.parentId == some pid) = true
      have hc2 : c ∈ np.childrenIds ++ [X] := hc
      rcases List.mem_append.mp hc2 with hcm | hcm
      · have h7c : (match lookupNode m c with
            | none => false
            | some mm => mm.parentId == some pid) = true := h7 c hcm
        cases hl : lookupNode m c with
        | none =>
          rw [hl] at h7c
          exact absurd h7c (by simp)
        | some nc =>
          rw [hl] at h7c
          have h7b : (nc.parentId == some pid) = true := h7c
          have hcX : c ≠ X := fun he2 => hX (he2 ▸ mem_keys_of_lookup hl)
          by_cases hcp : c = pid
          · subst hcp
            rw [hlkP]
            rw [hnp] at hl
            injection hl with hl
            subst hl
            exact h7b
          · rw [hlk2 c hcp hcX, hl]
            exact h7b
      · rw [List.mem_singleton] at hcm
        subst hcm
        rw [hlkXv]
        show (v.parentId == some pid) = true
        rw [hvp]
        exact beq_self_eq_true _
    · unfold childLinkOk
      show (v.childrenIds.all (fun c =>
        match lookupNode (updateKey (m ++ [(X, v)]) pid
          (fun p => { p with childrenIds := p.childrenIds ++ [X], isCollapsed := false })) c with
        | none => false
        | some mm => mm.parentId == some X)) = true
      rw [hvc]
      rfl
  · intro e2 he2
    rcases hmemsplit e2 he2 with ⟨hm, -⟩ | rfl | rfl
    · exact w8 e2 hm
    · show (np.childrenIds ++ [X]).Nodup
      rw [List.nodup_append]
      refine ⟨w8 (pid, np) (mem_of_lookupNode_eq_some hnp), List.nodup_singleton _, ?_⟩
      intro a ha ha2
      rw [List.mem_singleton] at ha2
      rw [ha2] at ha
      exact hX (hchildkeys (pid, np) (mem_of_lookupNode_eq_some hnp) X ha)
    · show v.childrenIds.Nodup
      rw [hvc]
      exact List.nodup_nil
  · intro e2 he2
    rcases hmemsplit e2 he2 with ⟨hm, -⟩ | rfl | rfl
    · exact w9 e2 hm
    · show np.level ≤ MAX_DEPTH - 1
      exact w9 (pid, np) (mem_of_lookupNode_eq_some hnp)
    · show v.level ≤ MAX_DEPTH - 1
      rw [hvl]
      exact hcap

theorem inv_createNodeOp {s : AppState} (parentId : Option Nat)
    (data : NodePatch) (now : Nat) (hpa : parentArgOk s parentId = true)
    (hdi : data.id = none) (hdc : data.childrenIds = none) (hs : Inv s) :
    Inv (createNodeOp s parentId data now).2 := by
  obtain ⟨h1, h2, h3, h4, h5, h6⟩ := hs
  have hfresh : lookupNode s.nodes s.nextId = none := by
    rw [lookupNode_eq_none_iff]
    intro hk
    rcases List.mem_map.mp hk with ⟨e, he, heq⟩
    exact absurd (heq ▸ h2 e he) (lt_irrefl _)
  have hXfree : s.nextId ∉ mapKeys s.nodes := lookupNode_eq_none_iff.mp hfresh
  have hMD : MAX_DEPTH = 6 := rfl
  unfold createNodeOp
  by_cases hlev : createLevel s parentId ≥ MAX_DEPTH
  · rw [if_pos hlev]
    exact ⟨h1, h2, h3, h4, h5, h6⟩
  · rw [if_neg hlev]
    dsimp only
    cases parentId with
    | none =>
      apply inv_saveHistoryOp
      have hid0 : (mkListNode s.nextId now data (createLevel s none) none).id =
          s.nextId := by
        show data.id.getD s.nextId = s.nextId
        rw [hdi]
        rfl
      have hvc0 : (mkListNode s.nextId now data (createLevel s none) none).childrenIds =
          ([] : List Nat) := by
        show data.childrenIds.getD [] = []
        rw [hdc]
        rfl
      have hsetEq0 : setKey s.nodes
          (mkListNode s.nextId now data (createLevel s none) none).id
          (mkListNode s.nextId now data (createLevel s none) none) =
          s.nodes ++ [(s.nextId, mkListNode s.nextId now data (createLevel s none) none)] := by
        rw [hid0]
        exact setKey_fresh _ hfresh
      refine ⟨?_, ?_, ?_, ?_, ?_, h6⟩
      · dsimp only
        rw [hsetEq0]
        simp only [hid0]
        exact WFTree_append_root h1 hXfree hid0 rfl hvc0 rfl
      · dsimp only
        rw [hsetEq0]
        intro e he
        rcases List.mem_append.mp he with hm | hm
        · exact Nat.lt_succ_of_lt (h2 e hm)
        · rw [List.mem_singleton] at hm
          rw [hm]
          exact Nat.lt_succ_self _
      · intro t ht
        exact ⟨(h3 t ht).1, keysBelow_mono (Nat.le_succ _) (h3 t ht).2⟩
      · intro t ht
        exact ⟨(h4 t ht).1, keysBelow_mono (Nat.le_succ _) (h4 t ht).2⟩
      · intro e he
        obtain ⟨a, b, c2, d⟩ := h5 e he
        exact ⟨a, keysBelow_mono (Nat.le_succ _) b, c2, Nat.lt_succ_of_lt d⟩
    | some pid =>
      have hpaS : (lookupNode s.nodes pid).isSome = true := hpa
      cases hnp : lookupNode s.nodes pid with
      | none =>
        rw [hnp] at hpaS
        exact Bool.noConfusion hpaS
      | some np =>
        have hpidne : pid ≠ s.nextId := by
          intro he
          exact hXfree (he ▸ mem_keys_of_lookup hnp)
        have hlevp : createLevel s (some pid) = np.level + 1 := by
          show (match lookupNode s.nodes pid with
            | some p => p.level + 1
            | none => 0) = np.level + 1
          rw [hnp]
        have hcap : np.level + 1 ≤ MAX_DEPTH - 1 := by
          rw [hlevp] at hlev
          rw [hMD] at hlev ⊢
          omega
        have hid2 : (mkListNode s.nextId now data (createLevel s (some pid))
            (some pid)).id = s.nextId := by
          show data.id.getD s.nextId = s.nextId
          rw [hdi]
          rfl
        have hvc2 : (mkListNode s.nextId now data (createLevel s (some pid))
            (some pid)).childrenIds = ([] : List Nat) := by
          show data.childrenIds.getD [] = []
          rw [hdc]
          rfl
        have hvl2 : (mkListNode s.nextId now data (createLevel s (some pid))
            (some pid)).level = np.level + 1 := hlevp
        have hsetEq2 : setKey s.nodes
            (mkListNode s.nextId now data (createLevel s (some pid)) (some pid)).id
            (mkListNode s.nextId now data (createLevel s (some pid)) (some pid)) =
            s.nodes ++ [(s.nextId,
              mkListNode s.nextId now data (createLevel s (some pid)) (some pid))] := by
          rw [hid2]
          exact setKey_fresh _ hfresh
        have hcond : (lookupNode (setKey s.nodes
            (mkListNode s.nextId now data (createLevel s (some pid)) (some pid)).id
            (mkListNode s.nextId now data (createLevel s (some pid)) (some pid)))
            pid).isSome = true := by
          rw [hsetEq2, lookupNode_append_fresh pid hpidne, hnp]
          rfl
        apply inv_saveHistoryOp
        split
        · next p2 heq2 =>
            injection heq2 with heq2
            subst heq2
            split
            · refine ⟨?_, ?_, ?_, ?_, ?_, h6⟩
              · dsimp only
                rw [hsetEq2]
                simp only [hid2]
                exact WFTree_append_child h1 hnp hXfree hid2 rfl hvc2 hvl2 hcap
              · dsimp only
                apply keysBelow_of_mapKeys_eq (mapKeys_updateKey _ _ _)
                rw [hsetEq2]
                intro e he
                rcases List.mem_append.mp he with hm | hm
                · exact Nat.lt_succ_of_lt (h2 e hm)
                · rw [List.mem_singleton] at hm
                  rw [hm]
                  exact Nat.lt_succ_self _
              · intro t ht
                exact ⟨(h3 t ht).1, keysBelow_mono (Nat.le_succ _) (h3 t ht).2⟩
              · intro t ht
                exact ⟨(h4 t ht).1, keysBelow_mono (Nat.le_succ _) (h4 t ht).2⟩
              · intro e he
                obtain ⟨a, b, c2, d⟩ := h5 e he
                exact ⟨a, keysBelow_mono (Nat.le_succ _) b, c2, Nat.lt_succ_of_lt d⟩
            · next hneg => exact absurd hcond hneg
        · next heq2 => exact Option.noConfusion heq2

/-! `deleteNode` preserves the invariant: the cascade removes exactly
the subtree, and every surviving link points at a survivor. -/

theorem descEq_child {nodes : NodeMap} {a k c : Nat} {nk : ListNode}
    (hD : DescEq nodes a k) (hk : lookupNode nodes k = some nk)
    (hc : c ∈ nk.childrenIds) : Desc nodes a c := by
  rcases hD with rfl | hd
  · exact .child hk hc
  · exact .step hd hk hc

theorem WFTree_delete_root {s : AppState} (wf : WFTree s.nodes s.rootNodeIds)
    {id : Nat} {node : ListNode} (hn : lookupNode s.nodes id = some node)
    (hop : node.parentId = none) :
    WFTree (s.nodes.filter (fun e =>
        !((id :: (getAllChildren id s.nodes).map (fun n => n.id)).contains e.1)))
      (s.rootNodeIds.filter (fun rid => !(rid == id))) := by
  have htd := toDelete_iff wf hn
  have hsurv : ∀ k, ¬ DescEq s.nodes id k →
      lookupNode (s.nodes.filter (fun e =>
        !((id :: (getAllChildren id s.nodes).map (fun n => n.id)).contains e.1))) k =
      lookupNode s.nodes k := by
    intro k hD
    rw [lookupNode_filterOut,
      if_neg (fun hc => hD ((htd k).mp (contains_eq_true_iff.mp hc)))]
  have hmemsp : ∀ e2, e2 ∈ (s.nodes.filter (fun e =>
      !((id :: (getAllChildren id s.nodes).map (fun n => n.id)).contains e.1))) →
      e2 ∈ s.nodes ∧ ¬ DescEq s.nodes id e2.1 := by
    intro e2 h
    obtain ⟨hm, hp⟩ := List.mem_filter.mp h
    refine ⟨hm, ?_⟩
    intro hD
    rw [contains_eq_true_iff.mpr ((htd e2.1).mpr hD)] at hp
    exact Bool.noConfusion hp
  refine ⟨?_, ?_, ?_, ?_, ?_, ?_, ?_, ?_, ?_⟩
  · show (mapKeys (s.nodes.filter _)).Nodup
    rw [mapKeys_filterOut]
    exact (List.filter_sublist _).nodup wf.nodupKeys
  · exact (List.filter_sublist _).nodup wf.nodupRoots
  · intro e he
    exact wf.id_eq (lookupNode_eq_some_of_mem wf.nodupKeys (hmemsp e he).1)
  · intro r hr
    obtain ⟨hrin, hrpred⟩ := List.mem_filter.mp hr
    have hrne : r ≠ id := by
      intro he
      rw [he] at hrpred
      simp at hrpred
    obtain ⟨nr, hnr, hnrp⟩ := wf.root_entry hrin
    have hrD : ¬ DescEq s.nodes id r := by
      rintro (he | hdr)
      · exact hrne he.symm
      · rcases desc_parent_case wf hdr hnr with ⟨b, hb, -⟩
        rw [hnrp] at hb
        exact Option.noConfusion hb
    unfold rootEntryOk
    rw [hsurv r hrD, hnr]
    show (nr.parentId == none) = true
    rw [hnrp]
    rfl
  · intro e he
    obtain ⟨hm, hDn⟩ := hmemsp e he
    unfold rootLinkOk
    cases hp : e.2.parentId with
    | some p => rfl
    | none =>
      have hl : lookupNode s.nodes e.1 = some e.2 :=
        lookupNode_eq_some_of_mem wf.nodupKeys hm
      obtain ⟨hroot, hlvl⟩ := wf.root_link hl hp
      show (((s.rootNodeIds.filter (fun rid => !(rid == id))).contains e.1) &&
          (e.2.level == 0)) = true
      rw [Bool.and_eq_true]
      constructor
      · rw [contains_eq_true_iff, List.mem_filter]
        refine ⟨hroot, ?_⟩
        have hne : e.1 ≠ id := by
          intro hee
          exact hDn (by rw [hee]; exact Or.inl rfl)
        simp [hne]
      · rw [hlvl]
        rfl
  · intro e he
    obtain ⟨hm, hDn⟩ := hmemsp e he
    unfold parentLinkOk
    cases hp : e.2.parentId with
    | none => rfl
    | some q =>
      have hl : lookupNode s.nodes e.1 = some e.2 :=
        lookupNode_eq_some_of_mem wf.nodupKeys hm
      obtain ⟨nq, hnq, hmemq, hlvl⟩ := wf.parent_link hl hp
      have hqD : ¬ DescEq s.nodes id q := by
        intro hD
        exact hDn (Or.inr (descEq_child hD hnq hmemq))
      show (match lookupNode (s.nodes.filter (fun e =>
          !((id :: (getAllChildren id s.nodes).map (fun n => n.id)).contains e.1))) q with
        | none => false
        | some mm => mm.childrenIds.contains e.1 && (e.2.level == mm.level + 1)) = true
      rw [hsurv q hqD, hnq]
      show (nq.childrenIds.contains e.1 && (e.2.level == nq.level + 1)) = true
      rw [Bool.and_eq_true]
      exact ⟨contains_eq_true_iff.mpr hmemq, by rw [hlvl]; exact beq_self_eq_true _⟩
  · intro e he
    obtain ⟨hm, hDn⟩ := hmemsp e he
    unfold childLinkOk
    rw [List.all_eq_true]
    intro c hc
    have hl : lookupNode s.nodes e.1 = some e.2 :=
      lookupNode_eq_some_of_mem wf.nodupKeys hm
    obtain ⟨nc, hnc, hparc, -⟩ := wf.child_exists hl hc
    have hcD : ¬ DescEq s.nodes id c := by
      rintro (rfl | hdc)
      · rw [hn] at hnc
        injection hnc with hnc
        rw [← hnc, hop] at hparc
        exact Option.noConfusion hparc
      · rcases desc_parent_case wf hdc hnc with ⟨b, hb, hor⟩
        rw [hparc] at hb
        injection hb with hb
        subst hb
        rcases hor with he1 | hd2
        · exact hDn (Or.inl he1.symm)
        · exact hDn (Or.inr hd2)
    show (match lookupNode (s.nodes.filter (fun e =>
        !((id :: (getAllChildren id s.nodes).map (fun n => n.id)).contains e.1))) c with
      | none => false
      | some mm => mm.parentId == some e.1) = true
    rw [hsurv c hcD, hnc]
    show (nc.parentId == some e.1) = true
    rw [hparc]
    exact beq_self_eq_true _
  · intro e he
    exact wf.children_nodup
      (lookupNode_eq_some_of_mem wf.nodupKeys (hmemsp e he).1)
  · intro e he
    exact wf.level_le (lookupNode_eq_some_of_mem wf.nodupKeys (hmemsp e he).1)

theorem WFTree_delete_child {s : AppState} (wf : WFTree s.nodes s.rootNodeIds)
    {id : Nat} {node : ListNode} (hn : lookupNode s.nodes id = some node)
    {op : Nat} {nop : ListNode} (hop : node.parentId = some op)
    (hnop : lookupNode s.nodes op = some nop) :
    WFTree ((updateKey s.nodes op (fun p =>
        { p with childrenIds := p.childrenIds.filter (fun cid => !(cid == id)) })).filter
        (fun e => !((id :: (getAllChildren id s.nodes).map (fun n => n.id)).contains e.1)))
      s.rootNodeIds := by
  have htd := toDelete_iff wf hn
  have hDop : Desc s.nodes op id := desc_of_parent wf hn hop
  have hidop : id ≠ op := by
    intro he
    exact desc_irrefl wf op (he ▸ hDop)
  have hnotDop : ¬ DescEq s.nodes id op := by
    rintro (he | hd)
    · exact hidop he
    · exact desc_irrefl wf id (hd.trans hDop)
  have hsurvop : lookupNode ((updateKey s.nodes op (fun p =>
      { p with childrenIds := p.childrenIds.filter (fun cid => !(cid == id)) })).filter
      (fun e => !((id :: (getAllChildren id s.nodes).map (fun n => n.id)).contains e.1))) op =
      some { nop with childrenIds := nop.childrenIds.filter (fun cid => !(cid == id)) } := by
    rw [lookupNode_filterOut,
      if_neg (fun hc => hnotDop ((htd op).mp (contains_eq_true_iff.mp hc))),
      lookupNode_updateKey, if_pos rfl, hnop]
    rfl
  have hsurv1 : ∀ k, ¬ DescEq s.nodes id k → k ≠ op →
      lookupNode ((updateKey s.nodes op (fun p =>
        { p with childrenIds := p.childrenIds.filter (fun cid => !(cid == id)) })).filter
        (fun e => !((id :: (getAllChildren id s.nodes).map (fun n => n.id)).contains e.1))) k =
      lookupNode s.nodes k := by
    intro k hD hkop
    rw [lookupNode_filterOut,
      if_neg (fun hc => hD ((htd k).mp (contains_eq_true_iff.mp hc))),
      lookupNode_updateKey, if_neg hkop]
  have hmemsp : ∀ e2, e2 ∈ ((updateKey s.nodes op (fun p =>
      { p with childrenIds := p.childrenIds.filter (fun cid => !(cid == id)) })).filter
      (fun e => !((id :: (getAllChildren id s.nodes).map (fun n => n.id)).contains e.1))) →
      ¬ DescEq s.nodes id e2.1 ∧
      ((e2 ∈ s.nodes ∧ e2.1 ≠ op) ∨
        e2 = (op, { nop with
          childrenIds := nop.childrenIds.filter (fun cid => !(cid == id)) })) := by
    intro e2 h
    obtain ⟨hup, hpred⟩ := List.mem_filter.mp h
    have hND : ¬ DescEq s.nodes id e2.1 := by
      intro hD
      rw [contains_eq_true_iff.mpr ((htd e2.1).mpr hD)] at hpred
      exact Bool.noConfusion hpred
    obtain ⟨e, he, heq⟩ := mem_updateKey hup
    refine ⟨hND, ?_⟩
    by_cases hep : e.1 = op
    · right
      have hev : e.2 = nop := by
        have h0 := lookupNode_eq_some_of_mem wf.nodupKeys
          (show (op, e.2) ∈ s.nodes from by rw [← hep]; exact he)
        rw [hnop] at h0
        injection h0 with h0
        exact h0.symm
      rw [heq, if_pos (by rw [hep]; exact beq_self_eq_true op), hep, hev]
    · left
      constructor
      · rw [heq, if_neg (by simpa using hep)]
        exact he
      · rw [heq, if_neg (by simpa using hep)]
        exact hep
  refine ⟨?_, wf.nodupRoots, ?_, ?_, ?_, ?_, ?_, ?_, ?_⟩
  · show (mapKeys ((updateKey s.nodes op _).filter _)).Nodup
    rw [mapKeys_filterOut, mapKeys_updateKey]
    exact (List.filter_sublist _).nodup wf.nodupKeys
  · intro e2 he2
    rcases (hmemsp e2 he2).2 with ⟨hm, -⟩ | rfl
    · exact wf.id_eq (lookupNode_eq_some_of_mem wf.nodupKeys hm)
    · show nop.id = op
      exact wf.id_eq hnop
  · intro r hr
    obtain ⟨nr, hnr, hnrp⟩ := wf.root_entry hr
    have hrD : ¬ DescEq s.nodes id r := by
      rintro (rfl | hdr)
      · rw [hn] at hnr
        injection hnr with hnr
        rw [← hnr, hop] at hnrp
        exact Option.noConfusion hnrp
      · rcases desc_parent_case wf hdr hnr with ⟨b, hb, -⟩
        rw [hnrp] at hb
        exact Option.noConfusion hb
    unfold rootEntryOk
    by_cases hrop : r = op
    · rw [hrop, hsurvop]
      rw [hrop, hnop] at hnr
      injection hnr with hnr
      show (nop.parentId == none) = true
      rw [hnr, hnrp]
      rfl
    · rw [hsurv1 r hrD hrop, hnr]
      show (nr.parentId == none) = true
      rw [hnrp]
      rfl
  · intro e2 he2
    rcases (hmemsp e2 he2).2 with ⟨hm, -⟩ | rfl
    · exact wf.2.2.2.2.1 e2 hm
    · exact wf.2.2.2.2.1 (op, nop) (mem_of_lookupNode_eq_some hnop)
  · intro e2 he2
    obtain ⟨hND, hsp⟩ := hmemsp e2 he2
    rcases hsp with ⟨hm, hneop⟩ | rfl
    · have hl : lookupNode s.nodes e2.1 = some e2.2 :=
        lookupNode_eq_some_of_mem wf.nodupKeys hm
      unfold parentLinkOk
      cases hp : e2.2.parentId with
      | none => rfl
      | some q =>
        obtain ⟨nq, hnq, hmemq, hlvl⟩ := wf.parent_link hl hp
        have hqD : ¬ DescEq s.nodes id q := by
          intro hD
          exact hND (Or.inr (descEq_child hD hnq hmemq))
        show (match lookupNode ((updateKey s.nodes op (fun p =>
            { p with childrenIds := p.childrenIds.filter (fun cid => !(cid == id)) })).filter
            (fun e => !((id :: (getAllChildren id s.nodes).map (fun n => n.id)).contains e.1))) q with
          | none => false
          | some mm => mm.childrenIds.contains e2.1 && (e2.2.level == mm.level + 1)) = true
        by_cases hqop : q = op
        · rw [hqop, hsurvop]
          rw [hqop, hnop] at hnq
          injection hnq with hnq
          subst hnq
          show (((nop.childrenIds.filter (fun cid => !(cid == id))).contains e2.1) &&
              (e2.2.level == nop.level + 1)) = true
          rw [Bool.and_eq_true]
          constructor
          · rw [contains_eq_true_iff, List.mem_filter]
            refine ⟨hmemq, ?_⟩
            have hne : e2.1 ≠ id := by
              intro hee
              exact hND (by rw [hee]; exact Or.inl rfl)
            simp [hne]
          · rw [hlvl]
            exact beq_self_eq_true _
        · rw [hsurv1 q hqD hqop, hnq]
          show (nq.childrenIds.contains e2.1 && (e2.2.level == nq.level + 1)) = true
          rw [Bool.and_eq_true]
          exact ⟨contains_eq_true_iff.mpr hmemq, by rw [hlvl]; exact beq_self_eq_true _⟩
    · unfold parentLinkOk
      cases hp : nop.parentId with
      | none => rfl
      | some q =>
        obtain ⟨nq, hnq, hmemq, hlvl⟩ := wf.parent_link hnop hp
        have hqD : ¬ DescEq s.nodes id q := by
          intro hD
          exact hnotDop (Or.inr (descEq_child hD hnq hmemq))
        show (match lookupNode ((updateKey s.nodes op (fun p =>
            { p with childrenIds := p.childrenIds.filter (fun cid => !(cid == id)) })).filter
            (fun e => !((id :: (getAllChildren id s.nodes).map (fun n => n.id)).contains e.1))) q with
          | none => false
          | some mm => mm.childrenIds.contains op && (nop.level == mm.level + 1)) = true
        by_cases hqop : q = op
        · rw [hqop, hsurvop]
          rw [hqop, hnop] at hnq
          injection hnq with hnq
          subst hnq
          show (((nop.childrenIds.filter (fun cid => !(cid == id))).contains op) &&
              (nop.level == nop.level + 1)) = true
          rw [Bool.and_eq_true]
          constructor
          · rw [contains_eq_true_iff, List.mem_filter]
            refine ⟨hmemq, ?_⟩
            have hne : op ≠ id := fun hee => hidop hee.symm
            simp [hne]
          · exact beq_iff_eq.mpr hlvl
        · rw [hsurv1 q hqD hqop, hnq]
          show (nq.childrenIds.contains op && (nop.level == nq.level + 1)) = true
          rw [Bool.and_eq_true]
          exact ⟨contains_eq_true_iff.mpr hmemq, by rw [hlvl]; exact beq_self_eq_true _⟩
  · intro e2 he2
    obtain ⟨hND, hsp⟩ := hmemsp e2 he2
    rcases hsp with ⟨hm, hneop⟩ | rfl
    · have hl : lookupNode s.nodes e2.1 = some e2.2 :=
        lookupNode_eq_some_of_mem wf.nodupKeys hm
      unfold childLinkOk
      rw [List.all_eq_true]
      intro c hc
      obtain ⟨nc, hnc, hparc, -⟩ := wf.child_exists hl hc
      have hcD : ¬ DescEq s.nodes id c := by
        rintro (rfl | hdc)
        · rw [hn] at hnc
          injection hnc with hnc
          rw [← hnc, hop] at hparc
          injection hparc with hparc
          exact hneop hparc.symm
        · rcases desc_parent_case wf hdc hnc with ⟨b, hb, hor⟩
          rw [hparc] at hb
          injection hb with hb
          subst hb
          rcases hor with he1 | hd2
          · exact hND (Or.inl he1.symm)
          · exact hND (Or.inr hd2)
      show (match lookupNode ((updateKey s.nodes op (fun p =>
          { p with childrenIds := p.childrenIds.filter (fun cid => !(cid == id)) })).filter
          (fun e => !((id :: (getAllChildren id s.nodes).map (fun n => n.id)).contains e.1))) c with
        | none => false
        | some mm => mm.parentId == some e2.1) = true
      by_cases hcop : c = op
      · rw [hcop, hsurvop]
        rw [hcop, hnop] at hnc
        injection hnc with hnc
        show (nop.parentId == some e2.1) = true
        rw [hnc, hparc]
        exact beq_self_eq_true _
      · rw [hsurv1 c hcD hcop, hnc]
        show (nc.parentId == some e2.1) = true
        rw [hparc]
        exact beq_self_eq_true _
    · unfold childLinkOk
      rw [List.all_eq_true]
      intro c hc
      have hc2 : c ∈ nop.childrenIds.filter (fun cid => !(cid == id)) := hc
      obtain ⟨hcin, hcpred⟩ := List.mem_filter.mp hc2
      have hcne : c ≠ id := by
        intro he
        rw [he] at hcpred
        simp at hcpred
      obtain ⟨nc, hnc, hparc, -⟩ := wf.child_exists hnop hcin
      have hcD : ¬ DescEq s.nodes id c := by
        rintro (he | hdc)
        · exact hcne he.symm
        · rcases desc_parent_case wf hdc hnc with ⟨b, hb, hor⟩
          rw [hparc] at hb
          injection hb with hb
          subst hb
          rcases hor with he1 | hd2
          · exact hidop he1.symm
          · exact hnotDop (Or.inr hd2)
      show (match lookupNode ((updateKey s.nodes op (fun p =>
          { p with childrenIds := p.childrenIds.filter (fun cid => !(cid == id)) })).filter
          (fun e => !((id :: (getAllChildren id s.nodes).map (fun n => n.id)).contains e.1))) c with
        | none => false
        | some mm => mm.parentId == some op) = true
      by_cases hcop : c = op
      · rw [hcop, hsurvop]
        rw [hcop, hnop] at hnc
        injection hnc with hnc
        show (nop.parentId == some op) = true
        rw [hnc, hparc]
        exact beq_self_eq_true _
      · rw [hsurv1 c hcD hcop, hnc]
        show (nc.parentId == some op) = true
        rw [hparc]
        exact beq_self_eq_true _
  · intro e2 he2
    rcases (hmemsp e2 he2).2 with ⟨hm, -⟩ | rfl
    · exact wf.children_nodup (lookupNode_eq_some_of_mem wf.nodupKeys hm)
    · show (nop.childrenIds.filter (fun cid => !(cid == id))).Nodup
      exact (wf.children_nodup hnop).filter _
  · intro e2 he2
    rcases (hmemsp e2 he2).2 with ⟨hm, -⟩ | rfl
    · exact wf.level_le (lookupNode_eq_some_of_mem wf.nodupKeys hm)
    · show nop.level ≤ MAX_DEPTH - 1
      exact wf.level_le hnop

theorem inv_deleteNodeOp {s : AppState} (id : Nat) (hs : Inv s) :
    Inv (deleteNodeOp s id) := by
  obtain ⟨h1, h2, h3, h4, h5, h6⟩ := hs
  cases hn : lookupNode s.nodes id with
  | none =>
    unfold deleteNodeOp
    rw [hn]
    exact ⟨h1, h2, h3, h4, h5, h6⟩
  | some node =>
    have hkill : ∀ (m2 : NodeMap), mapKeys m2 = mapKeys s.nodes →
        keysBelow (m2.filter (fun e =>
          !((id :: (getAllChildren id s.nodes).map (fun n => n.id)).contains e.1)))
          s.nextId := by
      intro m2 hkeys
      intro e he
      have hm2 : e ∈ m2 := List.mem_of_mem_filter he
      have hk : e.1 ∈ mapKeys s.nodes := by
        rw [← hkeys]
        exact List.mem_map.mpr ⟨e, hm2, rfl⟩
      rcases List.mem_map.mp hk with ⟨e0, he0, heq0⟩
      rw [← heq0]
      exact h2 e0 he0
    cases hop : node.parentId with
    | none =>
      have heqD : deleteNodeOp s id = saveHistoryOp { s with
          nodes := s.nodes.filter (fun e =>
            !((id :: (getAllChildren id s.nodes).map (fun n => n.id)).contains e.1)),
          rootNodeIds := s.rootNodeIds.filter (fun rid => !(rid == id)),
          currentSession := { s.currentSession with
            selectedNodeIds := s.currentSession.selectedNodeIds.filter
              (fun sid => !((id :: (getAllChildren id s.nodes).map (fun n => n.id)).contains sid)),
            focusedNodeId := match s.currentSession.focusedNodeId with
              | some f =>
                if ((id :: (getAllChildren id s.nodes).map (fun n => n.id)).contains f)
                then none else some f
              | none => none } } := by
        simp [deleteNodeOp, hn, hop]
      rw [heqD]
      apply inv_saveHistoryOp
      refine ⟨?_, ?_, h3, h4, h5, h6⟩
      · exact WFTree_delete_root h1 hn hop
      · exact hkill s.nodes rfl
    | some op =>
      rcases h1.parent_link hn hop with ⟨nop, hnop, -, -⟩
      have hopS : (lookupNode s.nodes op).isSome = true := by
        rw [hnop]
        rfl
      have heqD : deleteNodeOp s id = saveHistoryOp { s with
          nodes := (updateKey s.nodes op (fun p =>
            { p with childrenIds := p.childrenIds.filter (fun cid => !(cid == id)) })).filter
            (fun e => !((id :: (getAllChildren id s.nodes).map (fun n => n.id)).contains e.1)),
          currentSession := { s.currentSession with
            selectedNodeIds := s.currentSession.selectedNodeIds.filter
              (fun sid => !((id :: (getAllChildren id s.nodes).map (fun n => n.id)).contains sid)),
            focusedNodeId := match s.currentSession.focusedNodeId with
              | some f =>
                if ((id :: (getAllChildren id s.nodes).map (fun n => n.id)).contains f)
                then none else some f
              | none => none } } := by
        simp [deleteNodeOp, hn, hop, hopS]
      rw [heqD]
      apply inv_saveHistoryOp
      refine ⟨?_, ?_, h3, h4, h5, h6⟩
      · exact WFTree_delete_child h1 hn hop hnop
      · exact hkill _ (mapKeys_updateKey _ _ _)

/-! `moveNode` preserves the invariant on its success path. -/

theorem WFTree_move {s : AppState} (wf : WFTree s.nodes s.rootNodeIds)
    {nodeId : Nat} {node : ListNode} (hn : lookupNode s.nodes nodeId = some node)
    {P pos : Option Nat} {t4 : AppState} {newLevel : Nat}
    (hPok : ∀ p, P = some p → ∃ np, lookupNode s.nodes p = some np)
    (hPnd : ∀ p, P = some p → ¬ Desc s.nodes nodeId p)
    (hPne : ∀ p, P = some p → p ≠ nodeId)
    (hP0 : P = none → newLevel = 0)
    (hPlev : ∀ p np, P = some p → lookupNode s.nodes p = some np →
      newLevel = np.level + 1)
    (hcap : ∀ d nd, DescEq s.nodes nodeId d → lookupNode s.nodes d = some nd →
      newLevel + (nd.level - node.level) ≤ MAX_DEPTH - 1)
    (hXlook : lookupNode t4.nodes nodeId =
      some { node with parentId := P, level := newLevel })
    (hdesc : ∀ d nd, Desc s.nodes nodeId d → lookupNode s.nodes d = some nd →
      lookupNode t4.nodes d = some { nd with level := newLevel + (nd.level - node.level) })
    (hPnew : ∀ p np, P = some p → lookupNode s.nodes p = some np →
      lookupNode t4.nodes p = some { np with childrenIds := insertPos (if node.parentId = some p then np.childrenIds.filter (fun cid => !(cid == nodeId)) else np.childrenIds) pos nodeId })
    (hOld : ∀ op nop, node.parentId = some op → P ≠ some op →
      lookupNode s.nodes op = some nop →
      lookupNode t4.nodes op = some { nop with childrenIds := nop.childrenIds.filter (fun cid => !(cid == nodeId)) })
    (hUnt : ∀ k, k ≠ nodeId → ¬ Desc s.nodes nodeId k → node.parentId ≠ some k →
      P ≠ some k → lookupNode t4.nodes k = lookupNode s.nodes k)
    (hR0 : P = none → t4.rootNodeIds = insertPos (if node.parentId = none
      then s.rootNodeIds.filter (fun rid => !(rid == nodeId)) else s.rootNodeIds)
      pos nodeId)
    (hRp : ∀ p, P = some p → t4.rootNodeIds = (if node.parentId = none
      then s.rootNodeIds.filter (fun rid => !(rid == nodeId)) else s.rootNodeIds))
    (hKeys : mapKeys t4.nodes = mapKeys s.nodes) :
    WFTree t4.nodes t4.rootNodeIds := by
  have hirr : ¬ Desc s.nodes nodeId nodeId := desc_irrefl wf nodeId
  have hnd4 : (mapKeys t4.nodes).Nodup := by
    rw [hKeys]
    exact wf.nodupKeys
  have hdom : ∀ k nk2, lookupNode t4.nodes k = some nk2 →
      ∃ nk, lookupNode s.nodes k = some nk := by
    intro k nk2 h
    have hk : k ∈ mapKeys s.nodes := by
      rw [← hKeys]
      exact mem_keys_of_lookup h
    cases hl : lookupNode s.nodes k with
    | none => exact absurd hk (lookupNode_eq_none_iff.mp hl)
    | some nk => exact ⟨nk, rfl⟩
  have hchildnid : ∀ k nk, lookupNode s.nodes k = some nk →
      nodeId ∈ nk.childrenIds → node.parentId = some k := by
    intro k nk hk hmem
    obtain ⟨nc, hnc, hpar, -⟩ := wf.child_exists hk hmem
    rw [hn] at hnc
    injection hnc with hnc
    rw [hnc]
    exact hpar
  have hVAL : ∀ k nk, lookupNode s.nodes k = some nk →
      ∃ nk2, lookupNode t4.nodes k = some nk2 ∧ nk2.id = nk.id ∧
        (k = nodeId → nk2 = { node with parentId := P, level := newLevel }) ∧
        (Desc s.nodes nodeId k →
          nk2 = { nk with level := newLevel + (nk.level - node.level) }) ∧
        (k ≠ nodeId → ¬ Desc s.nodes nodeId k →
          nk2.parentId = nk.parentId ∧ nk2.level = nk.level) ∧
        (k ≠ nodeId → ¬ Desc s.nodes nodeId k → P ≠ some k →
          node.parentId ≠ some k → nk2 = nk) ∧
        (P = some k → nk2 = { nk with childrenIds := insertPos (if node.parentId = some k then nk.childrenIds.filter (fun cid => !(cid == nodeId)) else nk.childrenIds) pos nodeId }) ∧
        (node.parentId = some k → P ≠ some k → nk2 = { nk with childrenIds := nk.childrenIds.filter (fun cid => !(cid == nodeId)) }) := by
    intro k nk hk
    by_cases hknid : k = nodeId
    · subst hknid
      rw [hn] at hk
      injection hk with hk
      subst hk
      refine ⟨{ node with parentId := P, level := newLevel }, hXlook, rfl,
        fun _ => rfl, ?_, ?_, ?_, ?_, ?_⟩
      · intro hd
        exact absurd hd hirr
      · intro hne _
        exact absurd rfl hne
      · intro hne _ _ _
        exact absurd rfl hne
      · intro hPk
        exact absurd rfl (hPne _ hPk)
      · intro hopk _
        exact absurd (desc_of_parent wf hn hopk) hirr
    · by_cases hdk : Desc s.nodes nodeId k
      · refine ⟨_, hdesc k nk hdk hk, rfl, fun he => absurd he hknid,
          fun _ => rfl, ?_, ?_, ?_, ?_⟩
        · intro _ hnd
          exact absurd hdk hnd
        · intro _ hnd _ _
          exact absurd hdk hnd
        · intro hPk
          exact absurd hdk (hPnd k hPk)
        · intro hopk _
          exact absurd (hdk.trans (desc_of_parent wf hn hopk)) hirr
      · by_cases hPk : P = some k
        · refine ⟨_, hPnew k nk hPk hk, rfl, fun he => absurd he hknid,
            fun hd => absurd hd hdk, fun _ _ => ⟨rfl, rfl⟩, ?_, fun _ => rfl, ?_⟩
          · intro _ _ hP2 _
            exact absurd hPk hP2
          · intro _ hP2
            exact absurd hPk hP2
        · by_cases hopk : node.parentId = some k
          · refine ⟨_, hOld k nk hopk hPk hk, rfl, fun he => absurd he hknid,
              fun hd => absurd hd hdk, fun _ _ => ⟨rfl, rfl⟩, ?_,
              fun hP2 => absurd hP2 hPk, fun _ _ => rfl⟩
            intro _ _ _ hop2
            exact absurd hopk hop2
          · have hlk := hUnt k hknid hdk hopk hPk
            rw [hk] at hlk
            exact ⟨nk, hlk, rfl, fun he => absurd he hknid,
              fun hd => absurd hd hdk, fun _ _ => ⟨rfl, rfl⟩,
              fun _ _ _ _ => rfl, fun hP2 => absurd hP2 hPk,
              fun hop2 _ => absurd hop2 hopk⟩
  have hrootsOK : ∀ r, r ∈ t4.rootNodeIds →
      (P = none ∧ r = nodeId) ∨ (r ∈ s.rootNodeIds ∧ r ≠ nodeId) := by
    intro r hr
    cases hPc : P with
    | none =>
      rw [hR0 hPc, mem_insertPos] at hr
      rcases hr with rfl | hr
      · exact Or.inl ⟨rfl, rfl⟩
      · cases hopc : node.parentId with
        | none =>
          rw [hopc, if_pos rfl] at hr
          obtain ⟨hrin, hrpred⟩ := List.mem_filter.mp hr
          refine Or.inr ⟨hrin, ?_⟩
          intro he
          rw [he] at hrpred
          simp at hrpred
        | some op =>
          rw [hopc, if_neg (by simp)] at hr
          refine Or.inr ⟨hr, ?_⟩
          intro he
          obtain ⟨nr, hnr, hnrp⟩ := wf.root_entry hr
          rw [he, hn] at hnr
          injection hnr with hnr
          rw [← hnr, hopc] at hnrp
          exact Option.noConfusion hnrp
    | some p =>
      rw [hRp p hPc] at hr
      cases hopc : node.parentId with
      | none =>
        rw [hopc, if_pos rfl] at hr
        obtain ⟨hrin, hrpred⟩ := List.mem_filter.mp hr
        refine Or.inr ⟨hrin, ?_⟩
        intro he
        rw [he] at hrpred
        simp at hrpred
      | some op =>
        rw [hopc, if_neg (by simp)] at hr
        refine Or.inr ⟨hr, ?_⟩
        intro he
        obtain ⟨nr, hnr, hnrp⟩ := wf.root_entry hr
        rw [he, hn] at hnr
        injection hnr with hnr
        rw [← hnr, hopc] at hnrp
        exact Option.noConfusion hnrp
  have hrootsIN : ∀ r, r ∈ s.rootNodeIds → r ≠ nodeId → r ∈ t4.rootNodeIds := by
    intro r hrin hrne
    cases hPc : P with
    | none =>
      rw [hR0 hPc, mem_insertPos]
      right
      cases hopc : node.parentId with
      | none =>
        rw [if_pos rfl, List.mem_filter]
        exact ⟨hrin, by simp [hrne]⟩
      | some op =>
        rw [if_neg (by simp)]
        exact hrin
    | some p =>
      rw [hRp p hPc]
      cases hopc : node.parentId with
      | none =>
        rw [if_pos rfl, List.mem_filter]
        exact ⟨hrin, by simp [hrne]⟩
      | some op =>
        rw [if_neg (by simp)]
        exact hrin
  refine ⟨hnd4, ?_, ?_, ?_, ?_, ?_, ?_, ?_, ?_⟩
  · -- roots nodup
    cases hPc : P with
    | none =>
      rw [hR0 hPc]
      cases hopc : node.parentId with
      | none =>
        rw [if_pos rfl]
        refine insertPos_nodup pos (wf.nodupRoots.filter _) ?_
        intro hmem
        obtain ⟨-, hpred⟩ := List.mem_filter.mp hmem
        simp at hpred
      | some op =>
        rw [if_neg (by simp)]
        refine insertPos_nodup pos wf.nodupRoots ?_
        intro hmem
        obtain ⟨nr, hnr, hnrp⟩ := wf.root_entry hmem
        rw [hn] at hnr
        injection hnr with hnr
        rw [← hnr, hopc] at hnrp
        exact Option.noConfusion hnrp
    | some p =>
      rw [hRp p hPc]
      cases hopc : node.parentId with
      | none =>
        rw [if_pos rfl]
        exact wf.nodupRoots.filter _
      | some op =>
        rw [if_neg (by simp)]
        exact wf.nodupRoots
  · -- id fields
    intro e he
    have hle : lookupNode t4.nodes e.1 = some e.2 :=
      lookupNode_eq_some_of_mem hnd4 he
    obtain ⟨nk, hk⟩ := hdom e.1 e.2 hle
    obtain ⟨nk2, hl2, hid2, -⟩ := hVAL e.1 nk hk
    rw [hle] at hl2
    injection hl2 with hl2
    rw [← hl2] at hid2
    rw [hid2]
    exact wf.id_eq hk
  · -- rootEntryOk
    intro r hr
    unfold rootEntryOk
    rcases hrootsOK r hr with ⟨hP, rfl⟩ | ⟨hrin, hrne⟩
    · rw [hXlook]
      show (({ node with parentId := P, level := newLevel } : ListNode).parentId ==
        none) = true
      show (P == none) = true
      rw [hP]
      rfl
    · obtain ⟨nr, hnr, hnrp⟩ := wf.root_entry hrin
      have hrnd : ¬ Desc s.nodes nodeId r := by
        intro hd
        rcases desc_parent_case wf hd hnr with ⟨b, hb, -⟩
        rw [hnrp] at hb
        exact Option.noConfusion hb
      obtain ⟨nk2, hl2, -, -, -, C_oth, -, -, -⟩ := hVAL r nr hnr
      rw [hl2]
      show (nk2.parentId == none) = true
      rw [(C_oth hrne hrnd).1, hnrp]
      rfl
  · -- rootLinkOk
    intro e he
    have hle : lookupNode t4.nodes e.1 = some e.2 :=
      lookupNode_eq_some_of_mem hnd4 he
    obtain ⟨nk, hk⟩ := hdom e.1 e.2 hle
    obtain ⟨nk2, hl2, -, C_node, C_desc, C_oth, -, -, -⟩ := hVAL e.1 nk hk
    rw [hle] at hl2
    injection hl2 with hl2
    subst hl2
    unfold rootLinkOk
    by_cases hknid : e.1 = nodeId
    · rw [C_node hknid]
      cases hPc : P with
      | some p => rfl
      | none =>
        show (t4.rootNodeIds.contains e.1 && (newLevel == 0)) = true
        rw [Bool.and_eq_true]
        constructor
        · rw [contains_eq_true_iff, hknid, hR0 hPc, mem_insertPos]
          exact Or.inl rfl
        · rw [hP0 hPc]
          rfl
    · by_cases hdk : Desc s.nodes nodeId e.1
      · rw [C_desc hdk]
        show (match nk.parentId with
          | none => t4.rootNodeIds.contains e.1 &&
              ((newLevel + (nk.level - node.level)) == 0)
          | some _ => true) = true
        rcases desc_parent_case wf hdk hk with ⟨b, hb, -⟩
        rw [hb]
      · obtain ⟨hparEq, hlvlEq⟩ := C_oth hknid hdk
        show (match e.2.parentId with
          | none => t4.rootNodeIds.contains e.1 && (e.2.level == 0)
          | some _ => true) = true
        rw [hparEq]
        cases hp : nk.parentId with
        | some q => rfl
        | none =>
          obtain ⟨hroot, hlvl⟩ := wf.root_link hk hp
          show (t4.rootNodeIds.contains e.1 && (e.2.level == 0)) = true
          rw [Bool.and_eq_true]
          constructor
          · rw [contains_eq_true_iff]
            exact hrootsIN e.1 hroot hknid
          · rw [hlvlEq, hlvl]
            rfl
  · -- parentLinkOk
    intro e he
    have hle : lookupNode t4.nodes e.1 = some e.2 :=
      lookupNode_eq_some_of_mem hnd4 he
    obtain ⟨nk, hk⟩ := hdom e.1 e.2 hle
    obtain ⟨nk2, hl2, -, C_node, C_desc, C_oth, -, -, -⟩ := hVAL e.1 nk hk
    rw [hle] at hl2
    injection hl2 with hl2
    subst hl2
    unfold parentLinkOk
    by_cases hknid : e.1 = nodeId
    · rw [C_node hknid]
      cases hPc : P with
      | none => rfl
      | some p =>
        obtain ⟨np0, hnp0⟩ := hPok p hPc
        obtain ⟨nk2p, hl2p, -, -, -, -, -, C_Pp, -⟩ := hVAL p np0 hnp0
        show (match lookupNode t4.nodes p with
          | none => false
          | some mm => mm.childrenIds.contains e.1 && (newLevel == mm.level + 1)) = true
        rw [hl2p, C_Pp hPc]
        show ((insertPos (if node.parentId = some p
            then np0.childrenIds.filter (fun cid => !(cid == nodeId))
            else np0.childrenIds) pos nodeId).contains e.1 &&
          (newLevel == np0.level + 1)) = true
        rw [Bool.and_eq_true]
        constructor
        · rw [contains_eq_true_iff, hknid, mem_insertPos]
          exact Or.inl rfl
        · rw [hPlev p np0 hPc hnp0]
          exact beq_self_eq_true _
    · by_cases hdk : Desc s.nodes nodeId e.1
      · rw [C_desc hdk]
        show (match nk.parentId with
          | none => true
          | some q =>
            match lookupNode t4.nodes q with
            | none => false
            | some mm => mm.childrenIds.contains e.1 &&
                ((newLevel + (nk.level - node.level)) == mm.level + 1)) = true
        rcases desc_parent_case wf hdk hk with ⟨b, hb, hbor⟩
        obtain ⟨nbq, hnbq, hmemb, hlvlb⟩ := wf.parent_link hk hb
        rw [hb]
        show (match lookupNode t4.nodes b with
          | none => false
          | some mm => mm.childrenIds.contains e.1 &&
              ((newLevel + (nk.level - node.level)) == mm.level + 1)) = true
        rcases hbor with rfl | hdb
        · rw [hn] at hnbq
          injection hnbq with hnbq
          subst hnbq
          rw [hXlook]
          show (({ node with parentId := P, level := newLevel } :
              ListNode).childrenIds.contains e.1 &&
            ((newLevel + (nk.level - node.level)) == newLevel + 1)) = true
          rw [Bool.and_eq_true]
          constructor
          · exact contains_eq_true_iff.mpr hmemb
          · rw [beq_iff_eq]
            omega
        · rw [hdesc b nbq hdb hnbq]
          show (nbq.childrenIds.contains e.1 &&
            ((newLevel + (nk.level - node.level)) ==
              (newLevel + (nbq.level - node.level)) + 1)) = true
          rw [Bool.and_eq_true]
          constructor
          · exact contains_eq_true_iff.mpr hmemb
          · rw [beq_iff_eq]
            have hblt : node.level < nbq.level := Desc.level_lt wf hdb hn hnbq
            omega
      · obtain ⟨hparEq, hlvlEq⟩ := C_oth hknid hdk
        show (match e.2.parentId with
          | none => true
          | some q =>
            match lookupNode t4.nodes q with
            | none => false
            | some mm => mm.childrenIds.contains e.1 && (e.2.level == mm.level + 1)) = true
        rw [hparEq]
        cases hq : nk.parentId with
        | none => rfl
        | some q =>
          show (match lookupNode t4.nodes q with
            | none => false
            | some mm => mm.childrenIds.contains e.1 &&
                (e.2.level == mm.level + 1)) = true
          obtain ⟨nq, hnq, hmemq, hlvlq⟩ := wf.parent_link hk hq
          have hqnid : q ≠ nodeId := by
            intro he2
            exact hdk (descEq_child (Or.inl he2.symm) (he2 ▸ hnq) hmemq)
          have hqnd : ¬ Desc s.nodes nodeId q := by
            intro hd
            exact hdk (descEq_child (Or.inr hd) hnq hmemq)
          have henid : e.1 ≠ nodeId := hknid
          obtain ⟨nq2, hlq2, -, -, -, C_othq, C_untq, C_Pq, C_oldq⟩ :=
            hVAL q nq hnq
          rw [hlq2]
          by_cases hqP : P = some q
          · rw [C_Pq hqP]
            show ((insertPos (if node.parentId = some q
                then nq.childrenIds.filter (fun cid => !(cid == nodeId))
                else nq.childrenIds) pos nodeId).contains e.1 &&
              (e.2.level == nq.level + 1)) = true
            rw [Bool.and_eq_true]
            constructor
            · rw [contains_eq_true_iff, mem_insertPos]
              right
              cases hopc : node.parentId with
              | some op =>
                by_cases hopq : op = q
                · rw [hopq, if_pos rfl, List.mem_filter]
                  exact ⟨hmemq, by simp [henid]⟩
                · rw [if_neg (by intro h2; injection h2 with h2; exact hopq h2)]
                  exact hmemq
              | none =>
                rw [if_neg (by simp)]
                exact hmemq
            · rw [hlvlEq, hlvlq]
              exact beq_self_eq_true _
          · by_cases hqop : node.parentId = some q
            · rw [C_oldq hqop hqP]
              show ((nq.childrenIds.filter (fun cid => !(cid == nodeId))).contains e.1 &&
                (e.2.level == nq.level + 1)) = true
              rw [Bool.and_eq_true]
              constructor
              · rw [contains_eq_true_iff, List.mem_filter]
                exact ⟨hmemq, by simp [henid]⟩
              · rw [hlvlEq, hlvlq]
                exact beq_self_eq_true _
            · rw [C_untq hqnid hqnd hqP hqop]
              show (nq.childrenIds.contains e.1 && (e.2.level == nq.level + 1)) = true
              rw [Bool.and_eq_true]
              exact ⟨contains_eq_true_iff.mpr hmemq,
                by rw [hlvlEq, hlvlq]; exact beq_self_eq_true _⟩
  · -- childLinkOk
    intro e he
    have hle : lookupNode t4.nodes e.1 = some e.2 :=
      lookupNode_eq_some_of_mem hnd4 he
    obtain ⟨nk, hk⟩ := hdom e.1 e.2 hle
    obtain ⟨nk2, hl2, -, C_node, C_desc, C_oth, C_unt, C_P, C_old⟩ := hVAL e.1 nk hk
    rw [hle] at hl2
    injection hl2 with hl2
    subst hl2
    unfold childLinkOk
    rw [List.all_eq_true]
    intro c hcmem
    show (match lookupNode t4.nodes c with
      | none => false
      | some mm => mm.parentId == some e.1) = true
    have hgen : c ≠ nodeId → c ∈ nk.childrenIds → (match lookupNode t4.nodes c with
        | none => false
        | some mm => mm.parentId == some e.1) = true := by
      intro hcnid hcs
      obtain ⟨nc, hnc, hparc, -⟩ := wf.child_exists hk hcs
      by_cases hcD : Desc s.nodes nodeId c
      · rw [hdesc c nc hcD hnc]
        show (nc.parentId == some e.1) = true
        rw [hparc]
        exact beq_self_eq_true _
      · by_cases hcP : P = some c
        · obtain ⟨nc2, hlc2, -, -, -, -, -, C_Pc, -⟩ := hVAL c nc hnc
          rw [hlc2, C_Pc hcP]
          show (nc.parentId == some e.1) = true
          rw [hparc]
          exact beq_self_eq_true _
        · by_cases hcop : node.parentId = some c
          · obtain ⟨nc2, hlc2, -, -, -, -, -, -, C_oldc⟩ := hVAL c nc hnc
            rw [hlc2, C_oldc hcop hcP]
            show (nc.parentId == some e.1) = true
            rw [hparc]
            exact beq_self_eq_true _
          · obtain ⟨nc2, hlc2, -, -, -, -, C_untc, -, -⟩ := hVAL c nc hnc
            rw [hlc2, C_untc hcnid hcD hcP hcop]
            show (nc.parentId == some e.1) = true
            rw [hparc]
            exact beq_self_eq_true _
    by_cases hknid : e.1 = nodeId
    · have hceq : nk = node := by
        rw [hknid, hn] at hk
        injection hk with hk
        exact hk.symm
      have hcs : c ∈ node.childrenIds := by
        have hrwc := C_node hknid
        rw [hrwc] at hcmem
        exact hcmem
      have hcs2 : c ∈ nk.childrenIds := by
        rw [hceq]
        exact hcs
      have hcnid : c ≠ nodeId := by
        intro he2
        rw [he2] at hcs
        exact hirr (Desc.child hn hcs)
      exact hgen hcnid hcs2
    · by_cases hdk : Desc s.nodes nodeId e.1
      · have hcs : c ∈ nk.childrenIds := by
          have hrwc := C_desc hdk
          rw [hrwc] at hcmem
          exact hcmem
        have hcnid : c ≠ nodeId := by
          intro he2
          have hdc := descEq_child (Or.inr hdk) hk hcs
          rw [he2] at hdc
          exact hirr hdc
        exact hgen hcnid hcs
      · by_cases hPe : P = some e.1
        · have hcm2 : c ∈ insertPos (if node.parentId = some e.1
              then nk.childrenIds.filter (fun cid => !(cid == nodeId))
              else nk.childrenIds) pos nodeId := by
            have hrwc := C_P hPe
            rw [hrwc] at hcmem
            exact hcmem
          rw [mem_insertPos] at hcm2
          rcases hcm2 with rfl | hcm2
          · rw [hXlook]
            show (P == some e.1) = true
            rw [hPe]
            exact beq_self_eq_true _
          · have hcsS : c ∈ nk.childrenIds ∧ c ≠ nodeId := by
              cases hopc : node.parentId with
              | some op =>
                by_cases hope : op = e.1
                · rw [hopc, hope, if_pos rfl] at hcm2
                  obtain ⟨h1c, h2c⟩ := List.mem_filter.mp hcm2
                  refine ⟨h1c, ?_⟩
                  intro he2
                  rw [he2] at h2c
                  simp at h2c
                · rw [hopc, if_neg (by
                    intro h2
                    injection h2 with h2
                    exact hope h2)] at hcm2
                  refine ⟨hcm2, ?_⟩
                  intro he2
                  have h3 := hchildnid e.1 nk hk (he2 ▸ hcm2)
                  rw [hopc] at h3
                  injection h3 with h3
                  exact hope h3
              | none =>
                rw [hopc, if_neg (by simp)] at hcm2
                refine ⟨hcm2, ?_⟩
                intro he2
                have h3 := hchildnid e.1 nk hk (he2 ▸ hcm2)
                rw [hopc] at h3
                exact Option.noConfusion h3
            exact hgen hcsS.2 hcsS.1
        · by_cases hope : node.parentId = some e.1
          · have hcm2 : c ∈ nk.childrenIds.filter (fun cid => !(cid == nodeId)) := by
              have hrwc := C_old hope hPe
              rw [hrwc] at hcmem
              exact hcmem
            obtain ⟨h1c, h2c⟩ := List.mem_filter.mp hcm2
            have hcnid : c ≠ nodeId := by
              intro he2
              rw [he2] at h2c
              simp at h2c
            exact hgen hcnid h1c
          · have hcs : c ∈ nk.childrenIds := by
              have hrwc := C_unt hknid hdk hPe hope
              rw [hrwc] at hcmem
              exact hcmem
            have hcnid : c ≠ nodeId := by
              intro he2
              exact hope (hchildnid e.1 nk hk (he2 ▸ hcs))
            exact hgen hcnid hcs
  · -- children nodup
    intro e he
    have hle : lookupNode t4.nodes e.1 = some e.2 :=
      lookupNode_eq_some_of_mem hnd4 he
    obtain ⟨nk, hk⟩ := hdom e.1 e.2 hle
    obtain ⟨nk2, hl2, -, C_node, C_desc, C_oth, C_unt, C_P, C_old⟩ := hVAL e.1 nk hk
    rw [hle] at hl2
    injection hl2 with hl2
    subst hl2
    by_cases hknid : e.1 = nodeId
    · rw [C_node hknid]
      show node.childrenIds.Nodup
      exact wf.children_nodup hn
    · by_cases hdk : Desc s.nodes nodeId e.1
      · rw [C_desc hdk]
        show nk.childrenIds.Nodup
        exact wf.children_nodup hk
      · by_cases hPe : P = some e.1
        · rw [C_P hPe]
          show (insertPos (if node.parentId = some e.1
            then nk.childrenIds.filter (fun cid => !(cid == nodeId))
            else nk.childrenIds) pos nodeId).Nodup
          cases hopc : node.parentId with
          | some op =>
            by_cases hope : op = e.1
            · rw [hope, if_pos rfl]
              refine insertPos_nodup pos ((wf.children_nodup hk).filter _) ?_
              intro hmem
              obtain ⟨-, hpred⟩ := List.mem_filter.mp hmem
              simp at hpred
            · rw [if_neg (by
                intro h2
                injection h2 with h2
                exact hope h2)]
              refine insertPos_nodup pos (wf.children_nodup hk) ?_
              intro hmem
              have h2 := hchildnid e.1 nk hk hmem
              rw [hopc] at h2
              injection h2 with h2
              exact hope h2
          | none =>
            rw [if_neg (by simp)]
            refine insertPos_nodup pos (wf.children_nodup hk) ?_
            intro hmem
            have h2 := hchildnid e.1 nk hk hmem
            rw [hopc] at h2
            exact Option.noConfusion h2
        · by_cases hope : node.parentId = some e.1
          · rw [C_old hope hPe]
            show (nk.childrenIds.filter (fun cid => !(cid == nodeId))).Nodup
            exact (wf.children_nodup hk).filter _
          · rw [C_unt hknid hdk hPe hope]
            exact wf.children_nodup hk
  · -- level cap
    intro e he
    have hle : lookupNode t4.nodes e.1 = some e.2 :=
      lookupNode_eq_some_of_mem hnd4 he
    obtain ⟨nk, hk⟩ := hdom e.1 e.2 hle
    obtain ⟨nk2, hl2, -, C_node, C_desc, C_oth, -, C_P, C_old⟩ := hVAL e.1 nk hk
    rw [hle] at hl2
    injection hl2 with hl2
    subst hl2
    by_cases hknid : e.1 = nodeId
    · rw [C_node hknid]
      show newLevel ≤ MAX_DEPTH - 1
      have hc := hcap nodeId node (Or.inl rfl) hn
      omega
    · by_cases hdk : Desc s.nodes nodeId e.1
      · rw [C_desc hdk]
        show newLevel + (nk.level - node.level) ≤ MAX_DEPTH - 1
        exact hcap e.1 nk (Or.inr hdk) hk
      · have hlvlEq := (C_oth hknid hdk).2
        have := wf.level_le hk
        show e.2.level ≤ MAX_DEPTH - 1
        rw [hlvlEq]
        exact this

theorem moveNodeOp_reject {s : AppState} {nodeId : Nat} {P : Option Nat}
    (pos : Option Nat)
    (hcm : canMoveNode nodeId P s.nodes (MAX_DEPTH : Int) = false) :
    moveNodeOp s nodeId P pos = .ok s := by
  simp [moveNodeOp, hcm]

theorem moveNodeOp_absent_parent {s : AppState} {nodeId p : Nat}
    (pos : Option Nat) {node : ListNode}
    (hcm : canMoveNode nodeId (some p) s.nodes (MAX_DEPTH : Int) = true)
    (hn : lookupNode s.nodes nodeId = some node)
    (hp : lookupNode s.nodes p = none) :
    moveNodeOp s nodeId (some p) pos = .error () := by
  cases hop : node.parentId with
  | none => simp [moveNodeOp, hcm, hn, hop, hp]
  | some op =>
    cases hopS : lookupNode s.nodes op with
    | none => simp [moveNodeOp, hcm, hn, hop, hopS, hp]
    | some nop =>
      have hpop : p ≠ op := by
        intro he
        rw [he, hopS] at hp
        exact Option.noConfusion hp
      simp [moveNodeOp, hcm, hn, hop, hopS, lookupNode_updateKey, hpop, hp]

theorem inv_moveNodeOp_ok {s : AppState} {nodeId : Nat} {P pos : Option Nat}
    {s2 : AppState} (hs : Inv s)
    (hmv : moveNodeOp s nodeId P pos = .ok s2) : Inv s2 := by
  by_cases hcm : canMoveNode nodeId P s.nodes (MAX_DEPTH : Int) = true
  · cases hn : lookupNode s.nodes nodeId with
    | none =>
      rw [canMoveNode_of_absent hn P (MAX_DEPTH : Int)] at hcm
      exact Bool.noConfusion hcm
    | some node =>
      have hpar : P = none ∨ ∃ p np, P = some p ∧ lookupNode s.nodes p = some np := by
        cases hPc : P with
        | none => exact Or.inl rfl
        | some p =>
          cases hp : lookupNode s.nodes p with
          | some np => exact Or.inr ⟨p, np, rfl, hp⟩
          | none =>
            rw [hPc] at hmv hcm
            rw [moveNodeOp_absent_parent pos hcm hn hp] at hmv
            exact Except.noConfusion hmv
      obtain ⟨t4, newLevel, heq, hsess, htemp, hsnap, hpast, hfut, hnext, hP0,
        hPlev, hcap, hXlook, hdesc2, hPnew, hOld, hUnt, hR0, hRp, hKeys⟩ :=
        moveNodeOp_ok hs.1 pos hn hcm hpar
      rw [heq] at hmv
      injection hmv with hmv
      obtain ⟨h1, h2, h3, h4, h5, h6⟩ := hs
      rw [← hmv]
      apply inv_saveHistoryOp
      refine ⟨?_, ?_, ?_, ?_, ?_, ?_⟩
      · rcases hpar with hP | ⟨p, np, hPp, hnp⟩
        · refine WFTree_move h1 hn ?_ ?_ ?_ hP0 hPlev hcap hXlook hdesc2
            hPnew hOld hUnt hR0 hRp hKeys
          · intro p2 hp2
            rw [hP] at hp2
            exact Option.noConfusion hp2
          · intro p2 hp2
            rw [hP] at hp2
            exact Option.noConfusion hp2
          · intro p2 hp2
            rw [hP] at hp2
            exact Option.noConfusion hp2
        · have hself := canMove_self_false (hPp ▸ hcm)
          have hpne2 : p ≠ nodeId := by simpa using hself
          have hnd := canMove_not_desc h1 hn hnp (hPp ▸ hcm)
          refine WFTree_move h1 hn ?_ ?_ ?_ hP0 hPlev hcap hXlook hdesc2
            hPnew hOld hUnt hR0 hRp hKeys
          · intro p2 hp2
            rw [hPp] at hp2
            injection hp2 with hp2
            rw [← hp2]
            exact ⟨np, hnp⟩
          · intro p2 hp2
            rw [hPp] at hp2
            injection hp2 with hp2
            rw [← hp2]
            exact hnd
          · intro p2 hp2
            rw [hPp] at hp2
            injection hp2 with hp2
            rw [← hp2]
            exact hpne2
      · rw [hnext]
        exact keysBelow_of_mapKeys_eq hKeys h2
      · rw [hpast, hnext]
        exact h3
      · rw [hfut, hnext]
        exact h4
      · rw [hsnap, hnext]
        exact h5
      · rw [hsnap]
        exact h6
  · have hcmf : canMoveNode nodeId P s.nodes (MAX_DEPTH : Int) = false := by
      cases hc2 : canMoveNode nodeId P s.nodes (MAX_DEPTH : Int) with
      | true => exact absurd hc2 hcm
      | false => rfl
    rw [moveNodeOp_reject pos hcmf] at hmv
    injection hmv with hmv
    rw [← hmv]
    exact hs

/-! Correctness of the clone recursion: a successful `cloneRec` or
`cloneChildren` call produces a batch of fresh, internally well-linked
entries whose levels are copied from the source subtree. -/

theorem cloneSpec {nodes : NodeMap} {roots : List Nat}
    (wf : WFTree nodes roots) (now : Nat) : ∀ fuel,
    (∀ origId P counter cloned entries counter2,
      cloneRec nodes now fuel origId P counter = .ok (cloned, entries, counter2) →
      cloneRecOk nodes origId P counter cloned entries counter2) ∧
    (∀ cs P counter ids entries counter2,
      cloneChildren nodes now fuel cs P counter = .ok (ids, entries, counter2) →
      cloneChildrenOk nodes cs P counter ids entries counter2) := by
  have key : ∀ F,
      (∀ origId P counter cloned entries counter2,
        cloneRec nodes now F origId P counter = .ok (cloned, entries, counter2) →
        cloneRecOk nodes origId P counter cloned entries counter2) →
      (∀ cs P counter ids entries counter2,
        cloneChildren nodes now F cs P counter = .ok (ids, entries, counter2) →
        cloneChildrenOk nodes cs P counter ids entries counter2) := by
    intro F hPR cs
    induction cs with
    | nil =>
      intro P counter ids entries counter2 hok
      have hok2 : (Except.ok ([], [], counter) :
          Except Unit (List Nat × NodeMap × Nat)) = .ok (ids, entries, counter2) := hok
      injection hok2 with h1
      injection h1 with hA h2
      injection h2 with hB hC
      subst hA
      subst hB
      subst hC
      unfold cloneChildrenOk cloneEntriesOk
      refine ⟨Nat.le_refl _, ⟨?_, ?_, ?_, ?_, ?_, ?_⟩, List.nodup_nil, ?_, ?_⟩
      · intro e he
        exact absurd he (List.not_mem_nil e)
      · exact List.nodup_nil
      · intro e he
        exact absurd he (List.not_mem_nil e)
      · intro e he
        exact absurd he (List.not_mem_nil e)
      · intro e he
        exact absurd he (List.not_mem_nil e)
      · intro e he
        exact absurd he (List.not_mem_nil e)
      · intro x hx
        exact absurd hx (List.not_mem_nil x)
      · intro e he
        exact absurd he (List.not_mem_nil e)
    | cons c cs ihcs =>
      intro P counter ids entries counter2 hok
      have hok0 : (match cloneRec nodes now F c (some P) counter with
          | .error e => (Except.error e : Except Unit (List Nat × NodeMap × Nat))
          | .ok (childNode, entries1, cmid) =>
            match cloneChildren nodes now F cs P cmid with
            | .error e => .error e
            | .ok (ids2, entries2, c3) =>
              Except.ok (childNode.id :: ids2, entries1 ++ entries2, c3)) =
          .ok (ids, entries, counter2) := hok
      cases hr1 : cloneRec nodes now F c (some P) counter with
      | error e =>
        rw [hr1] at hok0
        exact Except.noConfusion hok0
      | ok r1 =>
        obtain ⟨childNode, entries1, cmid⟩ := r1
        rw [hr1] at hok0
        have hok2 : (match cloneChildren nodes now F cs P cmid with
            | .error e => (Except.error e : Except Unit (List Nat × NodeMap × Nat))
            | .ok (ids2, entries2, c3) =>
              Except.ok (childNode.id :: ids2, entries1 ++ entries2, c3)) =
            .ok (ids, entries, counter2) := hok0
        cases hr2 : cloneChildren nodes now F cs P cmid with
        | error e =>
          rw [hr2] at hok2
          exact Except.noConfusion hok2
        | ok r2 =>
          obtain ⟨ids2, entries2, c3⟩ := r2
          rw [hr2] at hok2
          have hok3 : (Except.ok (childNode.id :: ids2, entries1 ++ entries2, c3) :
              Except Unit (List Nat × NodeMap × Nat)) = .ok (ids, entries, counter2) := hok2
          injection hok3 with h4
          injection h4 with hA h5
          injection h5 with hB hC
          subst hA
          subst hB
          subst hC
          have hR := hPR c (some P) counter childNode entries1 cmid hr1
          unfold cloneRecOk cloneEntriesOk at hR
          obtain ⟨R1, R2, R3, R4, R5, ⟨E1r, E1n, E1i, E1c, E1l, E1k⟩, R7⟩ := hR
          have hQ := ihcs P cmid ids2 entries2 c3 hr2
          unfold cloneChildrenOk cloneEntriesOk at hQ
          obtain ⟨Q1, ⟨E2r, E2n, E2i, E2c, E2l, E2k⟩, Q3, Q4, Q5⟩ := hQ
          have hlift1 : ∀ k nk, lookupNode entries1 k = some nk →
              lookupNode (entries1 ++ entries2) k = some nk := by
            intro k nk h
            rw [lookupNode_append, h]
          have hlift2 : ∀ k nk, lookupNode entries2 k = some nk →
              lookupNode (entries1 ++ entries2) k = some nk := by
            intro k nk h
            have hk2 : cmid ≤ k := (E2r (k, nk) (mem_of_lookupNode_eq_some h)).1
            have h1 : lookupNode entries1 k = none := by
              rw [lookupNode_eq_none_iff]
              intro hmem
              rcases List.mem_map.mp hmem with ⟨e, he, heq⟩
              have heq2 : e.1 = k := heq
              have h2 := (E1r e he).2
              omega
            rw [lookupNode_append, h1]
            exact h
          unfold cloneChildrenOk cloneEntriesOk
          refine ⟨by omega, ⟨?_, ?_, ?_, ?_, ?_, ?_⟩, ?_, ?_, ?_⟩
          · intro e he
            rcases List.mem_append.mp he with hm | hm
            · have h2 := E1r e hm
              exact ⟨h2.1, by omega⟩
            · have h2 := E2r e hm
              exact ⟨by omega, h2.2⟩
          · rw [show mapKeys (entries1 ++ entries2) =
                mapKeys entries1 ++ mapKeys entries2 from mapKeys_append entries1 entries2,
              List.nodup_append]
            refine ⟨E1n, E2n, ?_⟩
            intro a ha hb
            rcases List.mem_map.mp ha with ⟨e, he, heq⟩
            rcases List.mem_map.mp hb with ⟨e2, he2, heq2⟩
            have k1 : e.1 = a := heq
            have k2 : e2.1 = a := heq2
            have h1 := (E1r e he).2
            have h2 := (E2r e2 he2).1
            omega
          · intro e he
            rcases List.mem_append.mp he with hm | hm
            · exact E1i e hm
            · exact E2i e hm
          · intro e he
            rcases List.mem_append.mp he with hm | hm
            · exact E1c e hm
            · exact E2c e hm
          · intro e he
            rcases List.mem_append.mp he with hm | hm
            · exact E1l e hm
            · exact E2l e hm
          · intro e he c0 hc0
            rcases List.mem_append.mp he with hm | hm
            · obtain ⟨nc, hnc, hp, hlv⟩ := E1k e hm c0 hc0
              exact ⟨nc, hlift1 c0 nc hnc, hp, hlv⟩
            · obtain ⟨nc, hnc, hp, hlv⟩ := E2k e hm c0 hc0
              exact ⟨nc, hlift2 c0 nc hnc, hp, hlv⟩
          · rw [List.nodup_cons]
            refine ⟨?_, Q3⟩
            intro hmem
            obtain ⟨nx, hnx, hrest⟩ := Q4 childNode.id hmem
            have h2 : cmid ≤ childNode.id :=
              (E2r (childNode.id, nx) (mem_of_lookupNode_eq_some hnx)).1
            omega
          · intro x hx
            rcases List.mem_cons.mp hx with hx1 | hx2
            · subst hx1
              obtain ⟨orig, horig, hlev⟩ := R5
              refine ⟨childNode, ?_, R4, c, List.mem_cons_self c cs, orig, horig, hlev⟩
              rw [R3]
              exact hlift1 counter childNode R2
            · obtain ⟨nx, hnx, hpx, c0, hc0, ncs, hncs, hlvl⟩ := Q4 x hx2
              exact ⟨nx, hlift2 x nx hnx, hpx, c0, List.mem_cons_of_mem c hc0,
                ncs, hncs, hlvl⟩
          · intro e he hnin
            have hnin1 : e.1 ≠ counter := by
              intro h
              exact hnin (by rw [h, ← R3]; exact List.mem_cons_self _ _)
            have hnin2 : e.1 ∉ ids2 := fun h => hnin (List.mem_cons_of_mem _ h)
            rcases List.mem_append.mp he with hm | hm
            · obtain ⟨b, nb, hpb, hlb, hmb, hlv⟩ := R7 e hm hnin1
              exact ⟨b, nb, hpb, hlift1 b nb hlb, hmb, hlv⟩
            · obtain ⟨b, nb, hpb, hlb, hmb, hlv⟩ := Q5 e hm hnin2
              exact ⟨b, nb, hpb, hlift2 b nb hlb, hmb, hlv⟩
  intro fuel
  induction fuel with
  | zero =>
    have hPR : ∀ origId P counter cloned entries counter2,
        cloneRec nodes now 0 origId P counter = .ok (cloned, entries, counter2) →
        cloneRecOk nodes origId P counter cloned entries counter2 := by
      intro origId P counter cloned entries counter2 hok
      unfold cloneRec at hok
      exact Except.noConfusion hok
    exact ⟨hPR, key 0 hPR⟩
  | succ f ih =>
    have hPR : ∀ origId P counter cloned entries counter2,
        cloneRec nodes now (f + 1) origId P counter = .ok (cloned, entries, counter2) →
        cloneRecOk nodes origId P counter cloned entries counter2 := by
      intro origId P counter cloned entries counter2 hok
      unfold cloneRec at hok
      cases hl : lookupNode nodes origId with
      | none =>
        rw [hl] at hok
        exact Except.noConfusion hok
      | some orig =>
        rw [hl] at hok
        have hok2 : (match cloneChildren nodes now f orig.childrenIds counter (counter + 1) with
            | .error e => (Except.error e : Except Unit (ListNode × NodeMap × Nat))
            | .ok (childIds, childEntries, c2) =>
              Except.ok ({ orig with id := counter, parentId := P, childrenIds := childIds, createdAt := now, updatedAt := now },
                (counter, { orig with id := counter, parentId := P, childrenIds := childIds, createdAt := now, updatedAt := now }) :: childEntries,
                c2)) = .ok (cloned, entries, counter2) := hok
        cases hcc : cloneChildren nodes now f orig.childrenIds counter (counter + 1) with
        | error e =>
          rw [hcc] at hok2
          exact Except.noConfusion hok2
        | ok r =>
          obtain ⟨childIds, childEntries, c2⟩ := r
          rw [hcc] at hok2
          have hok3 : (Except.ok ({ orig with id := counter, parentId := P, childrenIds := childIds, createdAt := now, updatedAt := now },
              (counter, { orig with id := counter, parentId := P, childrenIds := childIds, createdAt := now, updatedAt := now }) :: childEntries,
              c2) : Except Unit (ListNode × NodeMap × Nat)) = .ok (cloned, entries, counter2) := hok2
          injection hok3 with h4
          injection h4 with hA h5
          injection h5 with hB hC
          subst hC
          subst hB
          subst hA
          have hQ := ih.2 orig.childrenIds counter (counter + 1) childIds childEntries c2 hcc
          unfold cloneChildrenOk cloneEntriesOk at hQ
          obtain ⟨Q1, ⟨E2r, E2n, E2i, E2c, E2l, E2k⟩, Q3, Q4, Q5⟩ := hQ
          have hheadlk : lookupNode ((counter, { orig with id := counter, parentId := P, childrenIds := childIds, createdAt := now, updatedAt := now }) :: childEntries) counter = some { orig with id := counter, parentId := P, childrenIds := childIds, createdAt := now, updatedAt := now } := by
            rw [lookupNode_cons, if_pos rfl]
          have hcons : ∀ k nk, lookupNode childEntries k = some nk →
              lookupNode ((counter, { orig with id := counter, parentId := P, childrenIds := childIds, createdAt := now, updatedAt := now }) :: childEntries) k = some nk := by
            intro k nk h
            have hk : counter + 1 ≤ k := (E2r (k, nk) (mem_of_lookupNode_eq_some h)).1
            rw [lookupNode_cons, if_neg (fun hcek => by
              have hck : counter = k := hcek
              omega)]
            exact h
          have hsrc : ∀ c0 ∈ orig.childrenIds, ∀ ncs, lookupNode nodes c0 = some ncs →
              ncs.level = orig.level + 1 := by
            intro c0 hc0 ncs hncs
            obtain ⟨mm, hmm, hmp, hml⟩ := wf.child_exists hl hc0
            rw [hncs] at hmm
            injection hmm with hmm2
            rw [hmm2]
            exact hml
          unfold cloneRecOk cloneEntriesOk
          refine ⟨by omega, hheadlk, rfl, rfl, ⟨orig, hl, rfl⟩, ⟨?_, ?_, ?_, ?_, ?_, ?_⟩, ?_⟩
          · intro e he
            rcases List.mem_cons.mp he with h1 | h1
            · subst h1
              exact ⟨Nat.le_refl _, show counter < c2 by omega⟩
            · have h2 := E2r e h1
              exact ⟨by omega, h2.2⟩
          · rw [show mapKeys ((counter, { orig with id := counter, parentId := P, childrenIds := childIds, createdAt := now, updatedAt := now }) :: childEntries) = counter :: mapKeys childEntries from mapKeys_cons _ _, List.nodup_cons]
            refine ⟨?_, E2n⟩
            intro hmem
            rcases List.mem_map.mp hmem with ⟨e, he, heq⟩
            have heq2 : e.1 = counter := heq
            have h2 := (E2r e he).1
            omega
          · intro e he
            rcases List.mem_cons.mp he with h1 | h1
            · subst h1
              rfl
            · exact E2i e h1
          · intro e he
            rcases List.mem_cons.mp he with h1 | h1
            · subst h1
              exact Q3
            · exact E2c e h1
          · intro e he
            rcases List.mem_cons.mp he with h1 | h1
            · subst h1
              have hle := wf.level_le hl
              exact hle
            · exact E2l e h1
          · intro e he c0 hc0
            rcases List.mem_cons.mp he with h1 | h1
            · subst h1
              obtain ⟨nx, hnx, hpx, csrc, hcsrc, ncs, hncs, hlvl⟩ := Q4 c0 hc0
              refine ⟨nx, hcons c0 nx hnx, hpx, ?_⟩
              show nx.level = orig.level + 1
              rw [hlvl]
              exact hsrc csrc hcsrc ncs hncs
            · obtain ⟨nc, hnc, hp, hlv⟩ := E2k e h1 c0 hc0
              exact ⟨nc, hcons c0 nc hnc, hp, hlv⟩
          · intro e he hne
            rcases List.mem_cons.mp he with h1 | h1
            · subst h1
              exact absurd rfl hne
            · by_cases hin : e.1 ∈ childIds
              · obtain ⟨nx, hnx, hpx, csrc, hcsrc, ncs, hncs, hlvl⟩ := Q4 e.1 hin
                have hee : lookupNode childEntries e.1 = some e.2 :=
                  lookupNode_eq_some_of_mem E2n h1
                rw [hee] at hnx
                injection hnx with hnx2
                refine ⟨counter, { orig with id := counter, parentId := P, childrenIds := childIds, createdAt := now, updatedAt := now }, ?_, hheadlk, ?_, ?_⟩
                · rw [hnx2]
                  exact hpx
                · exact hin
                · show e.2.level = orig.level + 1
                  rw [hnx2, hlvl]
                  exact hsrc csrc hcsrc ncs hncs
              · obtain ⟨b, nb, hpb, hlb, hmb, hlv⟩ := Q5 e h1 hin
                exact ⟨b, nb, hpb, hcons b nb hlb, hmb, hlv⟩
    exact ⟨hPR, key (f + 1) hPR⟩

/-! Appending a whole batch of internally well-linked fresh entries to a
well-formed tree: the batch root is attached either as a new root or as
a new child of an existing node (at an arbitrary insertion slot). -/

theorem WFTree_append_block_root {m : NodeMap} {roots : List Nat}
    (wf : WFTree m roots) {entries : NodeMap} {X : Nat} {v : ListNode}
    (hhead : lookupNode entries X = some v)
    (hfresh : ∀ k ∈ mapKeys entries, lookupNode m k = none)
    (hnd : (mapKeys entries).Nodup)
    (hids : ∀ e ∈ entries, e.2.id = e.1)
    (hcnd : ∀ e ∈ entries, e.2.childrenIds.Nodup)
    (hlev : ∀ e ∈ entries, e.2.level ≤ MAX_DEPTH - 1)
    (hcl : ∀ e ∈ entries, ∀ c ∈ e.2.childrenIds, ∃ nc,
      lookupNode entries c = some nc ∧ nc.parentId = some e.1 ∧
      nc.level = e.2.level + 1)
    (hpl : ∀ e ∈ entries, e.1 ≠ X → ∃ b nb, e.2.parentId = some b ∧
      lookupNode entries b = some nb ∧ e.1 ∈ nb.childrenIds ∧
      e.2.level = nb.level + 1)
    (hvp : v.parentId = none) (hvl : v.level = 0) (slot : Option Nat) :
    WFTree (m ++ entries) (insertPos roots slot X) := by
  obtain ⟨w1, w2, w3, w4, w5, w6, w7, w8, w9⟩ := wf
  have hrootsub : ∀ r ∈ roots, r ∈ mapKeys m := by
    intro r hr
    have h4 := w4 r hr
    unfold rootEntryOk at h4
    cases hl : lookupNode m r with
    | none =>
      rw [hl] at h4
      exact absurd h4 (by simp)
    | some n => exact mem_keys_of_lookup hl
  have hXkeys : X ∈ mapKeys entries := mem_keys_of_lookup hhead
  have hXm : lookupNode m X = none := hfresh X hXkeys
  have hXroots : X ∉ roots := by
    intro hr
    rw [lookupNode_eq_none_iff] at hXm
    exact hXm (hrootsub X hr)
  have hlkM : ∀ j nj, lookupNode m j = some nj →
      lookupNode (m ++ entries) j = some nj := by
    intro j nj h
    rw [lookupNode_append, h]
  have hlkE : ∀ j nj, lookupNode entries j = some nj →
      lookupNode (m ++ entries) j = some nj := by
    intro j nj h
    rw [lookupNode_append, hfresh j (mem_keys_of_lookup h)]
    exact h
  have hheadME : lookupNode (m ++ entries) X = some v := hlkE X v hhead
  have hheadid : ∀ e ∈ entries, e.1 = X → e.2 = v := by
    intro e he hx
    have h1 : lookupNode entries e.1 = some e.2 := lookupNode_eq_some_of_mem hnd he
    rw [hx, hhead] at h1
    injection h1 with h2
    exact h2.symm
  refine ⟨?_, ?_, ?_, ?_, ?_, ?_, ?_, ?_, ?_⟩
  · show (mapKeys (m ++ entries)).Nodup
    rw [mapKeys_append, List.nodup_append]
    refine ⟨w1, hnd, ?_⟩
    intro a ha hb
    have h := hfresh a hb
    rw [lookupNode_eq_none_iff] at h
    exact h ha
  · exact insertPos_nodup slot w2 hXroots
  · intro e he
    rcases List.mem_append.mp he with hm | hm
    · exact w3 e hm
    · exact hids e hm
  · intro r hr
    rcases (mem_insertPos roots slot X r).mp hr with h1 | h1
    · subst h1
      unfold rootEntryOk
      rw [hheadME]
      show (v.parentId == none) = true
      rw [hvp]
      rfl
    · have h4 := w4 r h1
      unfold rootEntryOk at h4 ⊢
      cases hl : lookupNode m r with
      | none =>
        rw [hl] at h4
        exact absurd h4 (by simp)
      | some n =>
        rw [hl] at h4
        rw [hlkM r n hl]
        exact h4
  · intro e he
    rcases List.mem_append.mp he with hm | hm
    · have h5 := w5 e hm
      unfold rootLinkOk at h5 ⊢
      cases hp : e.2.parentId with
      | some p => rfl
      | none =>
        rw [hp] at h5
        have h5b : (roots.contains e.1 && (e.2.level == 0)) = true := h5
        show ((insertPos roots slot X).contains e.1 && (e.2.level == 0)) = true
        rw [Bool.and_eq_true] at h5b
        rw [Bool.and_eq_true]
        refine ⟨?_, h5b.2⟩
        rw [contains_eq_true_iff]
        exact (mem_insertPos roots slot X e.1).mpr (Or.inr (contains_eq_true_iff.mp h5b.1))
    · unfold rootLinkOk
      by_cases hx : e.1 = X
      · have hev : e.2 = v := hheadid e hm hx
        cases hp : e.2.parentId with
        | some p => rfl
        | none =>
          show ((insertPos roots slot X).contains e.1 && (e.2.level == 0)) = true
          rw [Bool.and_eq_true]
          constructor
          · rw [contains_eq_true_iff]
            exact (mem_insertPos roots slot X e.1).mpr (Or.inl hx)
          · rw [hev, hvl]
            rfl
      · obtain ⟨b, nb, hpb, hlb, hmb, hlv⟩ := hpl e hm hx
        cases hp : e.2.parentId with
        | some p => rfl
        | none =>
          rw [hp] at hpb
          exact Option.noConfusion hpb
  · intro e he
    rcases List.mem_append.mp he with hm | hm
    · have h6 := w6 e hm
      unfold parentLinkOk at h6 ⊢
      cases hp : e.2.parentId with
      | none => rfl
      | some p =>
        rw [hp] at h6
        have h6c : (match lookupNode m p with
            | none => false
            | some mm => mm.childrenIds.contains e.1 &&
                (e.2.level == mm.level + 1)) = true := h6
        show (match lookupNode (m ++ entries) p with
          | none => false
          | some mm => mm.childrenIds.contains e.1 &&
              (e.2.level == mm.level + 1)) = true
        cases hl : lookupNode m p with
        | none =>
          rw [hl] at h6c
          exact absurd h6c (by simp)
        | some npp =>
          rw [hlkM p npp hl]
          rw [hl] at h6c
          exact h6c
    · unfold parentLinkOk
      by_cases hx : e.1 = X
      · have hev : e.2 = v := hheadid e hm hx
        rw [hev, hvp]
      · obtain ⟨b, nb, hpb, hlb, hmb, hlv⟩ := hpl e hm hx
        rw [hpb]
        show (match lookupNode (m ++ entries) b with
          | none => false
          | some mm => mm.childrenIds.contains e.1 &&
              (e.2.level == mm.level + 1)) = true
        rw [hlkE b nb hlb]
        show (nb.childrenIds.contains e.1 && (e.2.level == nb.level + 1)) = true
        rw [Bool.and_eq_true]
        exact ⟨contains_eq_true_iff.mpr hmb, beq_iff_eq.mpr hlv⟩
  · intro e he
    rcases List.mem_append.mp he with hm | hm
    · have h7 := w7 e hm
      unfold childLinkOk at h7 ⊢
      rw [List.all_eq_true] at h7 ⊢
      intro c hc
      have h7c : (match lookupNode m c with
          | none => false
          | some mm => mm.parentId == some e.1) = true := h7 c hc
      show (match lookupNode (m ++ entries) c with
        | none => false
        | some mm => mm.parentId == some e.1) = true
      cases hl : lookupNode m c with
      | none =>
        rw [hl] at h7c
        exact absurd h7c (by simp)
      | some nc =>
        rw [hlkM c nc hl]
        rw [hl] at h7c
        exact h7c
    · unfold childLinkOk
      rw [List.all_eq_true]
      intro c hc
      obtain ⟨nc, hnc, hp2, hlv2⟩ := hcl e hm c hc
      show (match lookupNode (m ++ entries) c with
        | none => false
        | some mm => mm.parentId == some e.1) = true
      rw [hlkE c nc hnc]
      show (nc.parentId == some e.1) = true
      rw [hp2]
      exact beq_self_eq_true _
  · intro e he
    rcases List.mem_append.mp he with hm | hm
    · exact w8 e hm
    · exact hcnd e hm
  · intro e he
    rcases List.mem_append.mp he with hm | hm
    · exact w9 e hm
    · exact hlev e hm

theorem WFTree_append_block_child {m : NodeMap} {roots : List Nat}
    (wf : WFTree m roots) {entries : NodeMap} {X : Nat} {v : ListNode}
    (hhead : lookupNode entries X = some v)
    (hfresh : ∀ k ∈ mapKeys entries, lookupNode m k = none)
    (hnd : (mapKeys entries).Nodup)
    (hids : ∀ e ∈ entries, e.2.id = e.1)
    (hcnd : ∀ e ∈ entries, e.2.childrenIds.Nodup)
    (hlev : ∀ e ∈ entries, e.2.level ≤ MAX_DEPTH - 1)
    (hcl : ∀ e ∈ entries, ∀ c ∈ e.2.childrenIds, ∃ nc,
      lookupNode entries c = some nc ∧ nc.parentId = some e.1 ∧
      nc.level = e.2.level + 1)
    (hpl : ∀ e ∈ entries, e.1 ≠ X → ∃ b nb, e.2.parentId = some b ∧
      lookupNode entries b = some nb ∧ e.1 ∈ nb.childrenIds ∧
      e.2.level = nb.level + 1)
    {pid : Nat} {np : ListNode} (hnp : lookupNode m pid = some np)
    (hvp : v.parentId = some pid) (hvl : v.level = np.level + 1)
    (posf : ListNode → Option Nat) :
    WFTree (updateKey (m ++ entries) pid
        (fun p => { p with childrenIds := insertPos p.childrenIds (posf p) X }))
      roots := by
  obtain ⟨w1, w2, w3, w4, w5, w6, w7, w8, w9⟩ := wf
  have hXkeys : X ∈ mapKeys entries := mem_keys_of_lookup hhead
  have hXm : lookupNode m X = none := hfresh X hXkeys
  have hXpid : X ≠ pid := by
    intro he
    rw [he] at hXm
    rw [hXm] at hnp
    exact Option.noConfusion hnp
  have hlkM : ∀ j nj, lookupNode m j = some nj →
      lookupNode (m ++ entries) j = some nj := by
    intro j nj h
    rw [lookupNode_append, h]
  have hlkE : ∀ j nj, lookupNode entries j = some nj →
      lookupNode (m ++ entries) j = some nj := by
    intro j nj h
    rw [lookupNode_append, hfresh j (mem_keys_of_lookup h)]
    exact h
  have hMpid : lookupNode (m ++ entries) pid = some np := hlkM pid np hnp
  have hlkP : lookupNode (updateKey (m ++ entries) pid
      (fun p => { p with childrenIds := insertPos p.childrenIds (posf p) X })) pid =
      some { np with childrenIds := insertPos np.childrenIds (posf np) X } := by
    rw [lookupNode_updateKey, if_pos rfl, hMpid]
    rfl
  have hlk2 : ∀ j nj, j ≠ pid → lookupNode (m ++ entries) j = some nj →
      lookupNode (updateKey (m ++ entries) pid
        (fun p => { p with childrenIds := insertPos p.childrenIds (posf p) X })) j =
        some nj := by
    intro j nj hne h
    rw [lookupNode_updateKey, if_neg hne]
    exact h
  have hlkM2 : ∀ j nj, j ≠ pid → lookupNode m j = some nj →
      lookupNode (updateKey (m ++ entries) pid
        (fun p => { p with childrenIds := insertPos p.childrenIds (posf p) X })) j =
        some nj :=
    fun j nj hne h => hlk2 j nj hne (hlkM j nj h)
  have hEpid : ∀ j ∈ mapKeys entries, j ≠ pid := by
    intro j hj he
    have h := hfresh j hj
    rw [he] at h
    rw [h] at hnp
    exact Option.noConfusion hnp
  have hlkE2 : ∀ j nj, lookupNode entries j = some nj →
      lookupNode (updateKey (m ++ entries) pid
        (fun p => { p with childrenIds := insertPos p.childrenIds (posf p) X })) j =
        some nj :=
    fun j nj h => hlk2 j nj (hEpid j (mem_keys_of_lookup h)) (hlkE j nj h)
  have hheadU : lookupNode (updateKey (m ++ entries) pid
      (fun p => { p with childrenIds := insertPos p.childrenIds (posf p) X })) X =
      some v := hlkE2 X v hhead
  have hheadid : ∀ e ∈ entries, e.1 = X → e.2 = v := by
    intro e he hx
    have h1 : lookupNode entries e.1 = some e.2 := lookupNode_eq_some_of_mem hnd he
    rw [hx, hhead] at h1
    injection h1 with h2
    exact h2.symm
  have hchildkeys : ∀ e ∈ m, ∀ c ∈ e.2.childrenIds, c ∈ mapKeys m := by
    intro e he c hc
    have h7 := w7 e he
    unfold childLinkOk at h7
    rw [List.all_eq_true] at h7
    have h7c : (match lookupNode m c with
        | none => false
        | some mm => mm.parentId == some e.1) = true := h7 c hc
    cases hl : lookupNode m c with
    | none =>
      rw [hl] at h7c
      exact absurd h7c (by simp)
    | some nc => exact mem_keys_of_lookup hl
  have hXnotch : X ∉ np.childrenIds := by
    intro h
    have := hchildkeys (pid, np) (mem_of_lookupNode_eq_some hnp) X h
    rw [lookupNode_eq_none_iff] at hXm
    exact hXm this
  have hmemsplit : ∀ e2, e2 ∈ updateKey (m ++ entries) pid
      (fun p => { p with childrenIds := insertPos p.childrenIds (posf p) X }) →
      (e2 ∈ m ∧ e2.1 ≠ pid) ∨ e2 ∈ entries ∨
      e2 = (pid, { np with childrenIds := insertPos np.childrenIds (posf np) X }) := by
    intro e2 h
    obtain ⟨e, he, heq⟩ := mem_updateKey h
    by_cases hep : e.1 = pid
    · rcases List.mem_append.mp he with hm | hm
      · have hev : e.2 = np := by
          have h0 := lookupNode_eq_some_of_mem w1 (show (pid, e.2) ∈ m from by
            rw [← hep]; exact hm)
          rw [hnp] at h0
          injection h0 with h0
          exact h0.symm
        refine Or.inr (Or.inr ?_)
        rw [heq, if_pos (by rw [hep]; exact beq_self_eq_true pid)]
        rw [hep, hev]
      · exfalso
        have h0 := hfresh e.1 (List.mem_map.mpr ⟨e, hm, rfl⟩)
        rw [hep] at h0
        rw [h0] at hnp
        exact Option.noConfusion hnp
    · have he2e : e2 = e := by
        rw [heq, if_neg (by simpa using hep)]
      subst he2e
      rcases List.mem_append.mp he with hm | hm
      · exact Or.inl ⟨hm, hep⟩
      · exact Or.inr (Or.inl hm)
  refine ⟨?_, w2, ?_, ?_, ?_, ?_, ?_, ?_, ?_⟩
  · show (mapKeys (updateKey (m ++ entries) pid _)).Nodup
    rw [mapKeys_updateKey, mapKeys_append, List.nodup_append]
    refine ⟨w1, hnd, ?_⟩
    intro a ha hb
    have h := hfresh a hb
    rw [lookupNode_eq_none_iff] at h
    exact h ha
  · intro e2 he2
    rcases hmemsplit e2 he2 with ⟨hm, -⟩ | hm | rfl
    · exact w3 e2 hm
    · exact hids e2 hm
    · show np.id = pid
      exact w3 (pid, np) (mem_of_lookupNode_eq_some hnp)
  · intro r hr
    have h4 := w4 r hr
    unfold rootEntryOk at h4 ⊢
    cases hl : lookupNode m r with
    | none =>
      rw [hl] at h4
      exact absurd h4 (by simp)
    | some nr =>
      rw [hl] at h4
      have h4b : (nr.parentId == none) = true := h4
      by_cases hrp : r = pid
      · rw [hrp, hlkP]
        rw [hrp, hnp] at hl
        injection hl with hl
        subst hl
        exact h4b
      · rw [hlkM2 r nr hrp hl]
        exact h4b
  · intro e2 he2
    rcases hmemsplit e2 he2 with ⟨hm, -⟩ | hm | rfl
    · exact w5 e2 hm
    · unfold rootLinkOk
      by_cases hx : e2.1 = X
      · have hev : e2.2 = v := hheadid e2 hm hx
        cases hp : e2.2.parentId with
        | some p => rfl
        | none =>
          rw [hev] at hp
          rw [hvp] at hp
          exact Option.noConfusion hp
      · obtain ⟨b, nb, hpb, hlb, hmb, hlv⟩ := hpl e2 hm hx
        cases hp : e2.2.parentId with
        | some p => rfl
        | none =>
          rw [hp] at hpb
          exact Option.noConfusion hpb
    · have h5 := w5 (pid, np) (mem_of_lookupNode_eq_some hnp)
      unfold rootLinkOk at h5 ⊢
      cases hp : np.parentId with
      | none =>
        rw [hp] at h5
        have h5b : (roots.contains pid && (np.level == 0)) = true := h5
        exact h5b
      | some q => rfl
  · intro e2 he2
    rcases hmemsplit e2 he2 with ⟨hm, hm2⟩ | hm | rfl
    · have h6 := w6 e2 hm
      unfold parentLinkOk at h6 ⊢
      cases hp : e2.2.parentId with
      | none => rfl
      | some q =>
        rw [hp] at h6
        have h6c : (match lookupNode m q with
            | none => false
            | some mm => mm.childrenIds.contains e2.1 &&
                (e2.2.level == mm.level + 1)) = true := h6
        show (match lookupNode (updateKey (m ++ entries) pid
            (fun p => { p with childrenIds := insertPos p.childrenIds (posf p) X })) q with
          | none => false
          | some mm => mm.childrenIds.contains e2.1 &&
              (e2.2.level == mm.level + 1)) = true
        cases hl : lookupNode m q with
        | none =>
          rw [hl] at h6c
          exact absurd h6c (by simp)
        | some nq =>
          rw [hl] at h6c
          have h6b : (nq.childrenIds.contains e2.1 &&
              (e2.2.level == nq.level + 1)) = true := h6c
          by_cases hqp : q = pid
          · subst hqp
            rw [hlkP]
            rw [hnp] at hl
            injection hl with hl
            subst hl
            show ((insertPos np.childrenIds (posf np) X).contains e2.1 &&
                (e2.2.level == np.level + 1)) = true
            rw [Bool.and_eq_true] at h6b
            rw [Bool.and_eq_true]
            refine ⟨?_, h6b.2⟩
            rw [contains_eq_true_iff]
            exact (mem_insertPos np.childrenIds (posf np) X e2.1).mpr
              (Or.inr (contains_eq_true_iff.mp h6b.1))
          · rw [hlkM2 q nq hqp hl]
            exact h6b
    · unfold parentLinkOk
      by_cases hx : e2.1 = X
      · have hev : e2.2 = v := hheadid e2 hm hx
        rw [hev, hvp]
        show (match lookupNode (updateKey (m ++ entries) pid
            (fun p => { p with childrenIds := insertPos p.childrenIds (posf p) X })) pid with
          | none => false
          | some mm => mm.childrenIds.contains e2.1 &&
              (v.level == mm.level + 1)) = true
        rw [hlkP]
        show ((insertPos np.childrenIds (posf np) X).contains e2.1 &&
            (v.level == np.level + 1)) = true
        rw [Bool.and_eq_true]
        constructor
        · rw [contains_eq_true_iff]
          exact (mem_insertPos np.childrenIds (posf np) X e2.1).mpr (Or.inl hx)
        · rw [hvl]
          exact beq_self_eq_true _
      · obtain ⟨b, nb, hpb, hlb, hmb, hlv⟩ := hpl e2 hm hx
        rw [hpb]
        show (match lookupNode (updateKey (m ++ entries) pid
            (fun p => { p with childrenIds := insertPos p.childrenIds (posf p) X })) b with
          | none => false
          | some mm => mm.childrenIds.contains e2.1 &&
              (e2.2.level == mm.level + 1)) = true
        rw [hlkE2 b nb hlb]
        show (nb.childrenIds.contains e2.1 && (e2.2.level == nb.level + 1)) = true
        rw [Bool.and_eq_true]
        exact ⟨contains_eq_true_iff.mpr hmb, beq_iff_eq.mpr hlv⟩
    · have h6 := w6 (pid, np) (mem_of_lookupNode_eq_some hnp)
      unfold parentLinkOk at h6 ⊢
      cases hp : np.parentId with
      | none => rfl
      | some q =>
        rw [hp] at h6
        have h6c : (match lookupNode m q with
            | none => false
            | some mm => mm.childrenIds.contains pid &&
                (np.level == mm.level + 1)) = true := h6
        show (match lookupNode (updateKey (m ++ entries) pid
            (fun p => { p with childrenIds := insertPos p.childrenIds (posf p) X })) q with
          | none => false
          | some mm => mm.childrenIds.contains pid &&
              (np.level == mm.level + 1)) = true
        cases hl : lookupNode m q with
        | none =>
          rw [hl] at h6c
          exact absurd h6c (by simp)
        | some nq =>
          rw [hl] at h6c
          have h6b : (nq.childrenIds.contains pid &&
              (np.level == nq.level + 1)) = true := h6c
          by_cases hqp : q = pid
          · rw [hqp, hlkP]
            rw [hqp, hnp] at hl
            injection hl with hl
            subst hl
            show ((insertPos np.childrenIds (posf np) X).contains pid &&
                (np.level == np.level + 1)) = true
            rw [Bool.and_eq_true] at h6b
            rw [Bool.and_eq_true]
            refine ⟨?_, h6b.2⟩
            rw [contains_eq_true_iff]
            exact (mem_insertPos np.childrenIds (posf np) X pid).mpr
              (Or.inr (contains_eq_true_iff.mp h6b.1))
          · rw [hlkM2 q nq hqp hl]
            exact h6b
  · have h7p := w7 (pid, np) (mem_of_lookupNode_eq_some hnp)
    unfold childLinkOk at h7p
    rw [List.all_eq_true] at h7p
    intro e2 he2
    rcases hmemsplit e2 he2 with ⟨hm, -⟩ | hm | rfl
    · have h7e := w7 e2 hm
      unfold childLinkOk at h7e ⊢
      rw [List.all_eq_true] at h7e ⊢
      intro c hc
      have h7c : (match lookupNode m c with
          | none => false
          | some mm => mm.parentId == some e2.1) = true := h7e c hc
      show (match lookupNode (updateKey (m ++ entries) pid
          (fun p => { p with childrenIds := insertPos p.childrenIds (posf p) X })) c with
        | none => false
        | some mm => mm.parentId == some e2.1) = true
      cases hl : lookupNode m c with
      | none =>
        rw [hl] at h7c
        exact absurd h7c (by simp)
      | some nc =>
        rw [hl] at h7c
        have h7b : (nc.parentId == some e2.1) = true := h7c
        by_cases hcp : c = pid
        · subst hcp
          rw [hlkP]
          rw [hnp] at hl
          injection hl with hl
          subst hl
          exact h7b
        · rw [hlkM2 c nc hcp hl]
          exact h7b
    · unfold childLinkOk
      rw [List.all_eq_true]
      intro c hc
      obtain ⟨nc, hnc, hp2, hlv2⟩ := hcl e2 hm c hc
      show (match lookupNode (updateKey (m ++ entries) pid
          (fun p => { p with childrenIds := insertPos p.childrenIds (posf p) X })) c with
        | none => false
        | some mm => mm.parentId == some e2.1) = true
      rw [hlkE2 c nc hnc]
      show (nc.parentId == some e2.1) = true
      rw [hp2]
      exact beq_self_eq_true _
    · unfold childLinkOk
      rw [List.all_eq_true]
      intro c hc
      have hc2 : c ∈ insertPos np.childrenIds (posf np) X := hc
      show (match lookupNode (updateKey (m ++ entries) pid
          (fun p => { p with childrenIds := insertPos p.childrenIds (posf p) X })) c with
        | none => false
        | some mm => mm.parentId == some pid) = true
      rcases (mem_insertPos np.childrenIds (posf np) X c).mp hc2 with h1 | hcm
      · subst h1
        rw [hheadU]
        show (v.parentId == some pid) = true
        rw [hvp]
        exact beq_self_eq_true _
      · have h7c : (match lookupNode m c with
            | none => false
            | some mm => mm.parentId == some pid) = true := h7p c hcm
        cases hl : lookupNode m c with
        | none =>
          rw [hl] at h7c
          exact absurd h7c (by simp)
        | some nc =>
          rw [hl] at h7c
          have h7b : (nc.parentId == some pid) = true := h7c
          by_cases hcp : c = pid
          · subst hcp
            rw [hlkP]
            rw [hnp] at hl
            injection hl with hl
            subst hl
            exact h7b
          · rw [hlkM2 c nc hcp hl]
            exact h7b
  · intro e2 he2
    rcases hmemsplit e2 he2 with ⟨hm, -⟩ | hm | rfl
    · exact w8 e2 hm
    · exact hcnd e2 hm
    · show (insertPos np.childrenIds (posf np) X).Nodup
      exact insertPos_nodup (posf np)
        (w8 (pid, np) (mem_of_lookupNode_eq_some hnp)) hXnotch
  · intro e2 he2
    rcases hmemsplit e2 he2 with ⟨hm, -⟩ | hm | rfl
    · exact w9 e2 hm
    · exact hlev e2 hm
    · show np.level ≤ MAX_DEPTH - 1
      exact w9 (pid, np) (mem_of_lookupNode_eq_some hnp)

theorem inv_duplicateNodeOp_ok {s : AppState} {id now : Nat} {s2 : AppState}
    (hs : Inv s) (hdup : duplicateNodeOp s id now = .ok s2) : Inv s2 := by
  cases hn : lookupNode s.nodes id with
  | none =>
    unfold duplicateNodeOp at hdup
    rw [hn] at hdup
    have hdup2 : (Except.ok s : Except Unit AppState) = .ok s2 := hdup
    injection hdup2 with h
    rw [← h]
    exact hs
  | some node =>
    obtain ⟨h1, h2, h3, h4, h5, h6⟩ := hs
    unfold duplicateNodeOp at hdup
    rw [hn] at hdup
    have hdup2 : (match cloneSubtree id s.nodes node.parentId now s.nextId with
        | .error e => (Except.error e : Except Unit AppState)
        | .ok (cloned, newNodes, counter2) =>
          Except.ok (saveHistoryOp (match node.parentId with
            | some pid =>
              if (lookupNode (objAssign s.nodes newNodes) pid).isSome then
                { s with nodes := updateKey (objAssign s.nodes newNodes) pid (fun p => { p with childrenIds := insertPos p.childrenIds (some ((jsIndexOf p.childrenIds id + 1).toNat)) cloned.id }), nextId := counter2 }
              else
                { s with nodes := objAssign s.nodes newNodes, rootNodeIds := insertPos s.rootNodeIds (some ((jsIndexOf s.rootNodeIds id + 1).toNat)) cloned.id, nextId := counter2 }
            | none =>
              { s with nodes := objAssign s.nodes newNodes, rootNodeIds := insertPos s.rootNodeIds (some ((jsIndexOf s.rootNodeIds id + 1).toNat)) cloned.id, nextId := counter2 }))) = .ok s2 := hdup
    cases hcs : cloneSubtree id s.nodes node.parentId now s.nextId with
    | error e =>
      rw [hcs] at hdup2
      exact Except.noConfusion hdup2
    | ok r =>
      obtain ⟨cloned, newNodes, counter2⟩ := r
      rw [hcs] at hdup2
      injection hdup2 with hS
      subst hS
      unfold cloneSubtree at hcs
      rw [hn] at hcs
      have hcr : cloneRec s.nodes now (s.nodes.length + 1) id node.parentId s.nextId =
          .ok (cloned, newNodes, counter2) := hcs
      have hR := (cloneSpec h1 now (s.nodes.length + 1)).1 id node.parentId s.nextId
        cloned newNodes counter2 hcr
      unfold cloneRecOk cloneEntriesOk at hR
      obtain ⟨hlt, hheadlk, hcid, hcpid, ⟨orig, horig, hclev0⟩,
        ⟨Er, En, Ei, Ec, El, Ek⟩, Rpl⟩ := hR
      rw [hn] at horig
      injection horig with horig2
      subst horig2
      have hfresh : ∀ k ∈ mapKeys newNodes, lookupNode s.nodes k = none := by
        intro k hk
        rcases List.mem_map.mp hk with ⟨e, he, heq⟩
        have heq2 : e.1 = k := heq
        have hr := (Er e he).1
        rw [lookupNode_eq_none_iff]
        intro hmem
        rcases List.mem_map.mp hmem with ⟨e2, he2, heq3⟩
        have heq4 : e2.1 = k := heq3
        have := h2 e2 he2
        omega
      have hfrE : ∀ e ∈ newNodes, lookupNode s.nodes e.1 = none :=
        fun e he => hfresh e.1 (List.mem_map.mpr ⟨e, he, rfl⟩)
      have hassign : objAssign s.nodes newNodes = s.nodes ++ newNodes :=
        objAssign_fresh hfrE En
      have hheadcid : lookupNode newNodes cloned.id = some cloned := by
        rw [hcid]
        exact hheadlk
      have hRpl2 : ∀ e ∈ newNodes, e.1 ≠ cloned.id → ∃ b nb, e.2.parentId = some b ∧
          lookupNode newNodes b = some nb ∧ e.1 ∈ nb.childrenIds ∧
          e.2.level = nb.level + 1 := by
        intro e he hne
        rw [hcid] at hne
        exact Rpl e he hne
      have hkb : ∀ m2, mapKeys m2 = mapKeys (s.nodes ++ newNodes) →
          keysBelow m2 counter2 := by
        intro m2 hm2 e he
        have hmk : e.1 ∈ mapKeys m2 := List.mem_map.mpr ⟨e, he, rfl⟩
        rw [hm2, mapKeys_append] at hmk
        rcases List.mem_append.mp hmk with hm | hm
        · rcases List.mem_map.mp hm with ⟨e2, he2, heq⟩
          have heq2 : e2.1 = e.1 := heq
          have := h2 e2 he2
          omega
        · rcases List.mem_map.mp hm with ⟨e2, he2, heq⟩
          have heq2 : e2.1 = e.1 := heq
          have := (Er e2 he2).2
          omega
      have hhist : ∀ (t : Tree), WFTree t.nodes t.rootNodeIds ∧ keysBelow t.nodes s.nextId →
          WFTree t.nodes t.rootNodeIds ∧ keysBelow t.nodes counter2 :=
        fun t ht => ⟨ht.1, keysBelow_mono (Nat.le_of_lt hlt) ht.2⟩
      cases hop : node.parentId with
      | none =>
        apply inv_saveHistoryOp
        rw [hop] at hcpid
        have hvl : cloned.level = 0 := by
          rw [hclev0]
          exact (h1.root_link hn hop).2
        refine ⟨?_, ?_, ?_, ?_, ?_, h6⟩
        · show WFTree (objAssign s.nodes newNodes)
            (insertPos s.rootNodeIds (some ((jsIndexOf s.rootNodeIds id + 1).toNat)) cloned.id)
          rw [hassign]
          exact WFTree_append_block_root h1 hheadcid hfresh En Ei Ec El Ek hRpl2 hcpid hvl _
        · show keysBelow (objAssign s.nodes newNodes) counter2
          rw [hassign]
          exact hkb _ rfl
        · intro t ht
          exact hhist t (h3 t ht)
        · intro t ht
          exact hhist t (h4 t ht)
        · intro e he
          obtain ⟨hw, hk, hid2, hlt2⟩ := h5 e he
          exact ⟨hw, keysBelow_mono (Nat.le_of_lt hlt) hk, hid2, show e.1 < counter2 by omega⟩
      | some pid =>
        rw [hop] at hcpid
        obtain ⟨np, hnp, hmemp, hlvlp⟩ := h1.parent_link hn hop
        have hnp1 : lookupNode (objAssign s.nodes newNodes) pid = some np := by
          rw [hassign, lookupNode_append, hnp]
        have hpidS : (lookupNode (objAssign s.nodes newNodes) pid).isSome = true := by
          rw [hnp1]
          rfl
        show Inv (saveHistoryOp
          (if (lookupNode (objAssign s.nodes newNodes) pid).isSome = true then
            { s with nodes := updateKey (objAssign s.nodes newNodes) pid (fun p => { p with childrenIds := insertPos p.childrenIds (some ((jsIndexOf p.childrenIds id + 1).toNat)) cloned.id }), nextId := counter2 }
          else
            { s with nodes := objAssign s.nodes newNodes, rootNodeIds := insertPos s.rootNodeIds (some ((jsIndexOf s.rootNodeIds id + 1).toNat)) cloned.id, nextId := counter2 }))
        rw [if_pos hpidS]
        apply inv_saveHistoryOp
        have hvl : cloned.level = np.level + 1 := by
          rw [hclev0]
          exact hlvlp
        refine ⟨?_, ?_, ?_, ?_, ?_, h6⟩
        · show WFTree (updateKey (objAssign s.nodes newNodes) pid
              (fun p => { p with childrenIds := insertPos p.childrenIds (some ((jsIndexOf p.childrenIds id + 1).toNat)) cloned.id }))
            s.rootNodeIds
          rw [hassign]
          exact WFTree_append_block_child h1 hheadcid hfresh En Ei Ec El Ek hRpl2 hnp hcpid hvl
            (fun p => some ((jsIndexOf p.childrenIds id + 1).toNat))
        · show keysBelow (updateKey (objAssign s.nodes newNodes) pid
              (fun p => { p with childrenIds := insertPos p.childrenIds (some ((jsIndexOf p.childrenIds id + 1).toNat)) cloned.id })) counter2
          rw [hassign]
          exact hkb _ (mapKeys_updateKey _ _ _)
        · intro t ht
          exact hhist t (h3 t ht)
        · intro t ht
          exact hhist t (h4 t ht)
        · intro e he
          obtain ⟨hw, hk, hid2, hlt2⟩ := h5 e he
          exact ⟨hw, keysBelow_mono (Nat.le_of_lt hlt) hk, hid2, show e.1 < counter2 by omega⟩

/-! The invariant is preserved by every legal operation, hence by every
legal operation sequence from the initial state. -/

theorem inv_applyOp {s : AppState} {op : Op} (hleg : legalOp s op = true)
    (hs : Inv s) : Inv (applyOp s op) := by
  cases op with
  | createNode parentId data now =>
    have hleg2 : (parentArgOk s parentId && data.id.isNone &&
        data.childrenIds.isNone) = true := hleg
    rw [Bool.and_eq_true, Bool.and_eq_true] at hleg2
    obtain ⟨⟨hpa, hdi⟩, hdc⟩ := hleg2
    rw [Option.isNone_iff_eq_none] at hdi hdc
    exact inv_createNodeOp parentId data now hpa hdi hdc hs
  | updateNode id updates now =>
    have hcp : contentPatch updates = true := hleg
    exact inv_updateNodeOp id updates now hcp hs
  | deleteNode id => exact inv_deleteNodeOp id hs
  | moveNode nodeId newParentId position =>
    show Inv (match moveNodeOp s nodeId newParentId position with
      | .ok s2 => s2
      | .error _ => s)
    cases hmv : moveNodeOp s nodeId newParentId position with
    | ok s3 => exact inv_moveNodeOp_ok hs hmv
    | error e => exact hs
  | duplicateNode id now =>
    show Inv (match duplicateNodeOp s id now with
      | .ok s2 => s2
      | .error _ => s)
    cases hmv : duplicateNodeOp s id now with
    | ok s3 => exact inv_duplicateNodeOp_ok hs hmv
    | error e => exact hs
  | toggleCollapse id => exact inv_toggleCollapseOp id hs
  | toggleDone id => exact inv_toggleDoneOp id hs
  | togglePin id => exact inv_togglePinOp id hs
  | collapseAll => exact inv_collapseAllOp hs
  | expandAll => exact inv_expandAllOp hs
  | collapseToLevel level => exact inv_collapseToLevelOp level hs
  | selectNode id multi => exact inv_selectNodeOp id multi hs
  | deselectNode id => exact inv_deselectNodeOp id hs
  | clearSelection => exact inv_clearSelectionOp hs
  | selectAll => exact inv_selectAllOp hs
  | setFocusNode id => exact inv_setFocusNodeOp id hs
  | zoomIn id => exact inv_zoomInOp id hs
  | zoomOut => exact inv_zoomOutOp hs
  | createTemplate nodeId name description now =>
    exact inv_createTemplateOp nodeId name description now hs
  | applyTemplate templateId parentId now => exact Bool.noConfusion hleg
  | importData doc now => exact Bool.noConfusion hleg
  | deleteTemplate id => exact inv_deleteTemplateOp id hs
  | createSnapshot name description now =>
    exact inv_createSnapshotOp name description now hs
  | restoreSnapshot id => exact inv_restoreSnapshotOp id hs
  | deleteSnapshot id => exact inv_deleteSnapshotOp id hs
  | undo => exact inv_undoOp hs
  | redo => exact inv_redoOp hs

theorem inv_applyOps {s : AppState} {ops : List Op} (hleg : legalSeq s ops = true)
    (hs : Inv s) : Inv (applyOps s ops) := by
  induction ops generalizing s with
  | nil => exact hs
  | cons op ops ih =>
    have hleg2 : (legalOp s op && legalSeq (applyOp s op) ops) = true := hleg
    rw [Bool.and_eq_true] at hleg2
    show Inv (applyOps (applyOp s op) ops)
    exact ih hleg2.2 (inv_applyOp hleg2.1 hs)

theorem inv_initialState : Inv initialState := by decide

/-- C2 counterexample: the depth invariant is **not** maintained by every
store operation.  First, `applyTemplate`: create a root (id 1) with a
child (id 2, level 1), save node 2 as a template (id 3), and apply that
template at the root level — the clone (node 4) keeps `level = 1` with
`parentId = null` in `rootNodeIds`, so its depth is 0 ≠ 1.  Second,
`importData`: importing a document whose only node is a root with
`level: 3` installs that clamped-but-unrepaired level, a root with
level 3 and depth 0. -/
theorem C2_counterexample :
    ((lookupNode (applyOps initialState [Op.createNode none {} 0,
        Op.createNode (some 1) {} 0, Op.createTemplate 2 "t" none 0,
        Op.applyTemplate 3 none 0]).nodes 4).map
      (fun n => (n.level, n.parentId)) = some (1, none) ∧
    getNodeDepth 4 (applyOps initialState [Op.createNode none {} 0,
        Op.createNode (some 1) {} 0, Op.createTemplate 2 "t" none 0,
        Op.applyTemplate 3 none 0]).nodes = 0) ∧
    ((lookupNode (applyOps initialState
        [Op.importData importLevelDoc 7]).nodes (strId "a")).map
      (fun n => (n.level, n.parentId)) = some (3, none) ∧
    getNodeDepth (strId "a") (applyOps initialState
        [Op.importData importLevelDoc 7]).nodes = 0) := by
  decide

/-- C2 (amended): after any sequence of legal store operations (all
operations except `applyTemplate` and `importData`, with `createNode`
called with a present or null parent and no forced id or children, and
`updateNode` given content-only patches), every node in the map has
`level` equal to its depth (`getNodeDepth`, number of ancestors,
root = 0) and `level ≤ MAX_DEPTH - 1 = 5`. -/
theorem C2_depth_invariant (ops : List Op)
    (hleg : legalSeq initialState ops = true) (k : Nat) (n : ListNode)
    (hk : lookupNode (applyOps initialState ops).nodes k = some n) :
    getNodeDepth k (applyOps initialState ops).nodes = (n.level : Int) ∧
    n.level ≤ MAX_DEPTH - 1 := by
  have hinv := inv_applyOps hleg inv_initialState
  exact ⟨getNodeDepth_eq_level hinv.1 hk, hinv.1.level_le hk⟩

/-- C2 witness: the amended depth invariant evaluated on a concrete
legal two-operation sequence (root 1 with child 2), at node 2. -/
theorem C2_witness :
    legalSeq initialState [Op.createNode none {} 0,
      Op.createNode (some 1) {} 0] = true ∧
    (getNodeDepth 2 (applyOps initialState [Op.createNode none {} 0,
        Op.createNode (some 1) {} 0]).nodes =
      ((mkListNode 2 0 {} 1 (some 1)).level : Int) ∧
    (mkListNode 2 0 {} 1 (some 1)).level ≤ MAX_DEPTH - 1) :=
  ⟨by decide,
   C2_depth_invariant [Op.createNode none {} 0, Op.createNode (some 1) {} 0]
     (by decide) 2 (mkListNode 2 0 {} 1 (some 1)) (by decide)⟩

/-- C3 counterexample: the parent/child consistency invariant is **not**
maintained by every store mutation.  First, `createNode` with a dangling
non-null parent: from the initial state, `createNode` with
`parentId = 99` (absent) creates node 1 with `parentId = some 99` still
recorded, while 99 is not in the map and node 1 is appended to
`rootNodeIds`.  Second, `importData`: importing a document whose only
node names the nonexistent parent `zz` keeps that `parentId` without an
existence check — a node with non-null `parentId` whose parent is
missing and which sits in the root list. -/
theorem C3_counterexample :
    ((lookupNode (applyOps initialState [Op.createNode (some 99) {} 0]).nodes 1).map
      (fun n => n.parentId) = some (some 99) ∧
    lookupNode (applyOps initialState [Op.createNode (some 99) {} 0]).nodes 99 = none ∧
    1 ∈ (applyOps initialState [Op.createNode (some 99) {} 0]).rootNodeIds) ∧
    ((lookupNode (applyOps initialState
        [Op.importData importParentDoc 7]).nodes (strId "a")).map
      (fun n => n.parentId) = some (some (strId "zz")) ∧
    lookupNode (applyOps initialState
        [Op.importData importParentDoc 7]).nodes (strId "zz") = none ∧
    strId "a" ∈ (applyOps initialState
        [Op.importData importParentDoc 7]).rootNodeIds) := by
  decide

/-- C3 (amended): after any sequence of legal store operations (as in
the amended C2: everything except `applyTemplate` and `importData`,
`createNode` only with a present or null parent and no forced id or
children, `updateNode` content-only), every node with a non-null
`parentId` has that parent
present in the node map with the child's id appearing exactly once in
its `childrenIds` and the child absent from `rootNodeIds`, and every
node with a null `parentId` appears exactly once in `rootNodeIds`. -/
theorem C3_parent_child_consistency (ops : List Op)
    (hleg : legalSeq initialState ops = true) (k : Nat) (n : ListNode)
    (hk : lookupNode (applyOps initialState ops).nodes k = some n) :
    (∀ p, n.parentId = some p →
      ∃ np, lookupNode (applyOps initialState ops).nodes p = some np ∧
        np.childrenIds.count k = 1 ∧
        k ∉ (applyOps initialState ops).rootNodeIds) ∧
    (n.parentId = none → (applyOps initialState ops).rootNodeIds.count k = 1) := by
  have hinv := inv_applyOps hleg inv_initialState
  have wf := hinv.1
  constructor
  · intro p hp
    obtain ⟨np, hnp, hmem, hlvl⟩ := wf.parent_link hk hp
    refine ⟨np, hnp, ?_, ?_⟩
    · exact List.count_eq_one_of_mem (wf.children_nodup hnp) hmem
    · intro hroot
      obtain ⟨n2, hn2, hpn2⟩ := wf.root_entry hroot
      rw [hk] at hn2
      injection hn2 with hn2e
      rw [← hn2e] at hpn2
      rw [hp] at hpn2
      exact Option.noConfusion hpn2
  · intro hp
    have hr := (wf.root_link hk hp).1
    exact List.count_eq_one_of_mem wf.nodupRoots hr

/-- C3 witness: the amended parent/child consistency evaluated on a
concrete legal two-operation sequence (root 1 with child 2), at node 2. -/
theorem C3_witness :
    legalSeq initialState [Op.createNode none {} 0,
      Op.createNode (some 1) {} 0] = true ∧
    ((∀ p, (mkListNode 2 0 {} 1 (some 1)).parentId = some p →
      ∃ np, lookupNode (applyOps initialState [Op.createNode none {} 0,
          Op.createNode (some 1) {} 0]).nodes p = some np ∧
        np.childrenIds.count 2 = 1 ∧
        2 ∉ (applyOps initialState [Op.createNode none {} 0,
          Op.createNode (some 1) {} 0]).rootNodeIds) ∧
    ((mkListNode 2 0 {} 1 (some 1)).parentId = none →
      (applyOps initialState [Op.createNode none {} 0,
        Op.createNode (some 1) {} 0]).rootNodeIds.count 2 = 1)) :=
  ⟨by decide,
   C3_parent_child_consistency [Op.createNode none {} 0, Op.createNode (some 1) {} 0]
     (by decide) 2 (mkListNode 2 0 {} 1 (some 1)) (by decide)⟩

end Bilistrix
